import Mathlib

/-!
# Live-room allocator, viewer queue, liveness check and replay index of DE-livego

A shallow embedding of the room pool kept by `RtmpStream` (`src/protocol/rtmp/stream.go`)
and of the HTTP handlers `handleGetPush`, `handleStopProject` and
`handleSetAudioFromPushId` (`src/protocol/httpopera/http_opera.go`) that drive it; of the
packet queue of a viewer (`VirWriter.Write`, `DropPacket`, `SendPacket`,
`src/protocol/rtmp/rtmp.go`); of `Stream.CheckAlive` and the keep-alive sweeper; and of
the replay index (`getDirFiles`, the three list methods, `checkMediaFile`).

Go slices of pointers (`[]*LiveRoom`, `[]*PushStreamUrl`) are lists of values: every
room and endpoint is allocated once in `initLiveRooms` and never shared, so an update
through a pointer is an update at the position the pointer was found at.  A method that
returns rooms sharing their endpoints with the pool (`GetSingleRtmpList`) returns the
pool it leaves as well.  Go `int` is `Int`, `uint8` enums are `Nat`, strings are
`String`; a buffered channel is the list of the packets it holds.
-/

namespace LiveGo

/-! ## Data model (`src/configure/liveconfig.go`) -/

/-- The `uint8` enum `configure.UserTypeEunm` (Bidder = 0, Holder = 1, Machine = 2). -/
abbrev UserTypeEunm := Nat

/-- The `uint8` enum `configure.VideoTypeEunm`. -/
abbrev VideoTypeEunm := Nat

/-- Constant `configure.Camera`. -/
def Camera : VideoTypeEunm := 0

/-- Constant `configure.PCCamera`. -/
def PCCamera : VideoTypeEunm := 1

/-- Constant `configure.DesktopShare`. -/
def DesktopShare : VideoTypeEunm := 2

/-- Struct `configure.Replay`. -/
structure Replay where
  Addr : String
  Size : Int
  Md5 : String
  Start : String
  Finish : String
  deriving DecidableEq, Repr

/-- Struct `configure.Url`: one configured endpoint. -/
structure Url where
  PushId : Int
  UserType : UserTypeEunm
  VideoType : VideoTypeEunm
  RtmpBase : String
  VideoName : String
  SavePath : String
  SaveUrl : String
  RequestUrl : String
  deriving DecidableEq, Repr

/-- Struct `configure.Live`: one configured room. -/
structure Live where
  LiveId : String
  Urls : List Url
  deriving DecidableEq, Repr

/-- Struct `configure.PushStreamUrl`: a publish endpoint of the pool. -/
structure PushStreamUrl where
  PushId : Int
  RtmpBase : String
  UserType : UserTypeEunm
  VideoType : VideoTypeEunm
  LimitAudio : Bool
  State : Int
  PushUrl : String
  SavePath : String
  VideoName : String
  SaveUrl : String
  RequestUrl : String
  Replays : List Replay
  deriving DecidableEq, Repr

/-- Struct `configure.LiveRoom`. -/
structure LiveRoom where
  LiveRoomId : String
  ProjectId : Int
  Urls : List PushStreamUrl
  deriving DecidableEq, Repr

/-- The field `Rooms` of `configure.LiveRooms`: the pool, in configured order. -/
abbrev LiveRooms := List LiveRoom

/-- The fields of `configure.ServerCfg` read by the allocator's handlers. -/
structure ServerCfg where
  StaticAddr : Bool
  Listen : Int
  deriving DecidableEq, Repr

/-- Struct `configure.PushResponse`. -/
structure PushResponse where
  LiveRoomId : String
  PushId : Int
  PushUrl : String
  UserType : Int
  ProjectId : Int
  deriving DecidableEq, Repr

/-! ## Go standard library: `strconv.Itoa`, `strconv.Atoi`, `time.Format` -/

/-- The decimal digit `'0' + d`. -/
def digitChar (d : Nat) : Char := Char.ofNat (48 + d)

/-- Decimal digits of `n`, most significant first; `fuel` bounds the number of digits
(`n + 1` always suffices). -/
def formatBits : Nat → Nat → List Char
  | 0, _ => []
  | fuel + 1, n =>
    if n < 10 then [digitChar n] else formatBits fuel (n / 10) ++ [digitChar (n % 10)]

/-- Decimal rendering of a natural number. -/
def natString (n : Nat) : String := String.mk (formatBits (n + 1) n)

/-- Go `strconv.Itoa`: decimal rendering, with a leading `-` for negative numbers. -/
def Itoa (i : Int) : String :=
  match i with
  | Int.ofNat n => natString n
  | Int.negSucc n => "-" ++ natString (n + 1)

/-- One step of reading a decimal number: the digit `ch` is added to the value read so
far; `none` once a character is not a digit. -/
def digitStep (acc : Option Nat) (ch : Char) : Option Nat :=
  match acc with
  | none => none
  | some a => if 48 ≤ ch.toNat ∧ ch.toNat ≤ 57 then some (a * 10 + (ch.toNat - 48)) else none

/-- Value of a non-empty string of decimal digits, `none` on any other string. -/
def digitsVal : List Char → Option Nat
  | [] => none
  | c :: cs => (c :: cs).foldl digitStep (some 0)

/-- Go `strconv.Atoi` on a 64-bit platform: an optional sign followed by one or more
decimal digits, the value within the range of `int64`; `none` is a returned error. -/
def Atoi (s : String) : Option Int :=
  match s.data with
  | [] => none
  | c :: cs =>
    if c = '-' then
      match digitsVal cs with
      | none => none
      | some n => if n ≤ 2 ^ 63 then some (-(n : Int)) else none
    else
      match digitsVal (if c = '+' then cs else c :: cs) with
      | none => none
      | some n => if n < 2 ^ 63 then some (n : Int) else none

/-- The calendar date read from `time.Now()`. -/
structure Date where
  year : Nat
  month : Nat
  day : Nat
  deriving DecidableEq, Repr

/-- Decimal rendering padded with leading zeros to at least `w` digits. -/
def zeroPad (w n : Nat) : String :=
  String.mk (List.replicate (w - (formatBits (n + 1) n).length) '0' ++ formatBits (n + 1) n)

/-- Go `time.Now().Format("20060102")`: four-digit year, two-digit month and day. -/
def formatDate (d : Date) : String := zeroPad 4 d.year ++ zeroPad 2 d.month ++ zeroPad 2 d.day

/-! ## The pool and its read-only operations (`src/protocol/rtmp/stream.go`) -/

/-- Function `initLiveRooms`: one unbound room per configured `Live`, every endpoint
Free with an empty `PushUrl`. -/
def initLiveRooms (lives : List Live) : LiveRooms :=
  lives.map fun value =>
    { LiveRoomId := value.LiveId
      ProjectId := -1
      Urls := value.Urls.map fun v =>
        { PushId := v.PushId
          RtmpBase := v.RtmpBase
          UserType := v.UserType
          VideoType := v.VideoType
          LimitAudio := false
          State := 0
          PushUrl := ""
          SavePath := v.SavePath
          VideoName := v.VideoName
          SaveUrl := v.SaveUrl
          RequestUrl := v.RequestUrl
          Replays := [] } }

/-- Function `CheckProjectExits`. -/
def CheckProjectExits (rooms : LiveRooms) (projectId : Int) : Bool :=
  rooms.any fun v => decide (v.ProjectId = projectId)

/-- Function `GetLiveRoom`: the first room bound to `projectId`; `none` is the error
"Not Found Live Room". -/
def GetLiveRoom (rooms : LiveRooms) (projectId : Int) : Option LiveRoom :=
  rooms.find? fun v => decide (v.ProjectId = projectId)

/-- Function `GetLiveRoomFromRoomId`. -/
def GetLiveRoomFromRoomId (rooms : LiveRooms) (liveRoomId : String) : Option LiveRoom :=
  rooms.find? fun v => decide (v.LiveRoomId = liveRoomId)

/-- Function `LiveRoomFull`. -/
def LiveRoomFull (rooms : LiveRooms) : Bool :=
  match rooms with
  | [] => true
  | v :: rest => if v.ProjectId = -1 then false else LiveRoomFull rest

/-- Function `AllocLiveRoomId`: the Go result `(error, string)`, the error first. -/
def AllocLiveRoomId (rooms : LiveRooms) (projectId : Int) : Option String × String :=
  match rooms with
  | [] => (some "Live Room Full", "")
  | v :: rest => if v.ProjectId = -1 then (none, v.LiveRoomId) else AllocLiveRoomId rest projectId

/-- Function `PushFull`. -/
def PushFull (rooms : LiveRooms) (liveRoomId : String) : Bool :=
  match rooms with
  | [] => true
  | v :: rest =>
    if v.LiveRoomId = liveRoomId then
      if v.Urls.any (fun value => decide (value.State = 0)) then false
      else PushFull rest liveRoomId
    else PushFull rest liveRoomId

/-- Function `PushUserFull`. -/
def PushUserFull (rooms : LiveRooms) (liveRoomId : String) (UserType : UserTypeEunm) : Bool :=
  match rooms with
  | [] => true
  | v :: rest =>
    if v.LiveRoomId = liveRoomId then
      if v.Urls.any (fun value => decide (value.State = 0 ∧ value.UserType = UserType)) then false
      else PushUserFull rest liveRoomId UserType
    else PushUserFull rest liveRoomId UserType

/-- Function `GetPushId`: the Go result `(error, int, string)`, the error first. -/
def GetPushId (rooms : LiveRooms) (liveRoomId : String) (UserType : UserTypeEunm) :
    Option String × Int × String :=
  match rooms with
  | [] => (some "Not Found PushId", -1, "")
  | v :: rest =>
    if v.LiveRoomId = liveRoomId then
      match v.Urls.find? (fun value => decide (value.State = 0 ∧ value.UserType = UserType)) with
      | some value => (none, value.PushId, value.RtmpBase)
      | none => GetPushId rest liveRoomId UserType
    else GetPushId rest liveRoomId UserType

/-- Function `FindPushStream`: the first Busy endpoint, in pool order, whose `PushUrl`
is `pushUrl`; `none` is the error "Not Found PushUrl". -/
def FindPushStream (rooms : LiveRooms) (pushUrl : String) : Option PushStreamUrl :=
  match rooms with
  | [] => none
  | v :: rest =>
    match v.Urls.find? (fun value => decide (value.PushUrl = pushUrl ∧ 1 = value.State)) with
    | some value => some value
    | none => FindPushStream rest pushUrl

/-! ## Mutation of the pool -/

/-- Conversion `configure.UserTypeEunm(n)` of a Go `int` to `uint8`: the low eight bits. -/
def toUserType (n : Int) : UserTypeEunm := (n % 256).toNat

/-- The inner loop of `SetStartState` over `value.Urls`: the first endpoint whose
`PushId` is `pushId` gets the URL, the user type and `State = 1`; `none` when the loop
ends without a match. -/
def setUrls (pushId : Int) (url : String) (user_type : Int) :
    List PushStreamUrl → Option (List PushStreamUrl)
  | [] => none
  | v :: vs =>
    if v.PushId = pushId then
      some ({ v with PushUrl := url, UserType := toUserType user_type, State := 1 } :: vs)
    else (setUrls pushId url user_type vs).map fun vs1 => v :: vs1

/-- Function `SetStartState`: the returned error (`none` is `nil`) and the pool it
leaves.  The loop body holds the same block twice; the second runs when the first did
not return. -/
def SetStartState (rooms : LiveRooms) (projectId : Int) (liveRoomId : String) (pushId : Int)
    (url : String) (user_type : Int) : Option String × LiveRooms :=
  match rooms with
  | [] => (some "SetStartState Not Found LiveRoomid/PushId/Url", [])
  | value :: rest =>
    if value.LiveRoomId = liveRoomId then
      match setUrls pushId url user_type value.Urls with
      | some urls => (none, { value with ProjectId := projectId, Urls := urls } :: rest)
      | none =>
        match setUrls pushId url user_type value.Urls with
        | some urls => (none, { value with ProjectId := projectId, Urls := urls } :: rest)
        | none =>
          let r := SetStartState rest projectId liveRoomId pushId url user_type
          (r.1, { value with ProjectId := projectId } :: r.2)
    else
      let r := SetStartState rest projectId liveRoomId pushId url user_type
      (r.1, value :: r.2)

/-! ## HTTP handlers (`src/protocol/httpopera/http_opera.go`) -/

/-- The JSON body of a reply: `gin.H` with `result` and `message`, or a `PushResponse`. -/
inductive Body where
  | message (result : Int) (message : String)
  | push (r : PushResponse)
  deriving DecidableEq, Repr

/-- What `c.JSON(status, body)` sends. -/
structure Reply where
  status : Nat
  body : Body
  deriving DecidableEq, Repr

/-- What a handler leaves behind: its reply, the pool, and the URLs it requested
through `requestUrl`, in order. -/
structure Outcome where
  reply : Reply
  rooms : LiveRooms
  hooks : List String
  deriving DecidableEq, Repr

/-- The error reply `c.JSON(601, gin.H with result 601 and the message)`. -/
def reply601 (message : String) : Reply := ⟨601, Body.message 601 message⟩

/-- The loop of `handleGetPush` run for a new project over the endpoints of
`newProjectLiveRoom` (indices `is` of its `Urls`, read through the pointers at each
iteration): every Camera endpoint is started on the address without date segment unless
that address is `pushurl`, and its `RequestUrl` is notified. -/
def startCameras (cfg : ServerCfg) (projectId : Int)
    (tmpProjectId liveRoomId pushBase pushurl : String) :
    List Nat → LiveRooms → LiveRooms × List String
  | [], rooms => (rooms, [])
  | i :: is, rooms =>
    match (GetLiveRoomFromRoomId rooms liveRoomId).bind (fun room => room.Urls[i]?) with
    | none => startCameras cfg projectId tmpProjectId liveRoomId pushBase pushurl is rooms
    | some v =>
      if v.VideoType = Camera then
        let tmp := pushBase ++ ":" ++ Itoa cfg.Listen ++ "/live/" ++ liveRoomId ++ "/" ++
          tmpProjectId ++ "/Camera_" ++ Itoa v.PushId
        let rooms1 :=
          if pushurl ≠ tmp then
            (SetStartState rooms projectId liveRoomId v.PushId tmp (v.UserType : Int)).2
          else rooms
        let requestUrl := v.RequestUrl ++ "?&roomId=" ++ liveRoomId ++ "&pushUrl=" ++ tmp
        let r := startCameras cfg projectId tmpProjectId liveRoomId pushBase pushurl is rooms1
        (r.1, (requestUrl ++ "&status=1") :: r.2)
      else startCameras cfg projectId tmpProjectId liveRoomId pushBase pushurl is rooms

/-- The part of `handleGetPush` after the room `liveRoomId` has been chosen
(from the `PushUserFull` check to the reply). -/
def assignPush (cfg : ServerCfg) (now : Date) (tmpProjectId : String) (projectId userType : Int)
    (liveRoomId : String) (newProject : Bool) (rooms : LiveRooms) : Outcome :=
  if PushUserFull rooms liveRoomId (toUserType userType) then
    ⟨reply601 "Get Push Failed Live Room User Full Or UserType Not Found", rooms, []⟩
  else
    match GetPushId rooms liveRoomId (toUserType userType) with
    | (some _, _, _) => ⟨reply601 "Get Push Failed GetPushId Failed", rooms, []⟩
    | (none, pushId, pushBase) =>
      let pushIdString := Itoa pushId
      let listenString := Itoa cfg.Listen
      let pushurl :=
        if !cfg.StaticAddr then
          pushBase ++ ":" ++ listenString ++ "/live/" ++ liveRoomId ++ "/" ++ formatDate now ++
            "/" ++ tmpProjectId ++ "/Camera_" ++ pushIdString
        else
          pushBase ++ ":" ++ listenString ++ "/live/" ++ liveRoomId ++ "/" ++ tmpProjectId ++
            "/Camera_" ++ pushIdString
      let rooms1 := (SetStartState rooms projectId liveRoomId pushId pushurl userType).2
      if !CheckProjectExits rooms1 projectId then
        ⟨reply601 "Stop Project Failed Not Found ProjectId", rooms1, []⟩
      else
        let r :=
          if newProject then
            match GetLiveRoomFromRoomId rooms1 liveRoomId with
            | some newProjectLiveRoom =>
              startCameras cfg projectId tmpProjectId liveRoomId pushBase pushurl
                (List.range newProjectLiveRoom.Urls.length) rooms1
            | none => (rooms1, [])
          else (rooms1, [])
        ⟨⟨200, Body.push
            { LiveRoomId := liveRoomId
              PushId := pushId
              PushUrl := pushurl
              UserType := userType
              ProjectId := projectId }⟩, r.1, r.2⟩

/-- Handler `handleGetPush` for the query parameters `projectId` and `userType`
(`c.Query` gives the raw strings), the clock reading `now` and the pool `rooms`.  The
handler of the server is the `RtmpStream`, so the `rtmpStream == nil` branch is not
taken. -/
def handleGetPush (cfg : ServerCfg) (now : Date) (tmpProjectId tmpUserType : String)
    (rooms : LiveRooms) : Outcome :=
  match Atoi tmpProjectId with
  | none => ⟨reply601 "projectId Param error, please check them", rooms, []⟩
  | some projectId =>
    match Atoi tmpUserType with
    | none => ⟨reply601 "projectId Param error, please check them", rooms, []⟩
    | some userType =>
      if CheckProjectExits rooms projectId then
        match GetLiveRoom rooms projectId with
        | none => ⟨reply601 "Get Push Failed Not Found ProjectId", rooms, []⟩
        | some liveRoom =>
          assignPush cfg now tmpProjectId projectId userType liveRoom.LiveRoomId false rooms
      else if LiveRoomFull rooms then
        ⟨reply601 "Get Push Failed Live Room Full", rooms, []⟩
      else
        match AllocLiveRoomId rooms projectId with
        | (some _, _) => ⟨reply601 "Get Push Failed Alloc Live Room Failed", rooms, []⟩
        | (none, liveRoomId) =>
          assignPush cfg now tmpProjectId projectId userType liveRoomId true rooms

/-- The second loop of `handleStopProject` over `liveRoom.Urls`: every Busy endpoint
is cleared. -/
def stopUrls (urls : List PushStreamUrl) : List PushStreamUrl :=
  urls.map fun v => if v.State = 1 then { v with LimitAudio := false, State := 0, PushUrl := "" } else v

/-- The updates `handleStopProject` makes through the pointer returned by
`GetLiveRoom(projectId)`: the first room bound to `projectId` has its Busy endpoints
cleared and its `ProjectId` set to -1. -/
def stopRoom : LiveRooms → Int → LiveRooms
  | [], _ => []
  | v :: rest, projectId =>
    if v.ProjectId = projectId then { v with ProjectId := -1, Urls := stopUrls v.Urls } :: rest
    else v :: stopRoom rest projectId

/-- The stop notifications of `handleStopProject`: one request per Camera endpoint. -/
def stopHooks (liveRoom : LiveRoom) : List String :=
  (liveRoom.Urls.filter fun v => decide (v.VideoType = Camera)).map fun v =>
    v.RequestUrl ++ "?roomId=" ++ liveRoom.LiveRoomId ++ "&pushId=" ++ Itoa v.PushId ++ "&status=1"

/-- Handler `handleStopProject` for the query parameter `projectId`. -/
def handleStopProject (tmpProjectId : String) (rooms : LiveRooms) : Outcome :=
  match Atoi tmpProjectId with
  | none => ⟨reply601 "projectId Param error, please check them", rooms, []⟩
  | some projectId =>
    if !CheckProjectExits rooms projectId then
      ⟨reply601 "Stop Project Failed Not Found ProjectId", rooms, []⟩
    else
      match GetLiveRoom rooms projectId with
      | none => ⟨reply601 "Stop Project Failed Not Found ProjectId", rooms, []⟩
      | some liveRoom =>
        ⟨⟨200, Body.message 0 "Stop Project Success"⟩, stopRoom rooms projectId, stopHooks liveRoom⟩

/-! ## Request sequences -/

/-- A control request to the pool: `GET /getPush` (with the clock reading of its
handling) or `GET /stopProject`, with the raw query parameters. -/
inductive Request where
  | getPush (now : Date) (projectId userType : String)
  | stopProject (projectId : String)
  deriving DecidableEq, Repr

/-- Dispatch of a request to its handler (`startWeb`). -/
def handle (cfg : ServerCfg) (rooms : LiveRooms) : Request → Outcome
  | Request.getPush now projectId userType => handleGetPush cfg now projectId userType rooms
  | Request.stopProject projectId => handleStopProject projectId rooms

/-- The pool after `initLiveRooms` on the configuration `lives` followed by the
requests `reqs`, handled one after the other. -/
def run (cfg : ServerCfg) (lives : List Live) (reqs : List Request) : LiveRooms :=
  reqs.foldl (fun rooms req => (handle cfg rooms req).rooms) (initLiveRooms lives)

/-- All endpoints of the pool, room by room in pool order. -/
def allUrls (rooms : LiveRooms) : List PushStreamUrl := rooms.flatMap fun v => v.Urls

/-! ## Example configurations -/

/-- The configuration of the spec's scenario 1: one room `R1` with one Camera endpoint,
`PushId` 1, user type 0 (Bidder), base `rtmp://h`. -/
def scenarioLives : List Live :=
  [{ LiveId := "R1", Urls :=
      [{ PushId := 1, UserType := 0, VideoType := Camera, RtmpBase := "rtmp://h",
         VideoName := "Camera", SavePath := "/S", SaveUrl := "http://s",
         RequestUrl := "http://n" }] }]

/-- Listen port 1935, addresses with a date segment (`StaticAddr == false`). -/
def scenarioCfg : ServerCfg := { StaticAddr := false, Listen := 1935 }

/-- Listen port 1935, addresses without date segment (`StaticAddr == true`). -/
def staticCfg : ServerCfg := { StaticAddr := true, Listen := 1935 }

/-- The date 2024-01-01. -/
def scenarioDate : Date := { year := 2024, month := 1, day := 1 }

/-- A configuration with two rooms that carry the same id `A`, the first with a
desktop-share endpoint for Bidders, the second with a Camera endpoint for Holders. -/
def sameIdLives : List Live :=
  [{ LiveId := "A", Urls :=
      [{ PushId := 1, UserType := 0, VideoType := DesktopShare, RtmpBase := "rtmp://h",
         VideoName := "Desktop", SavePath := "/S", SaveUrl := "http://s",
         RequestUrl := "http://n" }] },
   { LiveId := "A", Urls :=
      [{ PushId := 2, UserType := 1, VideoType := Camera, RtmpBase := "rtmp://h",
         VideoName := "Camera", SavePath := "/S", SaveUrl := "http://s",
         RequestUrl := "http://n" }] }]

/-- A configuration with two rooms `R1` and `R2`, each with a Camera endpoint for
Bidders (`PushId` 1) and a desktop-share endpoint for Holders (`PushId` 2). -/
def twoRoomLives : List Live :=
  [{ LiveId := "R1", Urls :=
      [{ PushId := 1, UserType := 0, VideoType := Camera, RtmpBase := "rtmp://h",
         VideoName := "Camera", SavePath := "/S", SaveUrl := "http://s",
         RequestUrl := "http://n" },
       { PushId := 2, UserType := 1, VideoType := DesktopShare, RtmpBase := "rtmp://h",
         VideoName := "Desktop", SavePath := "/S", SaveUrl := "http://s",
         RequestUrl := "http://n" }] },
   { LiveId := "R2", Urls :=
      [{ PushId := 1, UserType := 0, VideoType := Camera, RtmpBase := "rtmp://h",
         VideoName := "Camera", SavePath := "/S", SaveUrl := "http://s",
         RequestUrl := "http://n" },
       { PushId := 2, UserType := 1, VideoType := DesktopShare, RtmpBase := "rtmp://h",
         VideoName := "Desktop", SavePath := "/S", SaveUrl := "http://s",
         RequestUrl := "http://n" }] }]

/-- A configuration whose room ids and bases make two addresses coincide: room `B`
with base `h:1935/live/A` and room `A:1935/live/B` with base `h`. -/
def slashLives : List Live :=
  [{ LiveId := "B", Urls :=
      [{ PushId := 1, UserType := 0, VideoType := DesktopShare, RtmpBase := "h:1935/live/A",
         VideoName := "Desktop", SavePath := "/S", SaveUrl := "http://s",
         RequestUrl := "http://n" },
       { PushId := 2, UserType := 0, VideoType := Camera, RtmpBase := "h:1935/live/A",
         VideoName := "Camera", SavePath := "/S", SaveUrl := "http://s",
         RequestUrl := "http://n" }] },
   { LiveId := "A:1935/live/B", Urls :=
      [{ PushId := 1, UserType := 0, VideoType := Camera, RtmpBase := "h",
         VideoName := "Camera", SavePath := "/S", SaveUrl := "http://s",
         RequestUrl := "http://n" }] }]

/-- The `projectId` query parameter of a request. -/
def Request.projectId : Request → String
  | Request.getPush _ projectId _ => projectId
  | Request.stopProject projectId => projectId

/-! ## Addresses and endpoint slots -/

/-- The addresses `handleGetPush` builds for the room `liveRoomId` and the endpoint
`pushId`: base, listen port, `/live/`, room id, an optional date segment, a `projectId`
parameter accepted by `Atoi`, and `/Camera_` with the `PushId`. -/
def IsPushUrl (cfg : ServerCfg) (liveRoomId : String) (pushId : Int) (url : String) : Prop :=
  ∃ pushBase seg tmpProjectId : String,
    (seg = "" ∨ ∃ d : Date, seg = formatDate d ++ "/") ∧ (∃ p, Atoi tmpProjectId = some p) ∧
    url = pushBase ++ ":" ++ Itoa cfg.Listen ++ "/live/" ++ liveRoomId ++ "/" ++ seg ++
      tmpProjectId ++ "/Camera_" ++ Itoa pushId

/-- All endpoints of the pool in pool order, each with the id of its room. -/
def keyedUrls (rooms : LiveRooms) : List (String × PushStreamUrl) :=
  rooms.flatMap fun v => v.Urls.map fun e => (v.LiveRoomId, e)

/-- The search of `SetStartState` seen on `keyedUrls`: the first endpoint with the
room id and the `PushId` is started. -/
def setKeyed (liveRoomId : String) (pushId : Int) (url : String) (user_type : Int) :
    List (String × PushStreamUrl) → List (String × PushStreamUrl)
  | [] => []
  | x :: rest =>
    if x.1 = liveRoomId ∧ x.2.PushId = pushId then
      (x.1, { x.2 with PushUrl := url, UserType := toUserType user_type, State := 1 }) :: rest
    else x :: setKeyed liveRoomId pushId url user_type rest

/-- The invariant behind endpoint exclusivity: a Busy endpoint carries an address built
for its room id and its `PushId`, and no endpoint before it in the pool has the same
room id and `PushId`. -/
def UrlInv (cfg : ServerCfg) (keyed : List (String × PushStreamUrl)) : Prop :=
  (∀ x ∈ keyed, x.2.State = 1 → IsPushUrl cfg x.1 x.2.PushId x.2.PushUrl) ∧
  keyed.Pairwise fun x y => y.2.State = 1 → x.1 = y.1 → x.2.PushId ≠ y.2.PushId

/-! ## Mute flag of an endpoint (`src/protocol/rtmp/stream.go`, `http_opera.go`) -/

/-- The inner loop of `SetLimitAudioFromPushId` over `v.Urls`: the first Busy endpoint
whose `PushId` is `pushId` gets `LimitAudio = !(limit != 0)`; `none` when the loop ends
without a match. -/
def setLimitUrls (pushId limit : Int) : List PushStreamUrl → Option (List PushStreamUrl)
  | [] => none
  | value :: rest =>
    if value.PushId = pushId ∧ 1 = value.State then
      some ({ value with LimitAudio := !(decide (limit ≠ 0)) } :: rest)
    else (setLimitUrls pushId limit rest).map fun rest1 => value :: rest1

/-- Function `SetLimitAudioFromPushId`: the returned error (`none` is `nil`) and the
pool it leaves. -/
def SetLimitAudioFromPushId (rooms : LiveRooms) (projectId pushId limit : Int) :
    Option String × LiveRooms :=
  match rooms with
  | [] => (some "Not Found SetLimitAudio", [])
  | v :: rest =>
    if v.ProjectId = projectId then
      match setLimitUrls pushId limit v.Urls with
      | some urls => (none, { v with Urls := urls } :: rest)
      | none =>
        let r := SetLimitAudioFromPushId rest projectId pushId limit
        (r.1, v :: r.2)
    else
      let r := SetLimitAudioFromPushId rest projectId pushId limit
      (r.1, v :: r.2)

/-- Function `GetLimitAudioFromPushId`: the Go result `(error, bool)`, the error first. -/
def GetLimitAudioFromPushId (rooms : LiveRooms) (projectId pushId : Int) : Option String × Bool :=
  match rooms with
  | [] => (some "Not Found PushId", false)
  | v :: rest =>
    if v.ProjectId = projectId then
      match v.Urls.find? (fun value => decide (value.PushId = pushId)) with
      | some value => (none, value.LimitAudio)
      | none => GetLimitAudioFromPushId rest projectId pushId
    else GetLimitAudioFromPushId rest projectId pushId

/-- Handler `handleSetAudioFromPushId` for the query parameters `projectId`, `pushId`
and `audio`.  The value `SetLimitAudioFromPushId` returns is not looked at. -/
def handleSetAudioFromPushId (tmpProjectId tmpPushId tmpAudio : String) (rooms : LiveRooms) :
    Outcome :=
  match Atoi tmpProjectId with
  | none => ⟨reply601 "projectId Param error, please check them", rooms, []⟩
  | some projectId =>
    match Atoi tmpPushId with
    | none => ⟨reply601 "pushId Param error, please check them", rooms, []⟩
    | some pushId =>
      match Atoi tmpAudio with
      | none => ⟨reply601 "audio Param error, please check them", rooms, []⟩
      | some audio =>
        let rooms1 := (SetLimitAudioFromPushId rooms projectId pushId audio).2
        let writeString := "set Audio Success ProjectId:" ++ Itoa projectId ++ " pushId=" ++
          Itoa pushId ++ " Audio=" ++ Itoa audio
        ⟨⟨200, Body.message 200 writeString⟩, rooms1, []⟩

/-! ## Viewer packet queue (`src/protocol/rtmp/rtmp.go`) -/

/-- Constant `maxQueueNum`: the capacity of a viewer's packet queue. -/
def maxQueueNum : Nat := 1024

/-- Modelled from the spec: the interface `av.VideoPacketHeader` of package `av`, which
is not among the sources; by the spec's data model the header of a video packet exposes
whether the packet is a keyframe and whether it is a sequence header. -/
structure VideoPacketHeader where
  IsKeyFrame : Bool
  IsSeq : Bool
  deriving DecidableEq, Repr

/-- Modelled from the spec: the struct `av.Packet` of package `av`, which is not among
the sources, with the fields of the spec's data model.  `Header` is `some h` when the
header implements `av.VideoPacketHeader`, i.e. when the type assertion of `DropPacket`
succeeds. -/
structure Packet where
  IsAudio : Bool
  IsVideo : Bool
  IsMetadata : Bool
  TimeStamp : Nat
  StreamID : Nat
  Header : Option VideoPacketHeader
  Data : List Nat
  deriving DecidableEq, Repr

/-- The test `ok && (videoPkt.IsSeq() || videoPkt.IsKeyFrame())` of `DropPacket` after
the type assertion on the header. -/
def Packet.seqOrKey (p : Packet) : Bool :=
  match p.Header with
  | some videoPkt => videoPkt.IsSeq || videoPkt.IsKeyFrame
  | none => false

/-- A video packet that is a keyframe. -/
def Packet.keyFrame (p : Packet) : Bool :=
  p.IsVideo && (match p.Header with
    | some videoPkt => videoPkt.IsKeyFrame
    | none => false)

/-- The packets `DropPacket` puts back: audio packets, and video packets that are a
sequence header or a keyframe. -/
def Packet.kept (p : Packet) : Bool := p.IsAudio || (p.IsVideo && p.seqOrKey)

/-- The flags `IsAudio` and `IsVideo` are not both set (the spec's data model; what
`VirReader.Read` produces from the chunk type). -/
def Packet.exclusive (p : Packet) : Prop := ¬ (p.IsAudio = true ∧ p.IsVideo = true)

/-- A channel operation of the loop body of `DropPacket`. -/
inductive ChanOp where
  | recv
  | send
  deriving DecidableEq, Repr

/-- Receive `<-pktQue` on the open channel whose buffer is `pktQue` (oldest packet
first) while no other goroutine uses it: the oldest packet and the rest of the buffer;
`none` when the buffer is empty, where the receive blocks. -/
def chanRecv (pktQue : List Packet) : Option (Packet × List Packet) :=
  match pktQue with
  | [] => none
  | p :: rest => some (p, rest)

/-- Send `pktQue <- p` on the open channel of capacity `maxQueueNum`: the packet goes to
the tail; `none` when the buffer is full, where the send blocks. -/
def chanSend (pktQue : List Packet) (p : Packet) : Option (List Packet) :=
  if pktQue.length < maxQueueNum then some (pktQue ++ [p]) else none

/-- The block `if ok && tmpPkt.IsAudio` of the loop body of `DropPacket`: the buffer it
leaves and the channel operations it performs. -/
def dropAudio (tmpPkt : Packet) (pktQue : List Packet) : Option (List Packet × List ChanOp) :=
  if tmpPkt.IsAudio then
    if pktQue.length > maxQueueNum - 2 then
      (chanRecv pktQue).map fun r => (r.2, [ChanOp.recv])
    else (chanSend pktQue tmpPkt).map fun q => (q, [ChanOp.send])
  else some (pktQue, [])

/-- The block `if ok && tmpPkt.IsVideo` of the loop body of `DropPacket`. -/
def dropVideo (tmpPkt : Packet) (pktQue : List Packet) : Option (List Packet × List ChanOp) :=
  if tmpPkt.IsVideo then
    (if tmpPkt.seqOrKey then (chanSend pktQue tmpPkt).map fun q => (q, [ChanOp.send])
      else some (pktQue, [])).bind fun r1 =>
      if r1.1.length > maxQueueNum - 10 then
        (chanRecv r1.1).map fun r => (r.2, r1.2 ++ [ChanOp.recv])
      else some r1
  else some (pktQue, [])

/-- One iteration of the loop of `DropPacket`: the receive of `tmpPkt` (on an open
channel `ok` is true), then the audio block and the video block.  The result is the
buffer left and the channel operations performed, in order; `none` when one of them
blocks. -/
def dropIter (pktQue : List Packet) : Option (List Packet × List ChanOp) :=
  (chanRecv pktQue).bind fun r =>
    (dropAudio r.1 r.2).bind fun r1 =>
      (dropVideo r.1 r1.1).map fun r2 => (r2.1, ChanOp.recv :: (r1.2 ++ r2.2))

/-- The loop of `DropPacket` run for `n` iterations. -/
def dropLoop : Nat → List Packet → Option (List Packet)
  | 0, pktQue => some pktQue
  | n + 1, pktQue =>
    match dropIter pktQue with
    | none => none
    | some r => dropLoop n r.1

/-- Method `VirWriter.DropPacket`: `maxQueueNum - 84` iterations of the loop; `none`
when a channel operation blocks. -/
def DropPacket (pktQue : List Packet) : Option (List Packet) := dropLoop (maxQueueNum - 84) pktQue

/-- The fields of `VirWriter` that `Write` reads and writes. -/
structure VirWriter where
  closed : Bool
  limitAudio : Bool
  packetQueue : List Packet
  deriving DecidableEq, Repr

/-- Method `VirWriter.Write`: the returned error (`none` is `nil`) and the writer it
leaves; the outer `none` when a channel operation blocks.  The channel of a writer that
is not `closed` is open, so the deferred `recover` has nothing to recover. -/
def VirWriter.Write (v : VirWriter) (p : Packet) : Option (Option String × VirWriter) :=
  if v.closed then some (some "VirWriter closed", v)
  else if v.limitAudio then
    if p.IsVideo then
      if v.packetQueue.length ≥ maxQueueNum - 24 then
        (DropPacket v.packetQueue).map fun q => (none, { v with packetQueue := q })
      else (chanSend v.packetQueue p).map fun q => (none, { v with packetQueue := q })
    else some (none, v)
  else
    if v.packetQueue.length ≥ maxQueueNum - 24 then
      (DropPacket v.packetQueue).map fun q => (none, { v with packetQueue := q })
    else (chanSend v.packetQueue p).map fun q => (none, { v with packetQueue := q })

/-- A video packet that is neither a keyframe nor a sequence header. -/
def plainVideo : Packet :=
  { IsAudio := false, IsVideo := true, IsMetadata := false, TimeStamp := 0, StreamID := 1,
    Header := some { IsKeyFrame := false, IsSeq := false }, Data := [] }

/-- A video packet that is a keyframe. -/
def keyVideo : Packet :=
  { IsAudio := false, IsVideo := true, IsMetadata := false, TimeStamp := 0, StreamID := 1,
    Header := some { IsKeyFrame := true, IsSeq := false }, Data := [] }

/-- An audio packet. -/
def audioPacket : Packet :=
  { IsAudio := true, IsVideo := false, IsMetadata := false, TimeStamp := 0, StreamID := 1,
    Header := none, Data := [] }

/-- A metadata packet. -/
def metadataPacket : Packet :=
  { IsAudio := false, IsVideo := false, IsMetadata := true, TimeStamp := 0, StreamID := 1,
    Header := none, Data := [] }

/-! ## Replay cache sweeper (`checkMediaFile`, `src/protocol/rtmp/stream.go`) -/

/-- Struct `configure.FileToMd5`: an entry of the replay cache `rs.md5s.Files`. -/
structure FileToMd5 where
  FilePath : String
  Size : Int
  MD5 : String
  Start : String
  Finish : String
  deriving DecidableEq, Repr

/-- The inner loop of `checkMediaFile` from index `i` on the cache `files`
(`rs.md5s.Files`): the entry at `i` is cut out with `append(Files[:i], Files[i+1:]...)`
when `pathExists` (first result; the error is ignored) is false on its `FilePath`,
otherwise `i` advances.  The result is `none` when an index or a slice bound is out of
range. -/
def checkMediaLoop (pathExists : String → Bool) (i : Nat) (files : List FileToMd5) :
    Option (List FileToMd5) :=
  if i < files.length then
    match files[i]? with
    | none => none
    | some f =>
      if !pathExists f.FilePath then
        if i + 1 ≤ files.length then
          checkMediaLoop pathExists i (files.take i ++ files.drop (i + 1))
        else none
      else checkMediaLoop pathExists (i + 1) files
  else some files
termination_by files.length - i
decreasing_by
  all_goals simp_wf
  · omega
  · omega

/-- One pass of the body of `checkMediaFile` (after the sleep): the cache the loop
leaves, which `writeReplayConfig` then writes to the replay file. -/
def checkMediaFile (pathExists : String → Bool) (files : List FileToMd5) :
    Option (List FileToMd5) :=
  checkMediaLoop pathExists 0 files

/-! ## The consumer of the packet queue and step sequences -/

/-- The loop of `VirWriter.SendPacket` on the buffer `pktQue` while no other goroutine
sends: the packets for which a chunk is handed to `conn.Write`, in order.  `writeOk p`
tells whether the write of the chunk of `p` succeeds; the loop returns at the first
failed write, and waits in the receive once the buffer is empty. -/
def SendPacket (writeOk : Packet → Bool) : List Packet → List Packet
  | [] => []
  | p :: pktQue => if writeOk p then p :: SendPacket writeOk pktQue else [p]

/-- A step on the queue of a `VirWriter`, run to completion: a call `Write(p)` of the
publisher, one receive of the loop of `SendPacket`, the mute poller storing
`limitAudio`, or `closed` being set. -/
inductive QueueStep where
  | write (p : Packet)
  | dequeue
  | setLimitAudio (b : Bool)
  | close
  deriving DecidableEq, Repr

/-- The writer a step leaves; `none` when a channel operation of `Write` blocks.  A
receive on the empty buffer waits and leaves the writer as it is. -/
def VirWriter.step (v : VirWriter) : QueueStep → Option VirWriter
  | QueueStep.write p => (v.Write p).map fun r => r.2
  | QueueStep.dequeue =>
    match chanRecv v.packetQueue with
    | some r => some { v with packetQueue := r.2 }
    | none => some v
  | QueueStep.setLimitAudio b => some { v with limitAudio := b }
  | QueueStep.close => some { v with closed := true }

/-- The writer a sequence of steps leaves. -/
def VirWriter.steps (v : VirWriter) : List QueueStep → Option VirWriter
  | [] => some v
  | s :: ss => (v.step s).bind fun v1 => v1.steps ss

/-! ## Liveness check (`Stream.CheckAlive`, `checkPublisher`, `src/protocol/rtmp/stream.go`) -/

/-- Modelled from the spec: an attached reader or writer as `CheckAlive` uses it, a
value of the interface `av.ReadCloser` or `av.WriteCloser` of package `av`, which is not
among the sources.  `alive` is the result of `Alive()` (the last activity is within the
timeout), `closed` tells whether `Close` has been called. -/
structure Closer where
  alive : Bool
  closed : Bool
  deriving DecidableEq, Repr

/-- Struct `PackWriterCloser`: `w` is `none` for a nil writer. -/
structure PackWriterCloser where
  init : Bool
  w : Option Closer
  deriving DecidableEq, Repr

/-- The fields of `Stream` that `CheckAlive` and the sweeper read and write.  The
concurrent map `ws` is the list of its entries, key first, in the order `IterBuffered`
yields them. -/
structure Stream where
  isStart : Bool
  FFmpeg : Bool
  r : Option Closer
  ws : List (String × PackWriterCloser)
  deriving DecidableEq, Repr

/-- What `CheckAlive` leaves: the returned count `n`, the stream, and the writers it
removed from `ws` and closed, in order. -/
structure AliveCheck where
  n : Nat
  stream : Stream
  closedWs : List (String × Closer)
  deriving DecidableEq, Repr

/-- The first block of `CheckAlive`: with a reader and `isStart`, the reader is counted
when alive and closed otherwise. -/
def checkReader (s : Stream) : Nat × Stream :=
  match s.r with
  | some r =>
    if s.isStart then
      if r.alive then (1, s)
      else (0, { s with r := some { r with closed := true } })
    else (0, s)
  | none => (0, s)

/-- The body of the loop of `CheckAlive` for one entry `item` of the snapshot of `ws`:
a writer that is not alive while `isStart` is removed from `ws` by its key and closed,
any other writer is counted. -/
def checkWriter (c : AliveCheck) (item : String × PackWriterCloser) : AliveCheck :=
  match item.2.w with
  | some w =>
    if !w.alive && c.stream.isStart then
      { c with
        stream := { c.stream with ws := c.stream.ws.filter fun e => decide (e.1 ≠ item.1) }
        closedWs := c.closedWs ++ [(item.1, { w with closed := true })] }
    else { c with n := c.n + 1 }
  | none => c

/-- Method `Stream.CheckAlive`. -/
def Stream.CheckAlive (s : Stream) : AliveCheck :=
  s.ws.foldl checkWriter
    { n := (checkReader s).1, stream := (checkReader s).2, closedWs := [] }

/-- The body of the keep-alive loop of `checkPublisher` for one entry `item` of the
snapshot of the registry: the stream is checked through its pointer, and removed from
the registry by its key when `CheckAlive` returns 0 (after its recorder is stopped). -/
def sweepStream (streams : List (String × Stream)) (item : String × Stream) :
    List (String × Stream) :=
  if item.2.CheckAlive.n = 0 then streams.filter fun e => decide (e.1 ≠ item.1)
  else streams.map fun e => if e.1 = item.1 then (e.1, item.2.CheckAlive.stream) else e

/-- One pass of the keep-alive loop of `checkPublisher` over the registry `streams`
(the entries of the concurrent map, key first). -/
def checkPublisher (streams : List (String × Stream)) : List (String × Stream) :=
  streams.foldl sweepStream streams

/-- The writer entries `CheckAlive` keeps while the stream is started: those with a nil
writer or a writer that is alive. -/
def PackWriterCloser.stays (p : PackWriterCloser) : Bool :=
  match p.w with
  | some w => w.alive
  | none => true

/-- The number of attached endpoints whose `Alive()` is true: the reader, if any, and
the viewers that have a writer. -/
def Stream.aliveCount (s : Stream) : Nat :=
  (match s.r with
    | some r => if r.alive then 1 else 0
    | none => 0) +
  (s.ws.filter fun e =>
    match e.2.w with
    | some w => w.alive
    | none => false).length

/-- The writer `CheckAlive` closes for the entry `e` of a started stream: the writer of
`e`, marked closed, when it is not alive. -/
def closedWriter (e : String × PackWriterCloser) : Option (String × Closer) :=
  match e.2.w with
  | some w => if w.alive then none else some (e.1, { w with closed := true })
  | none => none

/-- The entry the keep-alive loop leaves for the registry entry `e`: none when
`CheckAlive` returns 0, otherwise the stream as `CheckAlive` leaves it. -/
def sweptStream (e : String × Stream) : Option (String × Stream) :=
  if e.2.CheckAlive.n = 0 then none else some (e.1, e.2.CheckAlive.stream)

/-- A started stream with a reader that is alive, a viewer `a` that is not alive and a
viewer `b` that is. -/
def startedStream : Stream :=
  { isStart := true, FFmpeg := true, r := some { alive := true, closed := false },
    ws := [("a", { init := true, w := some { alive := false, closed := false } }),
           ("b", { init := true, w := some { alive := true, closed := false } })] }

/-- A stream that is not started, without reader, with one viewer that is not alive. -/
def stoppedDeadViewer : Stream :=
  { isStart := false, FFmpeg := false, r := none,
    ws := [("a", { init := true, w := some { alive := false, closed := false } })] }

/-- A stream that is not started, with a reader that is alive and no viewer. -/
def stoppedLiveReader : Stream :=
  { isStart := false, FFmpeg := false, r := some { alive := true, closed := false }, ws := [] }

/-! ## Go standard library: `path.Base`, `path.Ext`, `strings.TrimSuffix`, `strings.Split` -/

/-- Function `path.Base`: the last element of `path` after its trailing slashes are
removed; `"."` for the empty path and `"/"` for a path of slashes only. -/
def pathBase (path : String) : String :=
  if path = "" then "."
  else
    let last := ((path.data.reverse.dropWhile fun c => c == '/').takeWhile fun c => c != '/').reverse
    if last = [] then "/" else String.mk last

/-- The loop of `path.Ext` from the last character backwards over the reversed
characters `cs`; `acc` holds the characters already passed. -/
def extLoop : List Char → List Char → List Char
  | [], _ => []
  | c :: cs, acc =>
    if c = '/' then []
    else if c = '.' then '.' :: acc
    else extLoop cs (c :: acc)

/-- Function `path.Ext`: the suffix of `path` from the last dot of its last element,
empty when there is none. -/
def pathExt (path : String) : String := String.mk (extLoop path.data.reverse [])

/-- Function `strings.TrimSuffix`. -/
def TrimSuffix (s suffix : String) : String :=
  if suffix.data.isSuffixOf s.data then
    String.mk (s.data.take (s.data.length - suffix.data.length))
  else s

/-- Function `strings.Split(s, sep)` for a separator of one character, on characters:
the parts of `s` between the occurrences of `sep`. -/
def splitChars (sep : Char) : List Char → List (List Char)
  | [] => [[]]
  | c :: cs =>
    if c = sep then [] :: splitChars sep cs
    else
      match splitChars sep cs with
      | [] => [[c]]
      | part :: parts => (c :: part) :: parts

/-- Function `strings.Split(s, "_")`. -/
def splitUnderscore (s : String) : List String := (splitChars '_' s.data).map String.mk

/-! ## Replay index (`getDirFiles`, `GetRtmpList`, `GetSingleRtmpList`,
`GetProjectReplayList`, `src/protocol/rtmp/stream.go`) -/

/-- The file system as the replay index reads it: `ReadDir dir` is the result of
`ioutil.ReadDir` (the names of the entries, sorted; `none` on error), `Stat path` the
size `os.Stat` reports (`none` on error, so also when nothing has this path), `Md5 path`
the hex MD5 of the content (`none` when the file cannot be opened or read). -/
structure FileSystem where
  ReadDir : String → Option (List String)
  Stat : String → Option Int
  Md5 : String → Option String

/-- Method `pathExists`, first result: `os.Stat` succeeds. -/
def pathExists (fs : FileSystem) (path : String) : Bool := (fs.Stat path).isSome

/-- Method `getFileSize`: 0 when `os.Stat` fails. -/
def getFileSize (fs : FileSystem) (path : String) : Int := (fs.Stat path).getD 0

/-- Method `findFileMD5`: the hash of the first cache entry with this path and size. -/
def findFileMD5 (files : List FileToMd5) (path : String) (size : Int) : Bool × String :=
  match files with
  | [] => (false, "")
  | v :: rest =>
    if v.FilePath = path ∧ v.Size = size then (true, v.MD5) else findFileMD5 rest path size

/-- The five lists `getDirFiles` returns. -/
structure DirFiles where
  dirFiles : List String
  dirFilesSize : List Int
  dirFilesMd5 : List String
  startTimers : List String
  finishTimers : List String
  deriving DecidableEq, Repr

/-- The part of the loop body of `getDirFiles` that takes the file name apart: base
name, extension removed, split on `_`; the second and third part when there are exactly
three parts. -/
def splitTimers (filePath : String) : Option (String × String) :=
  let nameWithSuffix := pathBase filePath
  let suffix := pathExt nameWithSuffix
  let nameOnly := TrimSuffix nameWithSuffix suffix
  match splitUnderscore nameOnly with
  | [_, startTimer, finishTimer] => some (startTimer, finishTimer)
  | _ => none

/-- The loop body of `getDirFiles` for the directory entry `name`, on the lists built so
far and the replay cache.  The size is appended before the name is taken apart; an
entry whose name does not split into three parts is then skipped (`continue`). -/
def getDirFile (fs : FileSystem) (pathDir : String) (st : DirFiles × List FileToMd5)
    (name : String) : DirFiles × List FileToMd5 :=
  let filePath := pathDir ++ "/" ++ name
  let fileSize := getFileSize fs filePath
  let d := { st.1 with dirFilesSize := st.1.dirFilesSize ++ [fileSize] }
  match splitTimers filePath with
  | none => (d, st.2)
  | some (startTimer, finishTimer) =>
    let d1 := { d with
      startTimers := d.startTimers ++ [startTimer]
      finishTimers := d.finishTimers ++ [finishTimer] }
    let found := findFileMD5 st.2 filePath fileSize
    if found.1 then
      ({ d1 with dirFilesMd5 := d1.dirFilesMd5 ++ [found.2], dirFiles := d1.dirFiles ++ [name] },
        st.2)
    else
      let md5str := (fs.Md5 filePath).getD ""
      ({ d1 with dirFilesMd5 := d1.dirFilesMd5 ++ [md5str], dirFiles := d1.dirFiles ++ [name] },
        st.2 ++ [{ FilePath := filePath, Size := fileSize, MD5 := md5str,
                   Start := startTimer, Finish := finishTimer }])

/-- Method `getDirFiles` on the replay cache `md5s`: the error (`none` is `nil`), the
five lists and the cache it leaves (which `writeReplayConfig` writes out). -/
def getDirFiles (fs : FileSystem) (md5s : List FileToMd5) (pathDir : String) :
    Option String × DirFiles × List FileToMd5 :=
  match fs.ReadDir pathDir with
  | none => (some "Read Dir Failed", ⟨[], [], [], [], []⟩, md5s)
  | some files =>
    let r := files.foldl (getDirFile fs pathDir) (⟨[], [], [], [], []⟩, md5s)
    (none, r.1, r.2)

/-- The loop `for index, w := range dirFiles` of the three list methods from `index` on:
one `Replay` per listed name, its fields read at the same index of the other four
lists; `none` when an index is out of range. -/
def mkReplays (addrBase : String) (d : DirFiles) : Nat → List String → Option (List Replay)
  | _, [] => some []
  | index, w :: ws =>
    match d.dirFilesSize[index]?, d.dirFilesMd5[index]?, d.startTimers[index]?,
      d.finishTimers[index]? with
    | some size, some md5, some startTimer, some finishTimer =>
      (mkReplays addrBase d (index + 1) ws).map fun replays =>
        { Addr := addrBase ++ "/" ++ w, Size := size, Md5 := md5, Start := startTimer,
          Finish := finishTimer } :: replays
    | _, _, _, _ => none

/-- The state of a walk over rooms or endpoints (`α`): whether the method has returned
early, the part of the returned tree built, the pool as the walk leaves it, the cache. -/
structure Walk (α : Type) where
  stop : Bool
  result : List α
  pool : List α
  md5s : List FileToMd5

/-- The inner loop of `GetRtmpList` over the endpoints of the room `liveRoomId` bound
to `projectId`: the list of each endpoint is emptied and filled from its directory; the
method returns at the first directory that cannot be read. -/
def rtmpListUrls (fs : FileSystem) (liveRoomId : String) (projectId : Int) :
    List PushStreamUrl → List FileToMd5 → Option (Walk PushStreamUrl)
  | [], md5s => some ⟨false, [], [], md5s⟩
  | value :: rest, md5s =>
    let checkDir := value.SavePath ++ "/" ++ liveRoomId ++ "/" ++ Itoa projectId
    match getDirFiles fs md5s checkDir with
    | (some _, _, md5s1) => some ⟨true, value :: rest, value :: rest, md5s1⟩
    | (none, d, md5s1) =>
      match mkReplays (value.SaveUrl ++ "/" ++ liveRoomId ++ "/" ++ Itoa projectId) d 0
        d.dirFiles with
      | none => none
      | some replays =>
        (rtmpListUrls fs liveRoomId projectId rest md5s1).map fun r =>
          { r with
            result := { value with Replays := replays } :: r.result
            pool := { value with Replays := replays } :: r.pool }

/-- The outer loop of `GetRtmpList` over the rooms. -/
def rtmpListRooms (fs : FileSystem) : LiveRooms → List FileToMd5 → Option (Walk LiveRoom)
  | [], md5s => some ⟨false, [], [], md5s⟩
  | v :: rest, md5s =>
    match rtmpListUrls fs v.LiveRoomId v.ProjectId v.Urls md5s with
    | none => none
    | some r =>
      if r.stop then
        some ⟨true, { v with Urls := r.pool } :: rest, { v with Urls := r.pool } :: rest, r.md5s⟩
      else
        (rtmpListRooms fs rest r.md5s).map fun r1 =>
          { r1 with
            result := { v with Urls := r.pool } :: r1.result
            pool := { v with Urls := r.pool } :: r1.pool }

/-- Method `GetRtmpList`: the returned rooms (the error is always nil), the pool and the
cache it leaves; `none` when an index is out of range.  The returned `LiveRooms` shares
its rooms with the pool. -/
def GetRtmpList (fs : FileSystem) (rooms : LiveRooms) (md5s : List FileToMd5) :
    Option (LiveRooms × LiveRooms × List FileToMd5) :=
  (rtmpListRooms fs rooms md5s).map fun r => (r.pool, r.pool, r.md5s)

/-- The inner loop of `GetSingleRtmpList` over the endpoints of a room bound to
`projectId`: the endpoint is appended to the returned room by its pointer, then the
replays of its directory are appended to its list, which is the list in the pool. -/
def singleListUrls (fs : FileSystem) (liveRoomId : String) (projectId : Int) :
    List PushStreamUrl → List FileToMd5 → Option (Walk PushStreamUrl)
  | [], md5s => some ⟨false, [], [], md5s⟩
  | value :: rest, md5s =>
    let checkDir := value.SavePath ++ "/" ++ liveRoomId ++ "/" ++ Itoa projectId
    match getDirFiles fs md5s checkDir with
    | (some _, _, md5s1) => some ⟨true, [value], value :: rest, md5s1⟩
    | (none, d, md5s1) =>
      match mkReplays (value.SaveUrl ++ "/" ++ liveRoomId ++ "/" ++ Itoa projectId) d 0
        d.dirFiles with
      | none => none
      | some replays =>
        (singleListUrls fs liveRoomId projectId rest md5s1).map fun r =>
          { r with
            result := { value with Replays := value.Replays ++ replays } :: r.result
            pool := { value with Replays := value.Replays ++ replays } :: r.pool }

/-- The outer loop of `GetSingleRtmpList` over the rooms of the pool. -/
def singleListRooms (fs : FileSystem) (projectId : Int) :
    LiveRooms → List FileToMd5 → Option (Walk LiveRoom)
  | [], md5s => some ⟨false, [], [], md5s⟩
  | v :: rest, md5s =>
    if v.ProjectId = projectId then
      match singleListUrls fs v.LiveRoomId v.ProjectId v.Urls md5s with
      | none => none
      | some r =>
        let liveRoom : LiveRoom :=
          { LiveRoomId := v.LiveRoomId, ProjectId := v.ProjectId, Urls := r.result }
        if r.stop then some ⟨true, [liveRoom], { v with Urls := r.pool } :: rest, r.md5s⟩
        else
          (singleListRooms fs projectId rest r.md5s).map fun r1 =>
            { r1 with
              result := liveRoom :: r1.result
              pool := { v with Urls := r.pool } :: r1.pool }
    else
      (singleListRooms fs projectId rest md5s).map fun r1 => { r1 with pool := v :: r1.pool }

/-- Method `GetSingleRtmpList(projectId)`: the returned rooms (the error is always nil),
the pool and the cache it leaves; `none` when an index is out of range. -/
def GetSingleRtmpList (fs : FileSystem) (projectId : Int) (rooms : LiveRooms)
    (md5s : List FileToMd5) : Option (LiveRooms × LiveRooms × List FileToMd5) :=
  (singleListRooms fs projectId rooms md5s).map fun r => (r.result, r.pool, r.md5s)

/-- The pool and the cache after `k` consecutive calls of `GetSingleRtmpList(projectId)`. -/
def singleListCalls (fs : FileSystem) (projectId : Int) :
    Nat → LiveRooms → List FileToMd5 → Option (LiveRooms × List FileToMd5)
  | 0, rooms, md5s => some (rooms, md5s)
  | k + 1, rooms, md5s =>
    (GetSingleRtmpList fs projectId rooms md5s).bind fun r =>
      singleListCalls fs projectId k r.2.1 r.2.2

/-- Struct `configure.ReplayStreamUrl`. -/
structure ReplayStreamUrl where
  PushId : Int
  Replays : List Replay
  deriving DecidableEq, Repr

/-- Struct `configure.ReplayRoom`. -/
structure ReplayRoom where
  LiveRoomId : String
  Urls : List ReplayStreamUrl
  deriving DecidableEq, Repr

/-- The inner loop of `GetProjectReplayList` over the endpoints of a room: an endpoint
whose directory cannot be read is skipped (`continue`); the first component is `hased`. -/
def replayListUrls (fs : FileSystem) (liveRoomId : String) (projectId : Int) :
    List PushStreamUrl → List FileToMd5 → Option (Bool × List ReplayStreamUrl × List FileToMd5)
  | [], md5s => some (false, [], md5s)
  | value :: rest, md5s =>
    let checkDir := value.SavePath ++ "/" ++ liveRoomId ++ "/" ++ Itoa projectId
    match getDirFiles fs md5s checkDir with
    | (some _, _, md5s1) => replayListUrls fs liveRoomId projectId rest md5s1
    | (none, d, md5s1) =>
      match mkReplays (value.SaveUrl ++ "/" ++ liveRoomId ++ "/" ++ Itoa projectId) d 0
        d.dirFiles with
      | none => none
      | some replays =>
        (replayListUrls fs liveRoomId projectId rest md5s1).map fun r =>
          (true, { PushId := value.PushId, Replays := replays } :: r.2.1, r.2.2)

/-- Method `GetProjectReplayList(projectId)`: the returned rooms (`ReplayRooms.Rooms`)
and the cache it leaves; `none` when an index is out of range. -/
def GetProjectReplayList (fs : FileSystem) (projectId : Int) :
    LiveRooms → List FileToMd5 → Option (List ReplayRoom × List FileToMd5)
  | [], md5s => some ([], md5s)
  | v :: rest, md5s =>
    match replayListUrls fs v.LiveRoomId projectId v.Urls md5s with
    | none => none
    | some (hased, urls, md5s1) =>
      (GetProjectReplayList fs projectId rest md5s1).map fun r =>
        (if hased then { LiveRoomId := v.LiveRoomId, Urls := urls } :: r.1 else r.1, r.2)

/-! ## Example recording directory -/

/-- The recording directory `/S/R1/12` of scenario 6 holding a file still named by its
start time only (300 bytes) and a finished recording (700 bytes). -/
def replayFS : FileSystem :=
  { ReadDir := fun dir =>
      if dir = "/S/R1/12" then
        some ["Camera_20240101T000000.ts", "Camera_20240101T000000_20240101T010000.ts"]
      else none
    Stat := fun path =>
      if path = "/S/R1/12/Camera_20240101T000000.ts" then some 300
      else if path = "/S/R1/12/Camera_20240101T000000_20240101T010000.ts" then some 700
      else none
    Md5 := fun path =>
      if path = "/S/R1/12/Camera_20240101T000000.ts" then some "aa"
      else if path = "/S/R1/12/Camera_20240101T000000_20240101T010000.ts" then some "bb"
      else none }

/-- The pool of scenario 1 after `getPush?projectId=12&userType=0` with fixed addresses:
room `R1` bound to project 12. -/
def replayPool : LiveRooms := run staticCfg scenarioLives [Request.getPush scenarioDate "12" "0"]

/-- The row `getDirFiles` lists for the directory entry `name`: the name with its start
and finish timers, when the name splits into three parts. -/
def dirRow (pathDir name : String) : Option (String × String × String) :=
  (splitTimers (pathDir ++ "/" ++ name)).map fun t => (name, t.1, t.2)

/-- The addresses of the replays one walk lists for the endpoint `value` of the room
`liveRoomId` under `projectId`: one per directory entry whose name splits into three
parts, in directory order; none when the directory cannot be read. -/
def replayAddrs (fs : FileSystem) (liveRoomId : String) (projectId : Int)
    (value : PushStreamUrl) : List String :=
  match fs.ReadDir (value.SavePath ++ "/" ++ liveRoomId ++ "/" ++ Itoa projectId) with
  | none => []
  | some files =>
    (files.filterMap
      (dirRow (value.SavePath ++ "/" ++ liveRoomId ++ "/" ++ Itoa projectId))).map fun row =>
        value.SaveUrl ++ "/" ++ liveRoomId ++ "/" ++ Itoa projectId ++ "/" ++ row.1

/-- The endpoint `u1` is the endpoint `u` with the replays of `k` walks of its directory
appended to its list: nothing else differs, the addresses appended are those of the
directory `k` times over, and a list that was empty holds `k` times the number of
listed files. -/
def ReplaysAppended (fs : FileSystem) (liveRoomId : String) (projectId : Int) (k : Nat)
    (u u1 : PushStreamUrl) : Prop :=
  { u1 with Replays := u.Replays } = u ∧
  u1.Replays.map (fun r => r.Addr) =
    u.Replays.map (fun r => r.Addr) ++
      (List.replicate k (replayAddrs fs liveRoomId projectId u)).flatten ∧
  (u.Replays = [] → u1.Replays.length = k * (replayAddrs fs liveRoomId projectId u).length)

/-- The room `v1` is the room `v` after `k` calls of `GetSingleRtmpList(projectId)`:
its endpoints have the replays appended `k` times when it is bound to `projectId`, and
are as they were otherwise. -/
def RoomReplaysAppended (fs : FileSystem) (projectId : Int) (k : Nat) (v v1 : LiveRoom) : Prop :=
  v1.LiveRoomId = v.LiveRoomId ∧ v1.ProjectId = v.ProjectId ∧
  if v.ProjectId = projectId then
    List.Forall₂ (ReplaysAppended fs v.LiveRoomId projectId k) v.Urls v1.Urls
  else v1.Urls = v.Urls

/-- The endpoint `u1` is the endpoint `u` with its list of replays replaced by the
replays of one walk of its directory. -/
def ReplaysReset (fs : FileSystem) (liveRoomId : String) (projectId : Int)
    (u u1 : PushStreamUrl) : Prop :=
  { u1 with Replays := u.Replays } = u ∧
  u1.Replays.map (fun r => r.Addr) = replayAddrs fs liveRoomId projectId u

/-- The room `v1` is the room `v` after `GetRtmpList`: every endpoint lists the replays
of one walk of its directory under the project the room is bound to. -/
def RoomReplaysReset (fs : FileSystem) (v v1 : LiveRoom) : Prop :=
  v1.LiveRoomId = v.LiveRoomId ∧ v1.ProjectId = v.ProjectId ∧
  List.Forall₂ (ReplaysReset fs v.LiveRoomId v.ProjectId) v.Urls v1.Urls

/-- The file system before the recording of `replayFS` was replaced: the same
directory, the finished recording with 500 bytes and another content. -/
def earlierFS : FileSystem :=
  { ReadDir := fun dir =>
      if dir = "/S/R1/12" then some ["Camera_20240101T000000_20240101T010000.ts"] else none
    Stat := fun path =>
      if path = "/S/R1/12/Camera_20240101T000000_20240101T010000.ts" then some 500 else none
    Md5 := fun path =>
      if path = "/S/R1/12/Camera_20240101T000000_20240101T010000.ts" then some "cc" else none }

/-! ## The new-project loop of `handleGetPush` -/

/-- A configuration with one room `R1` holding a Camera endpoint for Bidders (`PushId`
1), a Camera endpoint for Holders (`PushId` 2) and a desktop-share endpoint for Machines
(`PushId` 3). -/
def cameraLives : List Live :=
  [{ LiveId := "R1", Urls :=
      [{ PushId := 1, UserType := 0, VideoType := Camera, RtmpBase := "rtmp://h",
         VideoName := "Camera", SavePath := "/S", SaveUrl := "http://s",
         RequestUrl := "http://n" },
       { PushId := 2, UserType := 1, VideoType := Camera, RtmpBase := "rtmp://h",
         VideoName := "Camera", SavePath := "/S", SaveUrl := "http://s",
         RequestUrl := "http://n" },
       { PushId := 3, UserType := 2, VideoType := DesktopShare, RtmpBase := "rtmp://h",
         VideoName := "Desktop", SavePath := "/S", SaveUrl := "http://s",
         RequestUrl := "http://n" }] }]

/-- The address `tmp` the new-project loop of `handleGetPush` builds for the endpoint
`pushId`: the address without date segment. -/
def cameraUrl (cfg : ServerCfg) (pushBase liveRoomId tmpProjectId : String) (pushId : Int) :
    String :=
  pushBase ++ ":" ++ Itoa cfg.Listen ++ "/live/" ++ liveRoomId ++ "/" ++ tmpProjectId ++
    "/Camera_" ++ Itoa pushId

/-- What the iteration of the new-project loop for the endpoint `v` leaves of `v` when
the `PushId`s of the room are distinct: a Camera endpoint is started on its address
without date segment, with its own user type, unless that address is `pushurl`. -/
def startCamera (cfg : ServerCfg) (pushBase liveRoomId tmpProjectId pushurl : String)
    (v : PushStreamUrl) : PushStreamUrl :=
  if v.VideoType = Camera ∧ pushurl ≠ cameraUrl cfg pushBase liveRoomId tmpProjectId v.PushId then
    { v with
      PushUrl := cameraUrl cfg pushBase liveRoomId tmpProjectId v.PushId
      UserType := toUserType (v.UserType : Int)
      State := 1 }
  else v

/-- What a successful `getPush` that returns the endpoint `pushId` leaves of the
endpoint `u` of the returned room, as `u1`: only `State`, `PushUrl` and `UserType` may
differ; the returned endpoint is Busy; for a new project every other Camera endpoint is
started on its address without date segment with its own user type; any other endpoint
is as it was. -/
def GetPushFrame (cfg : ServerCfg) (pushBase liveRoomId tmpProjectId : String) (pushId : Int)
    (newProject : Bool) (u u1 : PushStreamUrl) : Prop :=
  { u1 with State := u.State, PushUrl := u.PushUrl, UserType := u.UserType } = u ∧
  (u.PushId = pushId → u1.State = 1) ∧
  (u.PushId ≠ pushId →
    if newProject = true ∧ u.VideoType = Camera then
      u1.State = 1 ∧ u1.PushUrl = cameraUrl cfg pushBase liveRoomId tmpProjectId u.PushId ∧
        u1.UserType = toUserType (u.UserType : Int)
    else u1 = u)

/-- The room `initLiveRooms` builds from `cameraLives`: not bound, its three endpoints
Free. -/
def cameraRoom : LiveRoom :=
  { LiveRoomId := "R1", ProjectId := -1, Urls :=
      [{ PushId := 1, RtmpBase := "rtmp://h", UserType := 0, VideoType := Camera,
         LimitAudio := false, State := 0, PushUrl := "", SavePath := "/S",
         VideoName := "Camera", SaveUrl := "http://s", RequestUrl := "http://n", Replays := [] },
       { PushId := 2, RtmpBase := "rtmp://h", UserType := 1, VideoType := Camera,
         LimitAudio := false, State := 0, PushUrl := "", SavePath := "/S",
         VideoName := "Camera", SaveUrl := "http://s", RequestUrl := "http://n", Replays := [] },
       { PushId := 3, RtmpBase := "rtmp://h", UserType := 2, VideoType := DesktopShare,
         LimitAudio := false, State := 0, PushUrl := "", SavePath := "/S",
         VideoName := "Desktop", SaveUrl := "http://s", RequestUrl := "http://n",
         Replays := [] }] }

/-! ## Example pools of the list methods -/

/-- A configuration with two rooms `R0` and `R1`, each with one Camera endpoint for
Bidders that records under `/S`. -/
def precededLives : List Live :=
  [{ LiveId := "R0", Urls :=
      [{ PushId := 1, UserType := 0, VideoType := Camera, RtmpBase := "rtmp://h",
         VideoName := "Camera", SavePath := "/S", SaveUrl := "http://s",
         RequestUrl := "http://n" }] },
   { LiveId := "R1", Urls :=
      [{ PushId := 1, UserType := 0, VideoType := Camera, RtmpBase := "rtmp://h",
         VideoName := "Camera", SavePath := "/S", SaveUrl := "http://s",
         RequestUrl := "http://n" }] }]

/-- The pool of `precededLives` after `getPush(13)`, `getPush(12)` and `stopProject(13)`:
the room `R0` is not bound and precedes the room `R1`, bound to project 12. -/
def precededPool : LiveRooms :=
  run staticCfg precededLives
    [Request.getPush scenarioDate "13" "0", Request.getPush scenarioDate "12" "0",
     Request.stopProject "13"]

/-- A configuration with one room `R1` holding two Camera endpoints: the first records
under `/X`, the second under `/S`. -/
def unreadableLives : List Live :=
  [{ LiveId := "R1", Urls :=
      [{ PushId := 1, UserType := 0, VideoType := Camera, RtmpBase := "rtmp://h",
         VideoName := "Camera", SavePath := "/X", SaveUrl := "http://s",
         RequestUrl := "http://n" },
       { PushId := 2, UserType := 1, VideoType := Camera, RtmpBase := "rtmp://h",
         VideoName := "Camera", SavePath := "/S", SaveUrl := "http://s",
         RequestUrl := "http://n" }] }]

/-- The pool of `unreadableLives` after `getPush?projectId=12&userType=0`: the room `R1`
bound to project 12. -/
def unreadablePool : LiveRooms :=
  run staticCfg unreadableLives [Request.getPush scenarioDate "12" "0"]

/-- The endpoint of the room `R1` in `precededPool`: Busy for project 12, its list of
replays empty. -/
def precededEndpoint : PushStreamUrl :=
  { PushId := 1, RtmpBase := "rtmp://h", UserType := 0, VideoType := Camera,
    LimitAudio := false, State := 1, PushUrl := "rtmp://h:1935/live/R1/12/Camera_1",
    SavePath := "/S", VideoName := "Camera", SaveUrl := "http://s", RequestUrl := "http://n",
    Replays := [] }

/-- The room `R0` of `precededPool`: not bound, its endpoint Free. -/
def precededRoom0 : LiveRoom :=
  { LiveRoomId := "R0", ProjectId := -1, Urls :=
      [{ PushId := 1, RtmpBase := "rtmp://h", UserType := 0, VideoType := Camera,
         LimitAudio := false, State := 0, PushUrl := "", SavePath := "/S",
         VideoName := "Camera", SaveUrl := "http://s", RequestUrl := "http://n",
         Replays := [] }] }

/-- The room `R1` of `precededPool`: bound to project 12. -/
def precededRoom1 : LiveRoom :=
  { LiveRoomId := "R1", ProjectId := 12, Urls := [precededEndpoint] }

/-! # Theorems -/

/-! ## Read-only operations: first-match lemmas -/

theorem AllocLiveRoomId_append (pre : LiveRooms) (v : LiveRoom) (post : LiveRooms) (projectId : Int)
    (hpre : ∀ x ∈ pre, x.ProjectId ≠ -1) (hv : v.ProjectId = -1) :
    AllocLiveRoomId (pre ++ v :: post) projectId = (none, v.LiveRoomId) := by
  induction pre with
  | nil => simp [AllocLiveRoomId, hv]
  | cons x xs ih =>
    have hx : x.ProjectId ≠ -1 := hpre x (List.mem_cons_self _ _)
    have hxs : ∀ y ∈ xs, y.ProjectId ≠ -1 := fun y hy => hpre y (List.mem_cons_of_mem _ hy)
    simp [AllocLiveRoomId, hx, ih hxs]

theorem AllocLiveRoomId_error_iff (rooms : LiveRooms) (projectId : Int) :
    AllocLiveRoomId rooms projectId = (some "Live Room Full", "") ↔
      ∀ v ∈ rooms, v.ProjectId ≠ -1 := by
  induction rooms with
  | nil => simp [AllocLiveRoomId]
  | cons x xs ih =>
    by_cases hx : x.ProjectId = -1
    · simp [AllocLiveRoomId, hx]
    · simp [AllocLiveRoomId, hx, ih]

theorem AllocLiveRoomId_fst (rooms : LiveRooms) (projectId : Int) :
    (AllocLiveRoomId rooms projectId).1 = none ∨
      AllocLiveRoomId rooms projectId = (some "Live Room Full", "") := by
  induction rooms with
  | nil => simp [AllocLiveRoomId]
  | cons x xs ih =>
    by_cases hx : x.ProjectId = -1
    · simp [AllocLiveRoomId, hx]
    · simpa [AllocLiveRoomId, hx] using ih

theorem LiveRoomFull_iff (rooms : LiveRooms) :
    LiveRoomFull rooms = true ↔ ∀ v ∈ rooms, v.ProjectId ≠ -1 := by
  induction rooms with
  | nil => simp [LiveRoomFull]
  | cons x xs ih =>
    by_cases hx : x.ProjectId = -1
    · simp [LiveRoomFull, hx]
    · simp [LiveRoomFull, hx, ih]

theorem AllocLiveRoomId_mem (rooms : LiveRooms) (projectId : Int) (liveRoomId : String)
    (h : AllocLiveRoomId rooms projectId = (none, liveRoomId)) :
    ∃ v ∈ rooms, v.ProjectId = -1 ∧ v.LiveRoomId = liveRoomId ∧
      ∃ pre post, rooms = pre ++ v :: post ∧ ∀ x ∈ pre, x.ProjectId ≠ -1 := by
  induction rooms with
  | nil => simp [AllocLiveRoomId] at h
  | cons x xs ih =>
    by_cases hx : x.ProjectId = -1
    · simp only [AllocLiveRoomId, hx, if_true, Prod.mk.injEq, true_and] at h
      exact ⟨x, List.mem_cons_self _ _, hx, h, [], xs, rfl, by simp⟩
    · simp only [AllocLiveRoomId, hx, if_false] at h
      obtain ⟨v, hv, h1, h2, pre, post, h3, h4⟩ := ih h
      refine ⟨v, List.mem_cons_of_mem _ hv, h1, h2, x :: pre, post, by simp [h3], ?_⟩
      intro y hy
      rcases List.mem_cons.1 hy with rfl | hy
      · exact hx
      · exact h4 y hy

/-- C8: `AllocLiveRoomId(projectId)` returns the `LiveRoomId` of the first room in pool
order whose `ProjectId` is -1; it returns the error "Live Room Full" (and nothing else
as an error) exactly when no room has `ProjectId` -1, which is exactly when
`LiveRoomFull()` is true.  The function only reads the pool (its embedding returns no
pool), and a `getPush` that fails at the user-type check after allocating a room
leaves the pool as it was: the room is not bound by the allocation. -/
theorem AllocLiveRoomId_first_free (rooms : LiveRooms) (projectId : Int) :
    (∀ pre v post, rooms = pre ++ v :: post → (∀ x ∈ pre, x.ProjectId ≠ -1) →
        v.ProjectId = -1 → AllocLiveRoomId rooms projectId = (none, v.LiveRoomId)) ∧
    (AllocLiveRoomId rooms projectId = (some "Live Room Full", "") ↔
        ∀ v ∈ rooms, v.ProjectId ≠ -1) ∧
    ((AllocLiveRoomId rooms projectId).1 ≠ none ↔ LiveRoomFull rooms = true) ∧
    ((AllocLiveRoomId rooms projectId).1 ≠ none →
        AllocLiveRoomId rooms projectId = (some "Live Room Full", "")) ∧
    (∀ cfg now tmpProjectId userType liveRoomId,
        PushUserFull rooms liveRoomId (toUserType userType) = true →
        (assignPush cfg now tmpProjectId projectId userType liveRoomId true rooms).rooms = rooms) := by
  refine ⟨?_, AllocLiveRoomId_error_iff rooms projectId, ?_, ?_, ?_⟩
  · intro pre v post h hpre hv
    subst h
    exact AllocLiveRoomId_append pre v post projectId hpre hv
  · rw [LiveRoomFull_iff, ← AllocLiveRoomId_error_iff rooms projectId]
    constructor
    · intro h
      rcases AllocLiveRoomId_fst rooms projectId with h1 | h1
      · exact absurd h1 h
      · exact h1
    · intro h
      simp [h]
  · intro h
    rcases AllocLiveRoomId_fst rooms projectId with h1 | h1
    · exact absurd h1 h
    · exact h1
  · intro cfg now tmpProjectId userType liveRoomId h
    simp [assignPush, h]

theorem PushUserFull_eq_false_iff (rooms : LiveRooms) (liveRoomId : String) (UserType : UserTypeEunm) :
    PushUserFull rooms liveRoomId UserType = false ↔
      ∃ v ∈ rooms, v.LiveRoomId = liveRoomId ∧
        ∃ value ∈ v.Urls, value.State = 0 ∧ value.UserType = UserType := by
  induction rooms with
  | nil => simp [PushUserFull]
  | cons x xs ih =>
    by_cases hx : x.LiveRoomId = liveRoomId
    · cases hany : x.Urls.any (fun value => decide (value.State = 0 ∧ value.UserType = UserType)) with
      | true =>
        simp only [PushUserFull, hx, hany, if_true, true_iff]
        obtain ⟨value, hmem, hv⟩ := List.any_eq_true.1 hany
        exact ⟨x, List.mem_cons_self _ _, hx, value, hmem, of_decide_eq_true hv⟩
      | false =>
        simp only [PushUserFull, hx, hany, if_true, Bool.false_eq_true, if_false]
        rw [ih]
        constructor
        · rintro ⟨v, hv, h1, h2⟩
          exact ⟨v, List.mem_cons_of_mem _ hv, h1, h2⟩
        · rintro ⟨v, hv, h1, value, hmem, h2⟩
          rcases List.mem_cons.1 hv with heq | hv
          · rw [heq] at hmem
            have : x.Urls.any (fun value : PushStreamUrl =>
                decide (value.State = 0 ∧ value.UserType = UserType)) = true :=
              List.any_eq_true.2 ⟨value, hmem, decide_eq_true h2⟩
            rw [hany] at this
            exact absurd this (by decide)
          · exact ⟨v, hv, h1, value, hmem, h2⟩
    · simp only [PushUserFull, hx, if_false]
      rw [ih]
      constructor
      · rintro ⟨v, hv, h1, h2⟩
        exact ⟨v, List.mem_cons_of_mem _ hv, h1, h2⟩
      · rintro ⟨v, hv, h1, h2⟩
        rcases List.mem_cons.1 hv with rfl | hv
        · exact absurd h1 hx
        · exact ⟨v, hv, h1, h2⟩

theorem PushUserFull_eq_true_iff (rooms : LiveRooms) (liveRoomId : String) (UserType : UserTypeEunm) :
    PushUserFull rooms liveRoomId UserType = true ↔
      ∀ v ∈ rooms, v.LiveRoomId = liveRoomId →
        ∀ value ∈ v.Urls, ¬ (value.State = 0 ∧ value.UserType = UserType) := by
  rw [← Bool.not_eq_false, PushUserFull_eq_false_iff]
  constructor
  · intro h v hv h1 value hmem h2
    exact h ⟨v, hv, h1, value, hmem, h2⟩
  · rintro h ⟨v, hv, h1, value, hmem, h2⟩
    exact h v hv h1 value hmem h2

/-- C9: in a pool whose endpoint `State`s are all 0 or 1, `PushUserFull(roomId, userType)`
is true if and only if every endpoint of user type `userType` in (every) room with id
`roomId` is Busy (`State == 1`); in particular it is true when no room has that id and
when no endpoint of the room has that user type. -/
theorem PushUserFull_iff_all_busy (rooms : LiveRooms) (liveRoomId : String) (UserType : UserTypeEunm)
    (hState : ∀ v ∈ rooms, ∀ value ∈ v.Urls, value.State = 0 ∨ value.State = 1) :
    (PushUserFull rooms liveRoomId UserType = true ↔
      ∀ v ∈ rooms, v.LiveRoomId = liveRoomId →
        ∀ value ∈ v.Urls, value.UserType = UserType → value.State = 1) ∧
    ((∀ v ∈ rooms, v.LiveRoomId ≠ liveRoomId) → PushUserFull rooms liveRoomId UserType = true) ∧
    ((∀ v ∈ rooms, v.LiveRoomId = liveRoomId → ∀ value ∈ v.Urls, value.UserType ≠ UserType) →
      PushUserFull rooms liveRoomId UserType = true) := by
  refine ⟨?_, ?_, ?_⟩
  · rw [PushUserFull_eq_true_iff]
    constructor
    · intro h v hv h1 value hmem hut
      rcases hState v hv value hmem with h0 | h0
      · exact absurd ⟨h0, hut⟩ (h v hv h1 value hmem)
      · exact h0
    · intro h v hv h1 value hmem h2
      have := h v hv h1 value hmem h2.2
      rw [h2.1] at this
      exact absurd this (by decide)
  · intro h
    rw [PushUserFull_eq_true_iff]
    intro v hv h1
    exact absurd h1 (h v hv)
  · intro h
    rw [PushUserFull_eq_true_iff]
    intro v hv h1 value hmem h2
    exact h v hv h1 value hmem h2.2

/-- Witness for C9: a room `R1` with a Busy Bidder endpoint and a Free Holder endpoint
is full for Bidders and not for Holders. -/
theorem PushUserFull_iff_all_busy_witness :
    PushUserFull
        [{ LiveRoomId := "R1", ProjectId := 12, Urls :=
            [{ PushId := 1, RtmpBase := "rtmp://h", UserType := 0, VideoType := 0,
               LimitAudio := false, State := 1, PushUrl := "rtmp://h:1935/live/R1/12/Camera_1",
               SavePath := "", VideoName := "", SaveUrl := "", RequestUrl := "", Replays := [] },
             { PushId := 2, RtmpBase := "rtmp://h", UserType := 1, VideoType := 0,
               LimitAudio := false, State := 0, PushUrl := "",
               SavePath := "", VideoName := "", SaveUrl := "", RequestUrl := "", Replays := [] }] }]
        "R1" 0 = true ∧
    PushUserFull
        [{ LiveRoomId := "R1", ProjectId := 12, Urls :=
            [{ PushId := 1, RtmpBase := "rtmp://h", UserType := 0, VideoType := 0,
               LimitAudio := false, State := 1, PushUrl := "rtmp://h:1935/live/R1/12/Camera_1",
               SavePath := "", VideoName := "", SaveUrl := "", RequestUrl := "", Replays := [] },
             { PushId := 2, RtmpBase := "rtmp://h", UserType := 1, VideoType := 0,
               LimitAudio := false, State := 0, PushUrl := "",
               SavePath := "", VideoName := "", SaveUrl := "", RequestUrl := "", Replays := [] }] }]
        "R1" 1 = false := by
  refine ⟨((PushUserFull_iff_all_busy _ "R1" 0 (by decide)).1).2 (by decide), by decide⟩

theorem find?_free_eq_none_iff (urls : List PushStreamUrl) (UserType : UserTypeEunm) :
    urls.find? (fun value => decide (value.State = 0 ∧ value.UserType = UserType)) = none ↔
      urls.any (fun value => decide (value.State = 0 ∧ value.UserType = UserType)) = false := by
  induction urls with
  | nil => simp
  | cons e es ih =>
    cases he : decide (e.State = 0 ∧ e.UserType = UserType) with
    | true => simp only [List.find?, List.any, he, Bool.true_or]; simp
    | false => simp only [List.find?, List.any, he, Bool.false_or]; exact ih

theorem GetPushId_error_iff (rooms : LiveRooms) (liveRoomId : String) (UserType : UserTypeEunm) :
    (GetPushId rooms liveRoomId UserType).1 ≠ none ↔
      PushUserFull rooms liveRoomId UserType = true := by
  induction rooms with
  | nil => simp [GetPushId, PushUserFull]
  | cons x xs ih =>
    by_cases hx : x.LiveRoomId = liveRoomId
    · simp only [GetPushId, PushUserFull, hx, if_true]
      cases hfind : x.Urls.find? (fun value => decide (value.State = 0 ∧ value.UserType = UserType)) with
      | none =>
        rw [(find?_free_eq_none_iff x.Urls UserType).1 hfind]
        simp only [Bool.false_eq_true, if_false]
        exact ih
      | some value =>
        have hany : x.Urls.any (fun value => decide (value.State = 0 ∧ value.UserType = UserType)) = true :=
          List.any_eq_true.2 ⟨value, List.mem_of_find?_eq_some hfind,
            List.find?_some (p := fun value : PushStreamUrl => decide (value.State = 0 ∧ value.UserType = UserType)) hfind⟩
        rw [hany]
        simp
    · simp only [GetPushId, PushUserFull, hx, if_false]
      exact ih

theorem GetPushId_error_eq (rooms : LiveRooms) (liveRoomId : String) (UserType : UserTypeEunm)
    (h : (GetPushId rooms liveRoomId UserType).1 ≠ none) :
    GetPushId rooms liveRoomId UserType = (some "Not Found PushId", -1, "") := by
  induction rooms with
  | nil => simp [GetPushId]
  | cons x xs ih =>
    by_cases hx : x.LiveRoomId = liveRoomId
    · simp only [GetPushId, hx, if_true] at h ⊢
      cases hfind : x.Urls.find? (fun value => decide (value.State = 0 ∧ value.UserType = UserType)) with
      | none =>
        rw [hfind] at h
        exact ih h
      | some value =>
        rw [hfind] at h
        exact absurd rfl h
    · simp only [GetPushId, hx, if_false] at h ⊢
      exact ih h

theorem GetPushId_ok (rooms : LiveRooms) (liveRoomId : String) (UserType : UserTypeEunm)
    (h : (GetPushId rooms liveRoomId UserType).1 = none) :
    ∃ v ∈ rooms, v.LiveRoomId = liveRoomId ∧ ∃ value ∈ v.Urls,
      value.State = 0 ∧ value.UserType = UserType ∧
      GetPushId rooms liveRoomId UserType = (none, value.PushId, value.RtmpBase) := by
  induction rooms with
  | nil => simp [GetPushId] at h
  | cons x xs ih =>
    by_cases hx : x.LiveRoomId = liveRoomId
    · simp only [GetPushId, hx, if_true] at h ⊢
      cases hfind : x.Urls.find? (fun value => decide (value.State = 0 ∧ value.UserType = UserType)) with
      | none =>
        rw [hfind] at h
        obtain ⟨v, hv, h1, h2⟩ := ih h
        exact ⟨v, List.mem_cons_of_mem _ hv, h1, h2⟩
      | some value =>
        have h2 := of_decide_eq_true
          (List.find?_some (p := fun value : PushStreamUrl => decide (value.State = 0 ∧ value.UserType = UserType)) hfind)
        exact ⟨x, List.mem_cons_self _ _, hx, value, List.mem_of_find?_eq_some hfind, h2.1, h2.2, rfl⟩
    · simp only [GetPushId, hx, if_false] at h ⊢
      obtain ⟨v, hv, h1, h2⟩ := ih h
      exact ⟨v, List.mem_cons_of_mem _ hv, h1, h2⟩

theorem find?_append_first {α : Type} (p : α → Bool) (pre : List α) (a : α) (post : List α)
    (hpre : ∀ x ∈ pre, p x = false) (ha : p a = true) :
    (pre ++ a :: post).find? p = some a := by
  induction pre with
  | nil => simp [List.find?, ha]
  | cons x xs ih =>
    have hx : p x = false := hpre x (List.mem_cons_self _ _)
    simp only [List.cons_append, List.find?, hx]
    exact ih fun y hy => hpre y (List.mem_cons_of_mem _ hy)

theorem GetPushId_append (pre : LiveRooms) (v : LiveRoom) (post : LiveRooms)
    (upre : List PushStreamUrl) (value : PushStreamUrl) (upost : List PushStreamUrl)
    (UserType : UserTypeEunm)
    (hUrls : v.Urls = upre ++ value :: upost)
    (hpre : ∀ x ∈ pre, x.LiveRoomId = v.LiveRoomId →
      ∀ e ∈ x.Urls, ¬ (e.State = 0 ∧ e.UserType = UserType))
    (hupre : ∀ e ∈ upre, ¬ (e.State = 0 ∧ e.UserType = UserType))
    (hState : value.State = 0) (hType : value.UserType = UserType) :
    GetPushId (pre ++ v :: post) v.LiveRoomId UserType = (none, value.PushId, value.RtmpBase) := by
  induction pre with
  | nil =>
    have hfind : v.Urls.find? (fun value => decide (value.State = 0 ∧ value.UserType = UserType))
        = some value := by
      rw [hUrls]
      apply find?_append_first
      · intro e he
        exact decide_eq_false (hupre e he)
      · exact decide_eq_true ⟨hState, hType⟩
    simp only [List.nil_append, GetPushId, if_true]
    rw [hfind]
  | cons x xs ih =>
    have ih1 := ih fun y hy => hpre y (List.mem_cons_of_mem _ hy)
    by_cases hx : x.LiveRoomId = v.LiveRoomId
    · have hnone : x.Urls.find? (fun value => decide (value.State = 0 ∧ value.UserType = UserType))
          = none := by
        rw [List.find?_eq_none]
        intro e he
        rw [decide_eq_true_eq]
        exact hpre x (List.mem_cons_self _ _) hx e he
      simp only [List.cons_append, GetPushId, hx, if_true]
      rw [hnone]
      exact ih1
    · simp only [List.cons_append, GetPushId, hx, if_false]
      exact ih1

/-- C10: `GetPushId(roomId, userType)` returns the `PushId` and `RtmpBase` of the first
endpoint, in configured order, of the room `roomId` with `State == 0` and
`UserType == userType`; it returns an error, with `PushId` -1 and an empty base, exactly
when `PushUserFull(roomId, userType)` is true; an endpoint it returns is Free, of the
requested user type and in a room with the requested id.  The function only reads the
pool (its embedding returns no pool). -/
theorem GetPushId_first_free (rooms : LiveRooms) (liveRoomId : String) (UserType : UserTypeEunm) :
    (∀ pre v post upre value upost, rooms = pre ++ v :: post → v.LiveRoomId = liveRoomId →
        v.Urls = upre ++ value :: upost →
        (∀ x ∈ pre, x.LiveRoomId = liveRoomId →
          ∀ e ∈ x.Urls, ¬ (e.State = 0 ∧ e.UserType = UserType)) →
        (∀ e ∈ upre, ¬ (e.State = 0 ∧ e.UserType = UserType)) →
        value.State = 0 → value.UserType = UserType →
        GetPushId rooms liveRoomId UserType = (none, value.PushId, value.RtmpBase)) ∧
    ((GetPushId rooms liveRoomId UserType).1 ≠ none ↔
        PushUserFull rooms liveRoomId UserType = true) ∧
    ((GetPushId rooms liveRoomId UserType).1 ≠ none →
        GetPushId rooms liveRoomId UserType = (some "Not Found PushId", -1, "")) ∧
    ((GetPushId rooms liveRoomId UserType).1 = none →
        ∃ v ∈ rooms, v.LiveRoomId = liveRoomId ∧ ∃ value ∈ v.Urls,
          value.State = 0 ∧ value.UserType = UserType ∧
          GetPushId rooms liveRoomId UserType = (none, value.PushId, value.RtmpBase)) := by
  refine ⟨?_, GetPushId_error_iff rooms liveRoomId UserType,
    GetPushId_error_eq rooms liveRoomId UserType, GetPushId_ok rooms liveRoomId UserType⟩
  intro pre v post upre value upost h hid hUrls hpre hupre hState hType
  subst h
  subst hid
  exact GetPushId_append pre v post upre value upost UserType hUrls hpre hupre hState hType

/-! ## `handleStopProject` -/

theorem CheckProjectExits_iff (rooms : LiveRooms) (projectId : Int) :
    CheckProjectExits rooms projectId = true ↔ ∃ v ∈ rooms, v.ProjectId = projectId := by
  unfold CheckProjectExits
  rw [List.any_eq_true]
  constructor
  · rintro ⟨v, hv, h⟩
    exact ⟨v, hv, of_decide_eq_true h⟩
  · rintro ⟨v, hv, h⟩
    exact ⟨v, hv, decide_eq_true h⟩

theorem GetLiveRoom_append (pre : LiveRooms) (v : LiveRoom) (post : LiveRooms) (projectId : Int)
    (hpre : ∀ x ∈ pre, x.ProjectId ≠ projectId) (hv : v.ProjectId = projectId) :
    GetLiveRoom (pre ++ v :: post) projectId = some v := by
  unfold GetLiveRoom
  apply find?_append_first
  · intro x hx
    exact decide_eq_false (hpre x hx)
  · exact decide_eq_true hv

theorem stopRoom_append (pre : LiveRooms) (v : LiveRoom) (post : LiveRooms) (projectId : Int)
    (hpre : ∀ x ∈ pre, x.ProjectId ≠ projectId) (hv : v.ProjectId = projectId) :
    stopRoom (pre ++ v :: post) projectId =
      pre ++ { v with ProjectId := -1, Urls := stopUrls v.Urls } :: post := by
  induction pre with
  | nil => simp [stopRoom, hv]
  | cons x xs ih =>
    have hx : x.ProjectId ≠ projectId := hpre x (List.mem_cons_self _ _)
    simp only [List.cons_append, stopRoom, hx, if_false]
    exact congrArg (fun l => x :: l) (ih fun y hy => hpre y (List.mem_cons_of_mem _ hy))

theorem stopRoom_of_not_mem (rooms : LiveRooms) (projectId : Int)
    (h : ∀ x ∈ rooms, x.ProjectId ≠ projectId) : stopRoom rooms projectId = rooms := by
  induction rooms with
  | nil => rfl
  | cons x xs ih =>
    have hx : x.ProjectId ≠ projectId := h x (List.mem_cons_self _ _)
    simp only [stopRoom, hx, if_false]
    rw [ih fun y hy => h y (List.mem_cons_of_mem _ hy)]

theorem exists_first_bound (rooms : LiveRooms) (projectId : Int)
    (h : ∃ v ∈ rooms, v.ProjectId = projectId) :
    ∃ pre v post, rooms = pre ++ v :: post ∧ (∀ x ∈ pre, x.ProjectId ≠ projectId) ∧
      v.ProjectId = projectId := by
  induction rooms with
  | nil => simp at h
  | cons x xs ih =>
    by_cases hx : x.ProjectId = projectId
    · exact ⟨[], x, xs, rfl, by simp, hx⟩
    · obtain ⟨v, hv, hp⟩ := h
      rcases List.mem_cons.1 hv with heq | hv
      · rw [heq] at hp
        exact absurd hp hx
      · obtain ⟨pre, w, post, h1, h2, h3⟩ := ih ⟨v, hv, hp⟩
        refine ⟨x :: pre, w, post, by rw [h1]; rfl, ?_, h3⟩
        intro y hy
        rcases List.mem_cons.1 hy with heq | hy
        · rw [heq]
          exact hx
        · exact h2 y hy

theorem stopUrls_forall₂ (urls : List PushStreamUrl) :
    List.Forall₂
      (fun e e1 =>
        (e.State = 1 → e1 = { e with LimitAudio := false, State := 0, PushUrl := "" }) ∧
        (e.State ≠ 1 → e1 = e))
      urls (stopUrls urls) := by
  induction urls with
  | nil => exact List.Forall₂.nil
  | cons e es ih =>
    refine List.Forall₂.cons ?_ ih
    by_cases he : e.State = 1
    · simp [he]
    · simp [he]

theorem handleStopProject_bound (tmpProjectId : String) (projectId : Int)
    (pre : LiveRooms) (v : LiveRoom) (post : LiveRooms)
    (hAtoi : Atoi tmpProjectId = some projectId)
    (hpre : ∀ x ∈ pre, x.ProjectId ≠ projectId) (hv : v.ProjectId = projectId) :
    handleStopProject tmpProjectId (pre ++ v :: post) =
      ⟨⟨200, Body.message 0 "Stop Project Success"⟩,
        pre ++ { v with ProjectId := -1, Urls := stopUrls v.Urls } :: post, stopHooks v⟩ := by
  have hex : CheckProjectExits (pre ++ v :: post) projectId = true :=
    (CheckProjectExits_iff _ _).2 ⟨v, by simp, hv⟩
  simp only [handleStopProject, hAtoi, hex, Bool.not_true, Bool.false_eq_true, if_false,
    GetLiveRoom_append pre v post projectId hpre hv, stopRoom_append pre v post projectId hpre hv]

theorem handleStopProject_unbound (tmpProjectId : String) (projectId : Int) (rooms : LiveRooms)
    (hAtoi : Atoi tmpProjectId = some projectId)
    (h : ∀ x ∈ rooms, x.ProjectId ≠ projectId) :
    handleStopProject tmpProjectId rooms =
      ⟨reply601 "Stop Project Failed Not Found ProjectId", rooms, []⟩ := by
  have hex : CheckProjectExits rooms projectId = false := by
    rw [Bool.eq_false_iff, Ne, CheckProjectExits_iff]
    rintro ⟨x, hx, hp⟩
    exact h x hx hp
  simp only [handleStopProject, hAtoi, hex, Bool.not_false, if_true]

/-- C6: when some room is bound to `projectId`, `handleStopProject(projectId)` answers
200 "Stop Project Success" and leaves the pool equal to the old one except for the
first room that was bound to `projectId`: that room keeps its id, has `ProjectId == -1`,
and its endpoints are, position by position, the old ones, where each endpoint that was
Busy has `State == 0`, `PushUrl == ""` and `LimitAudio == false` (its other fields
kept) and each other endpoint is unchanged; the rooms before and after it are unchanged. -/
theorem handleStopProject_post (tmpProjectId : String) (projectId : Int)
    (pre : LiveRooms) (v : LiveRoom) (post : LiveRooms)
    (hAtoi : Atoi tmpProjectId = some projectId)
    (hpre : ∀ x ∈ pre, x.ProjectId ≠ projectId) (hv : v.ProjectId = projectId) :
    (handleStopProject tmpProjectId (pre ++ v :: post)).reply =
        ⟨200, Body.message 0 "Stop Project Success"⟩ ∧
    ∃ urls, (handleStopProject tmpProjectId (pre ++ v :: post)).rooms =
        pre ++ { LiveRoomId := v.LiveRoomId, ProjectId := -1, Urls := urls } :: post ∧
      List.Forall₂
        (fun e e1 =>
          (e.State = 1 → e1 = { e with LimitAudio := false, State := 0, PushUrl := "" }) ∧
          (e.State ≠ 1 → e1 = e))
        v.Urls urls := by
  rw [handleStopProject_bound tmpProjectId projectId pre v post hAtoi hpre hv]
  exact ⟨rfl, stopUrls v.Urls, rfl, stopUrls_forall₂ v.Urls⟩

/-- Witness for C6: stopping project 12 in a pool whose second room is bound to 12. -/
theorem handleStopProject_post_witness :
    (handleStopProject "12"
        ([{ LiveRoomId := "R1", ProjectId := -1, Urls := [] }] ++
          { LiveRoomId := "R2", ProjectId := 12, Urls :=
            [{ PushId := 1, RtmpBase := "rtmp://h", UserType := 0, VideoType := 0,
               LimitAudio := true, State := 1, PushUrl := "rtmp://h:1935/live/R2/12/Camera_1",
               SavePath := "", VideoName := "", SaveUrl := "", RequestUrl := "",
               Replays := [] }] } :: [])).reply =
        ⟨200, Body.message 0 "Stop Project Success"⟩ ∧
    ∃ urls, (handleStopProject "12"
        ([{ LiveRoomId := "R1", ProjectId := -1, Urls := [] }] ++
          { LiveRoomId := "R2", ProjectId := 12, Urls :=
            [{ PushId := 1, RtmpBase := "rtmp://h", UserType := 0, VideoType := 0,
               LimitAudio := true, State := 1, PushUrl := "rtmp://h:1935/live/R2/12/Camera_1",
               SavePath := "", VideoName := "", SaveUrl := "", RequestUrl := "",
               Replays := [] }] } :: [])).rooms =
        [{ LiveRoomId := "R1", ProjectId := -1, Urls := [] }] ++
          { LiveRoomId := "R2", ProjectId := -1, Urls := urls } :: [] ∧
      List.Forall₂
        (fun e e1 =>
          (e.State = 1 → e1 = { e with LimitAudio := false, State := 0, PushUrl := "" }) ∧
          (e.State ≠ 1 → e1 = e))
        [{ PushId := 1, RtmpBase := "rtmp://h", UserType := 0, VideoType := 0,
           LimitAudio := true, State := 1, PushUrl := "rtmp://h:1935/live/R2/12/Camera_1",
           SavePath := "", VideoName := "", SaveUrl := "", RequestUrl := "",
           Replays := [] }] urls :=
  handleStopProject_post "12" 12 _ _ _ (by decide) (by decide) (by decide)

theorem stopUrls_idem (urls : List PushStreamUrl) : stopUrls (stopUrls urls) = stopUrls urls := by
  induction urls with
  | nil => rfl
  | cons e es ih =>
    have ih1 : List.map (fun v : PushStreamUrl =>
        if v.State = 1 then { v with LimitAudio := false, State := 0, PushUrl := "" } else v)
        (stopUrls es) = stopUrls es := ih
    by_cases he : e.State = 1
    · simp [stopUrls, he] at ih1 ⊢
      exact ih1
    · simp [stopUrls, he] at ih1 ⊢
      exact ih1

theorem handleStopProject_fail_or_ok (tmpProjectId : String) (rooms : LiveRooms) :
    ((handleStopProject tmpProjectId rooms).reply.status = 601 ∧
      (handleStopProject tmpProjectId rooms).rooms = rooms ∧
      ((Atoi tmpProjectId = none ∧ (handleStopProject tmpProjectId rooms).reply =
          reply601 "projectId Param error, please check them") ∨
       (∃ p, Atoi tmpProjectId = some p ∧ (∀ x ∈ rooms, x.ProjectId ≠ p) ∧
          (handleStopProject tmpProjectId rooms).reply =
            reply601 "Stop Project Failed Not Found ProjectId"))) ∨
    (∃ p pre v post, Atoi tmpProjectId = some p ∧ rooms = pre ++ v :: post ∧
      (∀ x ∈ pre, x.ProjectId ≠ p) ∧ v.ProjectId = p ∧
      handleStopProject tmpProjectId rooms =
        ⟨⟨200, Body.message 0 "Stop Project Success"⟩,
          pre ++ { v with ProjectId := -1, Urls := stopUrls v.Urls } :: post, stopHooks v⟩) := by
  cases hA : Atoi tmpProjectId with
  | none =>
    left
    simp [handleStopProject, hA, reply601]
  | some p =>
    by_cases hex : ∃ v ∈ rooms, v.ProjectId = p
    · right
      obtain ⟨pre, v, post, h1, h2, h3⟩ := exists_first_bound rooms p hex
      refine ⟨p, pre, v, post, rfl, h1, h2, h3, ?_⟩
      rw [h1]
      exact handleStopProject_bound tmpProjectId p pre v post hA h2 h3
    · left
      have hno : ∀ x ∈ rooms, x.ProjectId ≠ p := fun x hx hp => hex ⟨x, hx, hp⟩
      rw [handleStopProject_unbound tmpProjectId p rooms hA hno]
      exact ⟨rfl, rfl, Or.inr ⟨p, rfl, hno, rfl⟩⟩

theorem handleStopProject_of_fail (tmpProjectId : String) (rooms : LiveRooms)
    (h : (handleStopProject tmpProjectId rooms).reply.status = 601) :
    (handleStopProject tmpProjectId rooms).rooms = rooms := by
  rcases handleStopProject_fail_or_ok tmpProjectId rooms with h1 | ⟨p, pre, v, post, _, _, _, _, h5⟩
  · exact h1.2.1
  · rw [h5] at h
    simp at h

/-- C5 (as amended): two `stopProject(projectId)` calls in succession.  If the first
fails (601) it leaves the pool unchanged and the second gives the same reply.  If the
first succeeds and `projectId` is -1, the second gives the same reply and leaves the
same pool.  If the first succeeds, `projectId` is not -1 and at most one room is bound
to `projectId`, the second call answers 601 "Stop Project Failed Not Found ProjectId"
and leaves the pool as the first call left it. -/
theorem handleStopProject_twice (tmpProjectId : String) (rooms : LiveRooms) :
    ((handleStopProject tmpProjectId rooms).reply.status = 601 →
      (handleStopProject tmpProjectId rooms).rooms = rooms ∧
      handleStopProject tmpProjectId (handleStopProject tmpProjectId rooms).rooms =
        handleStopProject tmpProjectId rooms) ∧
    ((handleStopProject tmpProjectId rooms).reply.status = 200 →
      Atoi tmpProjectId = some (-1) →
      (handleStopProject tmpProjectId (handleStopProject tmpProjectId rooms).rooms).reply =
        (handleStopProject tmpProjectId rooms).reply ∧
      (handleStopProject tmpProjectId (handleStopProject tmpProjectId rooms).rooms).rooms =
        (handleStopProject tmpProjectId rooms).rooms) ∧
    (∀ projectId, (handleStopProject tmpProjectId rooms).reply.status = 200 →
      Atoi tmpProjectId = some projectId → projectId ≠ -1 →
      (rooms.filter fun v => decide (v.ProjectId = projectId)).length ≤ 1 →
      (handleStopProject tmpProjectId (handleStopProject tmpProjectId rooms).rooms).reply =
        reply601 "Stop Project Failed Not Found ProjectId" ∧
      (handleStopProject tmpProjectId (handleStopProject tmpProjectId rooms).rooms).rooms =
        (handleStopProject tmpProjectId rooms).rooms) := by
  refine ⟨?_, ?_, ?_⟩
  · intro h
    have h1 := handleStopProject_of_fail tmpProjectId rooms h
    exact ⟨h1, by rw [h1]⟩
  · intro h hA
    rcases handleStopProject_fail_or_ok tmpProjectId rooms with h1 | ⟨p, pre, v, post, hp, hr, hpre, hv, ho⟩
    · rw [h1.1] at h
      exact absurd h (by decide)
    · rw [hA] at hp
      have hp1 : p = -1 := (Option.some.inj hp).symm
      subst hp1
      rw [ho]
      have h2 := handleStopProject_bound tmpProjectId (-1) pre
        { v with ProjectId := -1, Urls := stopUrls v.Urls } post hA hpre rfl
      simp only at h2 ⊢
      rw [h2]
      simp [stopUrls_idem]
  · intro projectId h hA hne hcount
    rcases handleStopProject_fail_or_ok tmpProjectId rooms with h1 | ⟨p, pre, v, post, hp, hr, hpre, hv, ho⟩
    · rw [h1.1] at h
      exact absurd h (by decide)
    · rw [hA] at hp
      have hp1 : p = projectId := (Option.some.inj hp).symm
      subst hp1
      rw [ho]
      have hpost : ∀ x ∈ post, x.ProjectId ≠ p := by
        intro x hx hxp
        rw [hr, List.filter_append, List.length_append, List.filter_cons] at hcount
        simp only [hv, decide_True, if_true, List.length_cons] at hcount
        have hmem : x ∈ post.filter fun v => decide (v.ProjectId = p) :=
          List.mem_filter.2 ⟨hx, decide_eq_true hxp⟩
        have hpos := List.length_pos_of_mem hmem
        omega
      have hno : ∀ x ∈ pre ++ { v with ProjectId := -1, Urls := stopUrls v.Urls } :: post,
          x.ProjectId ≠ p := by
        intro x hx
        rcases List.mem_append.1 hx with hx | hx
        · exact hpre x hx
        · rcases List.mem_cons.1 hx with heq | hx
          · rw [heq]
            exact fun h => hne h.symm
          · exact hpost x hx
      have h2 := handleStopProject_unbound tmpProjectId p _ hA hno
      simp only at h2 ⊢
      rw [h2]
      exact ⟨rfl, rfl⟩

/-! ## `handleGetPush`: the reply -/

theorem assignPush_reply_ok (cfg : ServerCfg) (now : Date) (tmpProjectId : String)
    (projectId userType : Int) (liveRoomId : String) (newProject : Bool) (rooms : LiveRooms)
    (r : PushResponse)
    (h : (assignPush cfg now tmpProjectId projectId userType liveRoomId newProject rooms).reply =
      ⟨200, Body.push r⟩) :
    ∃ pushBase, GetPushId rooms liveRoomId (toUserType userType) = (none, r.PushId, pushBase) ∧
      r.LiveRoomId = liveRoomId ∧ r.ProjectId = projectId ∧ r.UserType = userType ∧
      r.PushUrl =
        (if !cfg.StaticAddr then
          pushBase ++ ":" ++ Itoa cfg.Listen ++ "/live/" ++ liveRoomId ++ "/" ++ formatDate now ++
            "/" ++ tmpProjectId ++ "/Camera_" ++ Itoa r.PushId
        else
          pushBase ++ ":" ++ Itoa cfg.Listen ++ "/live/" ++ liveRoomId ++ "/" ++ tmpProjectId ++
            "/Camera_" ++ Itoa r.PushId) := by
  unfold assignPush at h
  cases hfull : PushUserFull rooms liveRoomId (toUserType userType) with
  | true =>
    rw [hfull] at h
    simp [reply601] at h
  | false =>
    rw [hfull] at h
    rcases hg : GetPushId rooms liveRoomId (toUserType userType) with ⟨e, pushId, pushBase⟩
    rw [hg] at h
    cases e with
    | some e =>
      simp [reply601] at h
    | none =>
      cases hs : cfg.StaticAddr with
      | false =>
        simp only [hs, Bool.not_false, Bool.false_eq_true, if_false, if_true] at h ⊢
        split at h
        · simp [reply601] at h
        · simp only [Reply.mk.injEq, Body.push.injEq, true_and] at h
          subst h
          exact ⟨pushBase, rfl, rfl, rfl, rfl, rfl⟩
      | true =>
        simp only [hs, Bool.not_true, Bool.false_eq_true, if_false, if_true] at h ⊢
        split at h
        · simp [reply601] at h
        · simp only [Reply.mk.injEq, Body.push.injEq, true_and] at h
          subst h
          exact ⟨pushBase, rfl, rfl, rfl, rfl, rfl⟩

theorem handleGetPush_reply_ok (cfg : ServerCfg) (now : Date) (tmpProjectId tmpUserType : String)
    (rooms : LiveRooms) (r : PushResponse)
    (h : (handleGetPush cfg now tmpProjectId tmpUserType rooms).reply = ⟨200, Body.push r⟩) :
    ∃ projectId userType newProject,
      Atoi tmpProjectId = some projectId ∧ Atoi tmpUserType = some userType ∧
      handleGetPush cfg now tmpProjectId tmpUserType rooms =
        assignPush cfg now tmpProjectId projectId userType r.LiveRoomId newProject rooms ∧
      (assignPush cfg now tmpProjectId projectId userType r.LiveRoomId newProject rooms).reply =
        ⟨200, Body.push r⟩ := by
  unfold handleGetPush at h ⊢
  cases hA : Atoi tmpProjectId with
  | none =>
    rw [hA] at h
    simp [reply601] at h
  | some projectId =>
    cases hU : Atoi tmpUserType with
    | none =>
      rw [hA, hU] at h
      simp [reply601] at h
    | some userType =>
      rw [hA, hU] at h
      simp only at h ⊢
      cases hex : CheckProjectExits rooms projectId with
      | true =>
        simp only [hex, if_true] at h ⊢
        cases hroom : GetLiveRoom rooms projectId with
        | none =>
          rw [hroom] at h
          simp [reply601] at h
        | some liveRoom =>
          rw [hroom] at h
          simp only at h ⊢
          obtain ⟨pushBase, _, hid, _⟩ :=
            assignPush_reply_ok cfg now tmpProjectId projectId userType _ false rooms r h
          refine ⟨projectId, userType, false, rfl, rfl, ?_, ?_⟩
          · rw [hid]
          · rw [hid]
            exact h
      | false =>
        simp only [hex, Bool.false_eq_true, if_false] at h ⊢
        cases hfull : LiveRoomFull rooms with
        | true =>
          simp only [hfull, if_true] at h
          simp [reply601] at h
        | false =>
          simp only [hfull, Bool.false_eq_true, if_false] at h ⊢
          rcases halloc : AllocLiveRoomId rooms projectId with ⟨e, liveRoomId⟩
          rw [halloc] at h
          cases e with
          | some e => simp [reply601] at h
          | none =>
            simp only at h ⊢
            obtain ⟨pushBase, _, hid, _⟩ :=
              assignPush_reply_ok cfg now tmpProjectId projectId userType _ true rooms r h
            refine ⟨projectId, userType, true, rfl, rfl, ?_, ?_⟩
            · rw [hid]
            · rw [hid]
              exact h

/-- C7 (as amended): for every successful `getPush`, the returned `pushUrl` equals
`BaseUrl + ":" + ListenPort + "/live/" + RoomId + "/" + (date + "/" iff StaticAddr == false)
+ P + "/Camera_" + PushId`, where `P` is the `projectId` query parameter as it was
received (a string that `strconv.Atoi` parses to the `projectId` field of the response),
`PushId` is the decimal rendering of the `pushId` field, `RoomId` the `liveRoomId` field,
and `BaseUrl` and `pushId` are what `GetPushId` returned for that room and the requested
user type: the `RtmpBase` and `PushId` of a Free endpoint of that type. -/
theorem handleGetPush_pushUrl (cfg : ServerCfg) (now : Date) (tmpProjectId tmpUserType : String)
    (rooms : LiveRooms) (r : PushResponse)
    (h : (handleGetPush cfg now tmpProjectId tmpUserType rooms).reply = ⟨200, Body.push r⟩) :
    Atoi tmpProjectId = some r.ProjectId ∧ Atoi tmpUserType = some r.UserType ∧
    ∃ pushBase,
      GetPushId rooms r.LiveRoomId (toUserType r.UserType) = (none, r.PushId, pushBase) ∧
      (∃ v ∈ rooms, v.LiveRoomId = r.LiveRoomId ∧ ∃ value ∈ v.Urls, value.State = 0 ∧
        value.UserType = toUserType r.UserType ∧ value.PushId = r.PushId ∧
        value.RtmpBase = pushBase) ∧
      r.PushUrl = pushBase ++ ":" ++ Itoa cfg.Listen ++ "/live/" ++ r.LiveRoomId ++ "/" ++
        (if cfg.StaticAddr = false then formatDate now ++ "/" else "") ++ tmpProjectId ++
        "/Camera_" ++ Itoa r.PushId := by
  obtain ⟨projectId, userType, newProject, hA, hU, _, h2⟩ :=
    handleGetPush_reply_ok cfg now tmpProjectId tmpUserType rooms r h
  obtain ⟨pushBase, hg, _, hp, hu, hurl⟩ :=
    assignPush_reply_ok cfg now tmpProjectId projectId userType _ newProject rooms r h2
  subst hp
  subst hu
  refine ⟨hA, hU, pushBase, hg, ?_, ?_⟩
  · obtain ⟨v, hv, hid, value, hmem, hs, ht, heq⟩ :=
      GetPushId_ok rooms r.LiveRoomId (toUserType r.UserType) (by rw [hg])
    rw [hg] at heq
    simp only [Prod.mk.injEq, true_and] at heq
    exact ⟨v, hv, hid, value, hmem, hs, ht, heq.1.symm, heq.2.symm⟩
  · rw [hurl]
    cases cfg.StaticAddr <;> simp [String.append_assoc]

/-- Witness for C7: the request of scenario 1. -/
theorem handleGetPush_pushUrl_witness :
    Atoi "12" = some 12 ∧ Atoi "0" = some 0 ∧
    ∃ pushBase,
      GetPushId (initLiveRooms scenarioLives) "R1" (toUserType 0) = (none, 1, pushBase) ∧
      (∃ v ∈ initLiveRooms scenarioLives, v.LiveRoomId = "R1" ∧ ∃ value ∈ v.Urls,
        value.State = 0 ∧ value.UserType = toUserType 0 ∧ value.PushId = 1 ∧
        value.RtmpBase = pushBase) ∧
      "rtmp://h:1935/live/R1/20240101/12/Camera_1" =
        pushBase ++ ":" ++ Itoa scenarioCfg.Listen ++ "/live/" ++ "R1" ++ "/" ++
        (if scenarioCfg.StaticAddr = false then formatDate scenarioDate ++ "/" else "") ++ "12" ++
        "/Camera_" ++ Itoa 1 :=
  handleGetPush_pushUrl scenarioCfg scenarioDate "12" "0" (initLiveRooms scenarioLives)
    { LiveRoomId := "R1", PushId := 1, PushUrl := "rtmp://h:1935/live/R1/20240101/12/Camera_1",
      UserType := 0, ProjectId := 12 } (by decide)

/-- C7, counterexample: the request `getPush?projectId=012&userType=0` succeeds with the
`projectId` field 12, and the returned `pushUrl` holds `012`, not the decimal rendering
`12` of that field. -/
theorem handleGetPush_pushUrl_counterexample :
    (handleGetPush staticCfg scenarioDate "012" "0" (initLiveRooms scenarioLives)).reply =
      ⟨200, Body.push
        { LiveRoomId := "R1", PushId := 1, PushUrl := "rtmp://h:1935/live/R1/012/Camera_1",
          UserType := 0, ProjectId := 12 }⟩ ∧
    "rtmp://h:1935/live/R1/012/Camera_1" ≠
      "rtmp://h" ++ ":" ++ Itoa staticCfg.Listen ++ "/live/" ++ "R1" ++ "/" ++ Itoa 12 ++
        "/Camera_" ++ Itoa 1 := by
  decide

/-- Witness for C5: stopping project 12 twice after the `getPush` of scenario 1; the
second call answers 601 and leaves the pool as the first left it. -/
theorem handleStopProject_twice_witness :
    (handleStopProject "12" (handleStopProject "12"
        (run scenarioCfg scenarioLives [Request.getPush scenarioDate "12" "0"])).rooms).reply =
      reply601 "Stop Project Failed Not Found ProjectId" ∧
    (handleStopProject "12" (handleStopProject "12"
        (run scenarioCfg scenarioLives [Request.getPush scenarioDate "12" "0"])).rooms).rooms =
      (handleStopProject "12"
        (run scenarioCfg scenarioLives [Request.getPush scenarioDate "12" "0"])).rooms :=
  (handleStopProject_twice "12"
    (run scenarioCfg scenarioLives [Request.getPush scenarioDate "12" "0"])).2.2 12
    (by decide) (by decide) (by decide) (by decide)

/-- C5, counterexample: after the `getPush` of scenario 1, the first `stopProject(12)`
answers 200 "Stop Project Success" and the second answers 601; and in the pool reached
with two rooms of the same id, both bound to project 12, the second `stopProject(12)`
changes the pool the first one left. -/
theorem handleStopProject_twice_counterexample :
    ((handleStopProject "12"
        (run scenarioCfg scenarioLives [Request.getPush scenarioDate "12" "0"])).reply =
      ⟨200, Body.message 0 "Stop Project Success"⟩ ∧
     (handleStopProject "12" (handleStopProject "12"
        (run scenarioCfg scenarioLives [Request.getPush scenarioDate "12" "0"])).rooms).reply =
      ⟨601, Body.message 601 "Stop Project Failed Not Found ProjectId"⟩) ∧
    (handleStopProject "12" (handleStopProject "12"
        (run staticCfg sameIdLives [Request.getPush scenarioDate "12" "1"])).rooms).rooms ≠
      (handleStopProject "12"
        (run staticCfg sameIdLives [Request.getPush scenarioDate "12" "1"])).rooms := by
  decide

/-- C2, the code at the failing input: in scenario 1 (one room, a Camera endpoint,
`StaticAddr == false`), `getPush?projectId=12&userType=0` answers 200 with the `pushUrl`
that holds the date segment, the endpoint is left Busy on the address without date
segment, and `FindPushStream` on the returned `pushUrl` fails. -/
theorem handleGetPush_returned_url_rejected :
    (handleGetPush scenarioCfg scenarioDate "12" "0" (initLiveRooms scenarioLives)).reply =
      ⟨200, Body.push
        { LiveRoomId := "R1", PushId := 1,
          PushUrl := "rtmp://h:1935/live/R1/20240101/12/Camera_1",
          UserType := 0, ProjectId := 12 }⟩ ∧
    (allUrls (handleGetPush scenarioCfg scenarioDate "12" "0"
        (initLiveRooms scenarioLives)).rooms).map (fun v => (v.State, v.PushUrl)) =
      [(1, "rtmp://h:1935/live/R1/12/Camera_1")] ∧
    FindPushStream
      (handleGetPush scenarioCfg scenarioDate "12" "0" (initLiveRooms scenarioLives)).rooms
      "rtmp://h:1935/live/R1/20240101/12/Camera_1" = none := by
  decide

/-! ## `handleGetPush`: the pool it leaves -/

theorem SetStartState_cons (value : LiveRoom) (rest : LiveRooms) (projectId : Int)
    (liveRoomId : String) (pushId : Int) (url : String) (user_type : Int) :
    SetStartState (value :: rest) projectId liveRoomId pushId url user_type =
      if value.LiveRoomId = liveRoomId then
        match setUrls pushId url user_type value.Urls with
        | some urls => (none, { value with ProjectId := projectId, Urls := urls } :: rest)
        | none =>
          ((SetStartState rest projectId liveRoomId pushId url user_type).1,
            { value with ProjectId := projectId } ::
              (SetStartState rest projectId liveRoomId pushId url user_type).2)
      else
        ((SetStartState rest projectId liveRoomId pushId url user_type).1,
          value :: (SetStartState rest projectId liveRoomId pushId url user_type).2) := by
  by_cases hid : value.LiveRoomId = liveRoomId
  · cases hset : setUrls pushId url user_type value.Urls with
    | none => simp [SetStartState, hid, hset]
    | some urls => simp [SetStartState, hid, hset]
  · simp [SetStartState, hid]

/-- The pool a `getPush` leaves is the old pool, or comes from it by `SetStartState`
calls for one project and one room id: a first call on an endpoint found by `GetPushId`
with the returned address, then calls of the new-project loop on addresses without date
segment. -/
theorem assignPush_rooms_induct (Q : LiveRooms → Prop) (cfg : ServerCfg) (now : Date)
    (tmpProjectId : String) (projectId userType : Int) (liveRoomId : String) (newProject : Bool)
    (rooms : LiveRooms)
    (hfirst : ∀ pushId pushBase seg,
      GetPushId rooms liveRoomId (toUserType userType) = (none, pushId, pushBase) →
      (seg = "" ∨ seg = formatDate now ++ "/") →
      Q (SetStartState rooms projectId liveRoomId pushId
        (pushBase ++ ":" ++ Itoa cfg.Listen ++ "/live/" ++ liveRoomId ++ "/" ++ seg ++
          tmpProjectId ++ "/Camera_" ++ Itoa pushId) userType).2)
    (hstep : ∀ rs pushId pushBase user_type, Q rs →
      Q (SetStartState rs projectId liveRoomId pushId
        (pushBase ++ ":" ++ Itoa cfg.Listen ++ "/live/" ++ liveRoomId ++ "/" ++ "" ++
          tmpProjectId ++ "/Camera_" ++ Itoa pushId) user_type).2) :
    (assignPush cfg now tmpProjectId projectId userType liveRoomId newProject rooms).rooms = rooms ∨
    Q (assignPush cfg now tmpProjectId projectId userType liveRoomId newProject rooms).rooms := by
  have hcam : ∀ pushBase pushurl is rs, Q rs →
      Q (startCameras cfg projectId tmpProjectId liveRoomId pushBase pushurl is rs).1 := by
    intro pushBase pushurl is
    induction is with
    | nil => intro rs h; exact h
    | cons i is ih =>
      intro rs h
      unfold startCameras
      cases hv : (GetLiveRoomFromRoomId rs liveRoomId).bind (fun room => room.Urls[i]?) with
      | none => exact ih rs h
      | some v =>
        simp only
        by_cases hc : v.VideoType = Camera
        · rw [if_pos hc]
          apply ih
          split
          · have := hstep rs v.PushId pushBase (v.UserType : Int) h
            simpa [String.append_assoc] using this
          · exact h
        · rw [if_neg hc]
          exact ih rs h
  unfold assignPush
  cases hfull : PushUserFull rooms liveRoomId (toUserType userType) with
  | true => left; simp
  | false =>
    rcases hg : GetPushId rooms liveRoomId (toUserType userType) with ⟨e, pushId, pushBase⟩
    cases e with
    | some e => left; simp
    | none =>
      right
      simp only [Bool.false_eq_true, if_false]
      have h1 : ∀ seg pushurl, (seg = "" ∨ seg = formatDate now ++ "/") →
          pushurl = pushBase ++ ":" ++ Itoa cfg.Listen ++ "/live/" ++ liveRoomId ++ "/" ++ seg ++
            tmpProjectId ++ "/Camera_" ++ Itoa pushId →
          Q (if (!CheckProjectExits
                (SetStartState rooms projectId liveRoomId pushId pushurl userType).2 projectId) = true
            then (⟨reply601 "Stop Project Failed Not Found ProjectId",
              (SetStartState rooms projectId liveRoomId pushId pushurl userType).2, []⟩ : Outcome)
            else
              ⟨⟨200, Body.push
                { LiveRoomId := liveRoomId, PushId := pushId, PushUrl := pushurl,
                  UserType := userType, ProjectId := projectId }⟩,
                (if newProject = true then
                  match GetLiveRoomFromRoomId
                    (SetStartState rooms projectId liveRoomId pushId pushurl userType).2
                    liveRoomId with
                  | some newProjectLiveRoom =>
                    startCameras cfg projectId tmpProjectId liveRoomId pushBase pushurl
                      (List.range newProjectLiveRoom.Urls.length)
                      (SetStartState rooms projectId liveRoomId pushId pushurl userType).2
                  | none => ((SetStartState rooms projectId liveRoomId pushId pushurl userType).2, [])
                else ((SetStartState rooms projectId liveRoomId pushId pushurl userType).2, [])).1,
                (if newProject = true then
                  match GetLiveRoomFromRoomId
                    (SetStartState rooms projectId liveRoomId pushId pushurl userType).2
                    liveRoomId with
                  | some newProjectLiveRoom =>
                    startCameras cfg projectId tmpProjectId liveRoomId pushBase pushurl
                      (List.range newProjectLiveRoom.Urls.length)
                      (SetStartState rooms projectId liveRoomId pushId pushurl userType).2
                  | none => ((SetStartState rooms projectId liveRoomId pushId pushurl userType).2, [])
                else ((SetStartState rooms projectId liveRoomId pushId pushurl userType).2, [])).2⟩).rooms := by
        intro seg pushurl hseg hurl
        have hQ1 : Q (SetStartState rooms projectId liveRoomId pushId pushurl userType).2 := by
          rw [hurl]
          exact hfirst pushId pushBase seg hg hseg
        split
        · exact hQ1
        · simp only
          split
          · split
            · exact hcam _ _ _ _ hQ1
            · exact hQ1
          · exact hQ1
      cases hs : cfg.StaticAddr with
      | false =>
        simp only [Bool.not_false, if_true]
        exact h1 (formatDate now ++ "/") _ (Or.inr rfl) (by simp [String.append_assoc])
      | true =>
        simp only [Bool.not_true, Bool.false_eq_true, if_false]
        exact h1 "" _ (Or.inl rfl) (by simp [String.append_assoc])

theorem GetLiveRoom_some (rooms : LiveRooms) (projectId : Int) (v : LiveRoom)
    (h : GetLiveRoom rooms projectId = some v) : v ∈ rooms ∧ v.ProjectId = projectId := by
  unfold GetLiveRoom at h
  exact ⟨List.mem_of_find?_eq_some h,
    of_decide_eq_true (List.find?_some (p := fun v : LiveRoom => decide (v.ProjectId = projectId)) h)⟩

/-- The room a `getPush` works on: the old pool is left, or `assignPush` runs for the
parsed project on the id of a room bound to it or, when no room is bound to it, on
the id of an unbound room. -/
theorem handleGetPush_rooms_cases (cfg : ServerCfg) (now : Date) (tmpProjectId tmpUserType : String)
    (rooms : LiveRooms) :
    (handleGetPush cfg now tmpProjectId tmpUserType rooms).rooms = rooms ∨
    ∃ projectId userType liveRoomId newProject,
      Atoi tmpProjectId = some projectId ∧ Atoi tmpUserType = some userType ∧
      ((∃ v ∈ rooms, v.ProjectId = projectId ∧ v.LiveRoomId = liveRoomId) ∨
        ((∀ v ∈ rooms, v.ProjectId ≠ projectId) ∧
          ∃ v ∈ rooms, v.ProjectId = -1 ∧ v.LiveRoomId = liveRoomId)) ∧
      handleGetPush cfg now tmpProjectId tmpUserType rooms =
        assignPush cfg now tmpProjectId projectId userType liveRoomId newProject rooms := by
  unfold handleGetPush
  cases hA : Atoi tmpProjectId with
  | none => left; rfl
  | some projectId =>
    cases hU : Atoi tmpUserType with
    | none => left; rfl
    | some userType =>
      simp only
      cases hex : CheckProjectExits rooms projectId with
      | true =>
        simp only [if_true]
        cases hroom : GetLiveRoom rooms projectId with
        | none => left; rfl
        | some liveRoom =>
          right
          obtain ⟨hmem, hp⟩ := GetLiveRoom_some rooms projectId liveRoom hroom
          exact ⟨projectId, userType, liveRoom.LiveRoomId, false, rfl, rfl,
            Or.inl ⟨liveRoom, hmem, hp, rfl⟩, rfl⟩
      | false =>
        simp only [Bool.false_eq_true, if_false]
        cases hfull : LiveRoomFull rooms with
        | true => left; rfl
        | false =>
          simp only [Bool.false_eq_true, if_false]
          rcases halloc : AllocLiveRoomId rooms projectId with ⟨e, liveRoomId⟩
          cases e with
          | some e => left; rfl
          | none =>
            right
            obtain ⟨v, hv, h1, h2, _⟩ := AllocLiveRoomId_mem rooms projectId liveRoomId halloc
            have hno : ∀ v ∈ rooms, v.ProjectId ≠ projectId := by
              intro x hx hp
              have := (CheckProjectExits_iff rooms projectId).2 ⟨x, hx, hp⟩
              rw [hex] at this
              exact absurd this (by decide)
            exact ⟨projectId, userType, liveRoomId, true, rfl, rfl,
              Or.inr ⟨hno, v, hv, h1, h2⟩, rfl⟩

/-! ## Pools with pairwise distinct room ids -/

theorem SetStartState_of_no_room (rooms : LiveRooms) (projectId : Int) (liveRoomId : String)
    (pushId : Int) (url : String) (user_type : Int)
    (h : ∀ v ∈ rooms, v.LiveRoomId ≠ liveRoomId) :
    (SetStartState rooms projectId liveRoomId pushId url user_type).2 = rooms := by
  induction rooms with
  | nil => rfl
  | cons v rest ih =>
    have hv : v.LiveRoomId ≠ liveRoomId := h v (List.mem_cons_self _ _)
    rw [SetStartState_cons, if_neg hv]
    simp only
    rw [ih fun x hx => h x (List.mem_cons_of_mem _ hx)]

/-- With pairwise distinct room ids, `SetStartState` changes the one room with the
given id: it binds it and, when an endpoint with the `PushId` exists, starts the first. -/
theorem SetStartState_eq_map (rooms : LiveRooms) (projectId : Int) (liveRoomId : String)
    (pushId : Int) (url : String) (user_type : Int)
    (hnd : (rooms.map fun v => v.LiveRoomId).Nodup) :
    (SetStartState rooms projectId liveRoomId pushId url user_type).2 =
      rooms.map fun v =>
        if v.LiveRoomId = liveRoomId then
          { v with ProjectId := projectId
                   Urls := (setUrls pushId url user_type v.Urls).getD v.Urls }
        else v := by
  induction rooms with
  | nil => rfl
  | cons v rest ih =>
    rw [List.map_cons, List.nodup_cons] at hnd
    rw [SetStartState_cons]
    by_cases hv : v.LiveRoomId = liveRoomId
    · have hrest : ∀ x ∈ rest, x.LiveRoomId ≠ liveRoomId := by
        intro x hx hxid
        apply hnd.1
        rw [hv, ← hxid]
        exact List.mem_map_of_mem _ hx
      have hmap : (rest.map fun v =>
          if v.LiveRoomId = liveRoomId then
            { v with ProjectId := projectId
                     Urls := (setUrls pushId url user_type v.Urls).getD v.Urls }
          else v) = rest := by
        conv_rhs => rw [← List.map_id rest]
        apply List.map_congr_left
        intro x hx
        rw [if_neg (hrest x hx)]
        rfl
      rw [if_pos hv, List.map_cons, if_pos hv, hmap]
      cases hset : setUrls pushId url user_type v.Urls with
      | none =>
        simp only [Option.getD_none]
        rw [SetStartState_of_no_room rest projectId liveRoomId pushId url user_type hrest]
      | some urls => simp only [Option.getD_some]
    · rw [if_neg hv, List.map_cons, if_neg hv]
      simp only
      rw [ih hnd.2]

theorem setUrls_eq_none_iff (pushId : Int) (url : String) (user_type : Int)
    (urls : List PushStreamUrl) :
    setUrls pushId url user_type urls = none ↔ ∀ e ∈ urls, e.PushId ≠ pushId := by
  induction urls with
  | nil => simp [setUrls]
  | cons e es ih =>
    by_cases he : e.PushId = pushId
    · simp [setUrls, he]
    · simp [setUrls, he, ih]

/-- What `setUrls` does when it finds the `PushId`: the first endpoint that has it is
started, the others are kept. -/
theorem setUrls_eq_some (pushId : Int) (url : String) (user_type : Int)
    (urls urls1 : List PushStreamUrl) (h : setUrls pushId url user_type urls = some urls1) :
    ∃ a e b, urls = a ++ e :: b ∧ (∀ x ∈ a, x.PushId ≠ pushId) ∧ e.PushId = pushId ∧
      urls1 = a ++ { e with PushUrl := url, UserType := toUserType user_type, State := 1 } :: b := by
  induction urls generalizing urls1 with
  | nil => simp [setUrls] at h
  | cons e es ih =>
    by_cases he : e.PushId = pushId
    · simp only [setUrls, he, if_true, Option.some.injEq] at h
      exact ⟨[], e, es, rfl, by simp, he, by rw [← h]; simp [he]⟩
    · simp only [setUrls, he, if_false, Option.map_eq_some'] at h
      obtain ⟨us, hus, hcons⟩ := h
      obtain ⟨a, x, b, h1, h2, h3, h4⟩ := ih us hus
      refine ⟨e :: a, x, b, by rw [h1]; rfl, ?_, h3, by rw [← hcons, h4]; rfl⟩
      intro y hy
      rcases List.mem_cons.1 hy with heq | hy
      · rw [heq]; exact he
      · exact h2 y hy

theorem SetStartState_map_LiveRoomId (rooms : LiveRooms) (projectId : Int) (liveRoomId : String)
    (pushId : Int) (url : String) (user_type : Int) :
    ((SetStartState rooms projectId liveRoomId pushId url user_type).2.map fun v => v.LiveRoomId) =
      rooms.map fun v => v.LiveRoomId := by
  induction rooms with
  | nil => rfl
  | cons v rest ih =>
    rw [SetStartState_cons]
    by_cases hv : v.LiveRoomId = liveRoomId
    · rw [if_pos hv]
      cases hset : setUrls pushId url user_type v.Urls with
      | none => simp only [List.map_cons]; rw [ih]
      | some urls => simp only [List.map_cons]
    · rw [if_neg hv]
      simp only [List.map_cons]
      rw [ih]

theorem stopRoom_cases (rooms : LiveRooms) (projectId : Int) :
    stopRoom rooms projectId = rooms ∨
    ∃ pre v post, rooms = pre ++ v :: post ∧ (∀ x ∈ pre, x.ProjectId ≠ projectId) ∧
      v.ProjectId = projectId ∧
      stopRoom rooms projectId =
        pre ++ { v with ProjectId := -1, Urls := stopUrls v.Urls } :: post := by
  by_cases hex : ∃ v ∈ rooms, v.ProjectId = projectId
  · right
    obtain ⟨pre, v, post, h1, h2, h3⟩ := exists_first_bound rooms projectId hex
    exact ⟨pre, v, post, h1, h2, h3, by rw [h1]; exact stopRoom_append pre v post projectId h2 h3⟩
  · left
    exact stopRoom_of_not_mem rooms projectId fun x hx hp => hex ⟨x, hx, hp⟩

theorem handleStopProject_rooms (tmpProjectId : String) (rooms : LiveRooms) :
    (handleStopProject tmpProjectId rooms).rooms = rooms ∨
    ∃ projectId, Atoi tmpProjectId = some projectId ∧
      (handleStopProject tmpProjectId rooms).rooms = stopRoom rooms projectId := by
  rcases handleStopProject_fail_or_ok tmpProjectId rooms with h | ⟨p, pre, v, post, h1, h2, h3, h4, h5⟩
  · exact Or.inl h.2.1
  · right
    refine ⟨p, h1, ?_⟩
    rw [h5, h2, stopRoom_append pre v post p h3 h4]

theorem initLiveRooms_map_LiveRoomId (lives : List Live) :
    ((initLiveRooms lives).map fun v => v.LiveRoomId) = lives.map fun l => l.LiveId := by
  simp [initLiveRooms, Function.comp_def]

theorem stopRoom_map_LiveRoomId (rooms : LiveRooms) (projectId : Int) :
    ((stopRoom rooms projectId).map fun v => v.LiveRoomId) = rooms.map fun v => v.LiveRoomId := by
  rcases stopRoom_cases rooms projectId with h | ⟨pre, v, post, h1, _, _, h4⟩
  · rw [h]
  · rw [h4, h1]
    simp

/-- Every request leaves the list of room ids as it was. -/
theorem handle_map_LiveRoomId (cfg : ServerCfg) (rooms : LiveRooms) (req : Request) :
    ((handle cfg rooms req).rooms.map fun v => v.LiveRoomId) = rooms.map fun v => v.LiveRoomId := by
  cases req with
  | getPush now tmpProjectId tmpUserType =>
    show ((handleGetPush cfg now tmpProjectId tmpUserType rooms).rooms.map fun v => v.LiveRoomId) = _
    rcases handleGetPush_rooms_cases cfg now tmpProjectId tmpUserType rooms with
      h | ⟨p, ut, rid, np, _, _, _, h⟩
    · rw [h]
    · rw [h]
      rcases assignPush_rooms_induct
        (fun rs => (rs.map fun v => v.LiveRoomId) = rooms.map fun v => v.LiveRoomId)
        cfg now tmpProjectId p ut rid np rooms
        (fun _ _ _ _ _ => SetStartState_map_LiveRoomId _ _ _ _ _ _)
        (fun rs _ _ _ hrs => (SetStartState_map_LiveRoomId rs _ _ _ _ _).trans hrs) with h1 | h1
      · rw [h1]
      · exact h1
  | stopProject tmpProjectId =>
    show ((handleStopProject tmpProjectId rooms).rooms.map fun v => v.LiveRoomId) = _
    rcases handleStopProject_rooms tmpProjectId rooms with h | ⟨p, _, h⟩
    · rw [h]
    · rw [h, stopRoom_map_LiveRoomId]

theorem run_append_one (cfg : ServerCfg) (lives : List Live) (reqs : List Request) (req : Request) :
    run cfg lives (reqs ++ [req]) = (handle cfg (run cfg lives reqs) req).rooms := by
  simp [run, List.foldl_append]

/-- Induction over the request sequence: a property of the initial pool that every
request preserves holds in every reachable pool. -/
theorem run_induct (Q : LiveRooms → Prop) (cfg : ServerCfg) (lives : List Live)
    (h0 : Q (initLiveRooms lives))
    (hstep : ∀ rooms req, Q rooms → Q (handle cfg rooms req).rooms) (reqs : List Request) :
    Q (run cfg lives reqs) := by
  induction reqs using List.reverseRecOn with
  | nil => exact h0
  | append_singleton reqs req ih =>
    rw [run_append_one]
    exact hstep _ req ih

theorem run_map_LiveRoomId (cfg : ServerCfg) (lives : List Live) (reqs : List Request) :
    ((run cfg lives reqs).map fun v => v.LiveRoomId) = lives.map fun l => l.LiveId :=
  run_induct (fun rs => (rs.map fun v => v.LiveRoomId) = lives.map fun l => l.LiveId) cfg lives
    (initLiveRooms_map_LiveRoomId lives)
    (fun rooms req h => (handle_map_LiveRoomId cfg rooms req).trans h) reqs

/-! ## P1: unique binding -/

theorem SetStartState_keeps_unique (rooms : LiveRooms) (projectId : Int) (liveRoomId : String)
    (pushId : Int) (url : String) (user_type : Int)
    (hnd : (rooms.map fun v => v.LiveRoomId).Nodup)
    (hJ : ∀ a ∈ rooms, ∀ b ∈ rooms, a.ProjectId ≠ -1 → a.ProjectId = b.ProjectId →
      a.LiveRoomId = b.LiveRoomId)
    (hkey : ∀ b ∈ rooms, b.ProjectId = projectId → projectId ≠ -1 → b.LiveRoomId = liveRoomId) :
    (∀ a ∈ (SetStartState rooms projectId liveRoomId pushId url user_type).2,
      ∀ b ∈ (SetStartState rooms projectId liveRoomId pushId url user_type).2,
      a.ProjectId ≠ -1 → a.ProjectId = b.ProjectId → a.LiveRoomId = b.LiveRoomId) ∧
    (∀ b ∈ (SetStartState rooms projectId liveRoomId pushId url user_type).2,
      b.ProjectId = projectId → projectId ≠ -1 → b.LiveRoomId = liveRoomId) := by
  rw [SetStartState_eq_map rooms projectId liveRoomId pushId url user_type hnd]
  have hmem : ∀ x ∈ rooms.map (fun v =>
      if v.LiveRoomId = liveRoomId then
        { v with ProjectId := projectId
                 Urls := (setUrls pushId url user_type v.Urls).getD v.Urls }
      else v),
      (x.LiveRoomId = liveRoomId ∧ x.ProjectId = projectId) ∨
      (x.LiveRoomId ≠ liveRoomId ∧ x ∈ rooms) := by
    intro x hx
    obtain ⟨v, hv, hxv⟩ := List.mem_map.1 hx
    by_cases hid : v.LiveRoomId = liveRoomId
    · rw [if_pos hid] at hxv
      left
      rw [← hxv]
      exact ⟨hid, rfl⟩
    · rw [if_neg hid] at hxv
      right
      rw [← hxv]
      exact ⟨hid, hv⟩
  constructor
  · intro a ha b hb hne heq
    rcases hmem a ha with ⟨ha1, ha2⟩ | ⟨ha1, ha2⟩
    · rcases hmem b hb with ⟨hb1, _⟩ | ⟨hb1, hb2⟩
      · rw [ha1, hb1]
      · rw [ha2] at heq hne
        exact absurd (hkey b hb2 heq.symm hne) hb1
    · rcases hmem b hb with ⟨hb1, hb2⟩ | ⟨_, hb2⟩
      · rw [hb2] at heq
        rw [heq] at hne
        exact absurd (hkey a ha2 heq hne) ha1
      · exact hJ a ha2 b hb2 hne heq
  · intro b hb hp hne
    rcases hmem b hb with ⟨hb1, _⟩ | ⟨_, hb2⟩
    · exact hb1
    · exact hkey b hb2 hp hne

theorem handle_keeps_unique (cfg : ServerCfg) (rooms : LiveRooms) (req : Request)
    (hnd : (rooms.map fun v => v.LiveRoomId).Nodup)
    (hJ : ∀ a ∈ rooms, ∀ b ∈ rooms, a.ProjectId ≠ -1 → a.ProjectId = b.ProjectId →
      a.LiveRoomId = b.LiveRoomId) :
    ∀ a ∈ (handle cfg rooms req).rooms, ∀ b ∈ (handle cfg rooms req).rooms,
      a.ProjectId ≠ -1 → a.ProjectId = b.ProjectId → a.LiveRoomId = b.LiveRoomId := by
  cases req with
  | getPush now tmpProjectId tmpUserType =>
    show ∀ a ∈ (handleGetPush cfg now tmpProjectId tmpUserType rooms).rooms,
      ∀ b ∈ (handleGetPush cfg now tmpProjectId tmpUserType rooms).rooms, _
    rcases handleGetPush_rooms_cases cfg now tmpProjectId tmpUserType rooms with
      h | ⟨p, ut, rid, np, _, _, hroom, h⟩
    · rw [h]
      exact hJ
    · rw [h]
      have hkey : ∀ b ∈ rooms, b.ProjectId = p → p ≠ -1 → b.LiveRoomId = rid := by
        intro b hb hp hne
        rcases hroom with ⟨v, hv, hvp, hvid⟩ | ⟨hno, _⟩
        · rw [← hvid]
          exact (hJ v hv b hb (by rw [hvp]; exact hne) (by rw [hvp, hp])).symm
        · exact absurd hp (hno b hb)
      rcases assignPush_rooms_induct
        (fun rs => (rs.map fun v => v.LiveRoomId).Nodup ∧
          (∀ a ∈ rs, ∀ b ∈ rs, a.ProjectId ≠ -1 → a.ProjectId = b.ProjectId →
            a.LiveRoomId = b.LiveRoomId) ∧
          (∀ b ∈ rs, b.ProjectId = p → p ≠ -1 → b.LiveRoomId = rid))
        cfg now tmpProjectId p ut rid np rooms
        (fun pushId pushBase seg _ _ =>
          ⟨by rw [SetStartState_map_LiveRoomId]; exact hnd,
            SetStartState_keeps_unique rooms p rid pushId _ ut hnd hJ hkey⟩)
        (fun rs pushId pushBase user_type hrs =>
          ⟨by rw [SetStartState_map_LiveRoomId]; exact hrs.1,
            SetStartState_keeps_unique rs p rid pushId _ user_type hrs.1 hrs.2.1 hrs.2.2⟩)
        with h1 | h1
      · rw [h1]
        exact hJ
      · exact h1.2.1
  | stopProject tmpProjectId =>
    show ∀ a ∈ (handleStopProject tmpProjectId rooms).rooms,
      ∀ b ∈ (handleStopProject tmpProjectId rooms).rooms, _
    rcases handleStopProject_rooms tmpProjectId rooms with h | ⟨p, _, h⟩
    · rw [h]
      exact hJ
    · rw [h]
      rcases stopRoom_cases rooms p with h1 | ⟨pre, v, post, h1, _, _, h4⟩
      · rw [h1]
        exact hJ
      · rw [h4]
        have hmem : ∀ x ∈ pre ++ { v with ProjectId := -1, Urls := stopUrls v.Urls } :: post,
            x.ProjectId = -1 ∨ x ∈ rooms := by
          intro x hx
          rw [h1]
          rcases List.mem_append.1 hx with hx | hx
          · exact Or.inr (List.mem_append_left _ hx)
          · rcases List.mem_cons.1 hx with heq | hx
            · left
              rw [heq]
            · exact Or.inr (List.mem_append_right _ (List.mem_cons_of_mem _ hx))
        intro a ha b hb hne heq
        rcases hmem a ha with ha1 | ha1
        · exact absurd ha1 hne
        · rcases hmem b hb with hb1 | hb1
          · rw [hb1] at heq
            exact absurd heq hne
          · exact hJ a ha1 b hb1 hne heq

/-- C1 (P1, unique binding): for a configured pool whose room ids are pairwise distinct,
in every state reachable from `initLiveRooms` by any sequence of `getPush` and
`stopProject` requests, any two distinct rooms whose `ProjectId` is not -1 have
different `ProjectId`s. -/
theorem unique_binding (cfg : ServerCfg) (lives : List Live) (reqs : List Request)
    (hnd : (lives.map fun l => l.LiveId).Nodup) :
    (run cfg lives reqs).Pairwise fun a b =>
      a.ProjectId ≠ -1 → b.ProjectId ≠ -1 → a.ProjectId ≠ b.ProjectId := by
  have hids : ((run cfg lives reqs).map fun v => v.LiveRoomId).Nodup := by
    rw [run_map_LiveRoomId]
    exact hnd
  have hJ := run_induct
    (fun rs => (rs.map fun v => v.LiveRoomId).Nodup ∧
      ∀ a ∈ rs, ∀ b ∈ rs, a.ProjectId ≠ -1 → a.ProjectId = b.ProjectId →
        a.LiveRoomId = b.LiveRoomId)
    cfg lives
    ⟨by rw [initLiveRooms_map_LiveRoomId]; exact hnd, by
      intro a ha b hb hne
      have : a.ProjectId = -1 := by
        simp only [initLiveRooms, List.mem_map] at ha
        obtain ⟨l, _, hl⟩ := ha
        rw [← hl]
      exact absurd this hne⟩
    (fun rooms req h =>
      ⟨by rw [handle_map_LiveRoomId]; exact h.1, handle_keeps_unique cfg rooms req h.1 h.2⟩)
    reqs
  have hpw : (run cfg lives reqs).Pairwise fun a b => a.LiveRoomId ≠ b.LiveRoomId :=
    List.pairwise_map.1 hids
  exact hpw.imp_of_mem fun {a b} ha hb hab hne _ heq => hab (hJ.2 a ha b hb hne heq)

/-- Witness for C1: two rooms, projects 12 and 13 allocated, 12 stopped and 14
allocated. -/
theorem unique_binding_witness :
    (run scenarioCfg twoRoomLives
      [Request.getPush scenarioDate "12" "0", Request.getPush scenarioDate "13" "0",
        Request.stopProject "12", Request.getPush scenarioDate "14" "1"]).Pairwise fun a b =>
      a.ProjectId ≠ -1 → b.ProjectId ≠ -1 → a.ProjectId ≠ b.ProjectId :=
  unique_binding scenarioCfg twoRoomLives _ (by decide)

/-! ## Room binding and Busy endpoints -/

/-- Induction over a request sequence all of whose requests satisfy `ok`. -/
theorem run_induct_on (Q : LiveRooms → Prop) (ok : Request → Prop) (cfg : ServerCfg)
    (lives : List Live) (h0 : Q (initLiveRooms lives))
    (hstep : ∀ rooms req, ok req → Q rooms → Q (handle cfg rooms req).rooms)
    (reqs : List Request) (hok : ∀ req ∈ reqs, ok req) : Q (run cfg lives reqs) := by
  induction reqs using List.reverseRecOn with
  | nil => exact h0
  | append_singleton reqs req ih =>
    rw [run_append_one]
    exact hstep _ req (hok req (by simp)) (ih fun r hr => hok r (by simp [hr]))

theorem setUrls_getD_busy (pushId : Int) (url : String) (user_type : Int)
    (urls : List PushStreamUrl)
    (h : (∃ e ∈ urls, e.State = 1) ∨ (∃ e ∈ urls, e.PushId = pushId)) :
    ∃ e ∈ (setUrls pushId url user_type urls).getD urls, e.State = 1 := by
  cases hset : setUrls pushId url user_type urls with
  | none =>
    simp only [Option.getD_none]
    rcases h with h | ⟨e, he, hp⟩
    · exact h
    · exact absurd hp ((setUrls_eq_none_iff pushId url user_type urls).1 hset e he)
  | some urls1 =>
    simp only [Option.getD_some]
    obtain ⟨a, e, b, _, _, _, h4⟩ := setUrls_eq_some pushId url user_type urls urls1 hset
    exact ⟨_, by rw [h4]; exact List.mem_append_right _ (List.mem_cons_self _ _), rfl⟩

theorem stopUrls_not_busy (urls : List PushStreamUrl) : ∀ e ∈ stopUrls urls, e.State ≠ 1 := by
  intro e he
  simp only [stopUrls, List.mem_map] at he
  obtain ⟨x, _, hx⟩ := he
  by_cases hs : x.State = 1
  · rw [if_pos hs] at hx
    rw [← hx]
    simp
  · rw [if_neg hs] at hx
    rw [← hx]
    exact hs

theorem SetStartState_binding (rooms : LiveRooms) (projectId : Int) (liveRoomId : String)
    (pushId : Int) (url : String) (user_type : Int)
    (hnd : (rooms.map fun v => v.LiveRoomId).Nodup) (hp : projectId ≠ -1)
    (hK : ∀ r ∈ rooms, r.LiveRoomId ≠ liveRoomId →
      (r.ProjectId ≠ -1 ↔ ∃ e ∈ r.Urls, e.State = 1))
    (hr : ∀ r ∈ rooms, r.LiveRoomId = liveRoomId →
      (∃ e ∈ r.Urls, e.State = 1) ∨ (∃ e ∈ r.Urls, e.PushId = pushId)) :
    ∀ r ∈ (SetStartState rooms projectId liveRoomId pushId url user_type).2,
      (r.ProjectId ≠ -1 ↔ ∃ e ∈ r.Urls, e.State = 1) ∧
      (r.LiveRoomId = liveRoomId → ∃ e ∈ r.Urls, e.State = 1) := by
  rw [SetStartState_eq_map rooms projectId liveRoomId pushId url user_type hnd]
  intro r hmem
  obtain ⟨v, hv, hrv⟩ := List.mem_map.1 hmem
  by_cases hid : v.LiveRoomId = liveRoomId
  · rw [if_pos hid] at hrv
    have hbusy := setUrls_getD_busy pushId url user_type v.Urls (hr v hv hid)
    rw [← hrv]
    exact ⟨⟨fun _ => hbusy, fun _ => hp⟩, fun _ => hbusy⟩
  · rw [if_neg hid] at hrv
    rw [← hrv]
    exact ⟨hK v hv hid, fun h => absurd h hid⟩

theorem handle_binding (cfg : ServerCfg) (rooms : LiveRooms) (req : Request)
    (hreq : Atoi req.projectId ≠ some (-1))
    (hnd : (rooms.map fun v => v.LiveRoomId).Nodup)
    (hK : ∀ r ∈ rooms, (r.ProjectId ≠ -1 ↔ ∃ e ∈ r.Urls, e.State = 1)) :
    ∀ r ∈ (handle cfg rooms req).rooms, (r.ProjectId ≠ -1 ↔ ∃ e ∈ r.Urls, e.State = 1) := by
  cases req with
  | getPush now tmpProjectId tmpUserType =>
    show ∀ r ∈ (handleGetPush cfg now tmpProjectId tmpUserType rooms).rooms, _
    rcases handleGetPush_rooms_cases cfg now tmpProjectId tmpUserType rooms with
      h | ⟨p, ut, rid, np, hA, _, _, h⟩
    · rw [h]
      exact hK
    · rw [h]
      have hp : p ≠ -1 := by
        intro hp
        apply hreq
        show Atoi tmpProjectId = some (-1)
        rw [hA, hp]
      rcases assignPush_rooms_induct
        (fun rs => (rs.map fun v => v.LiveRoomId).Nodup ∧
          ∀ r ∈ rs, (r.ProjectId ≠ -1 ↔ ∃ e ∈ r.Urls, e.State = 1) ∧
            (r.LiveRoomId = rid → ∃ e ∈ r.Urls, e.State = 1))
        cfg now tmpProjectId p ut rid np rooms
        (fun pushId pushBase seg hg _ =>
          ⟨by rw [SetStartState_map_LiveRoomId]; exact hnd,
            SetStartState_binding rooms p rid pushId _ ut hnd hp (fun r hr _ => hK r hr) (by
              intro r hr hid
              right
              obtain ⟨v, hv, hvid, value, hmem, _, _, heq⟩ :=
                GetPushId_ok rooms rid (toUserType ut) (by rw [hg])
              rw [hg] at heq
              simp only [Prod.mk.injEq, true_and] at heq
              have hrv : r = v :=
                List.inj_on_of_nodup_map hnd hr hv (by rw [hid, hvid])
              rw [hrv]
              exact ⟨value, hmem, heq.1.symm⟩)⟩)
        (fun rs pushId pushBase user_type hrs =>
          ⟨by rw [SetStartState_map_LiveRoomId]; exact hrs.1,
            SetStartState_binding rs p rid pushId _ user_type hrs.1 hp
              (fun r hr _ => (hrs.2 r hr).1) (fun r hr hid => Or.inl ((hrs.2 r hr).2 hid))⟩)
        with h1 | h1
      · rw [h1]
        exact hK
      · exact fun r hr => (h1.2 r hr).1
  | stopProject tmpProjectId =>
    show ∀ r ∈ (handleStopProject tmpProjectId rooms).rooms, _
    rcases handleStopProject_rooms tmpProjectId rooms with h | ⟨p, _, h⟩
    · rw [h]
      exact hK
    · rw [h]
      rcases stopRoom_cases rooms p with h1 | ⟨pre, v, post, h1, _, _, h4⟩
      · rw [h1]
        exact hK
      · rw [h4]
        intro r hr
        rcases List.mem_append.1 hr with hr | hr
        · exact hK r (by rw [h1]; exact List.mem_append_left _ hr)
        · rcases List.mem_cons.1 hr with heq | hr
          · rw [heq]
            constructor
            · intro hne
              exact absurd rfl hne
            · rintro ⟨e, he, hs⟩
              exact absurd hs (stopUrls_not_busy v.Urls e he)
          · exact hK r (by rw [h1]; exact List.mem_append_right _ (List.mem_cons_of_mem _ hr))

/-- C4 (as amended): for a configured pool whose room ids are pairwise distinct, in
every state reachable from `initLiveRooms` by any sequence of `getPush` and
`stopProject` requests whose `projectId` parameter is not -1, a room has
`ProjectId != -1` if and only if at least one of its endpoints has `State == 1` (Busy). -/
theorem binding_iff_busy (cfg : ServerCfg) (lives : List Live) (reqs : List Request)
    (hnd : (lives.map fun l => l.LiveId).Nodup)
    (hreqs : ∀ req ∈ reqs, Atoi req.projectId ≠ some (-1)) :
    ∀ r ∈ run cfg lives reqs, (r.ProjectId ≠ -1 ↔ ∃ e ∈ r.Urls, e.State = 1) := by
  have h := run_induct_on
    (fun rs => (rs.map fun v => v.LiveRoomId).Nodup ∧
      ∀ r ∈ rs, (r.ProjectId ≠ -1 ↔ ∃ e ∈ r.Urls, e.State = 1))
    (fun req => Atoi req.projectId ≠ some (-1)) cfg lives
    ⟨by rw [initLiveRooms_map_LiveRoomId]; exact hnd, by
      intro r hr
      simp only [initLiveRooms, List.mem_map] at hr
      obtain ⟨l, _, hl⟩ := hr
      rw [← hl]
      simp⟩
    (fun rooms req hreq hQ =>
      ⟨by rw [handle_map_LiveRoomId]; exact hQ.1, handle_binding cfg rooms req hreq hQ.1 hQ.2⟩)
    reqs hreqs
  exact h.2

/-- Witness for C4: two rooms, projects 12 and 13 allocated, 12 stopped and 14
allocated. -/
theorem binding_iff_busy_witness :
    (twoRoomLives.map fun l => l.LiveId).Nodup ∧
    ∀ r ∈ run scenarioCfg twoRoomLives
      [Request.getPush scenarioDate "12" "0", Request.getPush scenarioDate "13" "0",
        Request.stopProject "12", Request.getPush scenarioDate "14" "1"],
      (r.ProjectId ≠ -1 ↔ ∃ e ∈ r.Urls, e.State = 1) :=
  ⟨by decide, binding_iff_busy scenarioCfg twoRoomLives _ (by decide) (by decide)⟩

/-- C4, counterexample: after `getPush?projectId=-1&userType=0` in scenario 1 the room
`R1` has `ProjectId == -1` and a Busy endpoint; and with two rooms of the same id `A`,
after `getPush?projectId=12&userType=1` the first room has `ProjectId == 12` and no
Busy endpoint. -/
theorem binding_iff_busy_counterexample :
    ((run scenarioCfg scenarioLives [Request.getPush scenarioDate "-1" "0"]).map
        fun r => (r.LiveRoomId, r.ProjectId, r.Urls.map fun e => e.State)) =
      [("R1", -1, [1])] ∧
    ((run staticCfg sameIdLives [Request.getPush scenarioDate "12" "1"]).map
        fun r => (r.LiveRoomId, r.ProjectId, r.Urls.map fun e => e.State)) =
      [("A", 12, [0]), ("A", 12, [1])] := by
  decide

/-! ## Strings: digits and separators -/

theorem digitChar_toNat (d : Nat) (h : d < 10) : (digitChar d).toNat = 48 + d := by
  interval_cases d <;> rfl

theorem formatBits_digits (fuel n : Nat) :
    ∀ c ∈ formatBits fuel n, 48 ≤ c.toNat ∧ c.toNat ≤ 57 := by
  induction fuel generalizing n with
  | zero => simp [formatBits]
  | succ fuel ih =>
    intro c hc
    unfold formatBits at hc
    by_cases hn : n < 10
    · rw [if_pos hn] at hc
      rw [List.mem_singleton] at hc
      rw [hc, digitChar_toNat n hn]
      omega
    · rw [if_neg hn] at hc
      rcases List.mem_append.1 hc with hc | hc
      · exact ih _ c hc
      · rw [List.mem_singleton] at hc
        rw [hc, digitChar_toNat (n % 10) (Nat.mod_lt _ (by decide))]
        have := Nat.mod_lt n (show 0 < 10 by decide)
        omega

theorem foldl_digitStep_none (cs : List Char) : cs.foldl digitStep none = none := by
  induction cs with
  | nil => rfl
  | cons c cs ih => exact ih

theorem foldl_digitStep_formatBits (fuel n : Nat) (h : n < fuel) :
    (formatBits fuel n).foldl digitStep (some 0) = some n := by
  induction fuel generalizing n with
  | zero => omega
  | succ fuel ih =>
    unfold formatBits
    by_cases hn : n < 10
    · rw [if_pos hn]
      simp only [List.foldl, digitStep, digitChar_toNat n hn]
      rw [if_pos (by omega)]
      congr 1
      omega
    · rw [if_neg hn, List.foldl_append, ih (n / 10) (by omega)]
      simp only [List.foldl, digitStep, digitChar_toNat (n % 10) (Nat.mod_lt _ (by decide))]
      have := Nat.mod_lt n (show 0 < 10 by decide)
      rw [if_pos (by omega)]
      congr 1
      omega

theorem natString_injective (n m : Nat) (h : natString n = natString m) : n = m := by
  have h1 : formatBits (n + 1) n = formatBits (m + 1) m := congrArg String.data h
  have h2 := foldl_digitStep_formatBits (n + 1) n (by omega)
  rw [h1, foldl_digitStep_formatBits (m + 1) m (by omega)] at h2
  exact (Option.some.inj h2).symm

/-- The characters `Itoa`, `Atoi` and `formatDate` deal in: decimal digits and signs. -/
theorem Itoa_chars (i : Int) :
    ∀ c ∈ (Itoa i).data, c = '-' ∨ (48 ≤ c.toNat ∧ c.toNat ≤ 57) := by
  intro c hc
  cases i with
  | ofNat n =>
    exact Or.inr (formatBits_digits _ _ c hc)
  | negSucc n =>
    have hc1 : c ∈ '-' :: formatBits (n + 1 + 1) (n + 1) := hc
    rcases List.mem_cons.1 hc1 with h | h
    · exact Or.inl h
    · exact Or.inr (formatBits_digits _ _ c h)

theorem Itoa_injective (i j : Int) (h : Itoa i = Itoa j) : i = j := by
  have hd : (Itoa i).data = (Itoa j).data := by rw [h]
  cases i with
  | ofNat n =>
    cases j with
    | ofNat m =>
      have : natString n = natString m := h
      rw [natString_injective n m this]
    | negSucc m =>
      exfalso
      have hmem : '-' ∈ (Itoa (Int.ofNat n)).data := by
        rw [hd]
        exact List.mem_cons_self _ _
      have := formatBits_digits _ _ '-' hmem
      revert this
      decide
  | negSucc n =>
    cases j with
    | ofNat m =>
      exfalso
      have hmem : '-' ∈ (Itoa (Int.ofNat m)).data := by
        rw [← hd]
        exact List.mem_cons_self _ _
      have := formatBits_digits _ _ '-' hmem
      revert this
      decide
    | negSucc m =>
      have h1 : '-' :: formatBits (n + 1 + 1) (n + 1) = '-' :: formatBits (m + 1 + 1) (m + 1) := hd
      have h2 : natString (n + 1) = natString (m + 1) := by
        simp only [natString]
        rw [List.cons.inj h1 |>.2]
      have := natString_injective _ _ h2
      have hnm : n = m := by omega
      rw [hnm]

theorem foldl_digitStep_some (cs : List Char) (acc : Option Nat) (n : Nat)
    (h : cs.foldl digitStep acc = some n) : ∀ c ∈ cs, 48 ≤ c.toNat ∧ c.toNat ≤ 57 := by
  induction cs generalizing acc with
  | nil => simp
  | cons c cs ih =>
    intro x hx
    rw [List.foldl_cons] at h
    cases acc with
    | none =>
      rw [show digitStep none c = none from rfl, foldl_digitStep_none] at h
      exact absurd h (by simp)
    | some a =>
      by_cases hc : 48 ≤ c.toNat ∧ c.toNat ≤ 57
      · rcases List.mem_cons.1 hx with hxc | hx
        · rw [hxc]
          exact hc
        · exact ih _ h x hx
      · rw [show digitStep (some a) c = none by simp [digitStep, hc], foldl_digitStep_none] at h
        exact absurd h (by simp)

theorem digitsVal_some (cs : List Char) (n : Nat) (h : digitsVal cs = some n) :
    ∀ c ∈ cs, 48 ≤ c.toNat ∧ c.toNat ≤ 57 := by
  cases cs with
  | nil => simp
  | cons c cs => exact foldl_digitStep_some (c :: cs) (some 0) n h

theorem Atoi_chars (s : String) (p : Int) (h : Atoi s = some p) :
    ∀ c ∈ s.data, c = '-' ∨ c = '+' ∨ (48 ≤ c.toNat ∧ c.toNat ≤ 57) := by
  unfold Atoi at h
  cases hs : s.data with
  | nil =>
    rw [hs] at h
    exact absurd h (by simp)
  | cons c cs =>
    rw [hs] at h
    simp only at h
    intro x hx
    by_cases hc : c = '-'
    · rw [if_pos hc] at h
      cases hd : digitsVal cs with
      | none => rw [hd] at h; exact absurd h (by simp)
      | some n =>
        rcases List.mem_cons.1 hx with hxc | hx
        · exact Or.inl (hxc.trans hc)
        · exact Or.inr (Or.inr (digitsVal_some cs n hd x hx))
    · rw [if_neg hc] at h
      by_cases hp : c = '+'
      · rw [if_pos hp] at h
        cases hd : digitsVal cs with
        | none => rw [hd] at h; exact absurd h (by simp)
        | some n =>
          rcases List.mem_cons.1 hx with hxc | hx
          · exact Or.inr (Or.inl (hxc.trans hp))
          · exact Or.inr (Or.inr (digitsVal_some cs n hd x hx))
      · rw [if_neg hp] at h
        cases hd : digitsVal (c :: cs) with
        | none => rw [hd] at h; exact absurd h (by simp)
        | some n => exact Or.inr (Or.inr (digitsVal_some (c :: cs) n hd x hx))

theorem zeroPad_chars (w n : Nat) : ∀ c ∈ (zeroPad w n).data, 48 ≤ c.toNat ∧ c.toNat ≤ 57 := by
  intro c hc
  have hc1 : c ∈ List.replicate (w - (formatBits (n + 1) n).length) '0' ++ formatBits (n + 1) n := hc
  rcases List.mem_append.1 hc1 with h | h
  · rw [(List.mem_replicate.1 h).2]
    decide
  · exact formatBits_digits _ _ c h

theorem formatDate_chars (d : Date) : ∀ c ∈ (formatDate d).data, 48 ≤ c.toNat ∧ c.toNat ≤ 57 := by
  intro c hc
  simp only [formatDate, String.data_append, List.mem_append] at hc
  rcases hc with (h | h) | h
  · exact zeroPad_chars _ _ c h
  · exact zeroPad_chars _ _ c h
  · exact zeroPad_chars _ _ c h

/-- Splitting at the last separator: when `c` occurs in neither tail, equal strings
have equal tails after, and equal parts before, their last `c`. -/
theorem append_sep_inj (c : Char) (a1 a2 s1 s2 : List Char) (h1 : c ∉ s1) (h2 : c ∉ s2)
    (h : a1 ++ c :: s1 = a2 ++ c :: s2) : a1 = a2 ∧ s1 = s2 := by
  induction a1 generalizing a2 with
  | nil =>
    cases a2 with
    | nil => exact ⟨rfl, List.cons.inj h |>.2⟩
    | cons x a2 =>
      exfalso
      have h3 := (List.cons.inj h).2
      apply h1
      rw [h3]
      simp
  | cons y a1 ih =>
    cases a2 with
    | nil =>
      exfalso
      have h3 := (List.cons.inj h).2
      apply h2
      rw [← h3]
      simp
    | cons x a2 =>
      have h3 := List.cons.inj h
      obtain ⟨h4, h5⟩ := ih a2 h3.2
      exact ⟨by rw [h3.1, h4], h5⟩

theorem not_sep_of_chars (l : List Char)
    (h : ∀ c ∈ l, c = '-' ∨ c = '+' ∨ (48 ≤ c.toNat ∧ c.toNat ≤ 57)) :
    '/' ∉ l ∧ ':' ∉ l := by
  constructor
  · intro hm
    have := h _ hm
    revert this
    decide
  · intro hm
    have := h _ hm
    revert this
    decide

theorem Itoa_no_sep (i : Int) : '/' ∉ (Itoa i).data ∧ ':' ∉ (Itoa i).data :=
  not_sep_of_chars _ fun c hc => by
    rcases Itoa_chars i c hc with h | h
    · exact Or.inl h
    · exact Or.inr (Or.inr h)

theorem Atoi_no_sep (s : String) (p : Int) (h : Atoi s = some p) : '/' ∉ s.data :=
  (not_sep_of_chars _ (Atoi_chars s p h)).1

theorem formatDate_no_sep (d : Date) : '/' ∉ (formatDate d).data :=
  (not_sep_of_chars _ fun c hc => Or.inr (Or.inr (formatDate_chars d c hc))).1

theorem camera_no_sep (i : Int) : '/' ∉ ['C', 'a', 'm', 'e', 'r', 'a', '_'] ++ (Itoa i).data := by
  intro h
  rcases List.mem_append.1 h with h | h
  · revert h
    decide
  · exact (Itoa_no_sep i).1 h

/-- An address without date segment differs from every address with one, when the
room id of the latter holds no `/`. -/
theorem dated_ne_undated (B1 B2 L R1 R2 D1 T1 T2 : List Char)
    (hL : ':' ∉ L) (hR1 : '/' ∉ R1) (hR2 : '/' ∉ R2) (hD1 : '/' ∉ D1)
    (hT1 : '/' ∉ T1) (hT2 : '/' ∉ T2)
    (h : ((((B1 ++ ':' :: L) ++ '/' :: ['l', 'i', 'v', 'e']) ++ '/' :: R1) ++ '/' :: D1) ++ '/' :: T1 =
      (((B2 ++ ':' :: L) ++ '/' :: ['l', 'i', 'v', 'e']) ++ '/' :: R2) ++ '/' :: T2) : False := by
  have h2 := (append_sep_inj '/' _ _ _ _ hT1 hT2 h).1
  have h3 := (append_sep_inj '/' _ _ _ _ hD1 hR2 h2).1
  have h4 := (append_sep_inj '/' _ _ _ _ hR1 (by decide) h3).1
  rw [List.append_assoc] at h4
  have hne : ':' ∉ L ++ '/' :: ['l', 'i', 'v', 'e'] := by
    intro hm
    rcases List.mem_append.1 hm with hm | hm
    · exact hL hm
    · revert hm
      decide
  have h5 := (append_sep_inj ':' B1 B2 _ _ hne hL h4).2
  have h6 := congrArg List.length h5
  simp at h6

/-- An address determines the room id (when room ids hold no `/`) and the `PushId` it
was built for. -/
theorem IsPushUrl_inj (cfg : ServerCfg) (r1 r2 : String) (p1 p2 : Int) (u : String)
    (hr1 : '/' ∉ r1.data) (hr2 : '/' ∉ r2.data)
    (h1 : IsPushUrl cfg r1 p1 u) (h2 : IsPushUrl cfg r2 p2 u) : r1 = r2 ∧ p1 = p2 := by
  obtain ⟨b1, s1, t1, hs1, ⟨q1, ht1⟩, hu1⟩ := h1
  obtain ⟨b2, s2, t2, hs2, ⟨q2, ht2⟩, hu2⟩ := h2
  have hT1 := Atoi_no_sep t1 q1 ht1
  have hT2 := Atoi_no_sep t2 q2 ht2
  have hL := (Itoa_no_sep cfg.Listen).2
  have hu := congrArg String.data (hu1.symm.trans hu2)
  have hfin : ∀ (X1 X2 : List Char),
      X1 ++ '/' :: (['C', 'a', 'm', 'e', 'r', 'a', '_'] ++ (Itoa p1).data) =
        X2 ++ '/' :: (['C', 'a', 'm', 'e', 'r', 'a', '_'] ++ (Itoa p2).data) →
      X1 = X2 ∧ p1 = p2 := by
    intro X1 X2 hX
    obtain ⟨hx, hp⟩ := append_sep_inj '/' _ _ _ _ (camera_no_sep p1) (camera_no_sep p2) hX
    exact ⟨hx, Itoa_injective p1 p2 (String.ext_iff.2 (List.append_cancel_left hp))⟩
  rcases hs1 with hs1 | ⟨d1, hs1⟩ <;> rcases hs2 with hs2 | ⟨d2, hs2⟩
  · rw [hs1, hs2] at hu
    have hu3 : ((((b1.data ++ ':' :: (Itoa cfg.Listen).data) ++ '/' :: ['l', 'i', 'v', 'e']) ++
          '/' :: r1.data) ++ '/' :: t1.data) ++
          '/' :: (['C', 'a', 'm', 'e', 'r', 'a', '_'] ++ (Itoa p1).data) =
        ((((b2.data ++ ':' :: (Itoa cfg.Listen).data) ++ '/' :: ['l', 'i', 'v', 'e']) ++
          '/' :: r2.data) ++ '/' :: t2.data) ++
          '/' :: (['C', 'a', 'm', 'e', 'r', 'a', '_'] ++ (Itoa p2).data) := by
      simp only [String.data_append, List.append_assoc] at hu ⊢
      exact hu
    obtain ⟨hx, hp⟩ := hfin _ _ hu3
    have h4 := (append_sep_inj '/' _ _ _ _ hT1 hT2 hx).1
    have h5 := (append_sep_inj '/' _ _ _ _ hr1 hr2 h4).2
    exact ⟨String.ext_iff.2 h5, hp⟩
  · exfalso
    rw [hs1, hs2] at hu
    have hu3 : ((((b1.data ++ ':' :: (Itoa cfg.Listen).data) ++ '/' :: ['l', 'i', 'v', 'e']) ++
          '/' :: r1.data) ++ '/' :: t1.data) ++
          '/' :: (['C', 'a', 'm', 'e', 'r', 'a', '_'] ++ (Itoa p1).data) =
        (((((b2.data ++ ':' :: (Itoa cfg.Listen).data) ++ '/' :: ['l', 'i', 'v', 'e']) ++
          '/' :: r2.data) ++ '/' :: (formatDate d2).data) ++ '/' :: t2.data) ++
          '/' :: (['C', 'a', 'm', 'e', 'r', 'a', '_'] ++ (Itoa p2).data) := by
      simp only [String.data_append, List.append_assoc] at hu ⊢
      exact hu
    obtain ⟨hx, _⟩ := hfin _ _ hu3
    exact dated_ne_undated _ _ _ _ _ _ _ _ hL hr2 hr1 (formatDate_no_sep d2) hT2 hT1 hx.symm
  · exfalso
    rw [hs1, hs2] at hu
    have hu3 : (((((b1.data ++ ':' :: (Itoa cfg.Listen).data) ++ '/' :: ['l', 'i', 'v', 'e']) ++
          '/' :: r1.data) ++ '/' :: (formatDate d1).data) ++ '/' :: t1.data) ++
          '/' :: (['C', 'a', 'm', 'e', 'r', 'a', '_'] ++ (Itoa p1).data) =
        ((((b2.data ++ ':' :: (Itoa cfg.Listen).data) ++ '/' :: ['l', 'i', 'v', 'e']) ++
          '/' :: r2.data) ++ '/' :: t2.data) ++
          '/' :: (['C', 'a', 'm', 'e', 'r', 'a', '_'] ++ (Itoa p2).data) := by
      simp only [String.data_append, List.append_assoc] at hu ⊢
      exact hu
    obtain ⟨hx, _⟩ := hfin _ _ hu3
    exact dated_ne_undated _ _ _ _ _ _ _ _ hL hr1 hr2 (formatDate_no_sep d1) hT1 hT2 hx
  · rw [hs1, hs2] at hu
    have hu3 : (((((b1.data ++ ':' :: (Itoa cfg.Listen).data) ++ '/' :: ['l', 'i', 'v', 'e']) ++
          '/' :: r1.data) ++ '/' :: (formatDate d1).data) ++ '/' :: t1.data) ++
          '/' :: (['C', 'a', 'm', 'e', 'r', 'a', '_'] ++ (Itoa p1).data) =
        (((((b2.data ++ ':' :: (Itoa cfg.Listen).data) ++ '/' :: ['l', 'i', 'v', 'e']) ++
          '/' :: r2.data) ++ '/' :: (formatDate d2).data) ++ '/' :: t2.data) ++
          '/' :: (['C', 'a', 'm', 'e', 'r', 'a', '_'] ++ (Itoa p2).data) := by
      simp only [String.data_append, List.append_assoc] at hu ⊢
      exact hu
    obtain ⟨hx, hp⟩ := hfin _ _ hu3
    have h4 := (append_sep_inj '/' _ _ _ _ hT1 hT2 hx).1
    have h5 := (append_sep_inj '/' _ _ _ _ (formatDate_no_sep d1) (formatDate_no_sep d2) h4).1
    have h6 := (append_sep_inj '/' _ _ _ _ hr1 hr2 h5).2
    exact ⟨String.ext_iff.2 h6, hp⟩

/-! ## P2: endpoint exclusivity -/

theorem keyedUrls_cons (v : LiveRoom) (rest : LiveRooms) :
    keyedUrls (v :: rest) = (v.Urls.map fun e => (v.LiveRoomId, e)) ++ keyedUrls rest := by
  simp [keyedUrls]

theorem keyedUrls_append (pre post : LiveRooms) :
    keyedUrls (pre ++ post) = keyedUrls pre ++ keyedUrls post := by
  simp [keyedUrls]

theorem allUrls_eq_map_keyedUrls (rooms : LiveRooms) :
    allUrls rooms = (keyedUrls rooms).map fun x => x.2 := by
  induction rooms with
  | nil => rfl
  | cons v rest ih =>
    rw [keyedUrls_cons, List.map_append, ← ih]
    simp [allUrls, Function.comp_def]

theorem mem_keyedUrls (rooms : LiveRooms) (x : String × PushStreamUrl) (h : x ∈ keyedUrls rooms) :
    x.1 ∈ rooms.map fun v => v.LiveRoomId := by
  simp only [keyedUrls, List.mem_flatMap, List.mem_map] at h
  obtain ⟨v, hv, e, _, he⟩ := h
  rw [← he]
  exact List.mem_map_of_mem _ hv

theorem setKeyed_cons (liveRoomId : String) (pushId : Int) (url : String) (user_type : Int)
    (x : String × PushStreamUrl) (rest : List (String × PushStreamUrl)) :
    setKeyed liveRoomId pushId url user_type (x :: rest) =
      if x.1 = liveRoomId ∧ x.2.PushId = pushId then
        (x.1, { x.2 with PushUrl := url, UserType := toUserType user_type, State := 1 }) :: rest
      else x :: setKeyed liveRoomId pushId url user_type rest := rfl

theorem setKeyed_other (liveRoomId : String) (pushId : Int) (url : String) (user_type : Int)
    (k : String) (urls : List PushStreamUrl) (keyed : List (String × PushStreamUrl))
    (hk : k ≠ liveRoomId) :
    setKeyed liveRoomId pushId url user_type ((urls.map fun e => (k, e)) ++ keyed) =
      (urls.map fun e => (k, e)) ++ setKeyed liveRoomId pushId url user_type keyed := by
  induction urls with
  | nil => rfl
  | cons e es ih =>
    rw [List.map_cons, List.cons_append, setKeyed_cons, if_neg (fun h => hk h.1), ih]
    rfl

theorem setKeyed_none (liveRoomId : String) (pushId : Int) (url : String) (user_type : Int)
    (urls : List PushStreamUrl) (keyed : List (String × PushStreamUrl))
    (h : setUrls pushId url user_type urls = none) :
    setKeyed liveRoomId pushId url user_type ((urls.map fun e => (liveRoomId, e)) ++ keyed) =
      (urls.map fun e => (liveRoomId, e)) ++ setKeyed liveRoomId pushId url user_type keyed := by
  rw [setUrls_eq_none_iff] at h
  induction urls with
  | nil => rfl
  | cons e es ih =>
    rw [List.map_cons, List.cons_append, setKeyed_cons,
      if_neg (fun hh => h e (List.mem_cons_self _ _) hh.2),
      ih fun x hx => h x (List.mem_cons_of_mem _ hx)]
    rfl

theorem setKeyed_some (liveRoomId : String) (pushId : Int) (url : String) (user_type : Int)
    (urls urls1 : List PushStreamUrl) (keyed : List (String × PushStreamUrl))
    (h : setUrls pushId url user_type urls = some urls1) :
    setKeyed liveRoomId pushId url user_type ((urls.map fun e => (liveRoomId, e)) ++ keyed) =
      (urls1.map fun e => (liveRoomId, e)) ++ keyed := by
  induction urls generalizing urls1 with
  | nil => simp [setUrls] at h
  | cons e es ih =>
    by_cases he : e.PushId = pushId
    · simp only [setUrls, if_pos he, Option.some.injEq] at h
      rw [List.map_cons, List.cons_append, setKeyed_cons, if_pos ⟨rfl, he⟩, ← h]
      rfl
    · simp only [setUrls, if_neg he, Option.map_eq_some'] at h
      obtain ⟨us, hus, hcons⟩ := h
      rw [List.map_cons, List.cons_append, setKeyed_cons, if_neg (fun hh => he hh.2),
        ih us hus, ← hcons]
      rfl

/-- On `keyedUrls`, `SetStartState` is the first-match update `setKeyed`. -/
theorem keyedUrls_SetStartState (rooms : LiveRooms) (projectId : Int) (liveRoomId : String)
    (pushId : Int) (url : String) (user_type : Int) :
    keyedUrls (SetStartState rooms projectId liveRoomId pushId url user_type).2 =
      setKeyed liveRoomId pushId url user_type (keyedUrls rooms) := by
  induction rooms with
  | nil => rfl
  | cons v rest ih =>
    rw [SetStartState_cons, keyedUrls_cons]
    by_cases hv : v.LiveRoomId = liveRoomId
    · rw [if_pos hv, hv]
      cases hset : setUrls pushId url user_type v.Urls with
      | none =>
        simp only
        rw [keyedUrls_cons, ih, setKeyed_none liveRoomId pushId url user_type v.Urls _ hset]
      | some urls =>
        simp only
        rw [keyedUrls_cons, setKeyed_some liveRoomId pushId url user_type v.Urls urls _ hset]
    · rw [if_neg hv]
      simp only
      rw [keyedUrls_cons, ih, setKeyed_other liveRoomId pushId url user_type _ _ _ hv]

theorem mem_setKeyed (liveRoomId : String) (pushId : Int) (url : String) (user_type : Int)
    (keyed : List (String × PushStreamUrl)) (y : String × PushStreamUrl)
    (h : y ∈ setKeyed liveRoomId pushId url user_type keyed) :
    y ∈ keyed ∨ (y.1 = liveRoomId ∧ y.2.PushId = pushId ∧ y.2.PushUrl = url) := by
  induction keyed with
  | nil => simp [setKeyed] at h
  | cons x rest ih =>
    rw [setKeyed_cons] at h
    by_cases hx : x.1 = liveRoomId ∧ x.2.PushId = pushId
    · rw [if_pos hx] at h
      rcases List.mem_cons.1 h with heq | h
      · right
        rw [heq]
        exact ⟨hx.1, hx.2, rfl⟩
      · exact Or.inl (List.mem_cons_of_mem _ h)
    · rw [if_neg hx] at h
      rcases List.mem_cons.1 h with heq | h
      · left
        rw [heq]
        exact List.mem_cons_self _ _
      · rcases ih h with h1 | h1
        · exact Or.inl (List.mem_cons_of_mem _ h1)
        · exact Or.inr h1

theorem UrlInv_setKeyed (cfg : ServerCfg) (liveRoomId : String) (pushId : Int) (url : String)
    (user_type : Int) (keyed : List (String × PushStreamUrl))
    (hurl : IsPushUrl cfg liveRoomId pushId url) (h : UrlInv cfg keyed) :
    UrlInv cfg (setKeyed liveRoomId pushId url user_type keyed) := by
  induction keyed with
  | nil => exact h
  | cons x rest ih =>
    obtain ⟨ha, hp⟩ := h
    rw [List.pairwise_cons] at hp
    have hrest : UrlInv cfg rest := ⟨fun y hy => ha y (List.mem_cons_of_mem _ hy), hp.2⟩
    rw [setKeyed_cons]
    by_cases hx : x.1 = liveRoomId ∧ x.2.PushId = pushId
    · rw [if_pos hx]
      constructor
      · intro y hy hs
        rcases List.mem_cons.1 hy with heq | hy
        · rw [heq]
          simp only
          rw [hx.1, hx.2]
          exact hurl
        · exact ha y (List.mem_cons_of_mem _ hy) hs
      · rw [List.pairwise_cons]
        exact ⟨fun y hy => hp.1 y hy, hp.2⟩
    · rw [if_neg hx]
      obtain ⟨ha1, hp1⟩ := ih hrest
      constructor
      · intro y hy hs
        rcases List.mem_cons.1 hy with heq | hy
        · rw [heq]
          exact ha x (List.mem_cons_self _ _) (by rw [← heq]; exact hs)
        · exact ha1 y hy hs
      · rw [List.pairwise_cons]
        refine ⟨?_, hp1⟩
        intro y hy hs hid
        rcases mem_setKeyed liveRoomId pushId url user_type rest y hy with hy1 | ⟨h1, h2, _⟩
        · exact hp.1 y hy1 hs hid
        · intro hpid
          exact hx ⟨hid.trans h1, hpid.trans h2⟩

theorem forall₂_mem_right {α : Type} (R : α → α → Prop) (l l1 : List α)
    (h : List.Forall₂ R l l1) (y : α) (hy : y ∈ l1) : ∃ x ∈ l, R x y := by
  induction h with
  | nil => simp at hy
  | cons hab _ ih =>
    rcases List.mem_cons.1 hy with heq | hy
    · rw [heq]
      exact ⟨_, List.mem_cons_self _ _, hab⟩
    · obtain ⟨x, hx, hr⟩ := ih hy
      exact ⟨x, List.mem_cons_of_mem _ hx, hr⟩

theorem forall₂_append {α : Type} (R : α → α → Prop) (a a1 b b1 : List α)
    (h1 : List.Forall₂ R a a1) (h2 : List.Forall₂ R b b1) : List.Forall₂ R (a ++ b) (a1 ++ b1) := by
  induction h1 with
  | nil => exact h2
  | cons hab _ ih => exact List.Forall₂.cons hab ih

theorem forall₂_same {α : Type} (R : α → α → Prop) (hR : ∀ x, R x x) (l : List α) :
    List.Forall₂ R l l := by
  induction l with
  | nil => exact List.Forall₂.nil
  | cons x l ih => exact List.Forall₂.cons (hR x) ih

/-- The invariant survives every change that keeps room ids and `PushId`s in place and
starts no endpoint. -/
theorem UrlInv_of_forall₂ (cfg : ServerCfg) (keyed keyed1 : List (String × PushStreamUrl))
    (hrel : List.Forall₂
      (fun x y => y.1 = x.1 ∧ y.2.PushId = x.2.PushId ∧ (y.2.State = 1 → y = x)) keyed keyed1)
    (h : UrlInv cfg keyed) : UrlInv cfg keyed1 := by
  induction hrel with
  | nil => exact h
  | @cons x y l l1 hxy hl ih =>
    obtain ⟨ha, hp⟩ := h
    rw [List.pairwise_cons] at hp
    obtain ⟨ha1, hp1⟩ := ih ⟨fun z hz => ha z (List.mem_cons_of_mem _ hz), hp.2⟩
    constructor
    · intro z hz hs
      rcases List.mem_cons.1 hz with heq | hz
      · rw [heq] at hs ⊢
        have hyx := hxy.2.2 hs
        rw [hyx] at hs ⊢
        exact ha x (List.mem_cons_self _ _) hs
      · exact ha1 z hz hs
    · rw [List.pairwise_cons]
      refine ⟨?_, hp1⟩
      intro z hz hs hid
      obtain ⟨w, hw, hwz⟩ := forall₂_mem_right _ l l1 hl z hz
      have hzw := hwz.2.2 hs
      rw [hzw] at hs hid
      rw [hxy.1] at hid
      rw [hxy.2.1, hzw]
      exact hp.1 w hw hs hid

theorem stopUrls_keyed_forall₂ (k : String) (urls : List PushStreamUrl) :
    List.Forall₂
      (fun x y : String × PushStreamUrl =>
        y.1 = x.1 ∧ y.2.PushId = x.2.PushId ∧ (y.2.State = 1 → y = x))
      (urls.map fun e => (k, e)) ((stopUrls urls).map fun e => (k, e)) := by
  induction urls with
  | nil => exact List.Forall₂.nil
  | cons e es ih =>
    refine List.Forall₂.cons ?_ ih
    by_cases he : e.State = 1
    · simp [he]
    · simp [he]

theorem UrlInv_stopRoom (cfg : ServerCfg) (rooms : LiveRooms) (projectId : Int)
    (h : UrlInv cfg (keyedUrls rooms)) : UrlInv cfg (keyedUrls (stopRoom rooms projectId)) := by
  rcases stopRoom_cases rooms projectId with h1 | ⟨pre, v, post, h1, _, _, h4⟩
  · rw [h1]
    exact h
  · rw [h4]
    rw [h1] at h
    refine UrlInv_of_forall₂ cfg _ _ ?_ h
    rw [keyedUrls_append, keyedUrls_append, keyedUrls_cons, keyedUrls_cons]
    apply forall₂_append
    · exact forall₂_same _ (fun x => ⟨rfl, rfl, fun _ => rfl⟩) _
    · apply forall₂_append
      · exact stopUrls_keyed_forall₂ v.LiveRoomId v.Urls
      · exact forall₂_same _ (fun x => ⟨rfl, rfl, fun _ => rfl⟩) _

theorem handle_UrlInv (cfg : ServerCfg) (rooms : LiveRooms) (req : Request)
    (h : UrlInv cfg (keyedUrls rooms)) : UrlInv cfg (keyedUrls (handle cfg rooms req).rooms) := by
  cases req with
  | getPush now tmpProjectId tmpUserType =>
    show UrlInv cfg (keyedUrls (handleGetPush cfg now tmpProjectId tmpUserType rooms).rooms)
    rcases handleGetPush_rooms_cases cfg now tmpProjectId tmpUserType rooms with
      h1 | ⟨p, ut, rid, np, hA, _, _, h1⟩
    · rw [h1]
      exact h
    · rw [h1]
      rcases assignPush_rooms_induct (fun rs => UrlInv cfg (keyedUrls rs))
        cfg now tmpProjectId p ut rid np rooms
        (fun pushId pushBase seg _ hseg => by
          show UrlInv cfg (keyedUrls _)
          rw [keyedUrls_SetStartState]
          refine UrlInv_setKeyed cfg rid pushId _ ut _ ⟨pushBase, seg, tmpProjectId, ?_, ⟨p, hA⟩, rfl⟩ h
          rcases hseg with hseg | hseg
          · exact Or.inl hseg
          · exact Or.inr ⟨now, hseg⟩)
        (fun rs pushId pushBase user_type hrs => by
          show UrlInv cfg (keyedUrls _)
          rw [keyedUrls_SetStartState]
          exact UrlInv_setKeyed cfg rid pushId _ user_type _
            ⟨pushBase, "", tmpProjectId, Or.inl rfl, ⟨p, hA⟩, rfl⟩ hrs)
        with h2 | h2
      · rw [h2]
        exact h
      · exact h2
  | stopProject tmpProjectId =>
    show UrlInv cfg (keyedUrls (handleStopProject tmpProjectId rooms).rooms)
    rcases handleStopProject_rooms tmpProjectId rooms with h1 | ⟨p, _, h1⟩
    · rw [h1]
      exact h
    · rw [h1]
      exact UrlInv_stopRoom cfg rooms p h

theorem initLiveRooms_free (lives : List Live) :
    ∀ x ∈ keyedUrls (initLiveRooms lives), x.2.State = 0 := by
  intro x hx
  obtain ⟨v, hv, hxv⟩ := List.mem_flatMap.1 hx
  obtain ⟨l, _, hl⟩ := List.mem_map.1 hv
  obtain ⟨e, he, hex⟩ := List.mem_map.1 hxv
  rw [← hl] at he
  obtain ⟨u, _, hu⟩ := List.mem_map.1 he
  rw [← hex, ← hu]

theorem UrlInv_initLiveRooms (cfg : ServerCfg) (lives : List Live) :
    UrlInv cfg (keyedUrls (initLiveRooms lives)) := by
  have hfree := initLiveRooms_free lives
  constructor
  · intro x hx hs
    rw [hfree x hx] at hs
    exact absurd hs (by decide)
  · apply List.Pairwise.imp_of_mem (R := fun _ _ => True)
    · intro a b _ hb _ hs
      rw [hfree b hb] at hs
      exact absurd hs (by decide)
    · exact List.pairwise_of_forall fun _ _ => trivial

/-- C3 (P2, endpoint exclusivity, as amended): for a configured pool none of whose
room ids contains the character `/`, in every state reachable from `initLiveRooms` by
any sequence of `getPush` and `stopProject` requests, no two distinct endpoints (in the
same room or in different rooms) that both have `State == 1` have the same `PushUrl`. -/
theorem endpoint_exclusivity (cfg : ServerCfg) (lives : List Live) (reqs : List Request)
    (hids : ∀ l ∈ lives, '/' ∉ l.LiveId.data) :
    (allUrls (run cfg lives reqs)).Pairwise fun a b =>
      a.State = 1 → b.State = 1 → a.PushUrl ≠ b.PushUrl := by
  have hinv : UrlInv cfg (keyedUrls (run cfg lives reqs)) :=
    run_induct (fun rs => UrlInv cfg (keyedUrls rs)) cfg lives (UrlInv_initLiveRooms cfg lives)
      (fun rooms req h => handle_UrlInv cfg rooms req h) reqs
  have hslash : ∀ x ∈ keyedUrls (run cfg lives reqs), '/' ∉ x.1.data := by
    intro x hx
    have hmem := mem_keyedUrls _ x hx
    rw [run_map_LiveRoomId] at hmem
    obtain ⟨l, hl, hlx⟩ := List.mem_map.1 hmem
    rw [← hlx]
    exact hids l hl
  rw [allUrls_eq_map_keyedUrls, List.pairwise_map]
  refine hinv.2.imp_of_mem ?_
  intro x y hx hy hxy hsx hsy heq
  have hux := hinv.1 x hx hsx
  have huy := hinv.1 y hy hsy
  rw [heq] at hux
  obtain ⟨hid, hpid⟩ := IsPushUrl_inj cfg x.1 y.1 _ _ _ (hslash x hx) (hslash y hy) hux huy
  exact hxy hsy hid hpid

/-- Witness for C3: two rooms, projects 12 and 13 allocated, 12 stopped and 14
allocated. -/
theorem endpoint_exclusivity_witness :
    (∀ l ∈ twoRoomLives, '/' ∉ l.LiveId.data) ∧
    (allUrls (run scenarioCfg twoRoomLives
      [Request.getPush scenarioDate "12" "0", Request.getPush scenarioDate "13" "0",
        Request.stopProject "12", Request.getPush scenarioDate "14" "1"])).Pairwise fun a b =>
      a.State = 1 → b.State = 1 → a.PushUrl ≠ b.PushUrl :=
  ⟨by decide, endpoint_exclusivity scenarioCfg twoRoomLives _ (by decide)⟩

/-- C3, counterexample: with the rooms `B` (base `h:1935/live/A`) and `A:1935/live/B`
(base `h`), the requests `getPush(-1)`, `getPush(12)`, `getPush(-1)` leave the first
endpoint of each room Busy on the same address. -/
theorem endpoint_exclusivity_counterexample :
    (allUrls (run staticCfg slashLives
      [Request.getPush scenarioDate "-1" "0", Request.getPush scenarioDate "12" "0",
        Request.getPush scenarioDate "-1" "0"])).map (fun e => (e.State, e.PushUrl)) =
      [(1, "h:1935/live/A:1935/live/B/-1/Camera_1"),
       (1, "h:1935/live/A:1935/live/B/12/Camera_2"),
       (1, "h:1935/live/A:1935/live/B/-1/Camera_1")] ∧
    ¬ (allUrls (run staticCfg slashLives
      [Request.getPush scenarioDate "-1" "0", Request.getPush scenarioDate "12" "0",
        Request.getPush scenarioDate "-1" "0"])).Pairwise fun a b =>
      a.State = 1 → b.State = 1 → a.PushUrl ≠ b.PushUrl := by
  decide

/-! ## `SetStartState`: postcondition -/

theorem setUrls_append (pushId : Int) (url : String) (user_type : Int)
    (a : List PushStreamUrl) (e : PushStreamUrl) (b : List PushStreamUrl)
    (ha : ∀ x ∈ a, x.PushId ≠ pushId) (he : e.PushId = pushId) :
    setUrls pushId url user_type (a ++ e :: b) =
      some (a ++ { e with PushUrl := url, UserType := toUserType user_type, State := 1 } :: b) := by
  induction a with
  | nil => simp [setUrls, he]
  | cons x xs ih =>
    have hx : x.PushId ≠ pushId := ha x (List.mem_cons_self _ _)
    have ih1 := ih fun y hy => ha y (List.mem_cons_of_mem _ hy)
    rw [List.cons_append]
    unfold setUrls
    rw [if_neg hx, ih1]
    rfl

theorem SetStartState_append (pre post : LiveRooms) (v : LiveRoom) (a b : List PushStreamUrl)
    (e : PushStreamUrl) (projectId pushId : Int) (url : String) (userType : Int)
    (hpre : ∀ x ∈ pre, x.LiveRoomId ≠ v.LiveRoomId)
    (hUrls : v.Urls = a ++ e :: b) (ha : ∀ x ∈ a, x.PushId ≠ pushId) (he : e.PushId = pushId) :
    SetStartState (pre ++ v :: post) projectId v.LiveRoomId pushId url userType =
      (none, pre ++
        { v with
          ProjectId := projectId
          Urls := a ++ { e with PushUrl := url, UserType := toUserType userType, State := 1 } :: b }
        :: post) := by
  induction pre with
  | nil =>
    rw [List.nil_append, SetStartState_cons, if_pos rfl, hUrls,
      setUrls_append pushId url userType a e b ha he]
    rfl
  | cons x xs ih =>
    have hx : x.LiveRoomId ≠ v.LiveRoomId := hpre x (List.mem_cons_self _ _)
    rw [List.cons_append, SetStartState_cons, if_neg hx,
      ih fun y hy => hpre y (List.mem_cons_of_mem _ hy)]
    rfl

theorem toUserType_of_uint8 (userType : Int) (h0 : 0 ≤ userType) (h1 : userType < 256) :
    ((toUserType userType : Nat) : Int) = userType := by
  unfold toUserType
  rw [Int.emod_eq_of_lt h0 h1]
  exact Int.toNat_of_nonneg h0

/-- C11 (as amended): in a pool with pairwise distinct room ids that holds the room
`roomId` (`v`, between the rooms `pre` and `post`) with an endpoint of `PushId` `pushId`
(`e`, the first one, between the endpoints `a` and `b`), `SetStartState(projectId, roomId,
pushId, url, userType)` returns nil and leaves the pool with that room bound to
`projectId`, that endpoint with `State == 1`, `PushUrl == url` and `UserType` the `uint8`
conversion of the `int` argument (its low eight bits, which is `userType` itself when
`0 <= userType <= 255`), and every other room, every other endpoint and every other field
as they were. -/
theorem SetStartState_post (pre post : LiveRooms) (v : LiveRoom) (a b : List PushStreamUrl)
    (e : PushStreamUrl) (projectId pushId : Int) (url : String) (userType : Int)
    (hnd : ((pre ++ v :: post).map fun r => r.LiveRoomId).Nodup)
    (hUrls : v.Urls = a ++ e :: b) (ha : ∀ x ∈ a, x.PushId ≠ pushId) (he : e.PushId = pushId) :
    SetStartState (pre ++ v :: post) projectId v.LiveRoomId pushId url userType =
      (none, pre ++
        { LiveRoomId := v.LiveRoomId
          ProjectId := projectId
          Urls := a ++ { e with PushUrl := url, UserType := toUserType userType, State := 1 } :: b }
        :: post) ∧
    (0 ≤ userType → userType < 256 → ((toUserType userType : Nat) : Int) = userType) := by
  refine ⟨?_, toUserType_of_uint8 userType⟩
  have hpre : ∀ x ∈ pre, x.LiveRoomId ≠ v.LiveRoomId := by
    intro x hx heq
    rw [List.map_append, List.map_cons, List.nodup_append] at hnd
    exact hnd.2.2 (List.mem_map_of_mem _ hx) (by rw [heq]; exact List.mem_cons_self _ _)
  exact SetStartState_append pre post v a b e projectId pushId url userType hpre hUrls ha he

/-- Witness for C11: the second room of the two-room pool, its second endpoint. -/
theorem SetStartState_post_witness :
    SetStartState
        ([{ LiveRoomId := "R1", ProjectId := -1, Urls := [] }] ++
          { LiveRoomId := "R2", ProjectId := -1, Urls :=
            [{ PushId := 1, RtmpBase := "rtmp://h", UserType := 0, VideoType := 0,
               LimitAudio := false, State := 0, PushUrl := "",
               SavePath := "", VideoName := "", SaveUrl := "", RequestUrl := "", Replays := [] }] ++
            { PushId := 2, RtmpBase := "rtmp://h", UserType := 1, VideoType := 0,
               LimitAudio := false, State := 0, PushUrl := "",
               SavePath := "", VideoName := "", SaveUrl := "", RequestUrl := "", Replays := [] }
            :: [] } :: [])
        12 "R2" 2 "rtmp://h:1935/live/R2/12/Camera_2" 1 =
      (none, [{ LiveRoomId := "R1", ProjectId := -1, Urls := [] }] ++
        { LiveRoomId := "R2", ProjectId := 12, Urls :=
            [{ PushId := 1, RtmpBase := "rtmp://h", UserType := 0, VideoType := 0,
               LimitAudio := false, State := 0, PushUrl := "",
               SavePath := "", VideoName := "", SaveUrl := "", RequestUrl := "", Replays := [] }] ++
            { PushId := 2, RtmpBase := "rtmp://h", UserType := toUserType 1, VideoType := 0,
               LimitAudio := false, State := 1, PushUrl := "rtmp://h:1935/live/R2/12/Camera_2",
               SavePath := "", VideoName := "", SaveUrl := "", RequestUrl := "", Replays := [] }
            :: [] } :: []) ∧
    ((0 : Int) ≤ 1 → (1 : Int) < 256 → ((toUserType 1 : Nat) : Int) = 1) :=
  SetStartState_post [{ LiveRoomId := "R1", ProjectId := -1, Urls := [] }] []
    { LiveRoomId := "R2", ProjectId := -1, Urls :=
            [{ PushId := 1, RtmpBase := "rtmp://h", UserType := 0, VideoType := 0,
               LimitAudio := false, State := 0, PushUrl := "",
               SavePath := "", VideoName := "", SaveUrl := "", RequestUrl := "", Replays := [] }] ++
            { PushId := 2, RtmpBase := "rtmp://h", UserType := 1, VideoType := 0,
               LimitAudio := false, State := 0, PushUrl := "",
               SavePath := "", VideoName := "", SaveUrl := "", RequestUrl := "", Replays := [] }
            :: [] }
    [{ PushId := 1, RtmpBase := "rtmp://h", UserType := 0, VideoType := 0,
               LimitAudio := false, State := 0, PushUrl := "",
               SavePath := "", VideoName := "", SaveUrl := "", RequestUrl := "", Replays := [] }]
    []
    { PushId := 2, RtmpBase := "rtmp://h", UserType := 1, VideoType := 0,
               LimitAudio := false, State := 0, PushUrl := "",
               SavePath := "", VideoName := "", SaveUrl := "", RequestUrl := "", Replays := [] }
    12 2 "rtmp://h:1935/live/R2/12/Camera_2" 1 (by decide) rfl (by decide) rfl

/-- C11, counterexample: on the pool of scenario 1 (one room `R1`, an endpoint with
`PushId` 1), `SetStartState(12, "R1", 1, url, 256)` returns nil and leaves the endpoint
Busy on `url` with `UserType` 0, not 256: the argument is converted to `uint8`.  With
the argument -1 the endpoint holds 255.  The request
`getPush?projectId=12&userType=256` makes the first of these calls. -/
theorem SetStartState_post_counterexample :
    ((initLiveRooms scenarioLives).map fun r => r.LiveRoomId).Nodup ∧
    (SetStartState (initLiveRooms scenarioLives) 12 "R1" 1
      "rtmp://h:1935/live/R1/12/Camera_1" 256).1 = none ∧
    (allUrls (SetStartState (initLiveRooms scenarioLives) 12 "R1" 1
      "rtmp://h:1935/live/R1/12/Camera_1" 256).2).map
        (fun e => (e.PushId, e.State, e.PushUrl, (e.UserType : Int))) =
      [(1, 1, "rtmp://h:1935/live/R1/12/Camera_1", 0)] ∧
    (¬ ∀ e ∈ allUrls (SetStartState (initLiveRooms scenarioLives) 12 "R1" 1
      "rtmp://h:1935/live/R1/12/Camera_1" 256).2, e.PushId = 1 → (e.UserType : Int) = 256) ∧
    (allUrls (SetStartState (initLiveRooms scenarioLives) 12 "R1" 1
      "rtmp://h:1935/live/R1/12/Camera_1" (-1)).2).map (fun e => (e.UserType : Int)) = [255] ∧
    (handleGetPush staticCfg scenarioDate "12" "256" (initLiveRooms scenarioLives)).rooms =
      (SetStartState (initLiveRooms scenarioLives) 12 "R1" 1
        "rtmp://h:1935/live/R1/12/Camera_1" 256).2 := by
  decide

/-! ## Publisher admission -/

theorem FindPushStream_eq_find? (rooms : LiveRooms) (pushUrl : String) :
    FindPushStream rooms pushUrl =
      (allUrls rooms).find? fun value => decide (value.PushUrl = pushUrl ∧ 1 = value.State) := by
  induction rooms with
  | nil => rfl
  | cons v rest ih =>
    have hall : allUrls (v :: rest) = v.Urls ++ allUrls rest := by simp [allUrls]
    rw [hall, List.find?_append]
    unfold FindPushStream
    cases hfind : v.Urls.find? (fun value => decide (value.PushUrl = pushUrl ∧ 1 = value.State)) with
    | none => simpa using ih
    | some value => simp

theorem IsPushUrl_ne_empty (cfg : ServerCfg) (liveRoomId : String) (pushId : Int) (url : String)
    (h : IsPushUrl cfg liveRoomId pushId url) : url ≠ "" := by
  obtain ⟨b, s, t, _, _, hu⟩ := h
  intro he
  rw [he] at hu
  have hd := congrArg String.data hu
  simp only [String.data_append] at hd
  have hlen := congrArg List.length hd
  simp at hlen
  omega

theorem FindPushStream_eq_none_iff (rooms : LiveRooms) (url : String) :
    FindPushStream rooms url = none ↔ ∀ e ∈ allUrls rooms, ¬ (e.State = 1 ∧ e.PushUrl = url) := by
  rw [FindPushStream_eq_find?, List.find?_eq_none]
  constructor
  · intro h e he hc
    exact h e he (decide_eq_true ⟨hc.2, hc.1.symm⟩)
  · intro h e he hc
    have hc1 := of_decide_eq_true hc
    exact h e he ⟨hc1.2.symm, hc1.1⟩

theorem UrlInv_run (cfg : ServerCfg) (lives : List Live) (reqs : List Request) :
    UrlInv cfg (keyedUrls (run cfg lives reqs)) :=
  run_induct (fun rs => UrlInv cfg (keyedUrls rs)) cfg lives (UrlInv_initLiveRooms cfg lives)
    (fun rooms req h => handle_UrlInv cfg rooms req h) reqs

theorem run_ids_no_slash (cfg : ServerCfg) (lives : List Live) (reqs : List Request)
    (hids : ∀ l ∈ lives, '/' ∉ l.LiveId.data) :
    ∀ x ∈ keyedUrls (run cfg lives reqs), '/' ∉ x.1.data := by
  intro x hx
  have hmem := mem_keyedUrls _ x hx
  rw [run_map_LiveRoomId] at hmem
  obtain ⟨l, hl, hlx⟩ := List.mem_map.1 hmem
  rw [← hlx]
  exact hids l hl

theorem UrlInv_pairwise_ne (cfg : ServerCfg) (keyed : List (String × PushStreamUrl))
    (hinv : UrlInv cfg keyed) (hslash : ∀ x ∈ keyed, '/' ∉ x.1.data) :
    keyed.Pairwise fun x y => x.2.State = 1 → y.2.State = 1 → x.2.PushUrl ≠ y.2.PushUrl := by
  refine hinv.2.imp_of_mem ?_
  intro x y hx hy hxy hsx hsy heq
  have hux := hinv.1 x hx hsx
  have huy := hinv.1 y hy hsy
  rw [heq] at hux
  obtain ⟨hid, hpid⟩ := IsPushUrl_inj cfg x.1 y.1 _ _ _ (hslash x hx) (hslash y hy) hux huy
  exact hxy hsy hid hpid

theorem FindPushStream_stopped (cfg : ServerCfg) (pre : LiveRooms) (v : LiveRoom)
    (post : LiveRooms) (hinv : UrlInv cfg (keyedUrls (pre ++ v :: post)))
    (hslash : ∀ x ∈ keyedUrls (pre ++ v :: post), '/' ∉ x.1.data)
    (e : PushStreamUrl) (he : e ∈ v.Urls) (hs : e.State = 1) :
    FindPushStream (pre ++ { v with ProjectId := -1, Urls := stopUrls v.Urls } :: post)
      e.PushUrl = none := by
  have hex := UrlInv_pairwise_ne cfg _ hinv hslash
  rw [keyedUrls_append, keyedUrls_cons, List.pairwise_append] at hex
  obtain ⟨_, hmid, hcross1⟩ := hex
  rw [List.pairwise_append] at hmid
  obtain ⟨_, _, hcross2⟩ := hmid
  have hmem : (v.LiveRoomId, e) ∈ v.Urls.map fun e => (v.LiveRoomId, e) :=
    List.mem_map_of_mem _ he
  rw [FindPushStream_eq_none_iff]
  intro x hx hc
  have hall : allUrls (pre ++ { v with ProjectId := -1, Urls := stopUrls v.Urls } :: post) =
      allUrls pre ++ (stopUrls v.Urls ++ allUrls post) := by
    simp [allUrls]
  rw [hall] at hx
  rcases List.mem_append.1 hx with h1 | h2
  · rw [allUrls_eq_map_keyedUrls] at h1
    obtain ⟨y, hy, hyx⟩ := List.mem_map.1 h1
    have hyx1 : y.2 = x := hyx
    exact hcross1 y hy (v.LiveRoomId, e) (List.mem_append_left _ hmem)
      (by rw [hyx1]; exact hc.1) hs (by rw [hyx1]; exact hc.2)
  · rcases List.mem_append.1 h2 with h3 | h4
    · exact stopUrls_not_busy v.Urls x h3 hc.1
    · rw [allUrls_eq_map_keyedUrls] at h4
      obtain ⟨y, hy, hyx⟩ := List.mem_map.1 h4
      have hyx1 : y.2 = x := hyx
      exact hcross2 (v.LiveRoomId, e) hmem y hy hs (by rw [hyx1]; exact hc.1)
        (by rw [hyx1]; exact hc.2.symm)

/-- C12 (as amended): `FindPushStream(url)` returns an endpoint if and only if some
endpoint of the pool has `State == 1` and `PushUrl == url`, and then it returns the
first such endpoint in pool order; otherwise it returns the error.  So a URL no Busy
endpoint carries is rejected: every URL while no endpoint is Busy; in every state
reachable from `initLiveRooms` by `getPush` and `stopProject` requests the empty URL
(which Free endpoints carry) and every URL that is not an address built for the room id
and the `PushId` of an endpoint of the pool; and, when no room id contains `/`, after a
`stopProject` that finds the project (it answers 200) the URL of every endpoint that was
Busy in the room it stops, the first room bound to the project. -/
theorem FindPushStream_iff_busy (rooms : LiveRooms) (url : String) :
    ((∃ e, FindPushStream rooms url = some e) ↔
      ∃ e ∈ allUrls rooms, e.State = 1 ∧ e.PushUrl = url) ∧
    (∀ pre e post, allUrls rooms = pre ++ e :: post → e.State = 1 → e.PushUrl = url →
      (∀ x ∈ pre, ¬ (x.State = 1 ∧ x.PushUrl = url)) → FindPushStream rooms url = some e) ∧
    (FindPushStream rooms url = none ↔ ∀ e ∈ allUrls rooms, ¬ (e.State = 1 ∧ e.PushUrl = url)) ∧
    ((∀ e ∈ allUrls rooms, e.State ≠ 1) → FindPushStream rooms url = none) ∧
    (∀ cfg lives reqs, FindPushStream (run cfg lives reqs) "" = none) ∧
    (∀ cfg lives reqs e, FindPushStream (run cfg lives reqs) url = some e →
      ∃ v ∈ run cfg lives reqs, e ∈ v.Urls ∧ IsPushUrl cfg v.LiveRoomId e.PushId url) ∧
    (∀ cfg lives reqs tmpProjectId projectId liveRoom,
      (∀ l ∈ lives, '/' ∉ l.LiveId.data) → Atoi tmpProjectId = some projectId →
      GetLiveRoom (run cfg lives reqs) projectId = some liveRoom →
      (handleStopProject tmpProjectId (run cfg lives reqs)).reply.status = 200 ∧
      ∀ e ∈ liveRoom.Urls, e.State = 1 →
        FindPushStream (handleStopProject tmpProjectId (run cfg lives reqs)).rooms e.PushUrl =
          none) := by
  refine ⟨?_, ?_, FindPushStream_eq_none_iff rooms url, ?_, ?_, ?_, ?_⟩
  · constructor
    · rintro ⟨e, he⟩
      rw [FindPushStream_eq_find?] at he
      have h1 := of_decide_eq_true
        (List.find?_some (p := fun value : PushStreamUrl =>
          decide (value.PushUrl = url ∧ 1 = value.State)) he)
      exact ⟨e, List.mem_of_find?_eq_some he, h1.2.symm, h1.1⟩
    · rintro ⟨e, he, hs, hu⟩
      cases hf : FindPushStream rooms url with
      | some x => exact ⟨x, rfl⟩
      | none => exact absurd ⟨hs, hu⟩ ((FindPushStream_eq_none_iff rooms url).1 hf e he)
  · intro pre e post hall hs hu hpre
    rw [FindPushStream_eq_find?, hall]
    apply find?_append_first
    · intro x hx
      exact decide_eq_false fun hc => hpre x hx ⟨hc.2.symm, hc.1⟩
    · exact decide_eq_true ⟨hu, hs.symm⟩
  · intro h
    rw [FindPushStream_eq_none_iff]
    intro e he hc
    exact h e he hc.1
  · intro cfg lives reqs
    rw [FindPushStream_eq_none_iff]
    intro e he hc
    have hinv := UrlInv_run cfg lives reqs
    rw [allUrls_eq_map_keyedUrls] at he
    obtain ⟨x, hx, hxe⟩ := List.mem_map.1 he
    have hurl := hinv.1 x hx (by rw [hxe]; exact hc.1)
    rw [hxe, hc.2] at hurl
    exact IsPushUrl_ne_empty cfg _ _ _ hurl rfl
  · intro cfg lives reqs e hfind
    rw [FindPushStream_eq_find?] at hfind
    have h1 := of_decide_eq_true
      (List.find?_some (p := fun value : PushStreamUrl =>
        decide (value.PushUrl = url ∧ 1 = value.State)) hfind)
    have hmem := List.mem_of_find?_eq_some hfind
    unfold allUrls at hmem
    obtain ⟨v, hv, hev⟩ := List.mem_flatMap.1 hmem
    have hk : (v.LiveRoomId, e) ∈ keyedUrls (run cfg lives reqs) :=
      List.mem_flatMap.2 ⟨v, hv, List.mem_map_of_mem _ hev⟩
    have hurl := (UrlInv_run cfg lives reqs).1 _ hk h1.2.symm
    rw [h1.1] at hurl
    exact ⟨v, hv, hev, hurl⟩
  · intro cfg lives reqs tmpProjectId projectId liveRoom hids hA hget
    have hmemv := List.mem_of_find?_eq_some hget
    have hpv : liveRoom.ProjectId = projectId := of_decide_eq_true
      (List.find?_some (p := fun v : LiveRoom => decide (v.ProjectId = projectId)) hget)
    obtain ⟨pre, v, post, h1, h2, h3⟩ :=
      exists_first_bound (run cfg lives reqs) projectId ⟨liveRoom, hmemv, hpv⟩
    have hinv := UrlInv_run cfg lives reqs
    have hsl := run_ids_no_slash cfg lives reqs hids
    rw [h1] at hinv hsl hget ⊢
    rw [GetLiveRoom_append pre v post projectId h2 h3] at hget
    have hv : v = liveRoom := Option.some.inj hget
    rw [handleStopProject_bound tmpProjectId projectId pre v post hA h2 h3]
    refine ⟨rfl, ?_⟩
    intro e he hs
    rw [← hv] at he
    exact FindPushStream_stopped cfg pre v post hinv hsl e he hs

/-- Witness for C12: in scenario 1 with fixed addresses, after `getPush(12)` and
`stopProject(12)` the address the endpoint carried is rejected. -/
theorem FindPushStream_iff_busy_witness :
    (handleStopProject "12" replayPool).reply.status = 200 ∧
    FindPushStream (handleStopProject "12" replayPool).rooms
      "rtmp://h:1935/live/R1/12/Camera_1" = none :=
  ⟨((FindPushStream_iff_busy [] "").2.2.2.2.2.2 staticCfg scenarioLives
      [Request.getPush scenarioDate "12" "0"] "12" 12
      { LiveRoomId := "R1", ProjectId := 12, Urls :=
          [{ PushId := 1, RtmpBase := "rtmp://h", UserType := 0, VideoType := Camera,
             LimitAudio := false, State := 1, PushUrl := "rtmp://h:1935/live/R1/12/Camera_1",
             SavePath := "/S", VideoName := "Camera", SaveUrl := "http://s",
             RequestUrl := "http://n", Replays := [] }] }
      (by decide) (by decide) (by decide)).1,
    ((FindPushStream_iff_busy [] "").2.2.2.2.2.2 staticCfg scenarioLives
      [Request.getPush scenarioDate "12" "0"] "12" 12
      { LiveRoomId := "R1", ProjectId := 12, Urls :=
          [{ PushId := 1, RtmpBase := "rtmp://h", UserType := 0, VideoType := Camera,
             LimitAudio := false, State := 1, PushUrl := "rtmp://h:1935/live/R1/12/Camera_1",
             SavePath := "/S", VideoName := "Camera", SaveUrl := "http://s",
             RequestUrl := "http://n", Replays := [] }] }
      (by decide) (by decide) (by decide)).2
      { PushId := 1, RtmpBase := "rtmp://h", UserType := 0, VideoType := Camera,
        LimitAudio := false, State := 1, PushUrl := "rtmp://h:1935/live/R1/12/Camera_1",
        SavePath := "/S", VideoName := "Camera", SaveUrl := "http://s",
        RequestUrl := "http://n", Replays := [] }
      (by decide) (by decide)⟩

/-- C12, counterexample: three reachable pools in which `FindPushStream` admits a URL
that the claim's consequence rejects.  In the pool of the three-endpoint room the only
request, `getPush?projectId=12&userType=0`, returned the address of endpoint 1, and the
address of endpoint 2, which no reply carried, is admitted.  With two rooms of the same
id, and with distinct ids and the project -1, `stopProject` for the project answers 200
and the address `getPush` returned for that project is still admitted. -/
theorem FindPushStream_iff_busy_counterexample :
    ((handleGetPush staticCfg scenarioDate "12" "0" (initLiveRooms cameraLives)).reply =
        ⟨200, Body.push
          { LiveRoomId := "R1", PushId := 1, PushUrl := "rtmp://h:1935/live/R1/12/Camera_1",
            UserType := 0, ProjectId := 12 }⟩ ∧
      (FindPushStream (run staticCfg cameraLives [Request.getPush scenarioDate "12" "0"])
        "rtmp://h:1935/live/R1/12/Camera_2").map (fun e => (e.PushId, e.State)) =
        some (2, 1)) ∧
    ((handleGetPush staticCfg scenarioDate "12" "1" (initLiveRooms sameIdLives)).reply =
        ⟨200, Body.push
          { LiveRoomId := "A", PushId := 2, PushUrl := "rtmp://h:1935/live/A/12/Camera_2",
            UserType := 1, ProjectId := 12 }⟩ ∧
      (handleStopProject "12"
        (run staticCfg sameIdLives [Request.getPush scenarioDate "12" "1"])).reply =
        ⟨200, Body.message 0 "Stop Project Success"⟩ ∧
      (FindPushStream (run staticCfg sameIdLives
          [Request.getPush scenarioDate "12" "1", Request.stopProject "12"])
        "rtmp://h:1935/live/A/12/Camera_2").map (fun e => (e.PushId, e.State)) =
        some (2, 1)) ∧
    ((twoRoomLives.map fun l => l.LiveId).Nodup ∧
      (handleGetPush staticCfg scenarioDate "-1" "0"
        (run staticCfg twoRoomLives [Request.getPush scenarioDate "12" "0"])).reply =
        ⟨200, Body.push
          { LiveRoomId := "R2", PushId := 1, PushUrl := "rtmp://h:1935/live/R2/-1/Camera_1",
            UserType := 0, ProjectId := -1 }⟩ ∧
      (handleStopProject "-1" (run staticCfg twoRoomLives
          [Request.getPush scenarioDate "12" "0", Request.getPush scenarioDate "-1" "0",
            Request.stopProject "12"])).reply =
        ⟨200, Body.message 0 "Stop Project Success"⟩ ∧
      (FindPushStream (run staticCfg twoRoomLives
          [Request.getPush scenarioDate "12" "0", Request.getPush scenarioDate "-1" "0",
            Request.stopProject "12", Request.stopProject "-1"])
        "rtmp://h:1935/live/R2/-1/Camera_1").map (fun e => (e.PushId, e.State)) =
        some (1, 1)) := by
  decide

/-! ## Mute toggling -/

theorem setLimitUrls_append (pushId limit : Int) (a : List PushStreamUrl) (e : PushStreamUrl)
    (b : List PushStreamUrl) (ha : ∀ x ∈ a, ¬ (x.PushId = pushId ∧ x.State = 1))
    (he : e.PushId = pushId) (hs : e.State = 1) :
    setLimitUrls pushId limit (a ++ e :: b) =
      some (a ++ { e with LimitAudio := decide (limit = 0) } :: b) := by
  induction a with
  | nil =>
    rw [List.nil_append]
    unfold setLimitUrls
    rw [if_pos ⟨he, hs.symm⟩]
    by_cases hl : limit = 0 <;> simp [hl]
  | cons x xs ih =>
    have hx : ¬ (x.PushId = pushId ∧ 1 = x.State) :=
      fun h => ha x (List.mem_cons_self _ _) ⟨h.1, h.2.symm⟩
    rw [List.cons_append]
    unfold setLimitUrls
    rw [if_neg hx, ih fun y hy => ha y (List.mem_cons_of_mem _ hy)]
    rfl

theorem setLimitUrls_eq_none (pushId limit : Int) (urls : List PushStreamUrl)
    (h : ∀ e ∈ urls, ¬ (e.PushId = pushId ∧ e.State = 1)) :
    setLimitUrls pushId limit urls = none := by
  induction urls with
  | nil => rfl
  | cons x xs ih =>
    have hx : ¬ (x.PushId = pushId ∧ 1 = x.State) :=
      fun hc => h x (List.mem_cons_self _ _) ⟨hc.1, hc.2.symm⟩
    unfold setLimitUrls
    rw [if_neg hx, ih fun y hy => h y (List.mem_cons_of_mem _ hy)]
    rfl

theorem SetLimitAudioFromPushId_cons (v : LiveRoom) (rest : LiveRooms)
    (projectId pushId limit : Int) :
    SetLimitAudioFromPushId (v :: rest) projectId pushId limit =
      if v.ProjectId = projectId then
        match setLimitUrls pushId limit v.Urls with
        | some urls => (none, { v with Urls := urls } :: rest)
        | none =>
          ((SetLimitAudioFromPushId rest projectId pushId limit).1,
            v :: (SetLimitAudioFromPushId rest projectId pushId limit).2)
      else
        ((SetLimitAudioFromPushId rest projectId pushId limit).1,
          v :: (SetLimitAudioFromPushId rest projectId pushId limit).2) := rfl

theorem SetLimitAudioFromPushId_not_found (rooms : LiveRooms) (projectId pushId limit : Int)
    (h : ∀ v ∈ rooms, v.ProjectId = projectId →
      ∀ e ∈ v.Urls, ¬ (e.PushId = pushId ∧ e.State = 1)) :
    SetLimitAudioFromPushId rooms projectId pushId limit = (some "Not Found SetLimitAudio", rooms) := by
  induction rooms with
  | nil => rfl
  | cons v rest ih =>
    have ih1 := ih fun x hx => h x (List.mem_cons_of_mem _ hx)
    rw [SetLimitAudioFromPushId_cons]
    by_cases hv : v.ProjectId = projectId
    · rw [if_pos hv, setLimitUrls_eq_none pushId limit v.Urls (h v (List.mem_cons_self _ _) hv), ih1]
    · rw [if_neg hv, ih1]

theorem SetLimitAudioFromPushId_append (pre post : LiveRooms) (v : LiveRoom)
    (a b : List PushStreamUrl) (e : PushStreamUrl) (projectId pushId audio : Int)
    (hpre : ∀ x ∈ pre, x.ProjectId ≠ projectId) (hv : v.ProjectId = projectId)
    (hUrls : v.Urls = a ++ e :: b) (he : e.PushId = pushId) (hs : e.State = 1)
    (ha : ∀ x ∈ a, ¬ (x.PushId = pushId ∧ x.State = 1)) :
    SetLimitAudioFromPushId (pre ++ v :: post) projectId pushId audio =
      (none, pre ++
        { v with Urls := a ++ { e with LimitAudio := decide (audio = 0) } :: b } :: post) := by
  induction pre with
  | nil =>
    rw [List.nil_append, SetLimitAudioFromPushId_cons, if_pos hv, hUrls,
      setLimitUrls_append pushId audio a e b ha he hs]
    rfl
  | cons x xs ih =>
    have hx : x.ProjectId ≠ projectId := hpre x (List.mem_cons_self _ _)
    rw [List.cons_append, SetLimitAudioFromPushId_cons, if_neg hx,
      ih fun y hy => hpre y (List.mem_cons_of_mem _ hy)]
    rfl

theorem GetLimitAudioFromPushId_append (pre post : LiveRooms) (v : LiveRoom)
    (a b : List PushStreamUrl) (e : PushStreamUrl) (projectId pushId : Int)
    (hpre : ∀ x ∈ pre, x.ProjectId ≠ projectId) (hv : v.ProjectId = projectId)
    (hUrls : v.Urls = a ++ e :: b) (he : e.PushId = pushId)
    (ha : ∀ x ∈ a, x.PushId ≠ pushId) :
    GetLimitAudioFromPushId (pre ++ v :: post) projectId pushId = (none, e.LimitAudio) := by
  induction pre with
  | nil =>
    have hfind : v.Urls.find? (fun value => decide (value.PushId = pushId)) = some e := by
      rw [hUrls]
      apply find?_append_first
      · intro x hx
        exact decide_eq_false (ha x hx)
      · exact decide_eq_true he
    rw [List.nil_append]
    unfold GetLimitAudioFromPushId
    rw [if_pos hv, hfind]
  | cons x xs ih =>
    have hx : x.ProjectId ≠ projectId := hpre x (List.mem_cons_self _ _)
    rw [List.cons_append]
    unfold GetLimitAudioFromPushId
    rw [if_neg hx]
    exact ih fun y hy => hpre y (List.mem_cons_of_mem _ hy)

/-- C13: when the room bound to `projectId` (`v`, the first room with that `ProjectId`)
has a Busy endpoint with `PushId` `pushId` (`e`, the first such), `SetLimitAudioFromPushId(
projectId, pushId, audio)` returns nil and leaves the pool as it was except for that
endpoint's `LimitAudio`, which is true if `audio == 0` and false if `audio != 0`; when no
endpoint before it in the room has that `PushId`, a following `GetLimitAudioFromPushId(
projectId, pushId)` returns that value.  In every pool where no room bound to
`projectId` has a Busy endpoint with that `PushId`, it returns the error
"Not Found SetLimitAudio" and changes nothing. -/
theorem SetLimitAudioFromPushId_toggle (pre post : LiveRooms) (v : LiveRoom)
    (a b : List PushStreamUrl) (e : PushStreamUrl) (projectId pushId audio : Int)
    (hpre : ∀ x ∈ pre, x.ProjectId ≠ projectId) (hv : v.ProjectId = projectId)
    (hUrls : v.Urls = a ++ e :: b) (he : e.PushId = pushId) (hs : e.State = 1)
    (ha : ∀ x ∈ a, ¬ (x.PushId = pushId ∧ x.State = 1)) :
    SetLimitAudioFromPushId (pre ++ v :: post) projectId pushId audio =
      (none, pre ++
        { LiveRoomId := v.LiveRoomId
          ProjectId := v.ProjectId
          Urls := a ++ { e with LimitAudio := decide (audio = 0) } :: b } :: post) ∧
    ((∀ x ∈ a, x.PushId ≠ pushId) →
      GetLimitAudioFromPushId
        (SetLimitAudioFromPushId (pre ++ v :: post) projectId pushId audio).2 projectId pushId =
        (none, decide (audio = 0))) ∧
    (∀ rooms : LiveRooms,
      (∀ r ∈ rooms, r.ProjectId = projectId →
        ∀ x ∈ r.Urls, ¬ (x.PushId = pushId ∧ x.State = 1)) →
      SetLimitAudioFromPushId rooms projectId pushId audio =
        (some "Not Found SetLimitAudio", rooms)) := by
  have hset := SetLimitAudioFromPushId_append pre post v a b e projectId pushId audio
    hpre hv hUrls he hs ha
  refine ⟨hset, ?_, fun rooms h => SetLimitAudioFromPushId_not_found rooms projectId pushId audio h⟩
  intro hfirst
  rw [hset]
  exact GetLimitAudioFromPushId_append pre post
    { v with Urls := a ++ { e with LimitAudio := decide (audio = 0) } :: b } a b
    { e with LimitAudio := decide (audio = 0) } projectId pushId hpre hv rfl he hfirst

/-- Witness for C13: muting endpoint 1 of project 12 after the `getPush` of scenario 1. -/
theorem SetLimitAudioFromPushId_toggle_witness :
    (SetLimitAudioFromPushId
        (run staticCfg scenarioLives [Request.getPush scenarioDate "12" "0"]) 12 1 0).1 = none ∧
    GetLimitAudioFromPushId
        (SetLimitAudioFromPushId
          (run staticCfg scenarioLives [Request.getPush scenarioDate "12" "0"]) 12 1 0).2 12 1 =
      (none, true) := by
  have h := SetLimitAudioFromPushId_toggle [] []
    { LiveRoomId := "R1", ProjectId := 12, Urls :=
      [{ PushId := 1, RtmpBase := "rtmp://h", UserType := 0, VideoType := 0,
         LimitAudio := false, State := 1, PushUrl := "rtmp://h:1935/live/R1/12/Camera_1",
         SavePath := "/S", VideoName := "Camera", SaveUrl := "http://s",
         RequestUrl := "http://n", Replays := [] }] }
    [] []
    { PushId := 1, RtmpBase := "rtmp://h", UserType := 0, VideoType := 0,
      LimitAudio := false, State := 1, PushUrl := "rtmp://h:1935/live/R1/12/Camera_1",
      SavePath := "/S", VideoName := "Camera", SaveUrl := "http://s",
      RequestUrl := "http://n", Replays := [] }
    12 1 0 (by decide) rfl rfl rfl rfl (by decide)
  have hrun : run staticCfg scenarioLives [Request.getPush scenarioDate "12" "0"] =
      [] ++ ({ LiveRoomId := "R1", ProjectId := 12, Urls :=
        [{ PushId := 1, RtmpBase := "rtmp://h", UserType := 0, VideoType := 0,
           LimitAudio := false, State := 1, PushUrl := "rtmp://h:1935/live/R1/12/Camera_1",
           SavePath := "/S", VideoName := "Camera", SaveUrl := "http://s",
           RequestUrl := "http://n", Replays := [] }] } : LiveRoom) :: [] := by
    decide
  rw [hrun]
  exact ⟨by rw [h.1], h.2.1 (by decide)⟩

/-- C14, the code at the failing input: in the initial pool of scenario 1 no endpoint is
Busy, `SetLimitAudioFromPushId(99, 1, 0)` returns the error "Not Found SetLimitAudio",
and `setPushIdAudio?projectId=99&pushId=1&audio=0` is answered with status 200 and
`result` 200. -/
theorem handleSetAudioFromPushId_ignores_error :
    (SetLimitAudioFromPushId (initLiveRooms scenarioLives) 99 1 0).1 =
      some "Not Found SetLimitAudio" ∧
    (handleSetAudioFromPushId "99" "1" "0" (initLiveRooms scenarioLives)).reply =
      ⟨200, Body.message 200 "set Audio Success ProjectId:99 pushId=1 Audio=0"⟩ := by
  decide

/-! ## `DropPacket`: one iteration -/

theorem chanSend_of_lt (pktQue : List Packet) (p : Packet) (h : pktQue.length < maxQueueNum) :
    chanSend pktQue p = some (pktQue ++ [p]) := by
  unfold chanSend
  rw [if_pos h]

theorem chanRecv_of_pos (pktQue : List Packet) (h : 0 < pktQue.length) :
    ∃ p, chanRecv pktQue = some (p, pktQue.tail) ∧ pktQue = p :: pktQue.tail := by
  cases pktQue with
  | nil => simp at h
  | cons p rest => exact ⟨p, rfl, rfl⟩

/-- What the audio block does on a buffer with a free slot: nothing for a packet that
is not audio; an audio packet is sent back, or, above `maxQueueNum - 2`, the next packet
is received and both are gone. -/
theorem dropAudio_spec (tmpPkt : Packet) (pktQue : List Packet) (h : pktQue.length < maxQueueNum) :
    (tmpPkt.IsAudio = false ∧ dropAudio tmpPkt pktQue = some (pktQue, [])) ∨
    (tmpPkt.IsAudio = true ∧ pktQue.length ≤ maxQueueNum - 2 ∧
      dropAudio tmpPkt pktQue = some (pktQue ++ [tmpPkt], [ChanOp.send])) ∨
    (tmpPkt.IsAudio = true ∧ maxQueueNum - 2 < pktQue.length ∧
      dropAudio tmpPkt pktQue = some (pktQue.tail, [ChanOp.recv])) := by
  unfold dropAudio
  cases ha : tmpPkt.IsAudio with
  | false => left; exact ⟨rfl, rfl⟩
  | true =>
    right
    rw [if_pos rfl]
    by_cases hl : pktQue.length > maxQueueNum - 2
    · right
      obtain ⟨p, hp, _⟩ := chanRecv_of_pos pktQue (by omega)
      refine ⟨rfl, hl, ?_⟩
      rw [if_pos hl, hp]
      rfl
    · left
      refine ⟨rfl, by omega, ?_⟩
      rw [if_neg hl, chanSend_of_lt pktQue tmpPkt h]
      rfl

/-- What the video block does on a buffer with a free slot. -/
theorem dropVideo_spec (tmpPkt : Packet) (pktQue : List Packet) (h : pktQue.length < maxQueueNum) :
    (tmpPkt.IsVideo = false ∧ dropVideo tmpPkt pktQue = some (pktQue, [])) ∨
    (tmpPkt.IsVideo = true ∧ tmpPkt.seqOrKey = true ∧ pktQue.length + 1 ≤ maxQueueNum - 10 ∧
      dropVideo tmpPkt pktQue = some (pktQue ++ [tmpPkt], [ChanOp.send])) ∨
    (tmpPkt.IsVideo = true ∧ tmpPkt.seqOrKey = true ∧ maxQueueNum - 10 < pktQue.length + 1 ∧
      dropVideo tmpPkt pktQue = some ((pktQue ++ [tmpPkt]).tail, [ChanOp.send, ChanOp.recv])) ∨
    (tmpPkt.IsVideo = true ∧ tmpPkt.seqOrKey = false ∧ pktQue.length ≤ maxQueueNum - 10 ∧
      dropVideo tmpPkt pktQue = some (pktQue, [])) ∨
    (tmpPkt.IsVideo = true ∧ tmpPkt.seqOrKey = false ∧ maxQueueNum - 10 < pktQue.length ∧
      dropVideo tmpPkt pktQue = some (pktQue.tail, [ChanOp.recv])) := by
  unfold dropVideo
  cases hv : tmpPkt.IsVideo with
  | false => left; exact ⟨rfl, rfl⟩
  | true =>
    right
    rw [if_pos rfl]
    cases hk : tmpPkt.seqOrKey with
    | true =>
      rw [if_pos rfl, chanSend_of_lt pktQue tmpPkt h]
      by_cases hl : (pktQue ++ [tmpPkt]).length > maxQueueNum - 10
      · right; left
        obtain ⟨p, hp, _⟩ := chanRecv_of_pos (pktQue ++ [tmpPkt]) (by simp)
        refine ⟨rfl, rfl, by simpa using hl, ?_⟩
        simp only [Option.map_some', Option.some_bind]
        rw [if_pos hl, hp]
        rfl
      · left
        refine ⟨rfl, rfl, by simpa using hl, ?_⟩
        simp only [Option.map_some', Option.some_bind]
        rw [if_neg hl]
    | false =>
      right; right
      rw [if_neg (by decide)]
      simp only [Option.some_bind]
      by_cases hl : pktQue.length > maxQueueNum - 10
      · right
        obtain ⟨p, hp, _⟩ := chanRecv_of_pos pktQue (by omega)
        refine ⟨trivial, trivial, hl, ?_⟩
        rw [if_pos hl, hp]
        rfl
      · left
        refine ⟨trivial, trivial, by omega, ?_⟩
        rw [if_neg hl]

theorem dropIter_cons (tmpPkt : Packet) (rest : List Packet) :
    dropIter (tmpPkt :: rest) =
      (dropAudio tmpPkt rest).bind fun r1 =>
        (dropVideo tmpPkt r1.1).map fun r2 => (r2.1, ChanOp.recv :: (r1.2 ++ r2.2)) := rfl

theorem dropAudio_props (tmpPkt : Packet) (pktQue : List Packet) (h : pktQue.length < maxQueueNum) :
    ∃ r, dropAudio tmpPkt pktQue = some r ∧
      r.1.length < maxQueueNum ∧ min pktQue.length (maxQueueNum - 2) ≤ r.1.length ∧
      r.1.length ≤ pktQue.length + 1 ∧
      (∀ x ∈ r.1, x ∈ pktQue ∨ x = tmpPkt) ∧
      r.2.count ChanOp.recv ≤ 1 ∧ r.2.count ChanOp.send ≤ 1 ∧
      (tmpPkt.IsAudio = false → r = (pktQue, [])) ∧
      (tmpPkt.IsAudio = true → pktQue.length ≤ maxQueueNum - 2 → r.1 = pktQue ++ [tmpPkt]) := by
  have hmax : maxQueueNum = 1024 := rfl
  rcases dropAudio_spec tmpPkt pktQue h with ⟨ha, heq⟩ | ⟨ha, hl, heq⟩ | ⟨ha, hl, heq⟩
  · refine ⟨_, heq, h, by simp, by simp, fun x hx => Or.inl hx, by simp, by simp,
      fun _ => rfl, fun h1 => ?_⟩
    rw [ha] at h1
    exact absurd h1 (by decide)
  · refine ⟨_, heq, ?_, ?_, ?_, ?_, by simp, by simp, fun h1 => ?_, fun _ _ => rfl⟩
    · simp only [List.length_append, List.length_singleton]
      omega
    · simp only [List.length_append, List.length_singleton]
      omega
    · simp only [List.length_append, List.length_singleton]
      omega
    · intro x hx
      rcases List.mem_append.1 hx with hx | hx
      · exact Or.inl hx
      · exact Or.inr (List.mem_singleton.1 hx)
    · rw [ha] at h1
      exact absurd h1 (by decide)
  · refine ⟨_, heq, ?_, ?_, ?_, ?_, by simp, by simp, fun h1 => ?_, fun _ h2 => ?_⟩
    · simp only [List.length_tail]
      omega
    · simp only [List.length_tail]
      omega
    · simp only [List.length_tail]
      omega
    · intro x hx
      exact Or.inl (List.mem_of_mem_tail hx)
    · rw [ha] at h1
      exact absurd h1 (by decide)
    · omega

theorem dropVideo_props (tmpPkt : Packet) (pktQue : List Packet) (h : pktQue.length < maxQueueNum) :
    ∃ r, dropVideo tmpPkt pktQue = some r ∧
      min pktQue.length (maxQueueNum - 10) ≤ r.1.length ∧
      r.1.length ≤ max pktQue.length (maxQueueNum - 10) ∧
      (∀ x ∈ r.1, x ∈ pktQue ∨ x = tmpPkt) ∧
      r.2.count ChanOp.recv ≤ 1 ∧ r.2.count ChanOp.send ≤ 1 ∧
      (tmpPkt.IsVideo = false → r = (pktQue, [])) ∧
      (tmpPkt.IsVideo = true → pktQue.length + 1 ≤ maxQueueNum - 10 →
        r.1 = if tmpPkt.seqOrKey then pktQue ++ [tmpPkt] else pktQue) := by
  have hmax : maxQueueNum = 1024 := rfl
  rcases dropVideo_spec tmpPkt pktQue h with
    ⟨hv, heq⟩ | ⟨hv, hk, hl, heq⟩ | ⟨hv, hk, hl, heq⟩ | ⟨hv, hk, hl, heq⟩ | ⟨hv, hk, hl, heq⟩
  · refine ⟨_, heq, by simp, by simp, fun x hx => Or.inl hx, by simp, by simp,
      fun _ => rfl, fun h1 => ?_⟩
    rw [hv] at h1
    exact absurd h1 (by decide)
  · refine ⟨_, heq, ?_, ?_, ?_, by simp, by simp, fun h1 => ?_, fun _ _ => ?_⟩
    · simp only [List.length_append, List.length_singleton]
      omega
    · simp only [List.length_append, List.length_singleton]
      omega
    · intro x hx
      rcases List.mem_append.1 hx with hx | hx
      · exact Or.inl hx
      · exact Or.inr (List.mem_singleton.1 hx)
    · rw [hv] at h1
      exact absurd h1 (by decide)
    · simp [hk]
  · refine ⟨_, heq, ?_, ?_, ?_, by simp, by simp, fun h1 => ?_, fun _ h2 => ?_⟩
    · simp only [List.length_tail, List.length_append, List.length_singleton]
      omega
    · simp only [List.length_tail, List.length_append, List.length_singleton]
      omega
    · intro x hx
      rcases List.mem_append.1 (List.mem_of_mem_tail hx) with hx | hx
      · exact Or.inl hx
      · exact Or.inr (List.mem_singleton.1 hx)
    · rw [hv] at h1
      exact absurd h1 (by decide)
    · omega
  · refine ⟨_, heq, by simp, by simp, fun x hx => Or.inl hx, by simp, by simp,
      fun _ => rfl, fun _ _ => by simp [hk]⟩
  · refine ⟨_, heq, ?_, ?_, ?_, by simp, by simp, fun h1 => ?_, fun _ h2 => ?_⟩
    · simp only [List.length_tail]
      omega
    · simp only [List.length_tail]
      omega
    · intro x hx
      exact Or.inl (List.mem_of_mem_tail hx)
    · rw [hv] at h1
      exact absurd h1 (by decide)
    · omega

/-- One iteration on a non-empty buffer within the capacity never blocks; the buffer
it leaves is within the capacity, holds only packets of the old buffer, and is shorter
by at most one packet unless it stays at `maxQueueNum - 10` or more. -/
theorem dropIter_props (pktQue : List Packet) (h1 : 0 < pktQue.length)
    (h2 : pktQue.length ≤ maxQueueNum) :
    ∃ r, dropIter pktQue = some r ∧
      min (pktQue.length - 1) (maxQueueNum - 10) ≤ r.1.length ∧
      r.1.length ≤ max pktQue.length (maxQueueNum - 10) ∧
      (∀ x ∈ r.1, x ∈ pktQue) := by
  have hmax : maxQueueNum = 1024 := rfl
  cases pktQue with
  | nil => simp at h1
  | cons p rest =>
    simp only [List.length_cons] at h1 h2 ⊢
    obtain ⟨r1, hA, hA1, hA2, hA3, hA4, _⟩ := dropAudio_props p rest (by omega)
    obtain ⟨r2, hV, hV1, hV2, hV3, _⟩ := dropVideo_props p r1.1 hA1
    refine ⟨(r2.1, ChanOp.recv :: (r1.2 ++ r2.2)), ?_, ?_, ?_, ?_⟩
    · rw [dropIter_cons, hA]
      simp only [Option.some_bind]
      rw [hV]
      rfl
    · simp only
      omega
    · simp only
      omega
    · intro x hx
      rcases hV3 x hx with hx1 | hx1
      · rcases hA4 x hx1 with hx2 | hx2
        · exact List.mem_cons_of_mem _ hx2
        · rw [hx2]
          exact List.mem_cons_self _ _
      · rw [hx1]
        exact List.mem_cons_self _ _

/-- With a head packet whose audio and video flags are not both set, one iteration
performs at most two receives and at most one send. -/
theorem dropIter_ops (pktQue : List Packet) (h1 : 0 < pktQue.length)
    (h2 : pktQue.length ≤ maxQueueNum) (hwf : ∀ p ∈ pktQue, p.exclusive) :
    ∃ r, dropIter pktQue = some r ∧
      r.2.count ChanOp.recv ≤ 2 ∧ r.2.count ChanOp.send ≤ 1 := by
  have hmax : maxQueueNum = 1024 := rfl
  cases pktQue with
  | nil => simp at h1
  | cons p rest =>
    simp only [List.length_cons] at h1 h2
    have hp : p.exclusive := hwf p (List.mem_cons_self _ _)
    obtain ⟨r1, hA, hA1, _, _, _, hA5, hA6, hA7, _⟩ := dropAudio_props p rest (by omega)
    obtain ⟨r2, hV, _, _, _, hV4, hV5, hV6, _⟩ := dropVideo_props p r1.1 hA1
    refine ⟨(r2.1, ChanOp.recv :: (r1.2 ++ r2.2)), ?_, ?_, ?_⟩
    · rw [dropIter_cons, hA]
      simp only [Option.some_bind]
      rw [hV]
      rfl
    · simp only [List.count_cons_self, List.count_append]
      cases ha : p.IsAudio with
      | false =>
        rw [hA7 ha]
        simp only [List.count_nil]
        omega
      | true =>
        cases hv : p.IsVideo with
        | false =>
          rw [hV6 hv]
          simp only [List.count_nil]
          omega
        | true => exact absurd ⟨ha, hv⟩ hp
    · rw [List.count_cons_of_ne (by decide), List.count_append]
      cases ha : p.IsAudio with
      | false =>
        rw [hA7 ha]
        simp only [List.count_nil]
        omega
      | true =>
        cases hv : p.IsVideo with
        | false =>
          rw [hV6 hv]
          simp only [List.count_nil]
          omega
        | true => exact absurd ⟨ha, hv⟩ hp

/-- Below `maxQueueNum - 10`, with a head packet whose audio and video flags are not
both set, one iteration moves the head to the tail when it is kept and drops it
otherwise. -/
theorem dropIter_small (p : Packet) (rest : List Packet)
    (h2 : (p :: rest).length ≤ maxQueueNum - 10) (hp : p.exclusive) :
    ∃ ops, dropIter (p :: rest) = some (if p.kept then rest ++ [p] else rest, ops) := by
  have hmax : maxQueueNum = 1024 := rfl
  simp only [List.length_cons] at h2
  obtain ⟨r1, hA, hA1, _, _, _, _, _, hA7, hA8⟩ := dropAudio_props p rest (by omega)
  obtain ⟨r2, hV, _, _, _, _, _, hV6, hV7⟩ := dropVideo_props p r1.1 hA1
  refine ⟨ChanOp.recv :: (r1.2 ++ r2.2), ?_⟩
  rw [dropIter_cons, hA]
  simp only [Option.some_bind]
  rw [hV]
  simp only [Option.map_some', Option.some.injEq, Prod.mk.injEq, and_true]
  cases ha : p.IsAudio with
  | false =>
    rw [hA7 ha] at hV6 hV7
    cases hv : p.IsVideo with
    | false =>
      rw [hV6 hv]
      simp [Packet.kept, ha, hv]
    | true =>
      rw [hV7 hv (by simp only; omega)]
      simp [Packet.kept, ha, hv]
  | true =>
    have hv : p.IsVideo = false := by
      cases hv : p.IsVideo with
      | false => rfl
      | true => exact absurd ⟨ha, hv⟩ hp
    rw [hV6 hv, hA8 ha (by omega)]
    simp [Packet.kept, ha]

/-! ## `DropPacket`: the loop -/

theorem dropLoop_succ (n : Nat) (pktQue : List Packet) :
    dropLoop (n + 1) pktQue =
      match dropIter pktQue with
      | none => none
      | some r => dropLoop n r.1 := rfl

theorem dropLoop_succ_right (n : Nat) (pktQue : List Packet) :
    dropLoop (n + 1) pktQue =
      (dropLoop n pktQue).bind fun q => (dropIter q).map fun r => r.1 := by
  induction n generalizing pktQue with
  | zero =>
    rw [dropLoop_succ]
    cases h : dropIter pktQue with
    | none => simp [dropLoop, h]
    | some r => simp [dropLoop, h]
  | succ n ih =>
    rw [dropLoop_succ]
    cases h : dropIter pktQue with
    | none => simp [dropLoop_succ n, h]
    | some r =>
      simp only
      rw [ih r.1, dropLoop_succ n, h]

/-- While the number of iterations is at most the length at entry (and at most
`maxQueueNum - 10`), the loop never blocks; the buffer it leaves holds only packets of
the old buffer and is shorter by at most one packet per iteration, counted from
`maxQueueNum - 10` when the buffer was longer. -/
theorem dropLoop_props (n : Nat) (pktQue : List Packet)
    (h1 : n ≤ min pktQue.length (maxQueueNum - 10)) (h2 : pktQue.length ≤ maxQueueNum) :
    ∃ r, dropLoop n pktQue = some r ∧
      min pktQue.length (maxQueueNum - 10) ≤ r.length + n ∧
      r.length ≤ max pktQue.length (maxQueueNum - 10) ∧
      (∀ x ∈ r, x ∈ pktQue) := by
  have hmax : maxQueueNum = 1024 := rfl
  induction n generalizing pktQue with
  | zero => exact ⟨pktQue, rfl, by omega, by omega, fun x hx => hx⟩
  | succ n ih =>
    obtain ⟨r1, hI, hI1, hI2, hI3⟩ := dropIter_props pktQue (by omega) h2
    obtain ⟨r, hL, hL1, hL2, hL3⟩ := ih r1.1 (by omega) (by omega)
    refine ⟨r, ?_, by omega, by omega, fun x hx => hI3 x (hL3 x hx)⟩
    rw [dropLoop_succ, hI]
    exact hL

/-- Closed form of the loop below `maxQueueNum - 10`: the first `n` packets are taken
off the head, and those that are kept are queued behind the others in their order. -/
theorem dropLoop_small (n : Nat) (pktQue : List Packet) (hn : n ≤ pktQue.length)
    (hlen : pktQue.length ≤ maxQueueNum - 10) (hwf : ∀ p ∈ pktQue, p.exclusive) :
    dropLoop n pktQue =
      some (pktQue.drop n ++ (pktQue.take n).filter fun p => p.kept) := by
  induction n generalizing pktQue with
  | zero => simp [dropLoop]
  | succ n ih =>
    cases pktQue with
    | nil => simp at hn
    | cons p rest =>
      simp only [List.length_cons] at hn hlen
      obtain ⟨ops, hI⟩ := dropIter_small p rest (by simpa using hlen)
        (hwf p (List.mem_cons_self _ _))
      have hrest : ∀ x ∈ rest, x.exclusive := fun x hx => hwf x (List.mem_cons_of_mem _ hx)
      rw [dropLoop_succ, hI]
      simp only [List.drop_succ_cons, List.take_succ_cons]
      cases hk : p.kept with
      | true =>
        simp only [if_true]
        rw [ih (rest ++ [p]) (by simp; omega) (by simp; omega) (by
          intro x hx
          rcases List.mem_append.1 hx with hx | hx
          · exact hrest x hx
          · rw [List.mem_singleton.1 hx]
            exact hwf p (List.mem_cons_self _ _))]
        rw [List.drop_append_of_le_length (by omega), List.take_append_of_le_length (by omega),
          List.filter_cons_of_pos (by simpa using hk)]
        simp
      | false =>
        simp only [Bool.false_eq_true, if_false]
        rw [ih rest (by omega) (by omega) hrest, List.filter_cons_of_neg (by simpa using hk)]

theorem DropPacket_small (pktQue : List Packet) (h1 : maxQueueNum - 84 ≤ pktQue.length)
    (h2 : pktQue.length ≤ maxQueueNum - 10) (hwf : ∀ p ∈ pktQue, p.exclusive) :
    DropPacket pktQue =
      some (pktQue.drop (maxQueueNum - 84) ++
        (pktQue.take (maxQueueNum - 84)).filter fun p => p.kept) :=
  dropLoop_small (maxQueueNum - 84) pktQue h1 h2 hwf

theorem DropPacket_props (pktQue : List Packet) (h1 : maxQueueNum - 24 ≤ pktQue.length)
    (h2 : pktQue.length ≤ maxQueueNum) :
    ∃ r, DropPacket pktQue = some r ∧
      min pktQue.length (maxQueueNum - 10) ≤ r.length + (maxQueueNum - 84) ∧
      r.length ≤ max pktQue.length (maxQueueNum - 10) ∧
      (∀ x ∈ r, x ∈ pktQue) := by
  have hmax : maxQueueNum = 1024 := rfl
  exact dropLoop_props (maxQueueNum - 84) pktQue (by omega) h2

theorem DropPacket_plainVideo :
    DropPacket (List.replicate 1000 plainVideo) = some (List.replicate 60 plainVideo) := by
  rw [DropPacket_small _ (by rw [List.length_replicate]; decide)
    (by rw [List.length_replicate]; decide)
    (by intro p hp; rw [(List.mem_replicate.1 hp).2]; unfold Packet.exclusive; decide)]
  have hk : ∀ x ∈ (List.replicate 1000 plainVideo).take (maxQueueNum - 84),
      ¬ (x.kept = true) := by
    intro x hx
    rw [(List.mem_replicate.1 (List.mem_of_mem_take hx)).2]
    decide
  have hf : ((List.replicate 1000 plainVideo).take (maxQueueNum - 84)).filter
      (fun p => p.kept) = [] := by
    rw [List.filter_eq_nil_iff]
    exact hk
  rw [hf, List.append_nil, List.drop_replicate]
  rfl

/-! ## `VirWriter.Write` -/

/-- C15 (as amended): for an open `VirWriter` with `limitAudio == true`, `Write(p)`
returns nil and leaves the writer, queue included, unchanged for every packet `p` that
is not a video packet (audio and metadata alike), and for every video packet `p` it has
exactly the same effect on the queue as `Write(p)` with `limitAudio == false` on the
same queue. -/
theorem Write_limitAudio_video_only (v : VirWriter) (p : Packet) (hopen : v.closed = false)
    (hmute : v.limitAudio = true) :
    (p.IsVideo = false → v.Write p = some (none, v)) ∧
    (p.IsVideo = true →
      (v.Write p).map (fun r => r.2.packetQueue) =
        (VirWriter.Write { v with limitAudio := false } p).map
          (fun r => r.2.packetQueue)) := by
  constructor
  · intro hp
    simp [VirWriter.Write, hopen, hmute, hp]
  · intro hp
    simp only [VirWriter.Write, hopen, hmute, hp, Bool.false_eq_true, if_false, if_true]
    split <;> simp [Option.map_map, Function.comp_def]

/-- Witness for C15: an audio packet and a keyframe written to an open, muted writer
that holds one audio packet. -/
theorem Write_limitAudio_video_only_witness :
    VirWriter.Write { closed := false, limitAudio := true, packetQueue := [audioPacket] }
        audioPacket =
      some (none, { closed := false, limitAudio := true, packetQueue := [audioPacket] }) ∧
    (VirWriter.Write { closed := false, limitAudio := true, packetQueue := [audioPacket] }
        keyVideo).map (fun r => r.2.packetQueue) =
      (VirWriter.Write { closed := false, limitAudio := false, packetQueue := [audioPacket] }
        keyVideo).map (fun r => r.2.packetQueue) :=
  ⟨(Write_limitAudio_video_only
      { closed := false, limitAudio := true, packetQueue := [audioPacket] } audioPacket
      rfl rfl).1 rfl,
   (Write_limitAudio_video_only
      { closed := false, limitAudio := true, packetQueue := [audioPacket] } keyVideo
      rfl rfl).2 rfl⟩

/-- C15, counterexample: a metadata packet is not an audio packet, yet on an open writer
with an empty queue `Write` leaves the queue empty when `limitAudio == true` and leaves
the packet in the queue when `limitAudio == false`. -/
theorem Write_limitAudio_video_only_counterexample :
    metadataPacket.IsAudio = false ∧
    (VirWriter.Write { closed := false, limitAudio := true, packetQueue := [] }
        metadataPacket).map (fun r => r.2.packetQueue) = some [] ∧
    (VirWriter.Write { closed := false, limitAudio := false, packetQueue := [] }
        metadataPacket).map (fun r => r.2.packetQueue) = some [metadataPacket] := by
  decide

/-- C16: for an open, unmuted `VirWriter` with queue `q` (within the capacity of its
channel) and any packet `p`: if `len(q) < maxQueueNum - 24` (= 1000), `Write(p)` returns
nil and leaves `q` with `p` appended at the tail; if `len(q) >= maxQueueNum - 24`,
`Write(p)` returns nil and leaves exactly the queue `DropPacket` leaves on `q`, without
`p`, whatever `p` is. -/
theorem Write_threshold (v : VirWriter) (p : Packet) (hopen : v.closed = false)
    (hmute : v.limitAudio = false) (hcap : v.packetQueue.length ≤ maxQueueNum) :
    maxQueueNum - 24 = 1000 ∧
    (v.packetQueue.length < maxQueueNum - 24 →
      v.Write p = some (none, { v with packetQueue := v.packetQueue ++ [p] })) ∧
    (maxQueueNum - 24 ≤ v.packetQueue.length →
      ∃ q, DropPacket v.packetQueue = some q ∧
        v.Write p = some (none, { v with packetQueue := q })) := by
  have hmax : maxQueueNum = 1024 := rfl
  refine ⟨rfl, ?_, ?_⟩
  · intro hlt
    have hnot : ¬ (v.packetQueue.length ≥ maxQueueNum - 24) := by omega
    simp only [VirWriter.Write, hopen, hmute, Bool.false_eq_true, if_false, if_neg hnot]
    rw [chanSend_of_lt v.packetQueue p (by omega)]
    rfl
  · intro hge
    obtain ⟨q, hq, _⟩ := DropPacket_props v.packetQueue hge hcap
    refine ⟨q, hq, ?_⟩
    simp only [VirWriter.Write, hopen, hmute, Bool.false_eq_true, if_false]
    rw [if_pos hge, hq]
    rfl

/-- Witness for C16: a keyframe written to an open, unmuted writer that holds one audio
packet. -/
theorem Write_threshold_witness :
    VirWriter.Write { closed := false, limitAudio := false, packetQueue := [audioPacket] }
        keyVideo =
      some (none, { closed := false, limitAudio := false,
                    packetQueue := [audioPacket] ++ [keyVideo] }) :=
  (Write_threshold { closed := false, limitAudio := false, packetQueue := [audioPacket] }
    keyVideo rfl rfl (by decide)).2.1 (by decide)

/-! ## `DropPacket`: the claims -/

/-- C19 (P4): on a buffer of `maxQueueNum - 24` to `maxQueueNum` packets whose audio and
video flags are mutually exclusive, with no other goroutine on the channel, `DropPacket`
returns after its `maxQueueNum - 84 = 940` iterations: every iteration `i` starts from a
buffer `qi`, completes all its channel operations (no receive on an empty buffer, no
send on a full one), and performs at most two receives and one send.  The send of
`Write`, reached only below `maxQueueNum - 24`, finds a free slot. -/
theorem DropPacket_never_blocks (pktQue : List Packet)
    (h1 : maxQueueNum - 24 ≤ pktQue.length) (h2 : pktQue.length ≤ maxQueueNum)
    (hwf : ∀ p ∈ pktQue, p.exclusive) :
    maxQueueNum - 84 = 940 ∧
    (∃ r, DropPacket pktQue = some r ∧ dropLoop (maxQueueNum - 84) pktQue = some r) ∧
    (∀ i, i < maxQueueNum - 84 →
      ∃ qi r, dropLoop i pktQue = some qi ∧ dropIter qi = some r ∧
        dropLoop (i + 1) pktQue = some r.1 ∧
        r.2.count ChanOp.recv ≤ 2 ∧ r.2.count ChanOp.send ≤ 1) ∧
    (∀ (q : List Packet) (p : Packet), q.length < maxQueueNum - 24 →
      chanSend q p = some (q ++ [p])) := by
  have hmax : maxQueueNum = 1024 := rfl
  refine ⟨rfl, ?_, ?_, ?_⟩
  · obtain ⟨r, hr, _⟩ := DropPacket_props pktQue h1 h2
    exact ⟨r, hr, hr⟩
  · intro i hi
    obtain ⟨qi, hqi, hlen1, hlen2, hmem⟩ := dropLoop_props i pktQue (by omega) h2
    obtain ⟨r, hr, hrecv, hsend⟩ := dropIter_ops qi (by omega) (by omega)
      (fun p hp => hwf p (hmem p hp))
    refine ⟨qi, r, hqi, hr, ?_, hrecv, hsend⟩
    rw [dropLoop_succ_right, hqi]
    simp only [Option.some_bind]
    rw [hr]
    rfl
  · intro q p hq
    exact chanSend_of_lt q p (by omega)

/-- Witness for C19: a buffer of 1000 plain video packets. -/
theorem DropPacket_never_blocks_witness :
    ∃ r, DropPacket (List.replicate 1000 plainVideo) = some r ∧
      dropLoop (maxQueueNum - 84) (List.replicate 1000 plainVideo) = some r :=
  (DropPacket_never_blocks (List.replicate 1000 plainVideo)
    (by rw [List.length_replicate]; decide) (by rw [List.length_replicate]; decide)
    (by intro p hp; rw [(List.mem_replicate.1 hp).2]; unfold Packet.exclusive; decide)).2.1

/-- C20 (as amended): on a buffer of `L` packets, `maxQueueNum - 24 <= L <= maxQueueNum`,
a single `DropPacket` drains at most `maxQueueNum - 84 = 940` packets plus the excess
of `L` over `maxQueueNum - 10`: at most 940 when `L <= maxQueueNum - 10`, at most 950
always. -/
theorem DropPacket_drain_bound (pktQue : List Packet)
    (h1 : maxQueueNum - 24 ≤ pktQue.length) (h2 : pktQue.length ≤ maxQueueNum) :
    ∃ r, DropPacket pktQue = some r ∧
      pktQue.length - r.length ≤
        (maxQueueNum - 84) + (pktQue.length - (maxQueueNum - 10)) ∧
      (pktQue.length ≤ maxQueueNum - 10 → pktQue.length - r.length ≤ 940) ∧
      pktQue.length - r.length ≤ 950 := by
  have hmax : maxQueueNum = 1024 := rfl
  obtain ⟨r, hr, hlen, _⟩ := DropPacket_props pktQue h1 h2
  exact ⟨r, hr, by omega, by omega, by omega⟩

/-- Witness for C20: a buffer of 1000 plain video packets. -/
theorem DropPacket_drain_bound_witness :
    ∃ r, DropPacket (List.replicate 1000 plainVideo) = some r ∧
      (List.replicate 1000 plainVideo).length - r.length ≤
        (maxQueueNum - 84) + ((List.replicate 1000 plainVideo).length - (maxQueueNum - 10)) ∧
      ((List.replicate 1000 plainVideo).length ≤ maxQueueNum - 10 →
        (List.replicate 1000 plainVideo).length - r.length ≤ 940) ∧
      (List.replicate 1000 plainVideo).length - r.length ≤ 950 :=
  DropPacket_drain_bound (List.replicate 1000 plainVideo)
    (by rw [List.length_replicate]; decide) (by rw [List.length_replicate]; decide)

/-- C20, counterexample: from a buffer of 1000 video packets that are neither keyframes
nor sequence headers, one `DropPacket` leaves 60 packets: it drains 940, not at most 84. -/
theorem DropPacket_drain_bound_counterexample :
    ∃ r, DropPacket (List.replicate 1000 plainVideo) = some r ∧ r.length = 60 ∧
      ¬ ((List.replicate 1000 plainVideo).length - r.length ≤ 84) := by
  refine ⟨List.replicate 60 plainVideo, DropPacket_plainVideo, by simp, ?_⟩
  rw [List.length_replicate, List.length_replicate]
  decide

theorem Packet.kept_of_keyFrame (p : Packet) (h : p.keyFrame = true) : p.kept = true := by
  unfold Packet.keyFrame at h
  unfold Packet.kept Packet.seqOrKey
  cases hv : p.IsVideo with
  | false => simp [hv] at h
  | true =>
    cases hh : p.Header with
    | none => simp [hv, hh] at h
    | some videoPkt =>
      simp only [hv, hh, Bool.true_and] at h
      simp [h]

theorem not_kept_cases (p : Packet) (h : p.kept = false) :
    (p.IsAudio = false ∧ p.IsVideo = true ∧ p.seqOrKey = false) ∨
    (p.IsAudio = false ∧ p.IsVideo = false) := by
  unfold Packet.kept at h
  cases ha : p.IsAudio with
  | true => simp [ha] at h
  | false =>
    cases hv : p.IsVideo with
    | false => exact Or.inr ⟨rfl, rfl⟩
    | true =>
      simp only [ha, hv, Bool.false_or, Bool.true_and] at h
      exact Or.inl ⟨rfl, rfl, h⟩

/-- C18: on a buffer of `L` packets, `maxQueueNum - 24 <= L <= maxQueueNum - 10`, whose
audio and video flags are mutually exclusive, with no other goroutine on the channel,
`DropPacket` returns a buffer `r` such that the old buffer is `r` plus the removed
packets as a multiset; every removed packet is a video packet that is neither a
keyframe nor a sequence header, or a packet that is neither audio nor video; and the
audio packets, and the video packets that are a sequence header or a keyframe, are the
same multiset before and after. -/
theorem DropPacket_keep_rules (pktQue : List Packet)
    (h1 : maxQueueNum - 24 ≤ pktQue.length) (h2 : pktQue.length ≤ maxQueueNum - 10)
    (hwf : ∀ p ∈ pktQue, p.exclusive) :
    ∃ r removed, DropPacket pktQue = some r ∧ List.Perm pktQue (r ++ removed) ∧
      (∀ p ∈ removed,
        (p.IsAudio = false ∧ p.IsVideo = true ∧ p.seqOrKey = false) ∨
        (p.IsAudio = false ∧ p.IsVideo = false)) ∧
      List.Perm (pktQue.filter fun p => p.IsAudio) (r.filter fun p => p.IsAudio) ∧
      List.Perm (pktQue.filter fun p => p.IsVideo && p.seqOrKey)
        (r.filter fun p => p.IsVideo && p.seqOrKey) := by
  have hmax : maxQueueNum = 1024 := rfl
  have hclosed := DropPacket_small pktQue (by omega) h2 hwf
  have hrem : ∀ p ∈ (pktQue.take (maxQueueNum - 84)).filter (fun p => !p.kept),
      (p.IsAudio = false ∧ p.IsVideo = true ∧ p.seqOrKey = false) ∨
      (p.IsAudio = false ∧ p.IsVideo = false) := by
    intro p hp
    have hk := (List.mem_filter.1 hp).2
    exact not_kept_cases p (by simpa using hk)
  have hperm : List.Perm pktQue
      ((pktQue.drop (maxQueueNum - 84) ++
          (pktQue.take (maxQueueNum - 84)).filter fun p => p.kept) ++
        (pktQue.take (maxQueueNum - 84)).filter fun p => !p.kept) := by
    rw [List.append_assoc]
    have hsplit : List.Perm pktQue
        (pktQue.drop (maxQueueNum - 84) ++ pktQue.take (maxQueueNum - 84)) := by
      have := @List.perm_append_comm _ (pktQue.take (maxQueueNum - 84))
        (pktQue.drop (maxQueueNum - 84))
      rwa [List.take_append_drop] at this
    exact hsplit.trans
      (List.Perm.append_left _ (List.filter_append_perm (fun p => p.kept) _).symm)
  refine ⟨_, _, hclosed, hperm, hrem, ?_, ?_⟩
  · have hf := hperm.filter fun p => p.IsAudio
    rw [List.filter_append] at hf
    have hnil : ((pktQue.take (maxQueueNum - 84)).filter fun p => !p.kept).filter
        (fun p => p.IsAudio) = [] := by
      rw [List.filter_eq_nil_iff]
      intro p hp
      rcases hrem p hp with h | h
      · simp [h.1]
      · simp [h.1]
    rw [hnil, List.append_nil] at hf
    exact hf
  · have hf := hperm.filter fun p => p.IsVideo && p.seqOrKey
    rw [List.filter_append] at hf
    have hnil : ((pktQue.take (maxQueueNum - 84)).filter fun p => !p.kept).filter
        (fun p => p.IsVideo && p.seqOrKey) = [] := by
      rw [List.filter_eq_nil_iff]
      intro p hp
      rcases hrem p hp with h | h
      · simp [h.2.2]
      · simp [h.2]
    rw [hnil, List.append_nil] at hf
    exact hf

/-- Witness for C18: a buffer of 1000 plain video packets. -/
theorem DropPacket_keep_rules_witness :
    ∃ r removed, DropPacket (List.replicate 1000 plainVideo) = some r ∧
      List.Perm (List.replicate 1000 plainVideo) (r ++ removed) ∧
      (∀ p ∈ removed,
        (p.IsAudio = false ∧ p.IsVideo = true ∧ p.seqOrKey = false) ∨
        (p.IsAudio = false ∧ p.IsVideo = false)) ∧
      List.Perm ((List.replicate 1000 plainVideo).filter fun p => p.IsAudio)
        (r.filter fun p => p.IsAudio) ∧
      List.Perm ((List.replicate 1000 plainVideo).filter fun p => p.IsVideo && p.seqOrKey)
        (r.filter fun p => p.IsVideo && p.seqOrKey) :=
  DropPacket_keep_rules (List.replicate 1000 plainVideo)
    (by rw [List.length_replicate]; decide) (by rw [List.length_replicate]; decide)
    (by intro p hp; rw [(List.mem_replicate.1 hp).2]; unfold Packet.exclusive; decide)

/-- C17 (P5, as amended): on a buffer of `L` packets, `maxQueueNum - 24 <= L <=
maxQueueNum - 10`, whose audio and video flags are mutually exclusive, with no other
goroutine on the channel, every keyframe of the buffer is still in the buffer
`DropPacket` leaves; so a buffer that holds a keyframe at entry holds one afterwards. -/
theorem DropPacket_keeps_keyframes (pktQue : List Packet)
    (h1 : maxQueueNum - 24 ≤ pktQue.length) (h2 : pktQue.length ≤ maxQueueNum - 10)
    (hwf : ∀ p ∈ pktQue, p.exclusive) :
    ∃ r, DropPacket pktQue = some r ∧
      (∀ p ∈ pktQue, p.keyFrame = true → p ∈ r) ∧
      ((∃ p ∈ pktQue, p.keyFrame = true) → ∃ p ∈ r, p.keyFrame = true) := by
  have hmax : maxQueueNum = 1024 := rfl
  have hclosed := DropPacket_small pktQue (by omega) h2 hwf
  have hall : ∀ p ∈ pktQue, p.keyFrame = true →
      p ∈ pktQue.drop (maxQueueNum - 84) ++
        (pktQue.take (maxQueueNum - 84)).filter fun p => p.kept := by
    intro p hp hk
    rw [← List.take_append_drop (maxQueueNum - 84) pktQue] at hp
    rcases List.mem_append.1 hp with hp | hp
    · exact List.mem_append_right _
        (List.mem_filter.2 ⟨hp, Packet.kept_of_keyFrame p hk⟩)
    · exact List.mem_append_left _ hp
  refine ⟨_, hclosed, hall, ?_⟩
  rintro ⟨p, hp, hk⟩
  exact ⟨p, hall p hp hk, hk⟩

/-- Witness for C17: a keyframe followed by 999 plain video packets. -/
theorem DropPacket_keeps_keyframes_witness :
    ∃ r, DropPacket (keyVideo :: List.replicate 999 plainVideo) = some r ∧
      (∀ p ∈ keyVideo :: List.replicate 999 plainVideo, p.keyFrame = true → p ∈ r) ∧
      ((∃ p ∈ keyVideo :: List.replicate 999 plainVideo, p.keyFrame = true) →
        ∃ p ∈ r, p.keyFrame = true) :=
  DropPacket_keeps_keyframes (keyVideo :: List.replicate 999 plainVideo)
    (by rw [List.length_cons, List.length_replicate]; decide)
    (by rw [List.length_cons, List.length_replicate]; decide)
    (by
      intro p hp
      rcases List.mem_cons.1 hp with h | h
      · rw [h]; unfold Packet.exclusive; decide
      · rw [(List.mem_replicate.1 h).2]; unfold Packet.exclusive; decide)

theorem dropIter_plain_key :
    dropIter (plainVideo :: keyVideo :: List.replicate 1022 plainVideo) =
      some (List.replicate 1022 plainVideo, [ChanOp.recv, ChanOp.recv]) := by
  rw [dropIter_cons]
  have hA : dropAudio plainVideo (keyVideo :: List.replicate 1022 plainVideo) =
      some (keyVideo :: List.replicate 1022 plainVideo, []) := rfl
  rw [hA]
  simp only [Option.some_bind]
  have hlen : (keyVideo :: List.replicate 1022 plainVideo).length > maxQueueNum - 10 := by
    rw [List.length_cons, List.length_replicate]
    decide
  have hV : dropVideo plainVideo (keyVideo :: List.replicate 1022 plainVideo) =
      some (List.replicate 1022 plainVideo, [ChanOp.recv]) := by
    unfold dropVideo
    rw [if_pos (show plainVideo.IsVideo = true from rfl),
      if_neg (show ¬ plainVideo.seqOrKey = true by decide)]
    simp only [Option.some_bind]
    rw [if_pos hlen]
    rfl
  rw [hV]
  rfl

/-- C17, counterexample: a buffer of 1000 video packets none of which is a keyframe is
left by `DropPacket` with 60 video packets and no keyframe; and from the full buffer
that holds a plain video packet, a keyframe and 1022 plain video packets, `DropPacket`
receives the keyframe in its first iteration without sending it back, and leaves video
packets none of which is a keyframe. -/
theorem DropPacket_keeps_keyframes_counterexample :
    (∃ r, DropPacket (List.replicate 1000 plainVideo) = some r ∧
      (∃ p ∈ r, p.IsVideo = true) ∧ ∀ p ∈ r, p.keyFrame = false) ∧
    (∃ r, DropPacket (plainVideo :: keyVideo :: List.replicate 1022 plainVideo) = some r ∧
      (∃ p ∈ r, p.IsVideo = true) ∧ ∀ p ∈ r, p.keyFrame = false) := by
  constructor
  · refine ⟨List.replicate 60 plainVideo, DropPacket_plainVideo,
      ⟨plainVideo, by simp, rfl⟩, ?_⟩
    intro p hp
    rw [(List.mem_replicate.1 hp).2]
    rfl
  · have hstep : DropPacket (plainVideo :: keyVideo :: List.replicate 1022 plainVideo) =
        dropLoop 939 (List.replicate 1022 plainVideo) := by
      show dropLoop (939 + 1) _ = _
      rw [dropLoop_succ, dropIter_plain_key]
    obtain ⟨r, hr, hlen, _, hmem⟩ := dropLoop_props 939 (List.replicate 1022 plainVideo)
      (by rw [List.length_replicate]; decide) (by rw [List.length_replicate]; decide)
    rw [List.length_replicate] at hlen
    have hpos : 0 < r.length := by
      have : min 1022 (maxQueueNum - 10) = 1014 := by decide
      omega
    have hall : ∀ p ∈ r, p = plainVideo := fun p hp => (List.mem_replicate.1 (hmem p hp)).2
    refine ⟨r, by rw [hstep, hr], ?_, ?_⟩
    · obtain ⟨p, hp⟩ := List.exists_mem_of_length_pos hpos
      exact ⟨p, hp, by rw [hall p hp]; rfl⟩
    · intro p hp
      rw [hall p hp]
      rfl

/-! ## Replay cache sweeper -/

theorem checkMediaLoop_spec (pathExists : String → Bool) (n : Nat) :
    ∀ (i : Nat) (files : List FileToMd5), files.length - i = n → i ≤ files.length →
      (∀ f ∈ files.take i, pathExists f.FilePath = true) →
      checkMediaLoop pathExists i files =
        some (files.take i ++ (files.drop i).filter fun f => pathExists f.FilePath) := by
  induction n with
  | zero =>
    intro i files hn hi _
    have hlen : i = files.length := by omega
    unfold checkMediaLoop
    rw [if_neg (by omega), hlen, List.take_length, List.drop_length]
    simp
  | succ n ih =>
    intro i files hn hi hpre
    have hlt : i < files.length := by omega
    unfold checkMediaLoop
    rw [if_pos hlt, List.getElem?_eq_getElem hlt]
    simp only
    have hdrop : files.drop i = files[i] :: files.drop (i + 1) := List.drop_eq_getElem_cons hlt
    cases hex : pathExists files[i].FilePath with
    | false =>
      simp only [Bool.not_false, if_true]
      rw [if_pos (by omega)]
      have hlen1 : (files.take i ++ files.drop (i + 1)).length = files.length - 1 := by
        rw [List.length_append, List.length_take, List.length_drop]; omega
      have htake : (files.take i ++ files.drop (i + 1)).take i = files.take i := by
        rw [List.take_append_of_le_length (by rw [List.length_take]; omega)]
        rw [List.take_take, Nat.min_self]
      have hdrop1 : (files.take i ++ files.drop (i + 1)).drop i = files.drop (i + 1) := by
        rw [List.drop_append_of_le_length (by rw [List.length_take]; omega)]
        rw [List.drop_take, Nat.sub_self]
        simp
      rw [ih i _ (by omega) (by omega) (by rw [htake]; exact hpre), htake, hdrop1, hdrop,
        List.filter_cons_of_neg (by simp [hex])]
    | true =>
      simp only [Bool.not_true, Bool.false_eq_true, if_false]
      have htake : files.take (i + 1) = files.take i ++ [files[i]] := by
        rw [List.take_succ, List.getElem?_eq_getElem hlt]
        rfl
      rw [ih (i + 1) files (by omega) (by omega) ?_, htake, hdrop,
        List.filter_cons_of_pos (by simp [hex])]
      · rw [List.append_assoc]
        rfl
      · intro f hf
        rw [htake] at hf
        rcases List.mem_append.1 hf with h | h
        · exact hpre f h
        · rw [List.mem_singleton.1 h]; exact hex

/-- C23: for every replay cache `files` and every file-existence predicate, one pass of
the loop of `checkMediaFile` returns (no index or slice bound out of range, and the loop
ends) and leaves exactly the entries whose `FilePath` exists, in their original order:
the result is the filtered list, a sublist of the cache that holds an entry if and only
if the cache held it and its file exists. -/
theorem checkMediaFile_filter (pathExists : String → Bool) (files : List FileToMd5) :
    checkMediaFile pathExists files = some (files.filter fun f => pathExists f.FilePath) ∧
    List.Sublist (files.filter fun f => pathExists f.FilePath) files ∧
    (∀ f, f ∈ (files.filter fun f => pathExists f.FilePath) ↔
      f ∈ files ∧ pathExists f.FilePath = true) ∧
    (∀ f, (files.filter fun f => pathExists f.FilePath).count f =
      if pathExists f.FilePath then files.count f else 0) := by
  refine ⟨?_, List.filter_sublist files, fun f => List.mem_filter, ?_⟩
  · have h := checkMediaLoop_spec pathExists files.length 0 files rfl (Nat.zero_le _)
      (by simp)
    rw [List.take_zero, List.nil_append, List.drop_zero] at h
    exact h
  · intro f
    induction files with
    | nil => simp
    | cons g gs ih =>
      by_cases hg : pathExists g.FilePath = true
      · rw [List.filter_cons_of_pos (by simpa using hg), List.count_cons, List.count_cons, ih]
        by_cases hfg : g = f
        · rw [← hfg, if_pos hg, if_pos hg]
        · simp [hfg]
      · rw [List.filter_cons_of_neg (by simpa using hg), List.count_cons, ih]
        by_cases hfg : g = f
        · rw [← hfg, if_neg hg, if_neg hg]
        · simp [hfg]

/-! ## `SetStartState` on failure -/

theorem SetStartState_no_endpoint (rooms : LiveRooms) (projectId : Int) (liveRoomId : String)
    (pushId : Int) (url : String) (user_type : Int)
    (hno : ∀ v ∈ rooms, v.LiveRoomId = liveRoomId → ∀ e ∈ v.Urls, e.PushId ≠ pushId) :
    SetStartState rooms projectId liveRoomId pushId url user_type =
      (some "SetStartState Not Found LiveRoomid/PushId/Url",
        rooms.map fun v =>
          if v.LiveRoomId = liveRoomId then { v with ProjectId := projectId } else v) := by
  induction rooms with
  | nil => rfl
  | cons v rest ih =>
    have ih1 := ih fun x hx => hno x (List.mem_cons_of_mem _ hx)
    rw [SetStartState_cons, List.map_cons, ih1]
    by_cases hv : v.LiveRoomId = liveRoomId
    · have hset : setUrls pushId url user_type v.Urls = none :=
        (setUrls_eq_none_iff pushId url user_type v.Urls).2
          (hno v (List.mem_cons_self _ _) hv)
      rw [if_pos hv, if_pos hv, hset]
    · rw [if_neg hv, if_neg hv]

theorem map_setProjectId_eq_self_iff (rooms : LiveRooms) (projectId : Int) (liveRoomId : String) :
    (rooms.map fun v =>
        if v.LiveRoomId = liveRoomId then { v with ProjectId := projectId } else v) = rooms ↔
      ∀ v ∈ rooms, v.LiveRoomId = liveRoomId → v.ProjectId = projectId := by
  induction rooms with
  | nil => simp
  | cons v rest ih =>
    rw [List.map_cons, List.cons.injEq, ih]
    constructor
    · rintro ⟨h1, h2⟩ x hx hid
      rcases List.mem_cons.1 hx with h | h
      · rw [h]
        rw [if_pos (h ▸ hid)] at h1
        rw [← h1]
      · exact h2 x h hid
    · intro h
      refine ⟨?_, fun x hx => h x (List.mem_cons_of_mem _ hx)⟩
      by_cases hv : v.LiveRoomId = liveRoomId
      · rw [if_pos hv]
        have := h v (List.mem_cons_self _ _) hv
        cases v
        simp only at this
        rw [this]
      · rw [if_neg hv]

/-- C28 (as amended): for every pool in which no room with id `roomId` has an endpoint
with `PushId` `pushId`, `SetStartState(projectId, roomId, pushId, url, userType)` returns
the error "SetStartState Not Found LiveRoomid/PushId/Url" and leaves every room with id
`roomId` with `ProjectId == projectId`, no endpoint and no other room changed; the pool
it leaves is the pool it got exactly when every room with id `roomId` already had
`ProjectId == projectId`, in particular when no room has id `roomId`. -/
theorem SetStartState_not_atomic (rooms : LiveRooms) (projectId : Int) (liveRoomId : String)
    (pushId : Int) (url : String) (user_type : Int)
    (hno : ∀ v ∈ rooms, v.LiveRoomId = liveRoomId → ∀ e ∈ v.Urls, e.PushId ≠ pushId) :
    SetStartState rooms projectId liveRoomId pushId url user_type =
      (some "SetStartState Not Found LiveRoomid/PushId/Url",
        rooms.map fun v =>
          if v.LiveRoomId = liveRoomId then
            { LiveRoomId := v.LiveRoomId, ProjectId := projectId, Urls := v.Urls }
          else v) ∧
    ((SetStartState rooms projectId liveRoomId pushId url user_type).2 = rooms ↔
      ∀ v ∈ rooms, v.LiveRoomId = liveRoomId → v.ProjectId = projectId) ∧
    ((∀ v ∈ rooms, v.LiveRoomId ≠ liveRoomId) →
      (SetStartState rooms projectId liveRoomId pushId url user_type).2 = rooms) := by
  have h := SetStartState_no_endpoint rooms projectId liveRoomId pushId url user_type hno
  refine ⟨h, ?_, ?_⟩
  · rw [h]
    exact map_setProjectId_eq_self_iff rooms projectId liveRoomId
  · intro hnone
    rw [h]
    exact (map_setProjectId_eq_self_iff rooms projectId liveRoomId).2
      fun v hv hid => absurd hid (hnone v hv)

/-- Witness for C28: the pool of scenario 1 (room `R1` with the endpoint 1, not bound),
asked to start the endpoint 2 of `R1` for project 12. -/
theorem SetStartState_not_atomic_witness :
    SetStartState (initLiveRooms scenarioLives) 12 "R1" 2 "rtmp://h:1935/live/R1/12/Camera_2" 0 =
      (some "SetStartState Not Found LiveRoomid/PushId/Url",
        (initLiveRooms scenarioLives).map fun v =>
          if v.LiveRoomId = "R1" then
            { LiveRoomId := v.LiveRoomId, ProjectId := 12, Urls := v.Urls }
          else v) ∧
    (SetStartState (initLiveRooms scenarioLives) 12 "R1" 2
        "rtmp://h:1935/live/R1/12/Camera_2" 0).2 ≠ initLiveRooms scenarioLives :=
  ⟨(SetStartState_not_atomic (initLiveRooms scenarioLives) 12 "R1" 2
      "rtmp://h:1935/live/R1/12/Camera_2" 0 (by decide)).1,
   by decide⟩

/-- C28, counterexample: after `getPush?projectId=12&userType=0` on the pool of scenario 1
the room `R1` is bound to project 12 and has no endpoint 2; there
`SetStartState(12, "R1", 2, ...)` returns the error and leaves the pool as it was,
although a room has id `R1`. -/
theorem SetStartState_not_atomic_counterexample :
    SetStartState (run staticCfg scenarioLives [Request.getPush scenarioDate "12" "0"]) 12 "R1" 2
        "rtmp://h:1935/live/R1/12/Camera_2" 0 =
      (some "SetStartState Not Found LiveRoomid/PushId/Url",
        run staticCfg scenarioLives [Request.getPush scenarioDate "12" "0"]) ∧
    ∃ v ∈ run staticCfg scenarioLives [Request.getPush scenarioDate "12" "0"],
      v.LiveRoomId = "R1" ∧ v.ProjectId = 12 := by
  decide

/-! ## Order of the packets and bound of the queue -/

theorem SendPacket_all (writeOk : Packet → Bool) (pktQue : List Packet)
    (h : ∀ p ∈ pktQue, writeOk p = true) : SendPacket writeOk pktQue = pktQue := by
  induction pktQue with
  | nil => rfl
  | cons p rest ih =>
    unfold SendPacket
    rw [if_pos (h p (List.mem_cons_self _ _)), ih fun x hx => h x (List.mem_cons_of_mem _ hx)]

theorem DropPacket_key_first :
    DropPacket (keyVideo :: List.replicate 999 plainVideo) =
      some (List.replicate 60 plainVideo ++ [keyVideo]) := by
  have hmax : maxQueueNum - 84 = 939 + 1 := rfl
  rw [DropPacket_small _ (by rw [List.length_cons, List.length_replicate]; decide)
    (by rw [List.length_cons, List.length_replicate]; decide)
    (by
      intro p hp
      rcases List.mem_cons.1 hp with h | h
      · rw [h]; unfold Packet.exclusive; decide
      · rw [(List.mem_replicate.1 h).2]; unfold Packet.exclusive; decide)]
  rw [hmax, List.drop_succ_cons, List.take_succ_cons, List.drop_replicate, List.take_replicate,
    List.filter_cons_of_pos (by decide)]
  have hf : (List.replicate (min 939 999) plainVideo).filter (fun p => p.kept) = [] := by
    rw [List.filter_eq_nil_iff]
    intro p hp
    rw [(List.mem_replicate.1 hp).2]
    decide
  rw [hf]

/-- C21 (as amended): on a buffer of `L` packets, `maxQueueNum - 24 <= L <=
maxQueueNum - 10`, whose audio and video flags are mutually exclusive, with no other
goroutine on the channel, `DropPacket` leaves first the packets it did not receive (the
last `L - 940`, in their order) and behind them the packets it received and sent back
(the audio packets, sequence headers and keyframes among the first 940, in their
order).  Each of the two groups is a subsequence of the buffer at entry, and `SendPacket`
writes the packets in the order of the buffer, so the packets sent back are written
after the packets that were enqueued after them. -/
theorem DropPacket_order (pktQue : List Packet)
    (h1 : maxQueueNum - 24 ≤ pktQue.length) (h2 : pktQue.length ≤ maxQueueNum - 10)
    (hwf : ∀ p ∈ pktQue, p.exclusive) :
    DropPacket pktQue =
      some (pktQue.drop (maxQueueNum - 84) ++
        (pktQue.take (maxQueueNum - 84)).filter fun p => p.kept) ∧
    List.Sublist (pktQue.drop (maxQueueNum - 84)) pktQue ∧
    List.Sublist ((pktQue.take (maxQueueNum - 84)).filter fun p => p.kept) pktQue ∧
    SendPacket (fun _ => true)
        (pktQue.drop (maxQueueNum - 84) ++
          (pktQue.take (maxQueueNum - 84)).filter fun p => p.kept) =
      pktQue.drop (maxQueueNum - 84) ++
        (pktQue.take (maxQueueNum - 84)).filter fun p => p.kept := by
  have hmax : maxQueueNum = 1024 := rfl
  refine ⟨DropPacket_small pktQue (by omega) h2 hwf, List.drop_sublist _ _,
    (List.filter_sublist _).trans (List.take_sublist _ _), SendPacket_all _ _ fun _ _ => rfl⟩

/-- Witness for C21: a keyframe followed by 999 plain video packets. -/
theorem DropPacket_order_witness :
    DropPacket (keyVideo :: List.replicate 999 plainVideo) =
      some ((keyVideo :: List.replicate 999 plainVideo).drop (maxQueueNum - 84) ++
        ((keyVideo :: List.replicate 999 plainVideo).take (maxQueueNum - 84)).filter
          fun p => p.kept) :=
  (DropPacket_order (keyVideo :: List.replicate 999 plainVideo)
    (by rw [List.length_cons, List.length_replicate]; decide)
    (by rw [List.length_cons, List.length_replicate]; decide)
    (by
      intro p hp
      rcases List.mem_cons.1 hp with h | h
      · rw [h]; unfold Packet.exclusive; decide
      · rw [(List.mem_replicate.1 h).2]; unfold Packet.exclusive; decide)).1

/-- C21, counterexample: from the buffer that holds a keyframe followed by 999 plain
video packets, `DropPacket` leaves 60 plain video packets followed by the keyframe; that
is not a subsequence of the buffer at entry, and `SendPacket` then writes a plain video
packet before the keyframe, which was enqueued before it. -/
theorem DropPacket_order_counterexample :
    ∃ r, DropPacket (keyVideo :: List.replicate 999 plainVideo) = some r ∧
      ¬ List.Sublist r (keyVideo :: List.replicate 999 plainVideo) ∧
      SendPacket (fun _ => true) r = List.replicate 60 plainVideo ++ [keyVideo] := by
  refine ⟨_, DropPacket_key_first, ?_, SendPacket_all _ _ fun _ _ => rfl⟩
  intro hsub
  have h60 : List.replicate 60 plainVideo = plainVideo :: List.replicate 59 plainVideo := rfl
  rw [h60, List.cons_append, List.sublist_cons_iff] at hsub
  rcases hsub with h | ⟨r, hr, _⟩
  · have hmem : keyVideo ∈ List.replicate 999 plainVideo :=
      h.subset (List.mem_cons_of_mem _ (List.mem_append_right _ (List.mem_singleton_self _)))
    exact absurd (List.mem_replicate.1 hmem).2 (by decide)
  · rw [List.cons.injEq] at hr
    exact absurd hr.1 (by decide)

theorem dropIter_small_ops (p : Packet) (rest : List Packet)
    (h2 : (p :: rest).length ≤ maxQueueNum - 10) (hp : p.exclusive) :
    dropIter (p :: rest) =
      some (if p.kept then rest ++ [p] else rest,
        if p.kept then [ChanOp.recv, ChanOp.send] else [ChanOp.recv]) := by
  have hmax : maxQueueNum = 1024 := rfl
  simp only [List.length_cons] at h2
  have hA : ¬ rest.length > maxQueueNum - 2 := by omega
  have hS : chanSend rest p = some (rest ++ [p]) := chanSend_of_lt rest p (by omega)
  have hV1 : ¬ rest.length > maxQueueNum - 10 := by omega
  have hV2 : ¬ (rest ++ [p]).length > maxQueueNum - 10 := by
    rw [List.length_append, List.length_singleton]; omega
  rw [dropIter_cons]
  unfold dropAudio dropVideo Packet.kept
  cases ha : p.IsAudio with
  | true =>
    have hv : p.IsVideo = false := by
      cases hv : p.IsVideo with
      | false => rfl
      | true => exact absurd ⟨ha, hv⟩ hp
    simp [hv, hA, hS]
  | false =>
    cases hv : p.IsVideo with
    | false => simp
    | true =>
      cases hk : p.seqOrKey with
      | false => simp [hV1]
      | true =>
        simp [hS]
        omega

theorem Write_inv (v : VirWriter) (p : Packet) (hp : p.exclusive)
    (hlen : v.packetQueue.length ≤ maxQueueNum - 24)
    (hwf : ∀ x ∈ v.packetQueue, x.exclusive) :
    ∃ r, v.Write p = some r ∧ r.2.packetQueue.length ≤ maxQueueNum - 24 ∧
      ∀ x ∈ r.2.packetQueue, x.exclusive := by
  have hmax : maxQueueNum = 1024 := rfl
  have hdrop : v.packetQueue.length ≥ maxQueueNum - 24 →
      ∃ q, DropPacket v.packetQueue = some q ∧ q.length ≤ maxQueueNum - 24 ∧
        ∀ x ∈ q, x.exclusive := by
    intro hge
    refine ⟨_, DropPacket_small v.packetQueue (by omega) (by omega) hwf, ?_, ?_⟩
    · rw [List.length_append, List.length_drop]
      have := List.length_filter_le (fun p : Packet => p.kept)
        (v.packetQueue.take (maxQueueNum - 84))
      rw [List.length_take] at this
      omega
    · intro x hx
      rcases List.mem_append.1 hx with h | h
      · exact hwf x (List.mem_of_mem_drop h)
      · exact hwf x (List.mem_of_mem_take (List.mem_filter.1 h).1)
  have hsend : ¬ v.packetQueue.length ≥ maxQueueNum - 24 →
      chanSend v.packetQueue p = some (v.packetQueue ++ [p]) ∧
        (v.packetQueue ++ [p]).length ≤ maxQueueNum - 24 ∧
        ∀ x ∈ v.packetQueue ++ [p], x.exclusive := by
    intro hlt
    refine ⟨chanSend_of_lt _ _ (by omega), ?_, ?_⟩
    · rw [List.length_append, List.length_singleton]; omega
    · intro x hx
      rcases List.mem_append.1 hx with h | h
      · exact hwf x h
      · rw [List.mem_singleton.1 h]; exact hp
  unfold VirWriter.Write
  cases hc : v.closed with
  | true => exact ⟨(some "VirWriter closed", v), by simp, hlen, hwf⟩
  | false =>
    simp only [Bool.false_eq_true, if_false]
    by_cases hge : v.packetQueue.length ≥ maxQueueNum - 24
    · obtain ⟨q, hq, hq1, hq2⟩ := hdrop hge
      rw [if_pos hge, hq]
      cases hm : v.limitAudio with
      | false => exact ⟨(none, { v with packetQueue := q }), by simp [hc, hm], hq1, hq2⟩
      | true =>
        cases hv : p.IsVideo with
        | false => exact ⟨(none, v), by simp, hlen, hwf⟩
        | true => exact ⟨(none, { v with packetQueue := q }), by simp [hc, hm], hq1, hq2⟩
    · obtain ⟨hs, hs1, hs2⟩ := hsend hge
      rw [if_neg hge, hs]
      cases hm : v.limitAudio with
      | false => exact ⟨(none, { v with packetQueue := v.packetQueue ++ [p] }), by simp [hc, hm], hs1, hs2⟩
      | true =>
        cases hv : p.IsVideo with
        | false => exact ⟨(none, v), by simp, hlen, hwf⟩
        | true =>
          exact ⟨(none, { v with packetQueue := v.packetQueue ++ [p] }), by simp [hc, hm], hs1, hs2⟩

theorem step_inv (v : VirWriter) (s : QueueStep)
    (hs : ∀ p, s = QueueStep.write p → p.exclusive)
    (hlen : v.packetQueue.length ≤ maxQueueNum - 24)
    (hwf : ∀ x ∈ v.packetQueue, x.exclusive) :
    ∃ v1, v.step s = some v1 ∧ v1.packetQueue.length ≤ maxQueueNum - 24 ∧
      ∀ x ∈ v1.packetQueue, x.exclusive := by
  cases s with
  | write p =>
    obtain ⟨r, hr, h1, h2⟩ := Write_inv v p (hs p rfl) hlen hwf
    exact ⟨r.2, by simp [VirWriter.step, hr], h1, h2⟩
  | dequeue =>
    cases hq : v.packetQueue with
    | nil =>
      refine ⟨v, by simp [VirWriter.step, chanRecv, hq], hlen, hwf⟩
    | cons p rest =>
      refine ⟨{ v with packetQueue := rest }, by simp [VirWriter.step, chanRecv, hq], ?_, ?_⟩
      · rw [hq, List.length_cons] at hlen
        simp only
        omega
      · intro x hx
        exact hwf x (by rw [hq]; exact List.mem_cons_of_mem _ hx)
  | setLimitAudio b => exact ⟨_, rfl, hlen, hwf⟩
  | close => exact ⟨_, rfl, hlen, hwf⟩

theorem steps_inv (ss : List QueueStep) :
    ∀ v : VirWriter, (∀ p, QueueStep.write p ∈ ss → p.exclusive) →
      v.packetQueue.length ≤ maxQueueNum - 24 → (∀ x ∈ v.packetQueue, x.exclusive) →
      ∃ v1, v.steps ss = some v1 ∧ v1.packetQueue.length ≤ maxQueueNum - 24 ∧
        ∀ x ∈ v1.packetQueue, x.exclusive := by
  induction ss with
  | nil => intro v _ hlen hwf; exact ⟨v, rfl, hlen, hwf⟩
  | cons s ss ih =>
    intro v hs hlen hwf
    obtain ⟨v1, hv1, h1, h2⟩ := step_inv v s
      (fun p hp => hs p (by rw [hp]; exact List.mem_cons_self _ _)) hlen hwf
    obtain ⟨v2, hv2, h3, h4⟩ := ih v1 (fun p hp => hs p (List.mem_cons_of_mem _ hp)) h1 h2
    refine ⟨v2, ?_, h3, h4⟩
    unfold VirWriter.steps
    rw [hv1]
    exact hv2

/-- C29: starting from an empty packet queue, every finite sequence of steps (calls of
`Write` with packets whose audio and video flags are not both set, receives of the
consumer, stores of the mute flag, closing), each run to completion, completes without
blocking and leaves a queue of at most `maxQueueNum - 24 = 1000` packets, below the
capacity 1024.  So when `Write` enters `DropPacket` the queue holds exactly 1000 packets,
and each of the 940 iterations of `DropPacket` then performs one receive only: neither
extra-drop branch is taken. -/
theorem queue_length_bound (ss : List QueueStep) (limitAudio : Bool)
    (hs : ∀ p, QueueStep.write p ∈ ss → p.exclusive) :
    maxQueueNum - 24 = 1000 ∧
    ∃ v, VirWriter.steps { closed := false, limitAudio := limitAudio, packetQueue := [] } ss =
        some v ∧
      v.packetQueue.length ≤ maxQueueNum - 24 ∧ v.packetQueue.length < maxQueueNum ∧
      (v.packetQueue.length ≥ maxQueueNum - 24 →
        v.packetQueue.length = maxQueueNum - 24 ∧
        ∀ i, i < maxQueueNum - 84 →
          ∃ qi r, dropLoop i v.packetQueue = some qi ∧ dropIter qi = some r ∧
            qi.length ≤ maxQueueNum - 24 ∧ r.2.count ChanOp.recv = 1) := by
  have hmax : maxQueueNum = 1024 := rfl
  refine ⟨rfl, ?_⟩
  obtain ⟨v, hv, hlen, hwf⟩ := steps_inv ss
    { closed := false, limitAudio := limitAudio, packetQueue := [] } hs (by simp) (by simp)
  refine ⟨v, hv, hlen, by omega, fun hge => ⟨by omega, fun i hi => ?_⟩⟩
  have hqi := dropLoop_small i v.packetQueue (by omega) (by omega) hwf
  have hlen1 : (v.packetQueue.drop i ++
      (v.packetQueue.take i).filter fun p => p.kept).length ≤ maxQueueNum - 24 := by
    rw [List.length_append, List.length_drop]
    have := List.length_filter_le (fun p : Packet => p.kept) (v.packetQueue.take i)
    rw [List.length_take] at this
    omega
  have hwf1 : ∀ x ∈ v.packetQueue.drop i ++ (v.packetQueue.take i).filter fun p => p.kept,
      x.exclusive := by
    intro x hx
    rcases List.mem_append.1 hx with h | h
    · exact hwf x (List.mem_of_mem_drop h)
    · exact hwf x (List.mem_of_mem_take (List.mem_filter.1 h).1)
  cases hq : v.packetQueue.drop i ++ (v.packetQueue.take i).filter fun p => p.kept with
  | nil =>
    have h0 : (v.packetQueue.drop i).length = 0 := by
      have := congrArg List.length hq
      rw [List.length_append] at this
      simp only [List.length_nil] at this
      omega
    rw [List.length_drop] at h0
    omega
  | cons p rest =>
    rw [hq] at hqi hlen1 hwf1
    refine ⟨p :: rest, _, hqi,
      dropIter_small_ops p rest (by omega) (hwf1 p (List.mem_cons_self _ _)), hlen1, ?_⟩
    simp only
    split <;> decide

/-- Witness for C29: a keyframe and an audio packet written, one receive. -/
theorem queue_length_bound_witness :
    ∃ v, VirWriter.steps { closed := false, limitAudio := false, packetQueue := [] }
        [QueueStep.write keyVideo, QueueStep.write audioPacket, QueueStep.dequeue] = some v ∧
      v.packetQueue.length ≤ maxQueueNum - 24 :=
  let ⟨v, hv, hlen, _⟩ := (queue_length_bound
    [QueueStep.write keyVideo, QueueStep.write audioPacket, QueueStep.dequeue] false
    (by
      intro p hp
      simp only [List.mem_cons, QueueStep.write.injEq, List.mem_singleton, reduceCtorEq,
        List.not_mem_nil, or_false] at hp
      rcases hp with h | h
      · rw [h]; unfold Packet.exclusive; decide
      · rw [h]; unfold Packet.exclusive; decide)).2
  ⟨v, hv, hlen⟩

/-! ## Liveness check -/

theorem filter_key_mid {α : Type} (a b : List (String × α)) (k : String) (x : α)
    (ha : ∀ e ∈ a, e.1 ≠ k) (hb : ∀ e ∈ b, e.1 ≠ k) :
    (a ++ (k, x) :: b).filter (fun e => decide (e.1 ≠ k)) = a ++ b := by
  have h1 : ∀ l : List (String × α), (∀ e ∈ l, e.1 ≠ k) →
      l.filter (fun e => decide (e.1 ≠ k)) = l := by
    intro l hl
    rw [List.filter_eq_self]
    intro e he
    simpa using hl e he
  rw [List.filter_append, List.filter_cons_of_neg (by simp), h1 a ha, h1 b hb]

theorem map_key_mid {α : Type} (a b : List (String × α)) (k : String) (x y : α)
    (ha : ∀ e ∈ a, e.1 ≠ k) (hb : ∀ e ∈ b, e.1 ≠ k) :
    (a ++ (k, x) :: b).map (fun e => if e.1 = k then (e.1, y) else e) = a ++ (k, y) :: b := by
  have h1 : ∀ l : List (String × α), (∀ e ∈ l, e.1 ≠ k) →
      l.map (fun e => if e.1 = k then (e.1, y) else e) = l := by
    intro l hl
    conv_rhs => rw [← List.map_id l]
    apply List.map_congr_left
    intro e he
    rw [if_neg (hl e he)]
    rfl
  rw [List.map_append, List.map_cons, h1 a ha, h1 b hb, if_pos rfl]

theorem foldl_checkWriter_stopped (rest : List (String × PackWriterCloser)) :
    ∀ c : AliveCheck, c.stream.isStart = false →
      rest.foldl checkWriter c =
        { c with n := c.n + (rest.filter fun e => e.2.w.isSome).length } := by
  induction rest with
  | nil => intro c _; rfl
  | cons e es ih =>
    intro c hc
    rw [List.foldl_cons]
    cases hw : e.2.w with
    | none =>
      have hstep : checkWriter c e = c := by simp [checkWriter, hw]
      rw [hstep, ih c hc, List.filter_cons_of_neg (by simp [hw])]
    | some w =>
      have hstep : checkWriter c e = { c with n := c.n + 1 } := by
        simp [checkWriter, hw, hc]
      rw [hstep, ih { c with n := c.n + 1 } hc, List.filter_cons_of_pos (by simp [hw]),
        List.length_cons]
      simp only [AliveCheck.mk.injEq, and_self, and_true]
      omega

theorem foldl_checkWriter_started (rest : List (String × PackWriterCloser)) :
    ∀ (c : AliveCheck) (done : List (String × PackWriterCloser)),
      c.stream.isStart = true → c.stream.ws = done ++ rest →
      (∀ e ∈ done, ∀ e1 ∈ rest, e.1 ≠ e1.1) → (rest.map fun e => e.1).Nodup →
      rest.foldl checkWriter c =
        { n := c.n + (rest.filter fun e =>
            match e.2.w with
            | some w => w.alive
            | none => false).length
          stream := { c.stream with ws := done ++ rest.filter fun e => e.2.stays }
          closedWs := c.closedWs ++ rest.filterMap closedWriter } := by
  induction rest with
  | nil =>
    intro c done _ hws _ _
    cases c with
    | mk n stream closedWs =>
      cases stream
      simp only [List.append_nil] at hws
      simp [hws]
  | cons e es ih =>
    intro c done hc hws hdisj hnd
    rw [List.map_cons, List.nodup_cons] at hnd
    have hes : ∀ e1 ∈ es, e1.1 ≠ e.1 := by
      intro e1 he1 heq
      exact hnd.1 (by rw [← heq]; exact List.mem_map_of_mem (fun e => e.1) he1)
    have hdone : ∀ x ∈ done, x.1 ≠ e.1 := fun x hx => hdisj x hx e (List.mem_cons_self _ _)
    have hdisj1 : ∀ x ∈ done, ∀ e1 ∈ es, x.1 ≠ e1.1 :=
      fun x hx e1 he1 => hdisj x hx e1 (List.mem_cons_of_mem _ he1)
    have hdisj2 : ∀ x ∈ done ++ [e], ∀ e1 ∈ es, x.1 ≠ e1.1 := by
      intro x hx e1 he1
      rcases List.mem_append.1 hx with h | h
      · exact hdisj1 x h e1 he1
      · rw [List.mem_singleton.1 h]
        exact fun heq => hes e1 he1 heq.symm
    rw [List.foldl_cons]
    cases hw : e.2.w with
    | none =>
      have hstep : checkWriter c e = c := by simp [checkWriter, hw]
      rw [hstep, ih c (done ++ [e]) hc (by rw [hws]; simp) hdisj2 hnd.2,
        List.filter_cons_of_neg (by simp [hw]),
        List.filter_cons_of_pos (by simp [PackWriterCloser.stays, hw])]
      have hcl : closedWriter e = none := by simp [closedWriter, hw]
      rw [List.filterMap_cons_none hcl]
      simp
    | some w =>
      cases ha : w.alive with
      | true =>
        have hstep : checkWriter c e = { c with n := c.n + 1 } := by
          simp [checkWriter, hw, ha]
        have hcl : closedWriter e = none := by simp [closedWriter, hw, ha]
        rw [hstep, ih { c with n := c.n + 1 } (done ++ [e]) hc (by simp only; rw [hws]; simp)
            hdisj2 hnd.2,
          List.filter_cons_of_pos (by simp [hw, ha]),
          List.filter_cons_of_pos (by simp [PackWriterCloser.stays, hw, ha]),
          List.filterMap_cons_none hcl, List.length_cons]
        simp only [List.append_assoc, List.singleton_append, AliveCheck.mk.injEq, and_self,
          and_true]
        omega
      | false =>
        have hmid : c.stream.ws.filter (fun x => decide (x.1 ≠ e.1)) = done ++ es := by
          rw [hws]
          exact filter_key_mid done es e.1 e.2 hdone hes
        have hstep : checkWriter c e =
            { c with
              stream := { c.stream with ws := done ++ es }
              closedWs := c.closedWs ++ [(e.1, { w with closed := true })] } := by
          unfold checkWriter
          rw [hw]
          simp only [ha, hc, Bool.not_false, Bool.and_self, if_true]
          rw [hmid]
        have hcl : closedWriter e = some (e.1, { w with closed := true }) := by
          simp [closedWriter, hw, ha]
        rw [hstep, ih { c with
              stream := { c.stream with ws := done ++ es }
              closedWs := c.closedWs ++ [(e.1, { w with closed := true })] } done hc rfl
            hdisj1 hnd.2,
          List.filter_cons_of_neg (by simp [hw, ha]),
          List.filter_cons_of_neg (by simp [PackWriterCloser.stays, hw, ha]),
          List.filterMap_cons_some hcl]
        simp

theorem checkReader_spec (s : Stream) :
    (checkReader s).2.isStart = s.isStart ∧ (checkReader s).2.ws = s.ws ∧
    (checkReader s).2.FFmpeg = s.FFmpeg ∧
    (s.isStart = false → checkReader s = (0, s)) ∧
    (s.isStart = true →
      (checkReader s).1 = (match s.r with
        | some r => if r.alive then 1 else 0
        | none => 0) ∧
      (checkReader s).2.r =
        s.r.map fun r => if r.alive then r else { r with closed := true }) := by
  unfold checkReader
  cases hr : s.r with
  | none => simp [hr]
  | some r =>
    cases hs : s.isStart with
    | false => simp [hs, hr]
    | true =>
      cases ha : r.alive with
      | false => simp [hs, hr, ha]
      | true => simp [hs, hr, ha]

theorem foldl_sweepStream (rest : List (String × Stream)) :
    ∀ done : List (String × Stream),
      (∀ e ∈ done, ∀ e1 ∈ rest, e.1 ≠ e1.1) → (rest.map fun e => e.1).Nodup →
      rest.foldl sweepStream (done ++ rest) = done ++ rest.filterMap sweptStream := by
  induction rest with
  | nil => intro done _ _; simp
  | cons e es ih =>
    intro done hdisj hnd
    rw [List.map_cons, List.nodup_cons] at hnd
    have hes : ∀ e1 ∈ es, e1.1 ≠ e.1 := by
      intro e1 he1 heq
      exact hnd.1 (by rw [← heq]; exact List.mem_map_of_mem (fun e => e.1) he1)
    have hdone : ∀ x ∈ done, x.1 ≠ e.1 := fun x hx => hdisj x hx e (List.mem_cons_self _ _)
    have hdisj1 : ∀ x ∈ done, ∀ e1 ∈ es, x.1 ≠ e1.1 :=
      fun x hx e1 he1 => hdisj x hx e1 (List.mem_cons_of_mem _ he1)
    rw [List.foldl_cons]
    by_cases h0 : e.2.CheckAlive.n = 0
    · have hstep : sweepStream (done ++ e :: es) e = done ++ es := by
        unfold sweepStream
        rw [if_pos h0]
        exact filter_key_mid done es e.1 e.2 hdone hes
      have hsw : sweptStream e = none := by simp [sweptStream, h0]
      rw [hstep, ih done hdisj1 hnd.2, List.filterMap_cons_none hsw]
    · have hstep : sweepStream (done ++ e :: es) e =
          (done ++ [(e.1, e.2.CheckAlive.stream)]) ++ es := by
        unfold sweepStream
        rw [if_neg h0, List.append_assoc]
        exact map_key_mid done es e.1 e.2 e.2.CheckAlive.stream hdone hes
      have hsw : sweptStream e = some (e.1, e.2.CheckAlive.stream) := by
        simp [sweptStream, h0]
      have hdisj2 : ∀ x ∈ done ++ [(e.1, e.2.CheckAlive.stream)], ∀ e1 ∈ es, x.1 ≠ e1.1 := by
        intro x hx e1 he1
        rcases List.mem_append.1 hx with h | h
        · exact hdisj1 x h e1 he1
        · rw [List.mem_singleton.1 h]
          exact fun heq => hes e1 he1 heq.symm
      rw [hstep, ih _ hdisj2 hnd.2, List.filterMap_cons_some hsw, List.append_assoc]
      rfl

theorem checkPublisher_eq_filterMap (streams : List (String × Stream))
    (hnd : (streams.map fun e => e.1).Nodup) :
    checkPublisher streams = streams.filterMap sweptStream := by
  have h := foldl_sweepStream streams [] (by simp) hnd
  simpa [checkPublisher] using h

theorem eq_of_key_eq {α : Type} (l : List (String × α)) (hnd : (l.map fun e => e.1).Nodup)
    (a b : String × α) (ha : a ∈ l) (hb : b ∈ l) (hab : a.1 = b.1) : a = b := by
  induction l with
  | nil => simp at ha
  | cons x xs ih =>
    rw [List.map_cons, List.nodup_cons] at hnd
    rcases List.mem_cons.1 ha with h1 | h1
    · rcases List.mem_cons.1 hb with h2 | h2
      · rw [h1, h2]
      · exact absurd (by rw [← h1, hab]; exact List.mem_map_of_mem (fun e => e.1) h2) hnd.1
    · rcases List.mem_cons.1 hb with h2 | h2
      · exact absurd (by rw [← h2, ← hab]; exact List.mem_map_of_mem (fun e => e.1) h1) hnd.1
      · exact ih hnd.2 h1 h2

/-- C22 (as amended): for every `Stream` whose viewer map has distinct keys and any
`Alive()` results.  When `isStart` is true, `CheckAlive` returns exactly the number of
attached endpoints (the reader if present, and the viewers that have a writer) whose
`Alive()` is true; it closes a reader that is not alive, and it closes and removes from
the viewer map exactly the viewers whose `Alive()` is false; a started stream none of
whose endpoints is alive so yields 0 and is removed from a registry with distinct keys
by the pass of the sweeper.  When `isStart` is false, `CheckAlive` returns the number of
viewers that have a writer, alive or not, does not count the reader, and closes and
removes nothing. -/
theorem CheckAlive_count (s : Stream) (hnd : (s.ws.map fun e => e.1).Nodup) :
    (s.isStart = true →
      s.CheckAlive.n = s.aliveCount ∧
      s.CheckAlive.stream.ws = s.ws.filter (fun e => e.2.stays) ∧
      s.CheckAlive.closedWs = s.ws.filterMap closedWriter ∧
      s.CheckAlive.stream.r =
        s.r.map (fun r => if r.alive then r else { r with closed := true }) ∧
      (s.aliveCount = 0 →
        ∀ (streams : List (String × Stream)) (key : String),
          (streams.map fun e => e.1).Nodup → (key, s) ∈ streams →
          ∀ e ∈ checkPublisher streams, e.1 ≠ key)) ∧
    (s.isStart = false →
      s.CheckAlive =
        { n := (s.ws.filter fun e => e.2.w.isSome).length, stream := s, closedWs := [] }) := by
  obtain ⟨hr1, hr2, _, hr4, hr5⟩ := checkReader_spec s
  constructor
  · intro hs
    have hfold := foldl_checkWriter_started s.ws
      { n := (checkReader s).1, stream := (checkReader s).2, closedWs := [] } []
      (by rw [hr1]; exact hs) (by rw [hr2]; rfl) (by simp) hnd
    have hCA : s.CheckAlive = _ := hfold
    have hn : s.CheckAlive.n = s.aliveCount := by
      rw [hCA]
      simp only
      rw [(hr5 hs).1]
      rfl
    refine ⟨hn, ?_, ?_, ?_, ?_⟩
    · rw [hCA]; simp
    · rw [hCA]; simp
    · rw [hCA]; exact (hr5 hs).2
    · intro h0 streams key hnds hmem e he hkey
      rw [checkPublisher_eq_filterMap streams hnds, List.mem_filterMap] at he
      obtain ⟨e0, he0, hsw⟩ := he
      unfold sweptStream at hsw
      by_cases hz : e0.2.CheckAlive.n = 0
      · rw [if_pos hz] at hsw
        exact absurd hsw (by simp)
      · rw [if_neg hz, Option.some.injEq] at hsw
        have hk0 : e0.1 = key := by rw [← hkey, ← hsw]
        have heq : e0 = (key, s) := eq_of_key_eq streams hnds e0 (key, s) he0 hmem hk0
        apply hz
        rw [heq]
        simp only
        rw [hn, h0]
  · intro hs
    have hfold := foldl_checkWriter_stopped s.ws
      { n := (checkReader s).1, stream := (checkReader s).2, closedWs := [] }
      (by rw [hr1]; exact hs)
    have hCA : s.CheckAlive = _ := hfold
    rw [hCA, hr4 hs]
    simp

/-- Witness for C22: a started stream with a reader that is alive, a viewer that is not
and a viewer that is. -/
theorem CheckAlive_count_witness :
    startedStream.CheckAlive.n = startedStream.aliveCount ∧
    startedStream.CheckAlive.n = 2 ∧
    startedStream.CheckAlive.stream.ws =
      [("b", { init := true, w := some { alive := true, closed := false } })] ∧
    startedStream.CheckAlive.closedWs = [("a", { alive := false, closed := true })] :=
  ⟨((CheckAlive_count startedStream (by decide)).1 rfl).1, by decide, by decide, by decide⟩

/-- C22, counterexample: a stream that is not started, without reader, with one viewer
whose `Alive()` is false: `CheckAlive` returns 1 although no endpoint is alive, leaves
the viewer in the map, not closed, and the sweeper keeps the stream.  And a stream that
is not started whose reader is alive yields 0 and is removed by the sweeper. -/
theorem CheckAlive_count_counterexample :
    (stoppedDeadViewer.aliveCount = 0 ∧
      stoppedDeadViewer.CheckAlive = { n := 1, stream := stoppedDeadViewer, closedWs := [] } ∧
      checkPublisher [("live/R1", stoppedDeadViewer)] = [("live/R1", stoppedDeadViewer)]) ∧
    (stoppedLiveReader.aliveCount = 1 ∧
      stoppedLiveReader.CheckAlive.n = 0 ∧
      checkPublisher [("live/R1", stoppedLiveReader)] = []) := by
  decide

/-! ## Replay index -/

/-- C25, the code at the failing input: the directory `/S/R1/12` holds a file still named
by its start time only (300 bytes) and the finished recording
`Camera_20240101T000000_20240101T010000.ts` (700 bytes, MD5 `bb`).  `getDirFiles`
returns two sizes for one listed name, and `GetRtmpList`, `GetSingleRtmpList(12)` and
`GetProjectReplayList(12)` all report the finished recording with `Size` 300, the size
of the other file. -/
theorem getDirFiles_size_misaligned :
    (getDirFiles replayFS [] "/S/R1/12").2.1 =
      { dirFiles := ["Camera_20240101T000000_20240101T010000.ts"]
        dirFilesSize := [300, 700]
        dirFilesMd5 := ["bb"]
        startTimers := ["20240101T000000"]
        finishTimers := ["20240101T010000"] } ∧
    replayFS.Stat "/S/R1/12/Camera_20240101T000000_20240101T010000.ts" = some 700 ∧
    (GetRtmpList replayFS replayPool []).map (fun r => (allUrls r.1).map fun v => v.Replays) =
      some [[{ Addr := "http://s/R1/12/Camera_20240101T000000_20240101T010000.ts", Size := 300,
               Md5 := "bb", Start := "20240101T000000", Finish := "20240101T010000" }]] ∧
    (GetSingleRtmpList replayFS 12 replayPool []).map
        (fun r => (allUrls r.1).map fun v => v.Replays) =
      some [[{ Addr := "http://s/R1/12/Camera_20240101T000000_20240101T010000.ts", Size := 300,
               Md5 := "bb", Start := "20240101T000000", Finish := "20240101T010000" }]] ∧
    (GetProjectReplayList replayFS 12 replayPool []).map (fun r => r.1) =
      some [{ LiveRoomId := "R1", Urls := [{ PushId := 1, Replays :=
        [{ Addr := "http://s/R1/12/Camera_20240101T000000_20240101T010000.ts", Size := 300,
           Md5 := "bb", Start := "20240101T000000", Finish := "20240101T010000" }] }] }] := by
  decide

theorem getDirFile_spec (fs : FileSystem) (pathDir : String) (st : DirFiles × List FileToMd5)
    (name : String) :
    (getDirFile fs pathDir st name).1.dirFiles =
      st.1.dirFiles ++ ((dirRow pathDir name).toList.map fun row => row.1) ∧
    (getDirFile fs pathDir st name).1.startTimers =
      st.1.startTimers ++ ((dirRow pathDir name).toList.map fun row => row.2.1) ∧
    (getDirFile fs pathDir st name).1.finishTimers =
      st.1.finishTimers ++ ((dirRow pathDir name).toList.map fun row => row.2.2) ∧
    (getDirFile fs pathDir st name).1.dirFilesMd5.length =
      st.1.dirFilesMd5.length + (dirRow pathDir name).toList.length ∧
    (getDirFile fs pathDir st name).1.dirFilesSize =
      st.1.dirFilesSize ++ [getFileSize fs (pathDir ++ "/" ++ name)] ∧
    ∃ extra, (getDirFile fs pathDir st name).2 = st.2 ++ extra ∧
      ∀ f ∈ extra, f.FilePath = pathDir ++ "/" ++ name ∧
        f.Size = getFileSize fs f.FilePath ∧ f.MD5 = (fs.Md5 f.FilePath).getD "" := by
  cases hsplit : splitTimers (pathDir ++ "/" ++ name) with
  | none =>
    simp only [getDirFile, dirRow, hsplit, Option.map_none', Option.toList_none, List.map_nil,
      List.append_nil, List.length_nil, Nat.add_zero, true_and]
    exact ⟨[], by simp, by simp⟩
  | some t =>
    obtain ⟨startTimer, finishTimer⟩ := t
    cases hfound : (findFileMD5 st.2 (pathDir ++ "/" ++ name)
        (getFileSize fs (pathDir ++ "/" ++ name))).1 with
    | true =>
      simp only [getDirFile, dirRow, hsplit, hfound, Option.map_some', Option.toList_some,
        List.map_cons, List.map_nil, List.length_singleton, if_true, List.length_append,
        true_and]
      exact ⟨[], by simp, by simp⟩
    | false =>
      simp only [getDirFile, dirRow, hsplit, hfound, Option.map_some', Option.toList_some,
        List.map_cons, List.map_nil, List.length_singleton, Bool.false_eq_true, if_false,
        List.length_append, true_and]
      exact ⟨_, rfl, by simp⟩

theorem foldl_getDirFile (fs : FileSystem) (pathDir : String) (files : List String) :
    ∀ st : DirFiles × List FileToMd5,
      (files.foldl (getDirFile fs pathDir) st).1.dirFiles =
        st.1.dirFiles ++ ((files.filterMap (dirRow pathDir)).map fun row => row.1) ∧
      (files.foldl (getDirFile fs pathDir) st).1.startTimers =
        st.1.startTimers ++ ((files.filterMap (dirRow pathDir)).map fun row => row.2.1) ∧
      (files.foldl (getDirFile fs pathDir) st).1.finishTimers =
        st.1.finishTimers ++ ((files.filterMap (dirRow pathDir)).map fun row => row.2.2) ∧
      (files.foldl (getDirFile fs pathDir) st).1.dirFilesMd5.length =
        st.1.dirFilesMd5.length + (files.filterMap (dirRow pathDir)).length ∧
      (files.foldl (getDirFile fs pathDir) st).1.dirFilesSize =
        st.1.dirFilesSize ++ files.map (fun name => getFileSize fs (pathDir ++ "/" ++ name)) ∧
      ∃ extra, (files.foldl (getDirFile fs pathDir) st).2 = st.2 ++ extra ∧
        ∀ f ∈ extra, (∃ name ∈ files, f.FilePath = pathDir ++ "/" ++ name) ∧
          f.Size = getFileSize fs f.FilePath ∧ f.MD5 = (fs.Md5 f.FilePath).getD "" := by
  induction files with
  | nil => intro st; simp
  | cons name rest ih =>
    intro st
    obtain ⟨h1, h2, h3, h4, h5, extra1, h6, h7⟩ := getDirFile_spec fs pathDir st name
    obtain ⟨i1, i2, i3, i4, i5, extra2, i6, i7⟩ := ih (getDirFile fs pathDir st name)
    rw [List.foldl_cons]
    have hrow : (name :: rest).filterMap (dirRow pathDir) =
        (dirRow pathDir name).toList ++ rest.filterMap (dirRow pathDir) := by
      cases h : dirRow pathDir name with
      | none => rw [List.filterMap_cons_none h]; rfl
      | some row => rw [List.filterMap_cons_some h]; rfl
    refine ⟨?_, ?_, ?_, ?_, ?_, extra1 ++ extra2, ?_, ?_⟩
    · rw [i1, h1, hrow, List.map_append, List.append_assoc]
    · rw [i2, h2, hrow, List.map_append, List.append_assoc]
    · rw [i3, h3, hrow, List.map_append, List.append_assoc]
    · rw [i4, h4, hrow, List.length_append]
      omega
    · rw [i5, h5, List.map_cons, List.append_assoc]
      rfl
    · rw [i6, h6, List.append_assoc]
    · intro f hf
      rcases List.mem_append.1 hf with h | h
      · obtain ⟨a, b, c⟩ := h7 f h
        exact ⟨⟨name, List.mem_cons_self _ _, a⟩, b, c⟩
      · obtain ⟨⟨n, hn, a⟩, b, c⟩ := i7 f h
        exact ⟨⟨n, List.mem_cons_of_mem _ hn, a⟩, b, c⟩

theorem getDirFiles_spec (fs : FileSystem) (md5s : List FileToMd5) (pathDir : String)
    (files : List String) (hdir : fs.ReadDir pathDir = some files) :
    (getDirFiles fs md5s pathDir).1 = none ∧
    (getDirFiles fs md5s pathDir).2.1.dirFiles =
      (files.filterMap (dirRow pathDir)).map (fun row => row.1) ∧
    (getDirFiles fs md5s pathDir).2.1.startTimers =
      (files.filterMap (dirRow pathDir)).map (fun row => row.2.1) ∧
    (getDirFiles fs md5s pathDir).2.1.finishTimers =
      (files.filterMap (dirRow pathDir)).map (fun row => row.2.2) ∧
    (getDirFiles fs md5s pathDir).2.1.dirFilesMd5.length =
      (files.filterMap (dirRow pathDir)).length ∧
    (getDirFiles fs md5s pathDir).2.1.dirFilesSize =
      files.map (fun name => getFileSize fs (pathDir ++ "/" ++ name)) ∧
    ∃ extra, (getDirFiles fs md5s pathDir).2.2 = md5s ++ extra ∧
      ∀ f ∈ extra, (∃ name ∈ files, f.FilePath = pathDir ++ "/" ++ name) ∧
        f.Size = getFileSize fs f.FilePath ∧ f.MD5 = (fs.Md5 f.FilePath).getD "" := by
  obtain ⟨h1, h2, h3, h4, h5, h6⟩ := foldl_getDirFile fs pathDir files (⟨[], [], [], [], []⟩, md5s)
  unfold getDirFiles
  rw [hdir]
  simp only at h1 h2 h3 h4 h5 h6 ⊢
  rw [List.nil_append] at h1 h2 h3 h5
  rw [List.length_nil, Nat.zero_add] at h4
  exact ⟨trivial, h1, h2, h3, h4, h5, h6⟩

theorem getDirFiles_error (fs : FileSystem) (md5s : List FileToMd5) (pathDir : String)
    (hdir : fs.ReadDir pathDir = none) :
    getDirFiles fs md5s pathDir = (some "Read Dir Failed", ⟨[], [], [], [], []⟩, md5s) := by
  unfold getDirFiles
  rw [hdir]

/-! ## File names of recordings -/

theorem takeWhile_append_stop {α : Type} (p : α → Bool) (a b : List α) (y : α)
    (ha : ∀ x ∈ a, p x = true) (hy : p y = false) : (a ++ y :: b).takeWhile p = a := by
  induction a with
  | nil => simp [List.takeWhile, hy]
  | cons x xs ih =>
    rw [List.cons_append, List.takeWhile_cons, if_pos (ha x (List.mem_cons_self _ _)),
      ih fun z hz => ha z (List.mem_cons_of_mem _ hz)]

theorem splitChars_of_not_mem (sep : Char) (a : List Char) (h : sep ∉ a) :
    splitChars sep a = [a] := by
  induction a with
  | nil => rfl
  | cons c cs ih =>
    have hc : c ≠ sep := fun heq => h (by rw [heq]; exact List.mem_cons_self _ _)
    have ih1 := ih fun hmem => h (List.mem_cons_of_mem _ hmem)
    unfold splitChars
    rw [if_neg hc, ih1]

theorem splitChars_append (sep : Char) (a b : List Char) (h : sep ∉ a) :
    splitChars sep (a ++ sep :: b) = a :: splitChars sep b := by
  induction a with
  | nil =>
    rw [List.nil_append]
    conv_lhs => unfold splitChars
    rw [if_pos rfl]
  | cons c cs ih =>
    have hc : c ≠ sep := fun heq => h (by rw [heq]; exact List.mem_cons_self _ _)
    have ih1 := ih fun hmem => h (List.mem_cons_of_mem _ hmem)
    rw [List.cons_append]
    conv_lhs => unfold splitChars
    rw [if_neg hc, ih1]

theorem pathBase_join (pathDir name : String) (hne : name.data ≠ [])
    (hs : '/' ∉ name.data) : pathBase (pathDir ++ "/" ++ name) = name := by
  have hdata : (pathDir ++ "/" ++ name).data = pathDir.data ++ '/' :: name.data := by
    rw [String.data_append, String.data_append]
    simp
  have hnonempty : pathDir ++ "/" ++ name ≠ "" := by
    intro h
    have := congrArg String.data h
    rw [hdata] at this
    simp at this
  have hrev : (pathDir ++ "/" ++ name).data.reverse =
      name.data.reverse ++ '/' :: pathDir.data.reverse := by
    rw [hdata]
    simp
  have hdrop : (name.data.reverse ++ '/' :: pathDir.data.reverse).dropWhile (fun c => c == '/') =
      name.data.reverse ++ '/' :: pathDir.data.reverse := by
    cases hr : name.data.reverse with
    | nil => exact absurd (List.reverse_eq_nil_iff.1 hr) hne
    | cons c cs =>
      have hc : c ∈ name.data := by
        rw [← List.mem_reverse, hr]
        exact List.mem_cons_self _ _
      have hne1 : c ≠ '/' := fun heq => hs (heq ▸ hc)
      rw [List.cons_append, List.dropWhile_cons_of_neg (by simpa using hne1)]
  have htake : (name.data.reverse ++ '/' :: pathDir.data.reverse).takeWhile (fun c => c != '/') =
      name.data.reverse := by
    apply takeWhile_append_stop
    · intro x hx
      have hx1 : x ∈ name.data := List.mem_reverse.1 hx
      have : x ≠ '/' := fun heq => hs (heq ▸ hx1)
      simpa using this
    · simp
  unfold pathBase
  rw [if_neg hnonempty]
  simp only
  rw [hrev, hdrop, htake, List.reverse_reverse, if_neg hne]

theorem extLoop_dot (r rest acc : List Char) (hr : ∀ c ∈ r, c ≠ '/' ∧ c ≠ '.') :
    extLoop (r ++ '.' :: rest) acc = '.' :: (r.reverse ++ acc) := by
  induction r generalizing acc with
  | nil =>
    rw [List.nil_append]
    unfold extLoop
    rw [if_neg (by decide), if_pos rfl]
    rfl
  | cons c cs ih =>
    obtain ⟨h1, h2⟩ := hr c (List.mem_cons_self _ _)
    rw [List.cons_append]
    unfold extLoop
    rw [if_neg h1, if_neg h2, ih (c :: acc) fun x hx => hr x (List.mem_cons_of_mem _ hx)]
    simp

theorem pathExt_ts (n : String) : pathExt (n ++ ".ts") = ".ts" := by
  unfold pathExt
  have hrev : (n ++ ".ts").data.reverse = ['s', 't'] ++ '.' :: n.data.reverse := by
    rw [String.data_append]
    simp
  rw [hrev, extLoop_dot ['s', 't'] n.data.reverse [] (by decide)]
  rfl

theorem TrimSuffix_ts (n : String) : TrimSuffix (n ++ ".ts") ".ts" = n := by
  unfold TrimSuffix
  have hdata : (n ++ ".ts").data = n.data ++ ['.', 't', 's'] := by
    rw [String.data_append]
  have hsuf : (".ts" : String).data = ['.', 't', 's'] := rfl
  rw [hdata, hsuf]
  have h1 : (['.', 't', 's'] : List Char).isSuffixOf (n.data ++ ['.', 't', 's']) = true := by
    rw [List.isSuffixOf_iff_suffix]
    exact List.suffix_append _ _
  rw [if_pos h1]
  simp

theorem splitTimers_finished (pathDir videoName start finish : String)
    (h1 : '_' ∉ videoName.data ∧ '/' ∉ videoName.data)
    (h2 : '_' ∉ start.data ∧ '/' ∉ start.data)
    (h3 : '_' ∉ finish.data ∧ '/' ∉ finish.data) :
    splitTimers (pathDir ++ "/" ++ (videoName ++ "_" ++ start ++ "_" ++ finish ++ ".ts")) =
      some (start, finish) := by
  have hdata : (videoName ++ "_" ++ start ++ "_" ++ finish ++ ".ts").data =
      videoName.data ++ '_' :: (start.data ++ '_' :: (finish.data ++ ['.', 't', 's'])) := by
    simp [String.data_append]
  have hbase := pathBase_join pathDir (videoName ++ "_" ++ start ++ "_" ++ finish ++ ".ts")
    (by rw [hdata]; simp)
    (by
      rw [hdata]
      simp only [List.mem_append, List.mem_cons, not_or]
      exact ⟨h1.2, by decide, h2.2, by decide, h3.2, by decide⟩)
  have hsplit : splitUnderscore (videoName ++ "_" ++ start ++ "_" ++ finish) =
      [videoName, start, finish] := by
    unfold splitUnderscore
    have hd : (videoName ++ "_" ++ start ++ "_" ++ finish).data =
        videoName.data ++ '_' :: (start.data ++ '_' :: finish.data) := by
      simp [String.data_append]
    rw [hd, splitChars_append _ _ _ h1.1, splitChars_append _ _ _ h2.1,
      splitChars_of_not_mem _ _ h3.1]
    rfl
  unfold splitTimers
  simp only
  rw [hbase, pathExt_ts, TrimSuffix_ts, hsplit]

theorem splitTimers_started (pathDir videoName start : String)
    (h1 : '_' ∉ videoName.data ∧ '/' ∉ videoName.data)
    (h2 : '_' ∉ start.data ∧ '/' ∉ start.data) :
    splitTimers (pathDir ++ "/" ++ (videoName ++ "_" ++ start ++ ".ts")) = none := by
  have hdata : (videoName ++ "_" ++ start ++ ".ts").data =
      videoName.data ++ '_' :: (start.data ++ ['.', 't', 's']) := by
    simp [String.data_append]
  have hbase := pathBase_join pathDir (videoName ++ "_" ++ start ++ ".ts")
    (by rw [hdata]; simp)
    (by
      rw [hdata]
      simp only [List.mem_append, List.mem_cons, not_or]
      exact ⟨h1.2, by decide, h2.2, by decide⟩)
  have hsplit : splitUnderscore (videoName ++ "_" ++ start) = [videoName, start] := by
    unfold splitUnderscore
    have hd : (videoName ++ "_" ++ start).data = videoName.data ++ '_' :: start.data := by
      simp [String.data_append]
    rw [hd, splitChars_append _ _ _ h1.1, splitChars_of_not_mem _ _ h2.1]
    rfl
  unfold splitTimers
  simp only
  rw [hbase, pathExt_ts, TrimSuffix_ts, hsplit]

/-! ## The list methods -/

theorem mkReplays_some (addrBase : String) (d : DirFiles) (ws : List String) :
    ∀ index, index + ws.length ≤ d.dirFilesSize.length →
      index + ws.length ≤ d.dirFilesMd5.length →
      index + ws.length ≤ d.startTimers.length →
      index + ws.length ≤ d.finishTimers.length →
      ∃ rs, mkReplays addrBase d index ws = some rs ∧
        rs.map (fun r => r.Addr) = ws.map fun w => addrBase ++ "/" ++ w := by
  induction ws with
  | nil => intro index _ _ _ _; exact ⟨[], rfl, rfl⟩
  | cons w ws ih =>
    intro index h1 h2 h3 h4
    simp only [List.length_cons] at h1 h2 h3 h4
    obtain ⟨rs, hrs, haddr⟩ := ih (index + 1) (by omega) (by omega) (by omega) (by omega)
    have hi1 : index < d.dirFilesSize.length := by omega
    have hi2 : index < d.dirFilesMd5.length := by omega
    have hi3 : index < d.startTimers.length := by omega
    have hi4 : index < d.finishTimers.length := by omega
    refine ⟨{ Addr := addrBase ++ "/" ++ w, Size := d.dirFilesSize[index],
              Md5 := d.dirFilesMd5[index], Start := d.startTimers[index],
              Finish := d.finishTimers[index] } :: rs, ?_, ?_⟩
    · unfold mkReplays
      rw [List.getElem?_eq_getElem hi1, List.getElem?_eq_getElem hi2,
        List.getElem?_eq_getElem hi3, List.getElem?_eq_getElem hi4, hrs]
      rfl
    · rw [List.map_cons, List.map_cons, haddr]

theorem walkDir_some (fs : FileSystem) (md5s : List FileToMd5) (liveRoomId : String)
    (projectId : Int) (value : PushStreamUrl)
    (hread : (fs.ReadDir (value.SavePath ++ "/" ++ liveRoomId ++ "/" ++ Itoa projectId)).isSome) :
    ∃ d md5s1 rs,
      getDirFiles fs md5s (value.SavePath ++ "/" ++ liveRoomId ++ "/" ++ Itoa projectId) =
        (none, d, md5s1) ∧
      mkReplays (value.SaveUrl ++ "/" ++ liveRoomId ++ "/" ++ Itoa projectId) d 0 d.dirFiles =
        some rs ∧
      rs.map (fun r => r.Addr) = replayAddrs fs liveRoomId projectId value := by
  obtain ⟨files, hfiles⟩ := Option.isSome_iff_exists.1 hread
  obtain ⟨h0, h1, h2, h3, h4, h5, _⟩ := getDirFiles_spec fs md5s _ files hfiles
  have hlen : (files.filterMap
      (dirRow (value.SavePath ++ "/" ++ liveRoomId ++ "/" ++ Itoa projectId))).length ≤
      files.length := List.length_filterMap_le _ _
  obtain ⟨rs, hrs, haddr⟩ := mkReplays_some
    (value.SaveUrl ++ "/" ++ liveRoomId ++ "/" ++ Itoa projectId)
    (getDirFiles fs md5s (value.SavePath ++ "/" ++ liveRoomId ++ "/" ++ Itoa projectId)).2.1
    (getDirFiles fs md5s (value.SavePath ++ "/" ++ liveRoomId ++ "/" ++ Itoa projectId)).2.1.dirFiles
    0
    (by rw [h5, h1]; simp only [List.length_map]; omega)
    (by rw [h4, h1]; simp only [List.length_map]; omega)
    (by rw [h2, h1]; simp only [List.length_map]; omega)
    (by rw [h3, h1]; simp only [List.length_map]; omega)
  refine ⟨(getDirFiles fs md5s
      (value.SavePath ++ "/" ++ liveRoomId ++ "/" ++ Itoa projectId)).2.1,
    (getDirFiles fs md5s (value.SavePath ++ "/" ++ liveRoomId ++ "/" ++ Itoa projectId)).2.2,
    rs, ?_, hrs, ?_⟩
  · exact Prod.ext h0 rfl
  · rw [haddr, h1]
    unfold replayAddrs
    rw [hfiles, List.map_map]
    rfl

theorem forall₂_compose {α : Type} {R S T : α → α → Prop}
    (h : ∀ a b c, R a b → S b c → T a c) :
    ∀ l1 l2 l3 : List α, List.Forall₂ R l1 l2 → List.Forall₂ S l2 l3 → List.Forall₂ T l1 l3 := by
  intro l1 l2 l3 h12
  induction h12 generalizing l3 with
  | nil => intro h23; cases h23; exact List.Forall₂.nil
  | cons hab _ ih =>
    intro h23
    cases h23 with
    | cons hbc hrest => exact List.Forall₂.cons (h _ _ _ hab hbc) (ih _ hrest)

theorem replayAddrs_congr (fs : FileSystem) (liveRoomId : String) (projectId : Int)
    (u u1 : PushStreamUrl) (h : { u1 with Replays := u.Replays } = u) :
    replayAddrs fs liveRoomId projectId u1 = replayAddrs fs liveRoomId projectId u := by
  have h1 : u1.SavePath = u.SavePath := by rw [← h]
  have h2 : u1.SaveUrl = u.SaveUrl := by rw [← h]
  unfold replayAddrs
  rw [h1, h2]

theorem ReplaysAppended_zero (fs : FileSystem) (liveRoomId : String) (projectId : Int)
    (u : PushStreamUrl) : ReplaysAppended fs liveRoomId projectId 0 u u := by
  refine ⟨rfl, by simp, ?_⟩
  intro h
  rw [h]
  simp

theorem ReplaysAppended_succ (fs : FileSystem) (liveRoomId : String) (projectId : Int) (k : Nat)
    (u u1 u2 : PushStreamUrl) (h1 : ReplaysAppended fs liveRoomId projectId 1 u u1)
    (h2 : ReplaysAppended fs liveRoomId projectId k u1 u2) :
    ReplaysAppended fs liveRoomId projectId (k + 1) u u2 := by
  obtain ⟨a1, b1, _⟩ := h1
  obtain ⟨a2, b2, _⟩ := h2
  have hA := replayAddrs_congr fs liveRoomId projectId u u1 a1
  have hfields : { u2 with Replays := u.Replays } = u := by
    rw [← a1, ← a2]
  have haddr : u2.Replays.map (fun r => r.Addr) =
      u.Replays.map (fun r => r.Addr) ++
        (List.replicate (k + 1) (replayAddrs fs liveRoomId projectId u)).flatten := by
    have e : (List.replicate (k + 1) (replayAddrs fs liveRoomId projectId u)).flatten =
        replayAddrs fs liveRoomId projectId u ++
          (List.replicate k (replayAddrs fs liveRoomId projectId u)).flatten := by
      rw [List.replicate_succ, List.flatten_cons]
    have e1 : (List.replicate 1 (replayAddrs fs liveRoomId projectId u)).flatten =
        replayAddrs fs liveRoomId projectId u := by simp
    rw [b2, b1, hA, e, e1, List.append_assoc]
  refine ⟨hfields, haddr, ?_⟩
  intro hnil
  have hlen := congrArg List.length haddr
  rw [List.length_map, hnil] at hlen
  rw [hlen]
  simp

theorem singleListUrls_spec (fs : FileSystem) (liveRoomId : String) (projectId : Int)
    (urls : List PushStreamUrl) :
    ∀ md5s : List FileToMd5,
      (∀ value ∈ urls,
        (fs.ReadDir (value.SavePath ++ "/" ++ liveRoomId ++ "/" ++ Itoa projectId)).isSome) →
      ∃ r, singleListUrls fs liveRoomId projectId urls md5s = some r ∧ r.stop = false ∧
        r.result = r.pool ∧
        List.Forall₂ (ReplaysAppended fs liveRoomId projectId 1) urls r.pool := by
  induction urls with
  | nil => intro md5s _; exact ⟨_, rfl, rfl, rfl, List.Forall₂.nil⟩
  | cons value rest ih =>
    intro md5s hread
    obtain ⟨d, md5s1, rs, hdir, hrs, haddr⟩ := walkDir_some fs md5s liveRoomId projectId value
      (hread value (List.mem_cons_self _ _))
    obtain ⟨r, hr, hstop, hres, hall⟩ := ih md5s1 fun v hv => hread v (List.mem_cons_of_mem _ hv)
    refine ⟨{ r with
        result := { value with Replays := value.Replays ++ rs } :: r.result
        pool := { value with Replays := value.Replays ++ rs } :: r.pool }, ?_, hstop, ?_, ?_⟩
    · unfold singleListUrls
      simp only
      rw [hdir]
      simp only
      rw [hrs]
      simp only
      rw [hr]
      rfl
    · simp only
      rw [hres]
    · refine List.Forall₂.cons ⟨rfl, ?_, ?_⟩ hall
      · simp only [List.map_append]
        rw [haddr]
        simp
      · intro hnil
        have hlen := congrArg List.length haddr
        rw [List.length_map] at hlen
        simp only
        rw [hnil, List.nil_append, hlen]
        simp

theorem singleListRooms_spec (fs : FileSystem) (projectId : Int) (rooms : LiveRooms) :
    ∀ md5s : List FileToMd5,
      (∀ v ∈ rooms, v.ProjectId = projectId → ∀ value ∈ v.Urls,
        (fs.ReadDir (value.SavePath ++ "/" ++ v.LiveRoomId ++ "/" ++ Itoa projectId)).isSome) →
      ∃ r, singleListRooms fs projectId rooms md5s = some r ∧ r.stop = false ∧
        r.result = r.pool.filter (fun v => decide (v.ProjectId = projectId)) ∧
        List.Forall₂ (RoomReplaysAppended fs projectId 1) rooms r.pool := by
  induction rooms with
  | nil => intro md5s _; exact ⟨_, rfl, rfl, rfl, List.Forall₂.nil⟩
  | cons v rest ih =>
    intro md5s hread
    have hrest : ∀ x ∈ rest, x.ProjectId = projectId → ∀ value ∈ x.Urls,
        (fs.ReadDir (value.SavePath ++ "/" ++ x.LiveRoomId ++ "/" ++ Itoa projectId)).isSome :=
      fun x hx => hread x (List.mem_cons_of_mem _ hx)
    by_cases hv : v.ProjectId = projectId
    · obtain ⟨r, hr, hstop, hres, hall⟩ := singleListUrls_spec fs v.LiveRoomId projectId v.Urls
        md5s (hread v (List.mem_cons_self _ _) hv)
      obtain ⟨r1, hr1, hstop1, hres1, hall1⟩ := ih r.md5s hrest
      refine ⟨{ r1 with
          result := { LiveRoomId := v.LiveRoomId, ProjectId := v.ProjectId, Urls := r.result } ::
            r1.result
          pool := { v with Urls := r.pool } :: r1.pool }, ?_, hstop1, ?_, ?_⟩
      · unfold singleListRooms
        rw [if_pos hv, hv, hr]
        simp only
        rw [hstop]
        simp only [Bool.false_eq_true, if_false]
        rw [hr1]
        rfl
      · simp only
        rw [List.filter_cons_of_pos (by simpa using hv), hres, hres1]
      · refine List.Forall₂.cons ⟨rfl, rfl, ?_⟩ hall1
        rw [if_pos hv]
        exact hall
    · obtain ⟨r1, hr1, hstop1, hres1, hall1⟩ := ih md5s hrest
      refine ⟨{ r1 with pool := v :: r1.pool }, ?_, hstop1, ?_, ?_⟩
      · unfold singleListRooms
        rw [if_neg hv, hr1]
        rfl
      · simp only
        rw [List.filter_cons_of_neg (by simpa using hv), hres1]
      · refine List.Forall₂.cons ⟨rfl, rfl, ?_⟩ hall1
        rw [if_neg hv]

theorem RoomReplaysAppended_zero (fs : FileSystem) (projectId : Int) (v : LiveRoom) :
    RoomReplaysAppended fs projectId 0 v v := by
  refine ⟨rfl, rfl, ?_⟩
  split
  · exact List.forall₂_same.2 fun u _ => ReplaysAppended_zero fs v.LiveRoomId projectId u
  · rfl

theorem RoomReplaysAppended_succ (fs : FileSystem) (projectId : Int) (k : Nat)
    (v v1 v2 : LiveRoom) (h1 : RoomReplaysAppended fs projectId 1 v v1)
    (h2 : RoomReplaysAppended fs projectId k v1 v2) :
    RoomReplaysAppended fs projectId (k + 1) v v2 := by
  obtain ⟨a1, b1, c1⟩ := h1
  obtain ⟨a2, b2, c2⟩ := h2
  refine ⟨by rw [a2, a1], by rw [b2, b1], ?_⟩
  rw [b1, a1] at c2
  by_cases hv : v.ProjectId = projectId
  · rw [if_pos hv] at c1 c2 ⊢
    exact forall₂_compose
      (fun a b c hab hbc => ReplaysAppended_succ fs v.LiveRoomId projectId k a b c hab hbc)
      _ _ _ c1 c2
  · rw [if_neg hv] at c1 c2 ⊢
    rw [c2, c1]

theorem readable_of_appended (fs : FileSystem) (projectId : Int) (rooms rooms1 : LiveRooms)
    (hall : List.Forall₂ (RoomReplaysAppended fs projectId 1) rooms rooms1)
    (hread : ∀ v ∈ rooms, v.ProjectId = projectId → ∀ value ∈ v.Urls,
      (fs.ReadDir (value.SavePath ++ "/" ++ v.LiveRoomId ++ "/" ++ Itoa projectId)).isSome) :
    ∀ v ∈ rooms1, v.ProjectId = projectId → ∀ value ∈ v.Urls,
      (fs.ReadDir (value.SavePath ++ "/" ++ v.LiveRoomId ++ "/" ++ Itoa projectId)).isSome := by
  induction hall with
  | nil => intro v hv; simp at hv
  | @cons a b l1 l2 hab _ ih =>
    intro v hv hpid value hvalue
    rcases List.mem_cons.1 hv with h | h
    · obtain ⟨h1, h2, h3⟩ := hab
      rw [h] at hpid hvalue ⊢
      have ha : a.ProjectId = projectId := by rw [← h2]; exact hpid
      rw [if_pos ha] at h3
      have hra := hread a (List.mem_cons_self _ _) ha
      have : ∀ (us us1 : List PushStreamUrl),
          List.Forall₂ (ReplaysAppended fs a.LiveRoomId projectId 1) us us1 →
          (∀ x ∈ us, (fs.ReadDir
            (x.SavePath ++ "/" ++ a.LiveRoomId ++ "/" ++ Itoa projectId)).isSome) →
          ∀ x ∈ us1, (fs.ReadDir
            (x.SavePath ++ "/" ++ a.LiveRoomId ++ "/" ++ Itoa projectId)).isSome := by
        intro us us1 hus
        induction hus with
        | nil => intro _ x hx; simp at hx
        | @cons x y m1 m2 hxy _ ih2 =>
          intro hm z hz
          rcases List.mem_cons.1 hz with hz1 | hz1
          · have hsp : y.SavePath = x.SavePath := by rw [← hxy.1]
            rw [hz1, hsp]
            exact hm x (List.mem_cons_self _ _)
          · exact ih2 (fun w hw => hm w (List.mem_cons_of_mem _ hw)) z hz1
      rw [h1]
      exact this a.Urls b.Urls h3 hra value hvalue
    · exact ih (fun x hx => hread x (List.mem_cons_of_mem _ hx)) v h hpid value hvalue

theorem singleListCalls_spec (fs : FileSystem) (projectId : Int) (k : Nat) :
    ∀ (rooms : LiveRooms) (md5s : List FileToMd5),
      (∀ v ∈ rooms, v.ProjectId = projectId → ∀ value ∈ v.Urls,
        (fs.ReadDir (value.SavePath ++ "/" ++ v.LiveRoomId ++ "/" ++ Itoa projectId)).isSome) →
      ∃ r, singleListCalls fs projectId k rooms md5s = some r ∧
        List.Forall₂ (RoomReplaysAppended fs projectId k) rooms r.1 := by
  induction k with
  | zero =>
    intro rooms md5s _
    exact ⟨(rooms, md5s), rfl,
      List.forall₂_same.2 fun v _ => RoomReplaysAppended_zero fs projectId v⟩
  | succ k ih =>
    intro rooms md5s hread
    obtain ⟨r, hr, _, _, hall⟩ := singleListRooms_spec fs projectId rooms md5s hread
    obtain ⟨r2, hr2, hall2⟩ := ih r.pool r.md5s
      (readable_of_appended fs projectId rooms r.pool hall hread)
    refine ⟨r2, ?_, ?_⟩
    · unfold singleListCalls GetSingleRtmpList
      rw [hr]
      exact hr2
    · exact forall₂_compose
        (fun a b c hab hbc => RoomReplaysAppended_succ fs projectId k a b c hab hbc)
        _ _ _ hall hall2

theorem rtmpListUrls_spec (fs : FileSystem) (liveRoomId : String) (projectId : Int)
    (urls : List PushStreamUrl) :
    ∀ md5s : List FileToMd5,
      (∀ value ∈ urls,
        (fs.ReadDir (value.SavePath ++ "/" ++ liveRoomId ++ "/" ++ Itoa projectId)).isSome) →
      ∃ r, rtmpListUrls fs liveRoomId projectId urls md5s = some r ∧ r.stop = false ∧
        List.Forall₂ (ReplaysReset fs liveRoomId projectId) urls r.pool := by
  induction urls with
  | nil => intro md5s _; exact ⟨_, rfl, rfl, List.Forall₂.nil⟩
  | cons value rest ih =>
    intro md5s hread
    obtain ⟨d, md5s1, rs, hdir, hrs, haddr⟩ := walkDir_some fs md5s liveRoomId projectId value
      (hread value (List.mem_cons_self _ _))
    obtain ⟨r, hr, hstop, hall⟩ := ih md5s1 fun v hv => hread v (List.mem_cons_of_mem _ hv)
    refine ⟨{ r with
        result := { value with Replays := rs } :: r.result
        pool := { value with Replays := rs } :: r.pool }, ?_, hstop, ?_⟩
    · unfold rtmpListUrls
      simp only
      rw [hdir]
      simp only
      rw [hrs]
      simp only
      rw [hr]
      rfl
    · exact List.Forall₂.cons ⟨rfl, haddr⟩ hall

theorem rtmpListRooms_spec (fs : FileSystem) (rooms : LiveRooms) :
    ∀ md5s : List FileToMd5,
      (∀ v ∈ rooms, ∀ value ∈ v.Urls,
        (fs.ReadDir (value.SavePath ++ "/" ++ v.LiveRoomId ++ "/" ++ Itoa v.ProjectId)).isSome) →
      ∃ r, rtmpListRooms fs rooms md5s = some r ∧
        List.Forall₂ (RoomReplaysReset fs) rooms r.pool := by
  induction rooms with
  | nil => intro md5s _; exact ⟨_, rfl, List.Forall₂.nil⟩
  | cons v rest ih =>
    intro md5s hread
    obtain ⟨r, hr, hstop, hall⟩ := rtmpListUrls_spec fs v.LiveRoomId v.ProjectId v.Urls md5s
      (hread v (List.mem_cons_self _ _))
    obtain ⟨r1, hr1, hall1⟩ := ih r.md5s fun x hx => hread x (List.mem_cons_of_mem _ hx)
    refine ⟨{ r1 with
        result := { v with Urls := r.pool } :: r1.result
        pool := { v with Urls := r.pool } :: r1.pool }, ?_, ?_⟩
    · unfold rtmpListRooms
      rw [hr]
      simp only
      rw [hstop]
      simp only [Bool.false_eq_true, if_false]
      rw [hr1]
      rfl
    · exact List.Forall₂.cons ⟨rfl, rfl, hall⟩ hall1

/-! ## The list methods: endpoints visited before the first unreadable directory -/

theorem replayAddrs_unreadable (fs : FileSystem) (liveRoomId : String) (projectId : Int)
    (value : PushStreamUrl)
    (h : fs.ReadDir (value.SavePath ++ "/" ++ liveRoomId ++ "/" ++ Itoa projectId) = none) :
    replayAddrs fs liveRoomId projectId value = [] := by
  unfold replayAddrs
  rw [h]

theorem ReplaysAppended_unreadable (fs : FileSystem) (liveRoomId : String) (projectId : Int)
    (k : Nat) (u : PushStreamUrl)
    (h : fs.ReadDir (u.SavePath ++ "/" ++ liveRoomId ++ "/" ++ Itoa projectId) = none) :
    ReplaysAppended fs liveRoomId projectId k u u := by
  refine ⟨rfl, ?_, ?_⟩
  · rw [replayAddrs_unreadable fs liveRoomId projectId u h]
    simp
  · intro hnil
    rw [replayAddrs_unreadable fs liveRoomId projectId u h, hnil]
    simp

theorem readable_of_appended_urls (fs : FileSystem) (liveRoomId : String) (projectId : Int)
    (k : Nat) (us us1 : List PushStreamUrl)
    (hall : List.Forall₂ (ReplaysAppended fs liveRoomId projectId k) us us1)
    (hread : ∀ x ∈ us,
      (fs.ReadDir (x.SavePath ++ "/" ++ liveRoomId ++ "/" ++ Itoa projectId)).isSome) :
    ∀ x ∈ us1, (fs.ReadDir (x.SavePath ++ "/" ++ liveRoomId ++ "/" ++ Itoa projectId)).isSome := by
  induction hall with
  | nil => intro x hx; simp at hx
  | @cons x y m1 m2 hxy _ ih =>
    intro z hz
    rcases List.mem_cons.1 hz with hz1 | hz1
    · have hsp : y.SavePath = x.SavePath := by rw [← hxy.1]
      rw [hz1, hsp]
      exact hread x (List.mem_cons_self _ _)
    · exact ih (fun w hw => hread w (List.mem_cons_of_mem _ hw)) z hz1

theorem singleListUrls_some (fs : FileSystem) (liveRoomId : String) (projectId : Int)
    (urls : List PushStreamUrl) :
    ∀ md5s : List FileToMd5,
      ∃ r, singleListUrls fs liveRoomId projectId urls md5s = some r ∧ r.result <+: r.pool := by
  induction urls with
  | nil => intro md5s; exact ⟨_, rfl, List.prefix_refl _⟩
  | cons value rest ih =>
    intro md5s
    cases hdir : fs.ReadDir (value.SavePath ++ "/" ++ liveRoomId ++ "/" ++ Itoa projectId) with
    | none =>
      refine ⟨⟨true, [value], value :: rest, md5s⟩, ?_, ⟨rest, rfl⟩⟩
      unfold singleListUrls
      simp only
      rw [getDirFiles_error fs md5s _ hdir]
    | some files =>
      obtain ⟨d, md5s1, rs, hd, hrs, _⟩ := walkDir_some fs md5s liveRoomId projectId value
        (by rw [hdir]; rfl)
      obtain ⟨r, hr, t, ht⟩ := ih md5s1
      refine ⟨{ r with
          result := { value with Replays := value.Replays ++ rs } :: r.result
          pool := { value with Replays := value.Replays ++ rs } :: r.pool }, ?_,
        ⟨t, congrArg (List.cons _) ht⟩⟩
      unfold singleListUrls
      simp only
      rw [hd]
      simp only
      rw [hrs]
      simp only
      rw [hr]
      rfl

theorem singleListUrls_target (fs : FileSystem) (liveRoomId : String) (projectId : Int)
    (a : List PushStreamUrl) (e : PushStreamUrl) (b : List PushStreamUrl) :
    ∀ md5s : List FileToMd5,
      (∀ value ∈ a,
        (fs.ReadDir (value.SavePath ++ "/" ++ liveRoomId ++ "/" ++ Itoa projectId)).isSome) →
      ∃ r a1 e1 b1, singleListUrls fs liveRoomId projectId (a ++ e :: b) md5s = some r ∧
        r.pool = a1 ++ e1 :: b1 ∧
        List.Forall₂ (ReplaysAppended fs liveRoomId projectId 1) a a1 ∧
        ReplaysAppended fs liveRoomId projectId 1 e e1 := by
  induction a with
  | nil =>
    intro md5s _
    cases hdir : fs.ReadDir (e.SavePath ++ "/" ++ liveRoomId ++ "/" ++ Itoa projectId) with
    | none =>
      refine ⟨⟨true, [e], e :: b, md5s⟩, [], e, b, ?_, rfl, List.Forall₂.nil,
        ReplaysAppended_unreadable fs liveRoomId projectId 1 e hdir⟩
      rw [List.nil_append]
      unfold singleListUrls
      simp only
      rw [getDirFiles_error fs md5s _ hdir]
    | some files =>
      obtain ⟨d, md5s1, rs, hd, hrs, haddr⟩ := walkDir_some fs md5s liveRoomId projectId e
        (by rw [hdir]; rfl)
      obtain ⟨r, hr, _⟩ := singleListUrls_some fs liveRoomId projectId b md5s1
      refine ⟨{ r with
          result := { e with Replays := e.Replays ++ rs } :: r.result
          pool := { e with Replays := e.Replays ++ rs } :: r.pool }, [],
        { e with Replays := e.Replays ++ rs }, r.pool, ?_, rfl, List.Forall₂.nil, ⟨rfl, ?_, ?_⟩⟩
      · rw [List.nil_append]
        unfold singleListUrls
        simp only
        rw [hd]
        simp only
        rw [hrs]
        simp only
        rw [hr]
        rfl
      · simp only [List.map_append]
        rw [haddr]
        simp
      · intro hnil
        have hlen := congrArg List.length haddr
        rw [List.length_map] at hlen
        simp only
        rw [hnil, List.nil_append, hlen]
        simp
  | cons value rest ih =>
    intro md5s hread
    obtain ⟨d, md5s1, rs, hd, hrs, haddr⟩ := walkDir_some fs md5s liveRoomId projectId value
      (hread value (List.mem_cons_self _ _))
    obtain ⟨r, a1, e1, b1, hr, hpool, hall, he⟩ :=
      ih md5s1 fun x hx => hread x (List.mem_cons_of_mem _ hx)
    refine ⟨{ r with
        result := { value with Replays := value.Replays ++ rs } :: r.result
        pool := { value with Replays := value.Replays ++ rs } :: r.pool },
      { value with Replays := value.Replays ++ rs } :: a1, e1, b1, ?_, ?_, ?_, he⟩
    · rw [List.cons_append]
      unfold singleListUrls
      simp only
      rw [hd]
      simp only
      rw [hrs]
      simp only
      rw [hr]
      rfl
    · simp only
      rw [hpool]
      rfl
    · refine List.Forall₂.cons ⟨rfl, ?_, ?_⟩ hall
      · simp only [List.map_append]
        rw [haddr]
        simp
      · intro hnil
        have hlen := congrArg List.length haddr
        rw [List.length_map] at hlen
        simp only
        rw [hnil, List.nil_append, hlen]
        simp

theorem singleListRooms_some (fs : FileSystem) (projectId : Int) (rooms : LiveRooms) :
    ∀ md5s : List FileToMd5,
      ∃ r, singleListRooms fs projectId rooms md5s = some r ∧
        ∀ w ∈ r.result, ∃ q ∈ r.pool, q.LiveRoomId = w.LiveRoomId ∧
          q.ProjectId = w.ProjectId ∧ w.ProjectId = projectId ∧ w.Urls <+: q.Urls := by
  induction rooms with
  | nil =>
    intro md5s
    exact ⟨_, rfl, fun w hw => absurd hw (List.not_mem_nil w)⟩
  | cons v rest ih =>
    intro md5s
    by_cases hv : v.ProjectId = projectId
    · obtain ⟨r, hr, hpre⟩ := singleListUrls_some fs v.LiveRoomId projectId v.Urls md5s
      cases hstop : r.stop with
      | true =>
        refine ⟨⟨true, [(⟨v.LiveRoomId, v.ProjectId, r.result⟩ : LiveRoom)],
          { v with Urls := r.pool } :: rest, r.md5s⟩, ?_, ?_⟩
        · unfold singleListRooms
          rw [if_pos hv, hv, hr]
          simp only
          rw [hstop]
          simp only [if_true]
        · intro w hw
          rw [List.mem_singleton] at hw
          rw [hw]
          exact ⟨{ v with Urls := r.pool }, List.mem_cons_self _ _, rfl, rfl, hv, hpre⟩
      | false =>
        obtain ⟨r1, hr1, hsh⟩ := ih r.md5s
        refine ⟨{ r1 with
            result := (⟨v.LiveRoomId, v.ProjectId, r.result⟩ : LiveRoom) :: r1.result
            pool := { v with Urls := r.pool } :: r1.pool }, ?_, ?_⟩
        · unfold singleListRooms
          rw [if_pos hv, hv, hr]
          simp only
          rw [hstop]
          simp only [Bool.false_eq_true, if_false]
          rw [hr1]
          rfl
        · intro w hw
          rcases List.mem_cons.1 hw with h | h
          · rw [h]
            exact ⟨{ v with Urls := r.pool }, List.mem_cons_self _ _, rfl, rfl, hv, hpre⟩
          · obtain ⟨q, hq, h1, h2, h3, h4⟩ := hsh w h
            exact ⟨q, List.mem_cons_of_mem _ hq, h1, h2, h3, h4⟩
    · obtain ⟨r1, hr1, hsh⟩ := ih md5s
      refine ⟨{ r1 with pool := v :: r1.pool }, ?_, ?_⟩
      · unfold singleListRooms
        rw [if_neg hv, hr1]
        rfl
      · intro w hw
        obtain ⟨q, hq, h1, h2, h3, h4⟩ := hsh w hw
        exact ⟨q, List.mem_cons_of_mem _ hq, h1, h2, h3, h4⟩

theorem RoomReplaysAppended_unbound (fs : FileSystem) (projectId : Int) (k : Nat) (v : LiveRoom)
    (hv : ¬ v.ProjectId = projectId) : RoomReplaysAppended fs projectId k v v := by
  refine ⟨rfl, rfl, ?_⟩
  rw [if_neg hv]

theorem singleListRooms_target (fs : FileSystem) (projectId : Int) (pre : LiveRooms)
    (v : LiveRoom) (post : LiveRooms) (a : List PushStreamUrl) (e : PushStreamUrl)
    (b : List PushStreamUrl) (hv : v.ProjectId = projectId) (hUrls : v.Urls = a ++ e :: b)
    (ha : ∀ value ∈ a,
      (fs.ReadDir (value.SavePath ++ "/" ++ v.LiveRoomId ++ "/" ++ Itoa projectId)).isSome) :
    ∀ md5s : List FileToMd5,
      (∀ w ∈ pre, w.ProjectId = projectId → ∀ value ∈ w.Urls,
        (fs.ReadDir (value.SavePath ++ "/" ++ w.LiveRoomId ++ "/" ++ Itoa projectId)).isSome) →
      ∃ r pre1 a1 e1 b1 post1, singleListRooms fs projectId (pre ++ v :: post) md5s = some r ∧
        r.pool = pre1 ++ { v with Urls := a1 ++ e1 :: b1 } :: post1 ∧
        List.Forall₂ (RoomReplaysAppended fs projectId 1) pre pre1 ∧
        List.Forall₂ (ReplaysAppended fs v.LiveRoomId projectId 1) a a1 ∧
        ReplaysAppended fs v.LiveRoomId projectId 1 e e1 := by
  induction pre with
  | nil =>
    intro md5s _
    obtain ⟨r, a1, e1, b1, hr, hpool, hall, he⟩ :=
      singleListUrls_target fs v.LiveRoomId projectId a e b md5s ha
    rw [← hUrls] at hr
    cases hstop : r.stop with
    | true =>
      refine ⟨⟨true, [(⟨v.LiveRoomId, v.ProjectId, r.result⟩ : LiveRoom)],
        { v with Urls := r.pool } :: post, r.md5s⟩, [], a1, e1, b1, post, ?_, ?_,
        List.Forall₂.nil, hall, he⟩
      · rw [List.nil_append]
        unfold singleListRooms
        rw [if_pos hv, hv, hr]
        simp only
        rw [hstop]
        simp only [if_true]
      · simp only
        rw [hpool]
        rfl
    | false =>
      obtain ⟨r1, hr1, _⟩ := singleListRooms_some fs projectId post r.md5s
      refine ⟨{ r1 with
          result := (⟨v.LiveRoomId, v.ProjectId, r.result⟩ : LiveRoom) :: r1.result
          pool := { v with Urls := r.pool } :: r1.pool }, [], a1, e1, b1, r1.pool, ?_, ?_,
        List.Forall₂.nil, hall, he⟩
      · rw [List.nil_append]
        unfold singleListRooms
        rw [if_pos hv, hv, hr]
        simp only
        rw [hstop]
        simp only [Bool.false_eq_true, if_false]
        rw [hr1]
        rfl
      · simp only
        rw [hpool]
        rfl
  | cons x xs ih =>
    intro md5s hpre
    have hxs : ∀ w ∈ xs, w.ProjectId = projectId → ∀ value ∈ w.Urls,
        (fs.ReadDir (value.SavePath ++ "/" ++ w.LiveRoomId ++ "/" ++ Itoa projectId)).isSome :=
      fun w hw => hpre w (List.mem_cons_of_mem _ hw)
    by_cases hx : x.ProjectId = projectId
    · obtain ⟨r, hr, hstop, _, hall⟩ := singleListUrls_spec fs x.LiveRoomId projectId x.Urls
        md5s (hpre x (List.mem_cons_self _ _) hx)
      obtain ⟨r1, pre1, a1, e1, b1, post1, hr1, hpool, hallpre, halla, he⟩ := ih r.md5s hxs
      refine ⟨{ r1 with
          result := (⟨x.LiveRoomId, x.ProjectId, r.result⟩ : LiveRoom) :: r1.result
          pool := { x with Urls := r.pool } :: r1.pool },
        { x with Urls := r.pool } :: pre1, a1, e1, b1, post1, ?_, ?_, ?_, halla, he⟩
      · rw [List.cons_append]
        unfold singleListRooms
        rw [if_pos hx, hx, hr]
        simp only
        rw [hstop]
        simp only [Bool.false_eq_true, if_false]
        rw [hr1]
        rfl
      · simp only
        rw [hpool]
        rfl
      · refine List.Forall₂.cons ⟨rfl, rfl, ?_⟩ hallpre
        rw [if_pos hx]
        exact hall
    · obtain ⟨r1, pre1, a1, e1, b1, post1, hr1, hpool, hallpre, halla, he⟩ := ih md5s hxs
      refine ⟨{ r1 with pool := x :: r1.pool }, x :: pre1, a1, e1, b1, post1, ?_, ?_, ?_,
        halla, he⟩
      · rw [List.cons_append]
        unfold singleListRooms
        rw [if_neg hx, hr1]
        rfl
      · simp only
        rw [hpool]
        rfl
      · exact List.Forall₂.cons (RoomReplaysAppended_unbound fs projectId 1 x hx) hallpre

theorem singleListCalls_target (fs : FileSystem) (projectId : Int) (k : Nat) :
    ∀ (pre : LiveRooms) (v : LiveRoom) (post : LiveRooms) (a : List PushStreamUrl)
      (e : PushStreamUrl) (b : List PushStreamUrl) (md5s : List FileToMd5),
      v.ProjectId = projectId → v.Urls = a ++ e :: b →
      (∀ w ∈ pre, w.ProjectId = projectId → ∀ value ∈ w.Urls,
        (fs.ReadDir (value.SavePath ++ "/" ++ w.LiveRoomId ++ "/" ++ Itoa projectId)).isSome) →
      (∀ value ∈ a,
        (fs.ReadDir (value.SavePath ++ "/" ++ v.LiveRoomId ++ "/" ++ Itoa projectId)).isSome) →
      ∃ r pre1 a1 e1 b1 post1,
        singleListCalls fs projectId k (pre ++ v :: post) md5s = some r ∧
        r.1 = pre1 ++ { v with Urls := a1 ++ e1 :: b1 } :: post1 ∧
        List.Forall₂ (RoomReplaysAppended fs projectId k) pre pre1 ∧
        List.Forall₂ (ReplaysAppended fs v.LiveRoomId projectId k) a a1 ∧
        ReplaysAppended fs v.LiveRoomId projectId k e e1 := by
  induction k with
  | zero =>
    intro pre v post a e b md5s _ hUrls _ _
    refine ⟨(pre ++ v :: post, md5s), pre, a, e, b, post, rfl, ?_,
      List.forall₂_same.2 fun w _ => RoomReplaysAppended_zero fs projectId w,
      List.forall₂_same.2 fun u _ => ReplaysAppended_zero fs v.LiveRoomId projectId u,
      ReplaysAppended_zero fs v.LiveRoomId projectId e⟩
    simp only
    rw [← hUrls]
  | succ k ih =>
    intro pre v post a e b md5s hv hUrls hpre ha
    obtain ⟨r, pre1, a1, e1, b1, post1, hr, hpool, hallpre, halla, he⟩ :=
      singleListRooms_target fs projectId pre v post a e b hv hUrls ha md5s hpre
    obtain ⟨r2, pre2, a2, e2, b2, post2, hr2, hpool2, hallpre2, halla2, he2⟩ :=
      ih pre1 { v with Urls := a1 ++ e1 :: b1 } post1 a1 e1 b1 r.md5s hv rfl
        (readable_of_appended fs projectId pre pre1 hallpre hpre)
        (readable_of_appended_urls fs v.LiveRoomId projectId 1 a a1 halla ha)
    refine ⟨r2, pre2, a2, e2, b2, post2, ?_, hpool2, ?_, ?_, ?_⟩
    · unfold singleListCalls GetSingleRtmpList
      rw [hr]
      simp only [Option.map_some', Option.some_bind]
      rw [hpool]
      exact hr2
    · exact forall₂_compose
        (fun x y z hxy hyz => RoomReplaysAppended_succ fs projectId k x y z hxy hyz)
        _ _ _ hallpre hallpre2
    · exact forall₂_compose
        (fun x y z hxy hyz => ReplaysAppended_succ fs v.LiveRoomId projectId k x y z hxy hyz)
        _ _ _ halla halla2
    · exact ReplaysAppended_succ fs v.LiveRoomId projectId k e e1 e2 he he2

theorem rtmpListUrls_some (fs : FileSystem) (liveRoomId : String) (projectId : Int)
    (urls : List PushStreamUrl) :
    ∀ md5s : List FileToMd5, ∃ r, rtmpListUrls fs liveRoomId projectId urls md5s = some r := by
  induction urls with
  | nil => intro md5s; exact ⟨_, rfl⟩
  | cons value rest ih =>
    intro md5s
    cases hdir : fs.ReadDir (value.SavePath ++ "/" ++ liveRoomId ++ "/" ++ Itoa projectId) with
    | none =>
      refine ⟨⟨true, value :: rest, value :: rest, md5s⟩, ?_⟩
      unfold rtmpListUrls
      simp only
      rw [getDirFiles_error fs md5s _ hdir]
    | some files =>
      obtain ⟨d, md5s1, rs, hd, hrs, _⟩ := walkDir_some fs md5s liveRoomId projectId value
        (by rw [hdir]; rfl)
      obtain ⟨r, hr⟩ := ih md5s1
      refine ⟨{ r with
          result := { value with Replays := rs } :: r.result
          pool := { value with Replays := rs } :: r.pool }, ?_⟩
      unfold rtmpListUrls
      simp only
      rw [hd]
      simp only
      rw [hrs]
      simp only
      rw [hr]
      rfl

theorem rtmpListUrls_target (fs : FileSystem) (liveRoomId : String) (projectId : Int)
    (a : List PushStreamUrl) (e : PushStreamUrl) (b : List PushStreamUrl)
    (he : (fs.ReadDir (e.SavePath ++ "/" ++ liveRoomId ++ "/" ++ Itoa projectId)).isSome) :
    ∀ md5s : List FileToMd5,
      (∀ value ∈ a,
        (fs.ReadDir (value.SavePath ++ "/" ++ liveRoomId ++ "/" ++ Itoa projectId)).isSome) →
      ∃ r a1 e1 b1, rtmpListUrls fs liveRoomId projectId (a ++ e :: b) md5s = some r ∧
        r.pool = a1 ++ e1 :: b1 ∧
        List.Forall₂ (ReplaysReset fs liveRoomId projectId) a a1 ∧
        ReplaysReset fs liveRoomId projectId e e1 := by
  induction a with
  | nil =>
    intro md5s _
    obtain ⟨d, md5s1, rs, hd, hrs, haddr⟩ := walkDir_some fs md5s liveRoomId projectId e he
    obtain ⟨r, hr⟩ := rtmpListUrls_some fs liveRoomId projectId b md5s1
    refine ⟨{ r with
        result := { e with Replays := rs } :: r.result
        pool := { e with Replays := rs } :: r.pool }, [],
      { e with Replays := rs }, r.pool, ?_, rfl, List.Forall₂.nil, ⟨rfl, haddr⟩⟩
    rw [List.nil_append]
    unfold rtmpListUrls
    simp only
    rw [hd]
    simp only
    rw [hrs]
    simp only
    rw [hr]
    rfl
  | cons value rest ih =>
    intro md5s hread
    obtain ⟨d, md5s1, rs, hd, hrs, haddr⟩ := walkDir_some fs md5s liveRoomId projectId value
      (hread value (List.mem_cons_self _ _))
    obtain ⟨r, a1, e1, b1, hr, hpool, hall, he1⟩ :=
      ih md5s1 fun x hx => hread x (List.mem_cons_of_mem _ hx)
    refine ⟨{ r with
        result := { value with Replays := rs } :: r.result
        pool := { value with Replays := rs } :: r.pool },
      { value with Replays := rs } :: a1, e1, b1, ?_, ?_, List.Forall₂.cons ⟨rfl, haddr⟩ hall, he1⟩
    · rw [List.cons_append]
      unfold rtmpListUrls
      simp only
      rw [hd]
      simp only
      rw [hrs]
      simp only
      rw [hr]
      rfl
    · simp only
      rw [hpool]
      rfl

theorem rtmpListRooms_some (fs : FileSystem) (rooms : LiveRooms) :
    ∀ md5s : List FileToMd5, ∃ r, rtmpListRooms fs rooms md5s = some r := by
  induction rooms with
  | nil => intro md5s; exact ⟨_, rfl⟩
  | cons v rest ih =>
    intro md5s
    obtain ⟨r, hr⟩ := rtmpListUrls_some fs v.LiveRoomId v.ProjectId v.Urls md5s
    cases hstop : r.stop with
    | true =>
      refine ⟨⟨true, { v with Urls := r.pool } :: rest, { v with Urls := r.pool } :: rest,
        r.md5s⟩, ?_⟩
      unfold rtmpListRooms
      rw [hr]
      simp only
      rw [hstop]
      simp only [if_true]
    | false =>
      obtain ⟨r1, hr1⟩ := ih r.md5s
      refine ⟨{ r1 with
          result := { v with Urls := r.pool } :: r1.result
          pool := { v with Urls := r.pool } :: r1.pool }, ?_⟩
      unfold rtmpListRooms
      rw [hr]
      simp only
      rw [hstop]
      simp only [Bool.false_eq_true, if_false]
      rw [hr1]
      rfl

theorem rtmpListRooms_target (fs : FileSystem) (pre : LiveRooms) (v : LiveRoom)
    (post : LiveRooms) (a : List PushStreamUrl) (e : PushStreamUrl) (b : List PushStreamUrl)
    (hUrls : v.Urls = a ++ e :: b)
    (ha : ∀ value ∈ a,
      (fs.ReadDir (value.SavePath ++ "/" ++ v.LiveRoomId ++ "/" ++ Itoa v.ProjectId)).isSome)
    (he : (fs.ReadDir (e.SavePath ++ "/" ++ v.LiveRoomId ++ "/" ++ Itoa v.ProjectId)).isSome) :
    ∀ md5s : List FileToMd5,
      (∀ w ∈ pre, ∀ value ∈ w.Urls,
        (fs.ReadDir (value.SavePath ++ "/" ++ w.LiveRoomId ++ "/" ++ Itoa w.ProjectId)).isSome) →
      ∃ r pre1 a1 e1 b1 post1, rtmpListRooms fs (pre ++ v :: post) md5s = some r ∧
        r.pool = pre1 ++ { v with Urls := a1 ++ e1 :: b1 } :: post1 ∧
        List.Forall₂ (RoomReplaysReset fs) pre pre1 ∧
        List.Forall₂ (ReplaysReset fs v.LiveRoomId v.ProjectId) a a1 ∧
        ReplaysReset fs v.LiveRoomId v.ProjectId e e1 := by
  induction pre with
  | nil =>
    intro md5s _
    obtain ⟨r, a1, e1, b1, hr, hpool, hall, he1⟩ :=
      rtmpListUrls_target fs v.LiveRoomId v.ProjectId a e b he md5s ha
    rw [← hUrls] at hr
    cases hstop : r.stop with
    | true =>
      refine ⟨⟨true, { v with Urls := r.pool } :: post, { v with Urls := r.pool } :: post,
        r.md5s⟩, [], a1, e1, b1, post, ?_, ?_, List.Forall₂.nil, hall, he1⟩
      · rw [List.nil_append]
        unfold rtmpListRooms
        rw [hr]
        simp only
        rw [hstop]
        simp only [if_true]
      · simp only
        rw [hpool]
        rfl
    | false =>
      obtain ⟨r1, hr1⟩ := rtmpListRooms_some fs post r.md5s
      refine ⟨{ r1 with
          result := { v with Urls := r.pool } :: r1.result
          pool := { v with Urls := r.pool } :: r1.pool }, [], a1, e1, b1, r1.pool, ?_, ?_,
        List.Forall₂.nil, hall, he1⟩
      · rw [List.nil_append]
        unfold rtmpListRooms
        rw [hr]
        simp only
        rw [hstop]
        simp only [Bool.false_eq_true, if_false]
        rw [hr1]
        rfl
      · simp only
        rw [hpool]
        rfl
  | cons x xs ih =>
    intro md5s hpre
    obtain ⟨r, hr, hstop, hall⟩ := rtmpListUrls_spec fs x.LiveRoomId x.ProjectId x.Urls md5s
      (hpre x (List.mem_cons_self _ _))
    obtain ⟨r1, pre1, a1, e1, b1, post1, hr1, hpool, hallpre, halla, he1⟩ :=
      ih r.md5s fun w hw => hpre w (List.mem_cons_of_mem _ hw)
    refine ⟨{ r1 with
        result := { x with Urls := r.pool } :: r1.result
        pool := { x with Urls := r.pool } :: r1.pool },
      { x with Urls := r.pool } :: pre1, a1, e1, b1, post1, ?_, ?_,
      List.Forall₂.cons ⟨rfl, rfl, hall⟩ hallpre, halla, he1⟩
    · rw [List.cons_append]
      unfold rtmpListRooms
      rw [hr]
      simp only
      rw [hstop]
      simp only [Bool.false_eq_true, if_false]
      rw [hr1]
      rfl
    · simp only
      rw [hpool]
      rfl

/-- C30 (as amended): let `e` be an endpoint of a room `v` bound to `projectId`, and let
the recording directory of every endpoint that `GetSingleRtmpList(projectId)` visits
before `e` be readable: the endpoints of the rooms bound to `projectId` before `v` in the
pool, and the endpoints before `e` in `v`.  With the file system unchanged, `k`
consecutive calls of `GetSingleRtmpList(projectId)` return and leave `e` as it was but
for its list of replays, to which the replays of its directory have been appended `k`
times and nothing removed: a list that was empty holds `k * m` entries for `m` listed
files (none when the directory of `e` cannot be read).  Every room a call returns is a
room of the pool bound to `projectId`, with the endpoints the call visited as the pool
then holds them.  `GetRtmpList`, when the directories of all endpoints of the rooms
before `v`, of the endpoints before `e` and of `e` are readable, leaves `e` with the
replays of one walk whatever its list was: `m` entries.  When every directory is
readable, the same holds for every endpoint of the pool. -/
theorem GetSingleRtmpList_accumulates (fs : FileSystem) (projectId : Int) (pre : LiveRooms)
    (v : LiveRoom) (post : LiveRooms) (a : List PushStreamUrl) (e : PushStreamUrl)
    (b : List PushStreamUrl) (md5s : List FileToMd5) (k : Nat)
    (hv : v.ProjectId = projectId) (hUrls : v.Urls = a ++ e :: b)
    (hpre : ∀ w ∈ pre, w.ProjectId = projectId → ∀ value ∈ w.Urls,
      (fs.ReadDir (value.SavePath ++ "/" ++ w.LiveRoomId ++ "/" ++ Itoa projectId)).isSome)
    (ha : ∀ value ∈ a,
      (fs.ReadDir (value.SavePath ++ "/" ++ v.LiveRoomId ++ "/" ++ Itoa projectId)).isSome) :
    (∃ r pre1 a1 e1 b1 post1,
      singleListCalls fs projectId k (pre ++ v :: post) md5s = some r ∧
      r.1 = pre1 ++ { v with Urls := a1 ++ e1 :: b1 } :: post1 ∧
      List.Forall₂ (RoomReplaysAppended fs projectId k) pre pre1 ∧
      List.Forall₂ (ReplaysAppended fs v.LiveRoomId projectId k) a a1 ∧
      ReplaysAppended fs v.LiveRoomId projectId k e e1 ∧
      (e.Replays = [] →
        e1.Replays.length = k * (replayAddrs fs v.LiveRoomId projectId e).length)) ∧
    (∃ r, GetSingleRtmpList fs projectId (pre ++ v :: post) md5s = some r ∧
      ∀ w ∈ r.1, ∃ q ∈ r.2.1, q.LiveRoomId = w.LiveRoomId ∧ q.ProjectId = w.ProjectId ∧
        w.ProjectId = projectId ∧ w.Urls <+: q.Urls) ∧
    ((∀ w ∈ pre, ∀ value ∈ w.Urls,
        (fs.ReadDir (value.SavePath ++ "/" ++ w.LiveRoomId ++ "/" ++ Itoa w.ProjectId)).isSome) →
      (fs.ReadDir (e.SavePath ++ "/" ++ v.LiveRoomId ++ "/" ++ Itoa projectId)).isSome →
      ∃ r pre1 a1 e1 b1 post1, GetRtmpList fs (pre ++ v :: post) md5s = some r ∧
        r.1 = r.2.1 ∧ r.2.1 = pre1 ++ { v with Urls := a1 ++ e1 :: b1 } :: post1 ∧
        List.Forall₂ (RoomReplaysReset fs) pre pre1 ∧
        List.Forall₂ (ReplaysReset fs v.LiveRoomId projectId) a a1 ∧
        ReplaysReset fs v.LiveRoomId projectId e e1 ∧
        e1.Replays.length = (replayAddrs fs v.LiveRoomId projectId e).length) ∧
    ((∀ w ∈ pre ++ v :: post, w.ProjectId = projectId → ∀ value ∈ w.Urls,
        (fs.ReadDir (value.SavePath ++ "/" ++ w.LiveRoomId ++ "/" ++ Itoa projectId)).isSome) →
      (∃ r, singleListCalls fs projectId k (pre ++ v :: post) md5s = some r ∧
        List.Forall₂ (RoomReplaysAppended fs projectId k) (pre ++ v :: post) r.1) ∧
      (∃ r, GetSingleRtmpList fs projectId (pre ++ v :: post) md5s = some r ∧
        r.1 = r.2.1.filter (fun w => decide (w.ProjectId = projectId)) ∧
        List.Forall₂ (RoomReplaysAppended fs projectId 1) (pre ++ v :: post) r.2.1)) ∧
    ((∀ w ∈ pre ++ v :: post, ∀ value ∈ w.Urls,
        (fs.ReadDir (value.SavePath ++ "/" ++ w.LiveRoomId ++ "/" ++ Itoa w.ProjectId)).isSome) →
      ∃ r, GetRtmpList fs (pre ++ v :: post) md5s = some r ∧ r.1 = r.2.1 ∧
        List.Forall₂ (RoomReplaysReset fs) (pre ++ v :: post) r.2.1) := by
  refine ⟨?_, ?_, ?_, ?_, ?_⟩
  · obtain ⟨r, pre1, a1, e1, b1, post1, hr, hpool, hallpre, halla, he⟩ :=
      singleListCalls_target fs projectId k pre v post a e b md5s hv hUrls hpre ha
    exact ⟨r, pre1, a1, e1, b1, post1, hr, hpool, hallpre, halla, he, he.2.2⟩
  · obtain ⟨r, hr, hsh⟩ := singleListRooms_some fs projectId (pre ++ v :: post) md5s
    refine ⟨(r.result, r.pool, r.md5s), ?_, hsh⟩
    unfold GetSingleRtmpList
    rw [hr]
    rfl
  · intro hall he
    have ha1 : ∀ value ∈ a, (fs.ReadDir
        (value.SavePath ++ "/" ++ v.LiveRoomId ++ "/" ++ Itoa v.ProjectId)).isSome := by
      rw [hv]
      exact ha
    have he1 : (fs.ReadDir
        (e.SavePath ++ "/" ++ v.LiveRoomId ++ "/" ++ Itoa v.ProjectId)).isSome := by
      rw [hv]
      exact he
    obtain ⟨r, pre1, a1, e1, b1, post1, hr, hpool, hallpre, halla, hreset⟩ :=
      rtmpListRooms_target fs pre v post a e b hUrls ha1 he1 md5s hall
    rw [hv] at halla hreset
    refine ⟨(r.pool, r.pool, r.md5s), pre1, a1, e1, b1, post1, ?_, rfl, hpool, hallpre, halla,
      hreset, ?_⟩
    · unfold GetRtmpList
      rw [hr]
      rfl
    · have hlen := congrArg List.length hreset.2
      rw [List.length_map] at hlen
      exact hlen
  · intro hread
    refine ⟨singleListCalls_spec fs projectId k (pre ++ v :: post) md5s hread, ?_⟩
    obtain ⟨r, hr, _, hres, hall⟩ :=
      singleListRooms_spec fs projectId (pre ++ v :: post) md5s hread
    refine ⟨(r.result, r.pool, r.md5s), ?_, hres, hall⟩
    unfold GetSingleRtmpList
    rw [hr]
    rfl
  · intro hall
    obtain ⟨r, hr, h⟩ := rtmpListRooms_spec fs (pre ++ v :: post) md5s hall
    refine ⟨(r.pool, r.pool, r.md5s), ?_, rfl, h⟩
    unfold GetRtmpList
    rw [hr]
    rfl

/-- Witness for C30: three calls of `GetSingleRtmpList(12)` on the pool in which the room
`R0`, not bound, precedes the room `R1` bound to project 12, over the example recording
directory, whose directory `/S/R1/12` lists one file: the endpoint of `R1` holds
3 = 3 * 1 entries. -/
theorem GetSingleRtmpList_accumulates_witness :
    precededPool = [precededRoom0] ++ precededRoom1 :: [] ∧
    (replayAddrs replayFS "R1" 12 precededEndpoint).length = 1 ∧
    (∃ r pre1 a1 e1 b1 post1,
      singleListCalls replayFS 12 3 ([precededRoom0] ++ precededRoom1 :: []) [] = some r ∧
      r.1 = pre1 ++ { precededRoom1 with Urls := a1 ++ e1 :: b1 } :: post1 ∧
      List.Forall₂ (RoomReplaysAppended replayFS 12 3) [precededRoom0] pre1 ∧
      List.Forall₂ (ReplaysAppended replayFS precededRoom1.LiveRoomId 12 3) [] a1 ∧
      ReplaysAppended replayFS precededRoom1.LiveRoomId 12 3 precededEndpoint e1 ∧
      (precededEndpoint.Replays = [] →
        e1.Replays.length =
          3 * (replayAddrs replayFS precededRoom1.LiveRoomId 12 precededEndpoint).length)) ∧
    (singleListCalls replayFS 12 3 precededPool []).map
        (fun r => r.1.map fun w => (w.LiveRoomId, w.Urls.map fun u => u.Replays.length)) =
      some [("R0", [0]), ("R1", [3])] :=
  ⟨by decide, by decide,
    (GetSingleRtmpList_accumulates replayFS 12 [precededRoom0] precededRoom1 [] []
      precededEndpoint [] [] 3 rfl rfl (by decide) (by decide)).1, by decide⟩

/-- C30, counterexample: over the example recording directory, where the directory
`/S/R1/12` lists one file (`m = 1`) and no other directory can be read.  In the room
whose first endpoint records under `/X`, the second endpoint has an empty list and one
listed file, and holds no entry after three calls of `GetSingleRtmpList(12)`: every call
returns at the first endpoint.  In the pool where the room `R0`, not bound, precedes the
room `R1`, two calls of `GetSingleRtmpList(12)` leave the endpoint of `R1` with two
entries and `GetRtmpList` then returns at the room `R0` and leaves the two entries, not
one. -/
theorem GetSingleRtmpList_accumulates_counterexample :
    ((allUrls unreadablePool).map
        (fun u => (u.PushId, u.Replays.length, (replayAddrs replayFS "R1" 12 u).length)) =
        [(1, 0, 0), (2, 0, 1)] ∧
      (singleListCalls replayFS 12 3 unreadablePool []).map
        (fun r => r.1.map fun v => (v.LiveRoomId, v.ProjectId,
          v.Urls.map fun u => (u.PushId, u.Replays.length))) =
        some [("R1", 12, [(1, 0), (2, 0)])]) ∧
    (precededPool.map
        (fun v => (v.LiveRoomId, v.ProjectId, v.Urls.map fun u =>
          (u.PushId, u.Replays.length, (replayAddrs replayFS v.LiveRoomId v.ProjectId u).length))) =
        [("R0", -1, [(1, 0, 0)]), ("R1", 12, [(1, 0, 1)])] ∧
      (singleListCalls replayFS 12 2 precededPool []).map
        (fun r => r.1.map fun v => (v.LiveRoomId, v.ProjectId,
          v.Urls.map fun u => (u.PushId, u.Replays.length))) =
        some [("R0", -1, [(1, 0)]), ("R1", 12, [(1, 2)])] ∧
      ((singleListCalls replayFS 12 2 precededPool []).bind
          fun r => GetRtmpList replayFS r.1 r.2).map
        (fun r => r.2.1.map fun v => (v.LiveRoomId, v.ProjectId,
          v.Urls.map fun u => (u.PushId, u.Replays.length))) =
        some [("R0", -1, [(1, 0)]), ("R1", 12, [(1, 2)])]) := by
  refine ⟨⟨?_, ?_⟩, ?_, ?_, ?_⟩
  · decide
  · decide
  · decide
  · decide
  · decide

theorem checkMediaFile_eq_filter (pathExists : String → Bool) (files : List FileToMd5) :
    checkMediaFile pathExists files = some (files.filter fun f => pathExists f.FilePath) := by
  have h := checkMediaLoop_spec pathExists files.length 0 files rfl (Nat.zero_le _) (by simp)
  rw [List.take_zero, List.nil_append, List.drop_zero] at h
  exact h

/-- C26 (as amended): when the directory can be read, `getDirFiles` returns no error and
lists, index-aligned in its lists of names, start timers and finish timers, exactly the
entries whose name (base name without extension) splits on `_` into three parts, with
the second part as start and the third as finish.  So for `videoName`, `start` and
`finish` without `_` and `/`, an entry named `videoName_start_finish.ts` is listed with
`Start == start` and `Finish == finish`; an entry named `videoName_start.ts`, with no
finish part, splits into two parts and is not listed. -/
theorem getDirFiles_filename_parsing (fs : FileSystem) (md5s : List FileToMd5)
    (pathDir : String) (files : List String) (videoName start finish : String)
    (hdir : fs.ReadDir pathDir = some files)
    (h1 : '_' ∉ videoName.data ∧ '/' ∉ videoName.data)
    (h2 : '_' ∉ start.data ∧ '/' ∉ start.data)
    (h3 : '_' ∉ finish.data ∧ '/' ∉ finish.data) :
    (getDirFiles fs md5s pathDir).1 = none ∧
    (getDirFiles fs md5s pathDir).2.1.dirFiles =
      (files.filterMap (dirRow pathDir)).map (fun row => row.1) ∧
    (getDirFiles fs md5s pathDir).2.1.startTimers =
      (files.filterMap (dirRow pathDir)).map (fun row => row.2.1) ∧
    (getDirFiles fs md5s pathDir).2.1.finishTimers =
      (files.filterMap (dirRow pathDir)).map (fun row => row.2.2) ∧
    dirRow pathDir (videoName ++ "_" ++ start ++ "_" ++ finish ++ ".ts") =
      some (videoName ++ "_" ++ start ++ "_" ++ finish ++ ".ts", start, finish) ∧
    (videoName ++ "_" ++ start ++ "_" ++ finish ++ ".ts" ∈ files →
      (videoName ++ "_" ++ start ++ "_" ++ finish ++ ".ts", start, finish) ∈
        files.filterMap (dirRow pathDir)) ∧
    dirRow pathDir (videoName ++ "_" ++ start ++ ".ts") = none ∧
    videoName ++ "_" ++ start ++ ".ts" ∉ (getDirFiles fs md5s pathDir).2.1.dirFiles := by
  obtain ⟨g0, g1, g2, g3, _⟩ := getDirFiles_spec fs md5s pathDir files hdir
  have hfin : dirRow pathDir (videoName ++ "_" ++ start ++ "_" ++ finish ++ ".ts") =
      some (videoName ++ "_" ++ start ++ "_" ++ finish ++ ".ts", start, finish) := by
    unfold dirRow
    rw [splitTimers_finished pathDir videoName start finish h1 h2 h3]
    rfl
  have hstart : dirRow pathDir (videoName ++ "_" ++ start ++ ".ts") = none := by
    unfold dirRow
    rw [splitTimers_started pathDir videoName start h1 h2]
    rfl
  refine ⟨g0, g1, g2, g3, hfin, ?_, hstart, ?_⟩
  · intro hmem
    exact List.mem_filterMap.2 ⟨_, hmem, hfin⟩
  · rw [g1]
    intro hmem
    obtain ⟨row, hrow, hname⟩ := List.mem_map.1 hmem
    obtain ⟨name, _, hsome⟩ := List.mem_filterMap.1 hrow
    have hrow1 : row.1 = name := by
      unfold dirRow at hsome
      cases hs : splitTimers (pathDir ++ "/" ++ name) with
      | none => rw [hs] at hsome; simp at hsome
      | some t =>
        rw [hs] at hsome
        simp only [Option.map_some', Option.some.injEq] at hsome
        rw [← hsome]
    rw [hrow1] at hname
    rw [hname, hstart] at hsome
    exact absurd hsome (by simp)

/-- Witness for C26: the example recording directory, which holds
`Camera_20240101T000000.ts` and `Camera_20240101T000000_20240101T010000.ts`. -/
theorem getDirFiles_filename_parsing_witness :
    (getDirFiles replayFS [] "/S/R1/12").1 = none ∧
    ("Camera" ++ "_" ++ "20240101T000000" ++ "_" ++ "20240101T010000" ++ ".ts",
        "20240101T000000", "20240101T010000") ∈
      ["Camera_20240101T000000.ts", "Camera_20240101T000000_20240101T010000.ts"].filterMap
        (dirRow "/S/R1/12") ∧
    "Camera" ++ "_" ++ "20240101T000000" ++ ".ts" ∉
      (getDirFiles replayFS [] "/S/R1/12").2.1.dirFiles :=
  ⟨(getDirFiles_filename_parsing replayFS [] "/S/R1/12"
      ["Camera_20240101T000000.ts", "Camera_20240101T000000_20240101T010000.ts"]
      "Camera" "20240101T000000" "20240101T010000" rfl (by decide) (by decide) (by decide)).1,
   (getDirFiles_filename_parsing replayFS [] "/S/R1/12"
      ["Camera_20240101T000000.ts", "Camera_20240101T000000_20240101T010000.ts"]
      "Camera" "20240101T000000" "20240101T010000" rfl (by decide) (by decide)
      (by decide)).2.2.2.2.2.1 (by decide),
   (getDirFiles_filename_parsing replayFS [] "/S/R1/12"
      ["Camera_20240101T000000.ts", "Camera_20240101T000000_20240101T010000.ts"]
      "Camera" "20240101T000000" "20240101T010000" rfl (by decide) (by decide)
      (by decide)).2.2.2.2.2.2.2⟩

/-- C26, counterexample: in the example recording directory the entry
`Camera_20240101T000000.ts`, named by its start time only, is in the directory but not
in the list of names `getDirFiles` returns, and no start timer is listed for it. -/
theorem getDirFiles_filename_parsing_counterexample :
    replayFS.ReadDir "/S/R1/12" =
      some ["Camera_20240101T000000.ts", "Camera_20240101T000000_20240101T010000.ts"] ∧
    (getDirFiles replayFS [] "/S/R1/12").1 = none ∧
    (getDirFiles replayFS [] "/S/R1/12").2.1.dirFiles =
      ["Camera_20240101T000000_20240101T010000.ts"] ∧
    (getDirFiles replayFS [] "/S/R1/12").2.1.startTimers = ["20240101T000000"] ∧
    (getDirFiles replayFS [] "/S/R1/12").2.1.finishTimers = ["20240101T010000"] := by
  decide

/-- C24 (P7, as amended): for every replay cache and every file system state, a pass of
the replay sweeper returns and leaves exactly the entries whose file exists: every
entry left references a file that exists, and an entry whose file exists stays whatever
size it records.  The size of an entry is the size its file had at the walk of
`getDirFiles` that added it: a walk only appends entries, each with the size and the
hash it then reads for the path. -/
theorem sweeper_entries_exist (fs : FileSystem) (files : List FileToMd5) :
    (∃ r, checkMediaFile (pathExists fs) files = some r ∧
      (∀ f ∈ r, f ∈ files ∧ pathExists fs f.FilePath = true) ∧
      (∀ f ∈ files, pathExists fs f.FilePath = true → f ∈ r)) ∧
    (∀ pathDir : String, ∃ extra, (getDirFiles fs files pathDir).2.2 = files ++ extra ∧
      ∀ f ∈ extra, f.Size = getFileSize fs f.FilePath ∧
        f.MD5 = (fs.Md5 f.FilePath).getD "") := by
  constructor
  · refine ⟨_, checkMediaFile_eq_filter (pathExists fs) files, ?_, ?_⟩
    · intro f hf
      exact List.mem_filter.1 hf
    · intro f hf hex
      exact List.mem_filter.2 ⟨hf, hex⟩
  · intro pathDir
    cases hdir : fs.ReadDir pathDir with
    | none =>
      rw [getDirFiles_error fs files pathDir hdir]
      exact ⟨[], by simp, by simp⟩
    | some names =>
      obtain ⟨_, _, _, _, _, _, extra, h1, h2⟩ := getDirFiles_spec fs files pathDir names hdir
      exact ⟨extra, h1, fun f hf => (h2 f hf).2⟩

/-- C24, counterexample: the recording of the example directory is walked when it has
500 bytes, is then replaced by one of 700 bytes and walked again; the cache then holds
two entries for its path, and the pass of the sweeper keeps both, so the cache holds an
entry of `Size` 500 for a file that exists with 700 bytes. -/
theorem sweeper_entries_exist_counterexample :
    ∃ r, checkMediaFile (pathExists replayFS)
        (getDirFiles replayFS (getDirFiles earlierFS [] "/S/R1/12").2.2 "/S/R1/12").2.2 =
        some r ∧
      ∃ f ∈ r, f.FilePath = "/S/R1/12/Camera_20240101T000000_20240101T010000.ts" ∧
        f.Size = 500 ∧ replayFS.Stat f.FilePath = some 700 := by
  refine ⟨_, checkMediaFile_eq_filter _ _, ?_⟩
  decide

/-! ## `handleGetPush`: the frame -/

theorem GetLiveRoomFromRoomId_append (pre post : LiveRooms) (v : LiveRoom)
    (hpre : ∀ x ∈ pre, x.LiveRoomId ≠ v.LiveRoomId) :
    GetLiveRoomFromRoomId (pre ++ v :: post) v.LiveRoomId = some v := by
  unfold GetLiveRoomFromRoomId
  apply find?_append_first
  · intro x hx
    exact decide_eq_false (hpre x hx)
  · exact decide_eq_true rfl

theorem startCameras_range (cfg : ServerCfg) (projectId : Int)
    (tmpProjectId liveRoomId pushBase pushurl : String) (pre post : LiveRooms) (m : Nat) :
    ∀ (v : LiveRoom) (done todo : List PushStreamUrl),
      v.LiveRoomId = liveRoomId → (∀ x ∈ pre, x.LiveRoomId ≠ liveRoomId) →
      v.ProjectId = projectId → v.Urls = done ++ todo → m ≤ todo.length →
      ((done ++ todo).map fun u => u.PushId).Nodup →
      (startCameras cfg projectId tmpProjectId liveRoomId pushBase pushurl
          (List.range' done.length m) (pre ++ v :: post)).1 =
        pre ++ { v with
          Urls := done ++ ((todo.take m).map
            (startCamera cfg pushBase liveRoomId tmpProjectId pushurl) ++ todo.drop m) } :: post := by
  induction m with
  | zero =>
    intro v done todo _ _ _ hUrls _ _
    simp only [List.range'_zero, List.take_zero, List.map_nil, List.nil_append, List.drop_zero]
    unfold startCameras
    rw [← hUrls]
  | succ m ih =>
    intro v done todo hid hpre hpid hUrls hm hnd
    cases todo with
    | nil => simp at hm
    | cons u todo1 =>
      simp only [List.length_cons] at hm
      have hget : (GetLiveRoomFromRoomId (pre ++ v :: post) liveRoomId).bind
          (fun room => room.Urls[done.length]?) = some u := by
        rw [← hid, GetLiveRoomFromRoomId_append pre post v (by rw [hid]; exact hpre)]
        simp only [Option.some_bind]
        rw [hUrls, List.getElem?_append_right (Nat.le_refl _), Nat.sub_self]
        simp
      have hnd1 : ((done ++ [startCamera cfg pushBase liveRoomId tmpProjectId pushurl u] ++
          todo1).map fun x => x.PushId).Nodup := by
        have hp : (startCamera cfg pushBase liveRoomId tmpProjectId pushurl u).PushId =
            u.PushId := by
          unfold startCamera
          split <;> rfl
        simpa [hp] using hnd
      have hdone : ∀ x ∈ done, x.PushId ≠ u.PushId := by
        intro x hx heq
        rw [List.map_append, List.map_cons, List.nodup_append] at hnd
        exact hnd.2.2 (List.mem_map_of_mem (fun u => u.PushId) hx)
          (by rw [heq]; exact List.mem_cons_self _ _)
      have hrec : ∀ v1 : LiveRoom, v1.LiveRoomId = liveRoomId → v1.ProjectId = projectId →
          v1.Urls = (done ++ [startCamera cfg pushBase liveRoomId tmpProjectId pushurl u]) ++
            todo1 →
          (startCameras cfg projectId tmpProjectId liveRoomId pushBase pushurl
            (List.range' (done.length + 1) m) (pre ++ v1 :: post)).1 =
          pre ++ { v1 with
            Urls := done ++ (((u :: todo1).take (m + 1)).map
              (startCamera cfg pushBase liveRoomId tmpProjectId pushurl) ++
                (u :: todo1).drop (m + 1)) } :: post := by
        intro v1 h1 h2 h3
        have := ih v1 (done ++ [startCamera cfg pushBase liveRoomId tmpProjectId pushurl u])
          todo1 h1 hpre h2 h3 (by omega) hnd1
        rw [List.length_append, List.length_singleton] at this
        rw [this]
        simp
      rw [List.range'_succ]
      unfold startCameras
      rw [hget]
      simp only
      by_cases hc : u.VideoType = Camera
      · rw [if_pos hc]
        simp only
        by_cases hne : pushurl ≠ pushBase ++ ":" ++ Itoa cfg.Listen ++ "/live/" ++ liveRoomId ++
            "/" ++ tmpProjectId ++ "/Camera_" ++ Itoa u.PushId
        · rw [if_pos hne]
          have hset := SetStartState_append pre post v done todo1 u projectId u.PushId
            (pushBase ++ ":" ++ Itoa cfg.Listen ++ "/live/" ++ liveRoomId ++
              "/" ++ tmpProjectId ++ "/Camera_" ++ Itoa u.PushId) (u.UserType : Int)
            (by rw [hid]; exact hpre) hUrls hdone rfl
          rw [hid] at hset
          have hset2 : (SetStartState (pre ++ v :: post) projectId liveRoomId u.PushId
              (pushBase ++ ":" ++ Itoa cfg.Listen ++ "/live/" ++ liveRoomId ++
                "/" ++ tmpProjectId ++ "/Camera_" ++ Itoa u.PushId) (u.UserType : Int)).2 =
              pre ++
                { LiveRoomId := liveRoomId, ProjectId := projectId,
                  Urls := done ++
                    { u with
                      PushUrl := pushBase ++ ":" ++ Itoa cfg.Listen ++ "/live/" ++ liveRoomId ++
                        "/" ++ tmpProjectId ++ "/Camera_" ++ Itoa u.PushId
                      UserType := toUserType (u.UserType : Int)
                      State := 1 } :: todo1 } :: post := by
            rw [hset]
          have hF : startCamera cfg pushBase liveRoomId tmpProjectId pushurl u =
              { u with
                PushUrl := pushBase ++ ":" ++ Itoa cfg.Listen ++ "/live/" ++ liveRoomId ++
                  "/" ++ tmpProjectId ++ "/Camera_" ++ Itoa u.PushId
                UserType := toUserType (u.UserType : Int)
                State := 1 } := by
            unfold startCamera cameraUrl
            rw [if_pos ⟨hc, hne⟩]
          rw [hset2, hrec _ rfl rfl (by simp only; rw [hF]; simp)]
          simp only [hid, hpid]
        · rw [if_neg hne]
          have hF : startCamera cfg pushBase liveRoomId tmpProjectId pushurl u = u := by
            unfold startCamera cameraUrl
            rw [if_neg fun h => hne h.2]
          exact hrec v hid hpid (by rw [hF, hUrls]; simp)
      · rw [if_neg hc]
        have hF : startCamera cfg pushBase liveRoomId tmpProjectId pushurl u = u := by
          unfold startCamera
          rw [if_neg fun h => hc h.1]
        exact hrec v hid hpid (by rw [hF, hUrls]; simp)
theorem handleGetPush_ok_assign (cfg : ServerCfg) (now : Date) (tmpProjectId tmpUserType : String)
    (rooms : LiveRooms) (r : PushResponse)
    (h : (handleGetPush cfg now tmpProjectId tmpUserType rooms).reply = ⟨200, Body.push r⟩) :
    ∃ userType,
      Atoi tmpProjectId = some r.ProjectId ∧ Atoi tmpUserType = some userType ∧
      handleGetPush cfg now tmpProjectId tmpUserType rooms =
        assignPush cfg now tmpProjectId r.ProjectId userType r.LiveRoomId
          (!CheckProjectExits rooms r.ProjectId) rooms ∧
      (CheckProjectExits rooms r.ProjectId = true →
        ∃ liveRoom, GetLiveRoom rooms r.ProjectId = some liveRoom ∧
          liveRoom.LiveRoomId = r.LiveRoomId) := by
  unfold handleGetPush at h ⊢
  cases hA : Atoi tmpProjectId with
  | none =>
    rw [hA] at h
    simp [reply601] at h
  | some projectId =>
    cases hU : Atoi tmpUserType with
    | none =>
      rw [hA, hU] at h
      simp [reply601] at h
    | some userType =>
      rw [hA, hU] at h
      simp only at h ⊢
      cases hex : CheckProjectExits rooms projectId with
      | true =>
        simp only [hex, if_true] at h ⊢
        cases hroom : GetLiveRoom rooms projectId with
        | none =>
          rw [hroom] at h
          simp [reply601] at h
        | some liveRoom =>
          rw [hroom] at h
          simp only at h ⊢
          obtain ⟨pushBase, _, hid, hpid, _⟩ :=
            assignPush_reply_ok cfg now tmpProjectId projectId userType _ false rooms r h
          subst hpid
          refine ⟨userType, rfl, rfl, ?_, fun _ => ⟨liveRoom, hroom, hid.symm⟩⟩
          rw [hid, hex]
          rfl
      | false =>
        simp only [hex, Bool.false_eq_true, if_false] at h ⊢
        cases hfull : LiveRoomFull rooms with
        | true =>
          simp only [hfull, if_true] at h
          simp [reply601] at h
        | false =>
          simp only [hfull, Bool.false_eq_true, if_false] at h ⊢
          rcases halloc : AllocLiveRoomId rooms projectId with ⟨e, liveRoomId⟩
          rw [halloc] at h
          cases e with
          | some e => simp [reply601] at h
          | none =>
            simp only at h ⊢
            obtain ⟨pushBase, _, hid, hpid, _⟩ :=
              assignPush_reply_ok cfg now tmpProjectId projectId userType _ true rooms r h
            subst hpid
            refine ⟨userType, rfl, rfl, ?_, fun hc => ?_⟩
            · rw [hid, hex]
              rfl
            · rw [hex] at hc
              exact absurd hc (by decide)

theorem assignPush_rooms_ok (cfg : ServerCfg) (now : Date) (tmpProjectId : String)
    (projectId userType : Int) (liveRoomId : String) (newProject : Bool) (rooms : LiveRooms)
    (r : PushResponse) (pushBase : String)
    (hg : GetPushId rooms liveRoomId (toUserType userType) = (none, r.PushId, pushBase))
    (h : (assignPush cfg now tmpProjectId projectId userType liveRoomId newProject rooms).reply =
      ⟨200, Body.push r⟩) :
    (assignPush cfg now tmpProjectId projectId userType liveRoomId newProject rooms).rooms =
      if newProject then
        match GetLiveRoomFromRoomId
          (SetStartState rooms projectId liveRoomId r.PushId r.PushUrl userType).2 liveRoomId with
        | some newProjectLiveRoom =>
          (startCameras cfg projectId tmpProjectId liveRoomId pushBase r.PushUrl
            (List.range newProjectLiveRoom.Urls.length)
            (SetStartState rooms projectId liveRoomId r.PushId r.PushUrl userType).2).1
        | none => (SetStartState rooms projectId liveRoomId r.PushId r.PushUrl userType).2
      else (SetStartState rooms projectId liveRoomId r.PushId r.PushUrl userType).2 := by
  unfold assignPush at h ⊢
  cases hfull : PushUserFull rooms liveRoomId (toUserType userType) with
  | true =>
    rw [hfull] at h
    simp [reply601] at h
  | false =>
    rw [hfull] at h
    rw [hg] at h ⊢
    cases hs : cfg.StaticAddr with
    | false =>
      simp only [hs, Bool.not_false, Bool.false_eq_true, if_false, if_true] at h ⊢
      split at h
      · simp [reply601] at h
      · rename_i hcheck
        simp only [Reply.mk.injEq, Body.push.injEq, true_and] at h
        rw [if_neg hcheck]
        simp only
        rw [← h]
        simp only
        cases newProject with
        | false => simp
        | true =>
          simp only [if_true]
          split <;> rfl
    | true =>
      simp only [hs, Bool.not_true, Bool.false_eq_true, if_false, if_true] at h ⊢
      split at h
      · simp [reply601] at h
      · rename_i hcheck
        simp only [Reply.mk.injEq, Body.push.injEq, true_and] at h
        rw [if_neg hcheck]
        simp only
        rw [← h]
        simp only
        cases newProject with
        | false => simp
        | true =>
          simp only [if_true]
          split <;> rfl
theorem returned_ne_cameraUrl (cfg : ServerCfg) (now : Date)
    (pushBase liveRoomId tmpProjectId : String) (projectId p q : Int)
    (hA : Atoi tmpProjectId = some projectId) (hpq : q ≠ p) :
    (if !cfg.StaticAddr then
      pushBase ++ ":" ++ Itoa cfg.Listen ++ "/live/" ++ liveRoomId ++ "/" ++ formatDate now ++
        "/" ++ tmpProjectId ++ "/Camera_" ++ Itoa p
    else
      pushBase ++ ":" ++ Itoa cfg.Listen ++ "/live/" ++ liveRoomId ++ "/" ++ tmpProjectId ++
        "/Camera_" ++ Itoa p) ≠
      cameraUrl cfg pushBase liveRoomId tmpProjectId q := by
  have hT := Atoi_no_sep tmpProjectId projectId hA
  intro h
  unfold cameraUrl at h
  cases hs : cfg.StaticAddr with
  | false =>
    rw [hs] at h
    simp only [Bool.not_false, if_true] at h
    have hu := congrArg String.data h
    have hu3 : (((((pushBase.data ++ ':' :: (Itoa cfg.Listen).data) ++
          '/' :: ['l', 'i', 'v', 'e']) ++ '/' :: liveRoomId.data) ++
          '/' :: (formatDate now).data) ++ '/' :: tmpProjectId.data) ++
          '/' :: (['C', 'a', 'm', 'e', 'r', 'a', '_'] ++ (Itoa p).data) =
        ((((pushBase.data ++ ':' :: (Itoa cfg.Listen).data) ++
          '/' :: ['l', 'i', 'v', 'e']) ++ '/' :: liveRoomId.data) ++ '/' :: tmpProjectId.data) ++
          '/' :: (['C', 'a', 'm', 'e', 'r', 'a', '_'] ++ (Itoa q).data) := by
      simp only [String.data_append, List.append_assoc] at hu ⊢
      exact hu
    have h1 := (append_sep_inj '/' _ _ _ _ (camera_no_sep p) (camera_no_sep q) hu3).1
    have h2 := (append_sep_inj '/' _ _ _ _ hT hT h1).1
    have h3 := congrArg List.length h2
    simp at h3
  | true =>
    rw [hs] at h
    simp only [Bool.not_true, Bool.false_eq_true, if_false] at h
    have hu := congrArg String.data h
    have hu3 : ((((pushBase.data ++ ':' :: (Itoa cfg.Listen).data) ++
          '/' :: ['l', 'i', 'v', 'e']) ++ '/' :: liveRoomId.data) ++ '/' :: tmpProjectId.data) ++
          '/' :: (['C', 'a', 'm', 'e', 'r', 'a', '_'] ++ (Itoa p).data) =
        ((((pushBase.data ++ ':' :: (Itoa cfg.Listen).data) ++
          '/' :: ['l', 'i', 'v', 'e']) ++ '/' :: liveRoomId.data) ++ '/' :: tmpProjectId.data) ++
          '/' :: (['C', 'a', 'm', 'e', 'r', 'a', '_'] ++ (Itoa q).data) := by
      simp only [String.data_append, List.append_assoc] at hu ⊢
      exact hu
    have h1 := (append_sep_inj '/' _ _ _ _ (camera_no_sep p) (camera_no_sep q) hu3).2
    exact hpq (Itoa_injective q p (String.ext_iff.2 (List.append_cancel_left h1)).symm)
theorem forall₂_map_of {α : Type} (R : α → α → Prop) (f : α → α) (l : List α)
    (h : ∀ x ∈ l, R x (f x)) : List.Forall₂ R l (l.map f) := by
  induction l with
  | nil => exact List.Forall₂.nil
  | cons x xs ih =>
    exact List.Forall₂.cons (h x (List.mem_cons_self _ _))
      (ih fun y hy => h y (List.mem_cons_of_mem _ hy))

theorem handleGetPush_rooms_frame (cfg : ServerCfg) (now : Date)
    (tmpProjectId tmpUserType : String) (pre post : LiveRooms) (v : LiveRoom) (r : PushResponse)
    (hnd : ((pre ++ v :: post).map fun x => x.LiveRoomId).Nodup)
    (hpush : (v.Urls.map fun u => u.PushId).Nodup)
    (hid : v.LiveRoomId = r.LiveRoomId)
    (h : (handleGetPush cfg now tmpProjectId tmpUserType (pre ++ v :: post)).reply =
      ⟨200, Body.push r⟩) :
    ∃ pushBase urls1,
      GetPushId (pre ++ v :: post) r.LiveRoomId (toUserType r.UserType) =
        (none, r.PushId, pushBase) ∧
      (handleGetPush cfg now tmpProjectId tmpUserType (pre ++ v :: post)).rooms =
        pre ++ { LiveRoomId := v.LiveRoomId, ProjectId := r.ProjectId, Urls := urls1 } :: post ∧
      List.Forall₂
        (GetPushFrame cfg pushBase r.LiveRoomId tmpProjectId r.PushId
          (!CheckProjectExits (pre ++ v :: post) r.ProjectId)) v.Urls urls1 := by
  obtain ⟨userType, hA, hU, hEq, _⟩ :=
    handleGetPush_ok_assign cfg now tmpProjectId tmpUserType (pre ++ v :: post) r h
  have h2 : (assignPush cfg now tmpProjectId r.ProjectId userType r.LiveRoomId
      (!CheckProjectExits (pre ++ v :: post) r.ProjectId) (pre ++ v :: post)).reply =
      ⟨200, Body.push r⟩ := by
    rw [← hEq]
    exact h
  obtain ⟨pushBase, hg, _, _, hu, hurl⟩ := assignPush_reply_ok cfg now tmpProjectId r.ProjectId
    userType r.LiveRoomId _ (pre ++ v :: post) r h2
  rw [List.map_append, List.map_cons, List.nodup_append, List.nodup_cons] at hnd
  have hpre : ∀ x ∈ pre, x.LiveRoomId ≠ v.LiveRoomId := by
    intro x hx heq
    exact hnd.2.2 (List.mem_map_of_mem (fun x => x.LiveRoomId) hx)
      (by rw [heq]; exact List.mem_cons_self _ _)
  have hpost : ∀ x ∈ post, x.LiveRoomId ≠ v.LiveRoomId := by
    intro x hx heq
    exact hnd.2.1.1 (by rw [← heq]; exact List.mem_map_of_mem (fun x => x.LiveRoomId) hx)
  obtain ⟨v1, hv1, hv1id, value, hvalue, _, _, hgv⟩ :=
    GetPushId_ok (pre ++ v :: post) r.LiveRoomId (toUserType userType) (by rw [hg])
  have hv1eq : v1 = v := by
    rcases List.mem_append.1 hv1 with hm | hm
    · exact absurd (hv1id.trans hid.symm) (hpre v1 hm)
    · rcases List.mem_cons.1 hm with hm | hm
      · exact hm
      · exact absurd (hv1id.trans hid.symm) (hpost v1 hm)
  rw [hv1eq] at hvalue
  have hpid : value.PushId = r.PushId := by
    rw [hg] at hgv
    simp only [Prod.mk.injEq, true_and] at hgv
    exact hgv.1.symm
  obtain ⟨a, b, hab⟩ := List.append_of_mem hvalue
  have hnd2 := hpush
  rw [hab, List.map_append, List.map_cons, List.nodup_append, List.nodup_cons] at hnd2
  have ha : ∀ x ∈ a, x.PushId ≠ r.PushId := by
    intro x hx heq
    exact hnd2.2.2 (List.mem_map_of_mem (fun u => u.PushId) hx)
      (by rw [heq, ← hpid]; exact List.mem_cons_self _ _)
  have hb : ∀ x ∈ b, x.PushId ≠ r.PushId := by
    intro x hx heq
    exact hnd2.2.1.1 (by rw [hpid, ← heq]; exact List.mem_map_of_mem (fun u => u.PushId) hx)
  have hset := SetStartState_append pre post v a b value r.ProjectId r.PushId r.PushUrl userType
    hpre hab ha hpid
  rw [hid] at hset
  have hrooms := assignPush_rooms_ok cfg now tmpProjectId r.ProjectId userType r.LiveRoomId
    (!CheckProjectExits (pre ++ v :: post) r.ProjectId) (pre ++ v :: post) r pushBase hg h2
  rw [← hEq, hset] at hrooms
  simp only at hrooms
  have hne : ∀ x : PushStreamUrl, x.PushId ≠ r.PushId →
      r.PushUrl ≠ cameraUrl cfg pushBase r.LiveRoomId tmpProjectId x.PushId := by
    intro x hx
    rw [hurl]
    exact returned_ne_cameraUrl cfg now pushBase r.LiveRoomId tmpProjectId r.ProjectId r.PushId
      x.PushId hA hx
  cases hnew : (!CheckProjectExits (pre ++ v :: post) r.ProjectId) with
  | false =>
    rw [hnew] at hrooms
    simp only [Bool.false_eq_true, if_false] at hrooms
    refine ⟨pushBase,
      a ++ { value with PushUrl := r.PushUrl, UserType := toUserType userType, State := 1 } :: b,
      by rw [hu]; exact hg, ?_, ?_⟩
    · rw [hrooms, hid]
    · rw [hab]
      have hsame : ∀ l : List PushStreamUrl, (∀ x ∈ l, x.PushId ≠ r.PushId) →
          List.Forall₂ (GetPushFrame cfg pushBase r.LiveRoomId tmpProjectId r.PushId false) l l := by
        intro l hl
        refine List.forall₂_same.2 fun x hx => ⟨rfl, fun hc => absurd hc (hl x hx), fun _ => ?_⟩
        rw [if_neg (by simp)]
      refine forall₂_append _ _ _ _ _ (hsame a ha) (List.Forall₂.cons ?_ (hsame b hb))
      exact ⟨rfl, fun _ => rfl, fun hc => absurd hpid hc⟩
  | true =>
    rw [hnew] at hrooms
    simp only [if_true] at hrooms
    rw [← hid, GetLiveRoomFromRoomId_append pre post
      { v with
        ProjectId := r.ProjectId
        Urls := a ++ { value with PushUrl := r.PushUrl, UserType := toUserType userType,
                                  State := 1 } :: b } hpre] at hrooms
    simp only at hrooms
    have hloop := startCameras_range cfg r.ProjectId tmpProjectId v.LiveRoomId pushBase r.PushUrl
      pre post
      (a ++ { value with PushUrl := r.PushUrl, UserType := toUserType userType,
                         State := 1 } :: b).length
      { v with
        ProjectId := r.ProjectId
        Urls := a ++ { value with PushUrl := r.PushUrl, UserType := toUserType userType,
                                  State := 1 } :: b }
      [] _ rfl hpre rfl (List.nil_append _).symm (Nat.le_refl _)
      (by
        rw [List.nil_append]
        simpa [hab] using hpush)
    rw [List.length_nil, ← List.range_eq_range'] at hloop
    rw [hloop] at hrooms
    simp only [List.take_length, List.drop_length, List.append_nil, List.nil_append] at hrooms
    refine ⟨pushBase,
      (a ++ { value with PushUrl := r.PushUrl, UserType := toUserType userType,
                         State := 1 } :: b).map
        (startCamera cfg pushBase v.LiveRoomId tmpProjectId r.PushUrl),
      by rw [hu]; exact hg, hrooms, ?_⟩
    rw [hab, List.map_append, List.map_cons, ← hid]
    have hother : ∀ l : List PushStreamUrl, (∀ x ∈ l, x.PushId ≠ r.PushId) →
        List.Forall₂ (GetPushFrame cfg pushBase v.LiveRoomId tmpProjectId r.PushId true) l
          (l.map (startCamera cfg pushBase v.LiveRoomId tmpProjectId r.PushUrl)) := by
      intro l hl
      apply forall₂_map_of
      intro x hx
      have hx1 := hl x hx
      have hx2 := hne x hx1
      rw [← hid] at hx2
      unfold startCamera
      by_cases hc : x.VideoType = Camera
      · rw [if_pos ⟨hc, hx2⟩]
        refine ⟨rfl, fun hc1 => absurd hc1 hx1, fun _ => ?_⟩
        rw [if_pos ⟨rfl, hc⟩]
        exact ⟨rfl, rfl, rfl⟩
      · rw [if_neg fun hh => hc hh.1]
        refine ⟨rfl, fun hc1 => absurd hc1 hx1, fun _ => ?_⟩
        rw [if_neg fun hh => hc hh.2]
    refine forall₂_append _ _ _ _ _ (hother a ha) (List.Forall₂.cons ?_ (hother b hb))
    unfold startCamera
    split
    · exact ⟨rfl, fun _ => rfl, fun hc => absurd hpid hc⟩
    · exact ⟨rfl, fun _ => rfl, fun hc => absurd hpid hc⟩
/-- C27 (as amended): in a pool with distinct room ids, for a successful `getPush` that
returns the room `v` (whose `PushId`s are distinct) and the endpoint `pushId`: no other
room changes, `v` is bound to the project, and of its endpoints only `State`, `PushUrl`
and `UserType` may differ.  The returned endpoint is Busy.  For an already bound project
no other endpoint differs.  For a new project every other Camera endpoint of the room
is started as well (Busy, on its address without date segment, with its own user type)
and the endpoints that are not Cameras are as they were.  So an endpoint that is Free
afterwards was Free before, is not the returned one and, for a new project, is not a
Camera; and after a `getPush` for a new project a later `getPush` for the same project
is answered 601 for a user type whose other Free endpoints were all Cameras. -/
theorem handleGetPush_frame (cfg : ServerCfg) (now : Date)
    (tmpProjectId tmpUserType : String) (pre post : LiveRooms) (v : LiveRoom) (r : PushResponse)
    (hnd : ((pre ++ v :: post).map fun x => x.LiveRoomId).Nodup)
    (hpush : (v.Urls.map fun u => u.PushId).Nodup)
    (hid : v.LiveRoomId = r.LiveRoomId)
    (h : (handleGetPush cfg now tmpProjectId tmpUserType (pre ++ v :: post)).reply =
      ⟨200, Body.push r⟩) :
    ∃ pushBase urls1,
      GetPushId (pre ++ v :: post) r.LiveRoomId (toUserType r.UserType) =
        (none, r.PushId, pushBase) ∧
      (handleGetPush cfg now tmpProjectId tmpUserType (pre ++ v :: post)).rooms =
        pre ++ { LiveRoomId := v.LiveRoomId, ProjectId := r.ProjectId, Urls := urls1 } :: post ∧
      List.Forall₂
        (GetPushFrame cfg pushBase r.LiveRoomId tmpProjectId r.PushId
          (!CheckProjectExits (pre ++ v :: post) r.ProjectId)) v.Urls urls1 ∧
      (∀ u1 ∈ urls1, u1.State = 0 →
        u1 ∈ v.Urls ∧ u1.PushId ≠ r.PushId ∧
          (CheckProjectExits (pre ++ v :: post) r.ProjectId = false → u1.VideoType ≠ Camera)) ∧
      (CheckProjectExits (pre ++ v :: post) r.ProjectId = false →
        ∀ (now1 : Date) (tmpUserType1 : String) (userType1 : Int),
          Atoi tmpUserType1 = some userType1 →
          (∀ u ∈ v.Urls, u.State = 0 → u.UserType = toUserType userType1 →
            u.PushId ≠ r.PushId → u.VideoType = Camera) →
          (handleGetPush cfg now1 tmpProjectId tmpUserType1
            (handleGetPush cfg now tmpProjectId tmpUserType (pre ++ v :: post)).rooms).reply =
            reply601 "Get Push Failed Live Room User Full Or UserType Not Found") := by
  obtain ⟨pushBase, urls1, hg, hrooms, hframe⟩ :=
    handleGetPush_rooms_frame cfg now tmpProjectId tmpUserType pre post v r hnd hpush hid h
  obtain ⟨_, hA, _, _, _⟩ :=
    handleGetPush_ok_assign cfg now tmpProjectId tmpUserType (pre ++ v :: post) r h
  have hfree : ∀ u1 ∈ urls1, u1.State = 0 →
      u1 ∈ v.Urls ∧ u1.PushId ≠ r.PushId ∧
        (CheckProjectExits (pre ++ v :: post) r.ProjectId = false → u1.VideoType ≠ Camera) := by
    intro u1 hu1 hstate
    obtain ⟨u, hu, _, hf2, hf3⟩ := forall₂_mem_right _ _ _ hframe u1 hu1
    by_cases hp : u.PushId = r.PushId
    · rw [hf2 hp] at hstate
      exact absurd hstate (by decide)
    · have hf := hf3 hp
      by_cases hc : (!CheckProjectExits (pre ++ v :: post) r.ProjectId) = true ∧
          u.VideoType = Camera
      · rw [if_pos hc] at hf
        rw [hf.1] at hstate
        exact absurd hstate (by decide)
      · rw [if_neg hc] at hf
        rw [hf]
        refine ⟨hu, hp, fun hnew hcam => hc ⟨?_, hcam⟩⟩
        rw [hnew]
        rfl
  refine ⟨pushBase, urls1, hg, hrooms, hframe, hfree, ?_⟩
  intro hnew now1 tmpUserType1 userType1 hU1 hall
  rw [List.map_append, List.map_cons, List.nodup_append, List.nodup_cons] at hnd
  have hpre : ∀ x ∈ pre, x.LiveRoomId ≠ v.LiveRoomId := by
    intro x hx heq
    exact hnd.2.2 (List.mem_map_of_mem (fun x => x.LiveRoomId) hx)
      (by rw [heq]; exact List.mem_cons_self _ _)
  have hpost : ∀ x ∈ post, x.LiveRoomId ≠ v.LiveRoomId := by
    intro x hx heq
    exact hnd.2.1.1 (by rw [← heq]; exact List.mem_map_of_mem (fun x => x.LiveRoomId) hx)
  have hunbound : ∀ x ∈ pre, x.ProjectId ≠ r.ProjectId := by
    intro x hx heq
    have : CheckProjectExits (pre ++ v :: post) r.ProjectId = true :=
      (CheckProjectExits_iff _ _).2 ⟨x, List.mem_append_left _ hx, heq⟩
    rw [hnew] at this
    exact absurd this (by decide)
  have hcheck : CheckProjectExits
      (pre ++ { LiveRoomId := v.LiveRoomId, ProjectId := r.ProjectId, Urls := urls1 } :: post)
      r.ProjectId = true :=
    (CheckProjectExits_iff _ _).2
      ⟨_, List.mem_append_right _ (List.mem_cons_self _ _), rfl⟩
  have hroom := GetLiveRoom_append pre
    { LiveRoomId := v.LiveRoomId, ProjectId := r.ProjectId, Urls := urls1 } post r.ProjectId
    hunbound rfl
  have hfull : PushUserFull
      (pre ++ { LiveRoomId := v.LiveRoomId, ProjectId := r.ProjectId, Urls := urls1 } :: post)
      v.LiveRoomId (toUserType userType1) = true := by
    rw [PushUserFull_eq_true_iff]
    intro x hx hxid value hvalue hcontra
    rcases List.mem_append.1 hx with hm | hm
    · exact hpre x hm hxid
    · rcases List.mem_cons.1 hm with hm | hm
      · rw [hm] at hvalue
        obtain ⟨h1, h2, h3⟩ := hfree value hvalue hcontra.1
        exact h3 hnew (hall value h1 hcontra.1 hcontra.2 h2)
      · exact hpost x hm hxid
  rw [hrooms]
  unfold handleGetPush
  rw [hA, hU1]
  simp only
  rw [hcheck, if_pos rfl, hroom]
  simp only
  unfold assignPush
  rw [hfull, if_pos rfl]

/-- Witness for C27: `getPush?projectId=12&userType=0` with fixed addresses on the pool
of the three-endpoint room. -/
theorem handleGetPush_frame_witness :
    ∃ pushBase urls1,
      (handleGetPush staticCfg scenarioDate "12" "0" ([] ++ cameraRoom :: [])).rooms =
        [] ++ { LiveRoomId := cameraRoom.LiveRoomId, ProjectId := 12, Urls := urls1 } :: [] ∧
      List.Forall₂
        (GetPushFrame staticCfg pushBase "R1" "12" 1
          (!CheckProjectExits ([] ++ cameraRoom :: []) 12)) cameraRoom.Urls urls1 :=
  let ⟨pushBase, urls1, _, h2, h3, _⟩ :=
    handleGetPush_frame staticCfg scenarioDate "12" "0" [] [] cameraRoom
      { LiveRoomId := "R1", PushId := 1, PushUrl := "rtmp://h:1935/live/R1/12/Camera_1",
        UserType := 0, ProjectId := 12 }
      (by decide) (by decide) rfl (by decide)
  ⟨pushBase, urls1, h2, h3⟩

/-- C27, counterexample: on the pool of the three-endpoint room,
`getPush?projectId=12&userType=0` for the new project 12 returns the endpoint 1 and
leaves the Camera endpoint 2 Busy as well, on the address without date segment; the
endpoint 2, for Holders, was Free before, and a later
`getPush?projectId=12&userType=1` is answered 601. -/
theorem handleGetPush_frame_counterexample :
    initLiveRooms cameraLives = [cameraRoom] ∧
    (handleGetPush staticCfg scenarioDate "12" "0" (initLiveRooms cameraLives)).reply =
      ⟨200, Body.push
        { LiveRoomId := "R1", PushId := 1, PushUrl := "rtmp://h:1935/live/R1/12/Camera_1",
          UserType := 0, ProjectId := 12 }⟩ ∧
    (allUrls (handleGetPush staticCfg scenarioDate "12" "0"
        (initLiveRooms cameraLives)).rooms).map (fun u => (u.PushId, u.State, u.PushUrl)) =
      [(1, 1, "rtmp://h:1935/live/R1/12/Camera_1"), (2, 1, "rtmp://h:1935/live/R1/12/Camera_2"),
       (3, 0, "")] ∧
    (handleGetPush staticCfg scenarioDate "12" "1"
      (handleGetPush staticCfg scenarioDate "12" "0" (initLiveRooms cameraLives)).rooms).reply =
      reply601 "Get Push Failed Live Room User Full Or UserType Not Found" := by
  decide

end LiveGo
